import Mathlib

/-!
# Polaris: strategy cache, instance lifecycle, auth interceptors, leader health checker,
routing rule cache

A shallow embedding of parts of the Polaris control plane:

* `cache/auth/strategy.go`: the auth strategy cache, its forward map, its five
  reverse indexes, the refresh (`setStrategys`) and the editable check
  (`IsResourceEditable`);
* `service/instance.go`: the instance lifecycle handlers (create, delete,
  update, isolate by host) over a store and an event bus, and the query filters of
  `preGetInstances`;
* `service/interceptor/auth`, `service/instance_authability.go` and
  `config/interceptor/auth`: the auth interceptors of the instance plane and of the
  config-file groups, over a wrapped server;
* `plugin/healthchecker/leader/checker_leader.go`: the leader health checker over its
  peers;
* `cache/service/router_rule.go`: the routing rule cache over its bucket, with the
  pending V1 rules and the flattening of the levels.

Go maps and `SyncMap`s are finite maps from strings, written as functions
`String → Option V`; a `SyncSet[string]` is a duplicate-free list. Where a `range` over a
Go map decides the outcome, the order in which it hands out the keys is an argument.
Code outside the given sources (store, caches, auth checker, peers, wrapped servers,
bucket) enters as parameters; state is passed explicitly.
-/

namespace Polaris

/-! ## Containers (`common/utils`: `SyncMap`, `SyncSet`) -/

/-- Modelled from the spec: `utils.SyncMap` is declared outside the given sources; the
spec has the indexes as maps from an id, so a `SyncMap[string, V]` is a finite map and
`Load` is application. -/
abbrev SyncMap (V : Type) := String → Option V

/-- Modelled from the spec: the map made by `utils.NewSyncMap` holds no key. -/
def SyncMap.empty {V : Type} : SyncMap V := fun _ => none

/-- Modelled from the spec: `SyncMap.Store` binds `key` to `val` and leaves the other
keys alone. -/
def SyncMap.Store {V : Type} (m : SyncMap V) (key : String) (val : V) : SyncMap V :=
  fun k => if k = key then some val else m k

/-- Modelled from the spec: `SyncMap.Delete` unbinds `key` and leaves the other keys
alone. -/
def SyncMap.Delete {V : Type} (m : SyncMap V) (key : String) : SyncMap V :=
  fun k => if k = key then none else m k

/-- Modelled from the spec: `utils.SyncSet` is declared outside the given sources; the
spec has the index values as sets of strategy ids, kept here as lists without
repetition. -/
abbrev SyncSet := List String

/-- Modelled from the spec: `SyncSet.Add` puts `val` in the set; adding a member again
changes nothing. -/
def SyncSet.Add (s : SyncSet) (val : String) : SyncSet :=
  if val ∈ s then s else s ++ [val]

/-- Modelled from the spec: `SyncSet.Remove` takes `val` out of the set. -/
def SyncSet.Remove (s : SyncSet) (val : String) : SyncSet :=
  s.filter (fun x => x ≠ val)

/-- Modelled from the spec: `SyncSet.Len` is the number of members. -/
def SyncSet.Len (s : SyncSet) : Nat := s.length

/-! ## Auth model (`common/model/auth`, `apisecurity`) -/

/-- `apisecurity.ResourceType_Namespaces`, as the `int32` stored in a rule. -/
def ResourceType_Namespaces : Int := 0

/-- `apisecurity.ResourceType_Services`. -/
def ResourceType_Services : Int := 1

/-- `apisecurity.ResourceType_ConfigGroups`. -/
def ResourceType_ConfigGroups : Int := 2

/-- `authcommon.PrincipalUser`. -/
def PrincipalUser : Int := 1

/-- `authcommon.PrincipalGroup`. -/
def PrincipalGroup : Int := 2

/-- `authcommon.StrategyResource`. -/
structure StrategyResource where
  ResType : Int
  ResID : String
  deriving DecidableEq, Repr

/-- `authcommon.Principal`. -/
structure Principal where
  PrincipalID : String
  PrincipalRole : Int
  deriving DecidableEq, Repr

/-- `authcommon.StrategyDetail`; `ModifyTime` is kept as its Unix seconds. -/
structure StrategyDetail where
  ID : String
  Principals : List Principal
  Resources : List StrategyResource
  Valid : Bool
  ModifyTime : Int
  deriving DecidableEq, Repr

/-- `authcommon.StrategyDetailCache`: a rule with its user and group principal maps. -/
structure StrategyDetailCache where
  StrategyDetail : StrategyDetail
  UserPrincipal : SyncMap Principal
  GroupPrincipal : SyncMap Principal

/-- The fields of `strategyCache`. `lastMtime` is what `LastMtime(sc.Name())` of the
embedded base cache answers (Unix seconds); `userCache` is the answer of
`userCache.GetUserLinkGroupIds`. -/
structure strategyCache where
  strategys : SyncMap StrategyDetailCache
  uid2Strategy : SyncMap SyncSet
  groupid2Strategy : SyncMap SyncSet
  namespace2Strategy : SyncMap SyncSet
  service2Strategy : SyncMap SyncSet
  configGroup2Strategy : SyncMap SyncSet
  lastMtime : Int
  userCache : String → List String

/-- `strategyCache.Initialize`: every map is fresh and empty. -/
def strategyCache.Initialize (userCache : String → List String) : strategyCache :=
  { strategys := SyncMap.empty
    uid2Strategy := SyncMap.empty
    groupid2Strategy := SyncMap.empty
    namespace2Strategy := SyncMap.empty
    service2Strategy := SyncMap.empty
    configGroup2Strategy := SyncMap.empty
    lastMtime := 0
    userCache := userCache }

/-- `buildEnchanceStrategyDetail`: split the principals of a rule by role. -/
def buildEnchanceStrategyDetail (strategy : StrategyDetail) : StrategyDetailCache :=
  let step := fun (acc : SyncMap Principal × SyncMap Principal) (principal : Principal) =>
    if principal.PrincipalRole = PrincipalUser then
      (acc.1.Store principal.PrincipalID principal, acc.2)
    else
      (acc.1, acc.2.Store principal.PrincipalID principal)
  let maps := strategy.Principals.foldl step (SyncMap.empty, SyncMap.empty)
  { StrategyDetail := strategy, UserPrincipal := maps.1, GroupPrincipal := maps.2 }

/-- `strategyCache.writeSet`: add `val` to, or remove it from, the set stored at `key`.
A removal from a missing key does nothing; an addition creates the set first. -/
def writeSet (linkContainers : SyncMap SyncSet) (key val : String) (isDel : Bool) :
    SyncMap SyncSet :=
  if isDel then
    match linkContainers key with
    | some values => linkContainers.Store key (SyncSet.Remove values val)
    | none => linkContainers
  else
    let m1 := match linkContainers key with
      | some _ => linkContainers
      | none => linkContainers.Store key []
    match m1 key with
    | some values => m1.Store key (SyncSet.Add values val)
    | none => m1

/-- The `operateLink` closure of `handlerResourceStrategy`. -/
def operateLink (sc : strategyCache) (resType : Int) (resId strategyId : String)
    (remove : Bool) : strategyCache :=
  if resType = ResourceType_Namespaces then
    { sc with namespace2Strategy := writeSet sc.namespace2Strategy resId strategyId remove }
  else if resType = ResourceType_Services then
    { sc with service2Strategy := writeSet sc.service2Strategy resId strategyId remove }
  else if resType = ResourceType_ConfigGroups then
    { sc with configGroup2Strategy := writeSet sc.configGroup2Strategy resId strategyId remove }
  else sc

/-- The key `fmt.Sprintf("%d_%s", ResType, ResID)`. -/
def resKey (r : StrategyResource) : String := toString r.ResType ++ "_" ++ r.ResID

/-- The key `fmt.Sprintf("%d_%s", PrincipalRole, PrincipalID)`. -/
def principalKey (p : Principal) : String := toString p.PrincipalRole ++ "_" ++ p.PrincipalID

/-- The `delRes` list of `handlerResourceStrategy`: the resources of the old rule whose
key is not among the keys of the incoming resources. -/
def delRes (oldRule : StrategyDetailCache) (addRes : List StrategyResource) :
    List StrategyResource :=
  oldRule.StrategyDetail.Resources.filter (fun item => resKey item ∉ addRes.map resKey)

/-- The first half of the loop body of `handlerResourceStrategy`: unlink the resources
dropped from a rule that the forward map still holds. -/
def retractResources (sc : strategyCache) (rule : StrategyDetail) : strategyCache :=
  match sc.strategys rule.ID with
  | some oldRule =>
    (delRes oldRule rule.Resources).foldl
      (fun c resource => operateLink c resource.ResType resource.ResID rule.ID true) sc
  | none => sc

/-- The body of the loop of `handlerResourceStrategy` for one rule. The forward map
is only read; the old rule comes from `sc.strategys`. -/
def handlerResourceRule (sc : strategyCache) (rule : StrategyDetail) : strategyCache :=
  rule.Resources.foldl
    (fun c resource => operateLink c resource.ResType resource.ResID rule.ID (!rule.Valid))
    (retractResources sc rule)

/-- `strategyCache.handlerResourceStrategy`. -/
def handlerResourceStrategy (sc : strategyCache) (strategies : List StrategyDetail) :
    strategyCache :=
  strategies.foldl handlerResourceRule sc

/-- `strategyCache.removePrincipalLink`. -/
def removePrincipalLink (sc : strategyCache) (principal : Principal) (rule : StrategyDetail) :
    strategyCache :=
  if principal.PrincipalRole ≠ PrincipalUser then
    { sc with groupid2Strategy := writeSet sc.groupid2Strategy principal.PrincipalID rule.ID true }
  else
    { sc with uid2Strategy := writeSet sc.uid2Strategy principal.PrincipalID rule.ID true }

/-- `strategyCache.addPrincipalLink`. -/
def addPrincipalLink (sc : strategyCache) (principal : Principal) (rule : StrategyDetail) :
    strategyCache :=
  if principal.PrincipalRole ≠ PrincipalUser then
    { sc with groupid2Strategy := writeSet sc.groupid2Strategy principal.PrincipalID rule.ID false }
  else
    { sc with uid2Strategy := writeSet sc.uid2Strategy principal.PrincipalID rule.ID false }

/-- The `delMembers` list of `handlerPrincipalStrategy`: the principals of the old rule
whose key is not among the keys of the incoming principals. -/
def delMembers (oldRule : StrategyDetailCache) (principals : List Principal) : List Principal :=
  oldRule.StrategyDetail.Principals.filter
    (fun item => principalKey item ∉ principals.map principalKey)

/-- The first half of the loop body of `handlerPrincipalStrategy`: unlink the principals
dropped from a rule that the forward map still holds. -/
def retractPrincipals (sc : strategyCache) (rule : StrategyDetail) : strategyCache :=
  match sc.strategys rule.ID with
  | some oldRule =>
    (delMembers oldRule rule.Principals).foldl
      (fun c principal => removePrincipalLink c principal rule) sc
  | none => sc

/-- The body of the loop of `handlerPrincipalStrategy` for one rule. -/
def handlerPrincipalRule (sc : strategyCache) (rule : StrategyDetail) : strategyCache :=
  if rule.Valid then
    rule.Principals.foldl (fun c principal => addPrincipalLink c principal rule)
      (retractPrincipals sc rule)
  else
    rule.Principals.foldl (fun c principal => removePrincipalLink c principal rule)
      (retractPrincipals sc rule)

/-- `strategyCache.handlerPrincipalStrategy`. -/
def handlerPrincipalStrategy (sc : strategyCache) (strategies : List StrategyDetail) :
    strategyCache :=
  strategies.foldl handlerPrincipalRule sc

/-- The conversion `float64(x)` of an `int64`, as the integer the double stands for:
exact while the magnitude is below `2^53`; above, the magnitude keeps its 53 leading
bits and is rounded to the nearest such value, ties to the even one. -/
def float64OfInt (x : Int) : Int :=
  let m := x.natAbs
  if m < 2 ^ 53 then x
  else
    let e := Nat.log2 m - 52
    let q := m / 2 ^ e
    let r := m % 2 ^ e
    let half := 2 ^ (e - 1)
    let q1 := if half < r ∨ (r = half ∧ q % 2 = 1) then q + 1 else q
    Int.sign x * ((q1 * 2 ^ e : Nat) : Int)

/-- The value `int64(math.Max(float64(a), float64(b)))` on Unix seconds. The
conversion back to `int64` is the identity on every double below `2^63`. -/
def maxMtime (a b : Int) : Int := max (float64OfInt a) (float64OfInt b)

/-- What `setStrategys` hands back: the cache and the four results of the Go function. -/
structure SetStrategysResult where
  cache : strategyCache
  lastMtime : Int
  add : Nat
  update : Nat
  remove : Nat

/-- The body of the last loop of `setStrategys` for one rule. -/
def setStrategysRule (acc : SetStrategysResult) (rule : StrategyDetail) : SetStrategysResult :=
  let acc1 :=
    if !rule.Valid then
      { acc with
        cache := { acc.cache with strategys := acc.cache.strategys.Delete rule.ID }
        remove := acc.remove + 1 }
    else
      let acc0 :=
        match acc.cache.strategys rule.ID with
        | none => { acc with add := acc.add + 1 }
        | some _ => { acc with update := acc.update + 1 }
      { acc0 with
        cache := { acc0.cache with
          strategys := acc0.cache.strategys.Store rule.ID (buildEnchanceStrategyDetail rule) } }
  { acc1 with lastMtime := maxMtime acc1.lastMtime rule.ModifyTime }

/-- `strategyCache.setStrategys`: first the resource and principal links, computed
against the rules still held by the forward map, then the forward map itself. -/
def setStrategys (sc : strategyCache) (strategies : List StrategyDetail) : SetStrategysResult :=
  let sc1 := handlerResourceStrategy sc strategies
  let sc2 := handlerPrincipalStrategy sc1 strategies
  strategies.foldl setStrategysRule
    { cache := sc2, lastMtime := sc2.lastMtime, add := 0, update := 0, remove := 0 }

/-- `strategyCache.checkResourceEditable`. -/
def checkResourceEditable (sc : strategyCache) (strategIds : SyncSet) (principal : Principal)
    (mustCheck : Bool) : Bool :=
  let isCheck := decide (SyncSet.Len strategIds ≠ 0)
  if !isCheck && !mustCheck then true
  else
    strategIds.foldl
      (fun editable strategyId =>
        match sc.strategys strategyId with
        | some rule =>
          if principal.PrincipalRole = PrincipalUser then
            editable || (rule.UserPrincipal principal.PrincipalID).isSome
          else
            editable || (rule.GroupPrincipal principal.PrincipalID).isSome
        | none => editable)
      false

/-- The principals tried by `IsResourceEditable`: the caller, then, for a user, one
group principal per linked group id. -/
def expandPrincipals (sc : strategyCache) (principal : Principal) : List Principal :=
  principal ::
    (if principal.PrincipalRole = PrincipalUser then
      (sc.userCache principal.PrincipalID).map
        (fun gid => { PrincipalID := gid, PrincipalRole := PrincipalGroup })
    else [])

/-- The `switch` of `IsResourceEditable`: the reverse index of a resource type, if it
has one. -/
def resourceIndex (sc : strategyCache) (resType : Int) : Option (SyncMap SyncSet) :=
  if resType = ResourceType_Namespaces then some sc.namespace2Strategy
  else if resType = ResourceType_Services then some sc.service2Strategy
  else if resType = ResourceType_ConfigGroups then some sc.configGroup2Strategy
  else none

/-- `strategyCache.IsResourceEditable`. For a type outside the `switch`, `ok` keeps its
zero value and the resource is editable. -/
def IsResourceEditable (sc : strategyCache) (principal : Principal) (resType : Int)
    (resId : String) : Bool :=
  match resourceIndex sc resType with
  | none => true
  | some index =>
    match index resId with
    | none => true
    | some val =>
      let valAll := index "*"
      (expandPrincipals sc principal).any (fun item =>
        (match valAll with
          | some all => checkResourceEditable sc all item true
          | none => false)
        || checkResourceEditable sc val item false)

/-! ## Specification vocabulary for the strategy cache -/

/-- The strategy id `s` is in the set that a reverse index holds at `key`. -/
def Linked (index : SyncMap SyncSet) (key s : String) : Prop := s ∈ (index key).getD []

instance (index : SyncMap SyncSet) (key s : String) : Decidable (Linked index key s) := by
  unfold Linked; infer_instance

/-- The reverse index of one of the three indexed resource types. -/
def resIdx (sc : strategyCache) (resType : Int) : SyncMap SyncSet :=
  if resType = ResourceType_Namespaces then sc.namespace2Strategy
  else if resType = ResourceType_Services then sc.service2Strategy
  else sc.configGroup2Strategy

/-- The reverse index of user principals (`true`) or of the other principals. -/
def prIdx (sc : strategyCache) (user : Bool) : SyncMap SyncSet :=
  if user then sc.uid2Strategy else sc.groupid2Strategy

/-- The reverse indexes are a view of the forward map: a strategy id is linked to a
resource id (resp. principal id) exactly when the rule stored under that id lists the
resource with the type of the index (resp. a principal of the role of the index). -/
structure IndexesAgree (sc : strategyCache) : Prop where
  namespaces : ∀ resId s, Linked sc.namespace2Strategy resId s ↔
    ∃ rule, sc.strategys s = some rule ∧
      (⟨ResourceType_Namespaces, resId⟩ : StrategyResource) ∈ rule.StrategyDetail.Resources
  services : ∀ resId s, Linked sc.service2Strategy resId s ↔
    ∃ rule, sc.strategys s = some rule ∧
      (⟨ResourceType_Services, resId⟩ : StrategyResource) ∈ rule.StrategyDetail.Resources
  configGroups : ∀ resId s, Linked sc.configGroup2Strategy resId s ↔
    ∃ rule, sc.strategys s = some rule ∧
      (⟨ResourceType_ConfigGroups, resId⟩ : StrategyResource) ∈ rule.StrategyDetail.Resources
  users : ∀ p s, Linked sc.uid2Strategy p s ↔
    ∃ rule, sc.strategys s = some rule ∧
      ∃ pr ∈ rule.StrategyDetail.Principals, pr.PrincipalID = p ∧ pr.PrincipalRole = PrincipalUser
  groups : ∀ p s, Linked sc.groupid2Strategy p s ↔
    ∃ rule, sc.strategys s = some rule ∧
      ∃ pr ∈ rule.StrategyDetail.Principals, pr.PrincipalID = p ∧ pr.PrincipalRole ≠ PrincipalUser

/-- The value of a decimal digit character. -/
def digitVal (c : Char) : Nat := c.toNat - 48

/-- The characters of the decimal rendering `%d` of an integer. -/
def intChars : Int → List Char
  | Int.ofNat n => Nat.toDigits 10 n
  | Int.negSucc n => '-' :: Nat.toDigits 10 (n + 1)

/-- The three resource types that have a reverse index. -/
def IndexedType (T : Int) : Prop :=
  T = ResourceType_Namespaces ∨ T = ResourceType_Services ∨ T = ResourceType_ConfigGroups

/-- A principal `p` is filed under key `k` of the user index (`user = true`) or of the
group index (`user = false`). -/
def FiledUnder (p : Principal) (user : Bool) (k : String) : Prop :=
  decide (p.PrincipalRole = PrincipalUser) = user ∧ p.PrincipalID = k

/-- What a principal link write leaves alone. -/
def SameButPrincipalLinks (a b : strategyCache) : Prop :=
  a.strategys = b.strategys ∧ a.namespace2Strategy = b.namespace2Strategy ∧
  a.service2Strategy = b.service2Strategy ∧ a.configGroup2Strategy = b.configGroup2Strategy ∧
  a.lastMtime = b.lastMtime ∧ a.userCache = b.userCache

/-- The principal `q` is in the principal set of `rule` that matches its role: the user
set for a user, the group set otherwise. -/
def InPrincipalSet (rule : StrategyDetailCache) (q : Principal) : Prop :=
  if q.PrincipalRole = PrincipalUser then (rule.UserPrincipal q.PrincipalID).isSome = true
  else (rule.GroupPrincipal q.PrincipalID).isSome = true

/-! ## A concrete refresh scenario -/

/-- A valid rule linking the namespaces `n1` and `n2` to the user `u`. -/
def ruleBoth (rid n1 n2 u : String) (mtime : Int) : StrategyDetail :=
  { ID := rid
    Principals := [{ PrincipalID := u, PrincipalRole := PrincipalUser }]
    Resources := [{ ResType := ResourceType_Namespaces, ResID := n1 },
                  { ResType := ResourceType_Namespaces, ResID := n2 }]
    Valid := true
    ModifyTime := mtime }

/-- The same rule after `n2` was taken out of its resources. -/
def ruleFirstOnly (rid n1 u : String) (mtime : Int) : StrategyDetail :=
  { ID := rid
    Principals := [{ PrincipalID := u, PrincipalRole := PrincipalUser }]
    Resources := [{ ResType := ResourceType_Namespaces, ResID := n1 }]
    Valid := true
    ModifyTime := mtime }

/-- The same rule as a tombstone. -/
def ruleTombstone (rid n1 n2 u : String) (mtime : Int) : StrategyDetail :=
  { ruleBoth rid n1 n2 u mtime with Valid := false }

/-- A cache that holds exactly `ruleBoth`, reached from `Initialize` by one refresh;
no user is in any group. -/
def cacheWithRule (rid n1 n2 u : String) (mtime : Int) : strategyCache :=
  (setStrategys (strategyCache.Initialize (fun _ => [])) [ruleBoth rid n1 n2 u mtime]).cache

/-- The cache after the refresh that delivers `ruleFirstOnly`. -/
def cacheAfterNarrowing (rid n1 n2 u : String) (mtime mtime' : Int) : strategyCache :=
  (setStrategys (cacheWithRule rid n1 n2 u mtime) [ruleFirstOnly rid n1 u mtime']).cache

/-! ## Instance model (`apiservice`, `apimodel`, `common/model`) -/

/-- A Go `map[string]string` that is not nil: finitely many entries, one per key. -/
abbrev Metadata := AList (fun _ : String => String)

/-- `apiservice.HealthCheck_HealthCheckType`. -/
inductive HealthCheckType
  | UNKNOWN
  | HEARTBEAT
  deriving DecidableEq, Repr

/-- `apiservice.HeartbeatHealthCheck`; `Ttl` is a `*wrappers.UInt32Value`. -/
structure HeartbeatHealthCheck where
  Ttl : Option Nat
  deriving DecidableEq, Repr

/-- `apiservice.HealthCheck`; `HcType` is its field `Type`. -/
structure HealthCheck where
  HcType : HealthCheckType
  Heartbeat : Option HeartbeatHealthCheck
  deriving DecidableEq, Repr

/-- `apimodel.Location`. -/
structure Location where
  Region : Option String
  Zone : Option String
  Campus : Option String
  deriving DecidableEq, Repr

/-- `apiservice.Instance`, the wire message. A wrapper field that is nil is `none`;
`Metadata` is `none` for a nil map. -/
structure ApiInstance where
  Id : Option String := none
  Service : Option String := none
  Namespace : Option String := none
  VpcId : Option String := none
  Host : Option String := none
  Port : Option Nat := none
  Protocol : Option String := none
  Version : Option String := none
  Priority : Option Nat := none
  Weight : Option Nat := none
  EnableHealthCheck : Option Bool := none
  HealthCheck : Option HealthCheck := none
  Healthy : Option Bool := none
  Isolate : Option Bool := none
  Location : Option Location := none
  Metadata : Option Metadata := none
  LogicSet : Option String := none
  Ctime : Option String := none
  Mtime : Option String := none
  Revision : Option String := none
  ServiceToken : Option String := none
  deriving DecidableEq

/-- `model.Instance`: the stored instance. `Proto` is kept allocated, which is what
`MallocProto` establishes; every getter of a nil `Proto` answers as for the empty message. -/
structure ModelInstance where
  Proto : ApiInstance
  ServiceID : String
  deriving DecidableEq

/-- `model.Service`, with the fields the instance handlers read. `Reference` names the
target of an alias. -/
structure Service where
  ID : String
  Name : String
  Namespace : String
  Reference : String := ""
  deriving DecidableEq, Repr

/-- Modelled from the spec: `Service.IsAlias` is declared outside the given sources; a
service is an alias when its `reference` points to a target. -/
def Service.IsAlias (svc : Service) : Bool := svc.Reference ≠ ""

/-- `model.InstanceEventType`. -/
inductive InstanceEventType
  | EventInstanceOnline
  | EventInstanceOffline
  | EventInstanceUpdate
  | EventInstanceTurnHealth
  | EventInstanceTurnUnHealth
  | EventInstanceOpenIsolate
  | EventInstanceCloseIsolate
  deriving DecidableEq, Repr

open InstanceEventType

/-- `model.InstanceEvent`; `CreateTime` is always the zero time in these handlers. -/
structure InstanceEvent where
  Id : String
  Namespace : String
  Service : String
  Instance : Option ApiInstance
  EType : InstanceEventType
  MetaData : Option Metadata := none
  deriving DecidableEq

/-- `apimodel.Code`, the response codes used by the instance handlers, the instance
queries and the auth interceptors. -/
inductive Code
  | ExecuteSuccess
  | NoNeedUpdate
  | BadRequest
  | EmptyRequest
  | InvalidParameter
  | InvalidMetadata
  | InvalidServiceName
  | InvalidNamespaceName
  | InvalidInstanceHost
  | InvalidInstancePort
  | InvalidInstanceID
  | InvalidInstanceProtocol
  | InvalidInstanceVersion
  | InvalidInstanceLogicSet
  | InvalidInstanceIsolate
  | InstanceTooManyRequests
  | ExistedResource
  | NotFoundResource
  | NotFoundService
  | NotFoundInstance
  | NotAllowAliasCreateInstance
  | StoreLayerException
  | ExecuteException
  | NotAllowedAccess
  | TokenNotExisted
  | TokenDisabled
  | EmptyQueryParameter
  | InvalidQueryInsParameter
  deriving DecidableEq, Repr

/-! ### Getters -/

/-- `GetValue` of a string wrapper. -/
def strValue (v : Option String) : String := v.getD ""

/-- `GetValue` of a `UInt32Value`. -/
def u32Value (v : Option Nat) : Nat := v.getD 0

/-- `GetValue` of a `BoolValue`. -/
def boolValue (v : Option Bool) : Bool := v.getD false

/-- `len` and lookups treat a nil map as empty. -/
def metaOf (m : Option Metadata) : Metadata := m.getD ∅

/-- `Instance.ID`. -/
def ModelInstance.ID (i : ModelInstance) : String := strValue i.Proto.Id

/-- `Instance.Healthy`. -/
def ModelInstance.Healthy (i : ModelInstance) : Bool := boolValue i.Proto.Healthy

/-- `Instance.Isolate`. -/
def ModelInstance.Isolate (i : ModelInstance) : Bool := boolValue i.Proto.Isolate

/-- `Instance.EnableHealthCheck`. -/
def ModelInstance.EnableHealthCheck (i : ModelInstance) : Bool :=
  boolValue i.Proto.EnableHealthCheck

/-- `HealthCheck().GetType()`. -/
def healthCheckType (h : Option HealthCheck) : HealthCheckType :=
  match h with
  | some hc => hc.HcType
  | none => HealthCheckType.UNKNOWN

/-- `HealthCheck().GetHeartbeat()`. -/
def heartbeatOf (h : Option HealthCheck) : Option HeartbeatHealthCheck :=
  match h with
  | some hc => hc.Heartbeat
  | none => none

/-- `GetHeartbeat().GetTtl().GetValue()`. -/
def heartbeatTtl (h : Option HealthCheck) : Nat :=
  match heartbeatOf h with
  | some hb => u32Value hb.Ttl
  | none => 0

/-! ### The field diff of an update -/

/-- `instanceMetaNeedUpdate`. Both loops stop at the first differing key, so each is an
`any` over the entries of the map it ranges over. -/
def instanceMetaNeedUpdate (req old : Option Metadata) : Bool :=
  match req with
  | none => false
  | some r =>
    if r.entries.length ≠ (metaOf old).entries.length then true
    else
      let needUpdate := r.entries.any (fun e =>
        match (metaOf old).lookup e.1 with
        | none => true
        | some oldValue => decide (e.2 ≠ oldValue))
      if needUpdate then needUpdate
      else
        (metaOf old).entries.any (fun e =>
          match r.lookup e.1 with
          | none => true
          | some newValue => decide (e.2 ≠ newValue))

/-- `GetRegion().GetValue()` of a possibly nil location. -/
def regionOf (l : Option Location) : String := strValue (l.bind (·.Region))

/-- `GetZone().GetValue()`. -/
def zoneOf (l : Option Location) : String := strValue (l.bind (·.Zone))

/-- `GetCampus().GetValue()`. -/
def campusOf (l : Option Location) : String := strValue (l.bind (·.Campus))

/-- `instanceLocationNeedUpdate`. -/
def instanceLocationNeedUpdate (req old : Option Location) : Bool :=
  if regionOf req ≠ regionOf old then true
  else if zoneOf req ≠ zoneOf old then true
  else if campusOf req ≠ campusOf old then true
  else false

/-- What `updateHealthCheck` leaves behind: its result, the instance, and the request,
whose health check object the instance now shares. -/
structure HealthCheckUpdate where
  needUpdate : Bool
  inst : ModelInstance
  req : ApiInstance

/-- The condition of the first `if` of `updateHealthCheck`: the request carries a
heartbeat check and does not set the enable flag to false. -/
def TakesHeartbeat (req : ApiInstance) : Prop :=
  heartbeatOf req.HealthCheck ≠ none ∧
    (req.EnableHealthCheck = none ∨ boolValue req.EnableHealthCheck = true)

instance (req : ApiInstance) : Decidable (TakesHeartbeat req) := by
  unfold TakesHeartbeat; infer_instance

/-- The condition of the second `if` of `updateHealthCheck`: the request sets the enable
flag to false. -/
def TurnsCheckOff (req : ApiInstance) : Prop :=
  req.EnableHealthCheck ≠ none ∧ boolValue req.EnableHealthCheck = false

instance (req : ApiInstance) : Decidable (TurnsCheckOff req) := by
  unfold TurnsCheckOff; infer_instance

/-- The TTL `updateHealthCheck` stores: the requested one, or `DefaultTLL` when that is
0 or above 60. -/
def normalTtl (DefaultTLL ttl : Nat) : Nat :=
  if ttl = 0 ∨ ttl > 60 then DefaultTLL else ttl

/-- The health check `updateHealthCheck` stores: the request's check, with its type set
to HEARTBEAT and its TTL normalised. -/
def heartbeatCheck (DefaultTLL : Nat) (req : ApiInstance) : HealthCheck :=
  { HcType := HealthCheckType.HEARTBEAT
    Heartbeat := some { Ttl := some (normalTtl DefaultTLL (heartbeatTtl req.HealthCheck)) } }

/-- The body of the first `if` of `updateHealthCheck`. The request's health check is
assigned to the instance and then normalised in place, so the request sees the same
type and TTL. -/
def heartbeatBranch (DefaultTLL : Nat) (req : ApiInstance) (inst : ModelInstance) :
    HealthCheckUpdate :=
  let opened := !inst.EnableHealthCheck
  let proto1 :=
    if opened then { inst.Proto with Healthy := some false, EnableHealthCheck := some true }
    else inst.Proto
  let ttlChanged := decide
    (normalTtl DefaultTLL (heartbeatTtl req.HealthCheck) ≠ heartbeatTtl inst.Proto.HealthCheck)
  let typeChanged :=
    decide (HealthCheckType.HEARTBEAT ≠ healthCheckType inst.Proto.HealthCheck)
  { needUpdate := opened || ttlChanged || typeChanged
    inst := { inst with Proto := { proto1 with HealthCheck := some (heartbeatCheck DefaultTLL req) } }
    req := { req with HealthCheck := some (heartbeatCheck DefaultTLL req) } }

/-- The body of the second `if` of `updateHealthCheck`. -/
def switchOffBranch (req : ApiInstance) (st : HealthCheckUpdate) : HealthCheckUpdate :=
  let flagChanged := decide (boolValue req.EnableHealthCheck ≠ st.inst.EnableHealthCheck)
  let hadCheck := decide (st.inst.Proto.HealthCheck ≠ none)
  { needUpdate := st.needUpdate || flagChanged || hadCheck
    inst := { st.inst with
      Proto := { st.inst.Proto with EnableHealthCheck := some false, HealthCheck := none } }
    req := st.req }

/-- `updateHealthCheck`. `DefaultTLL` is the package constant of that name. -/
def updateHealthCheck (DefaultTLL : Nat) (req : ApiInstance) (inst : ModelInstance) :
    HealthCheckUpdate :=
  let st1 : HealthCheckUpdate :=
    if TakesHeartbeat req then heartbeatBranch DefaultTLL req inst
    else { needUpdate := false, inst := inst, req := req }
  if TurnsCheckOff req then switchOffBranch req st1 else st1

/-- The state threaded through `updateInstanceAttribute`. `updateEvents` is the key set
of the Go map, in order of first insertion. -/
structure AttributeUpdate where
  needUpdate : Bool
  updateEvents : List InstanceEventType
  inst : ModelInstance
  req : ApiInstance

/-- `updateEvents[t] = true`. -/
def markEvent (events : List InstanceEventType) (t : InstanceEventType) :
    List InstanceEventType :=
  if t ∈ events then events else events ++ [t]

/-- One `if` of `updateInstanceAttribute` for a plain attribute: when `changed`, store
the new message, set `needUpdate` and mark the event. -/
def AttributeUpdate.apply (st : AttributeUpdate) (changed : Bool)
    (proto : ApiInstance) (t : InstanceEventType) : AttributeUpdate :=
  if changed then
    { st with
      needUpdate := true
      updateEvents := markEvent st.updateEvents t
      inst := { st.inst with Proto := proto } }
  else st

/-- The first nine `if`s of `updateInstanceAttribute`: metadata, location, protocol,
version, priority, weight, healthy, isolate and logic set, in this order. -/
def updatePlainAttributes (req : ApiInstance) (inst : ModelInstance) : AttributeUpdate :=
  let st0 : AttributeUpdate :=
    { needUpdate := false, updateEvents := [], inst := inst, req := req }
  let st1 := st0.apply (instanceMetaNeedUpdate req.Metadata st0.inst.Proto.Metadata)
    { st0.inst.Proto with Metadata := req.Metadata } EventInstanceUpdate
  let st2 := st1.apply (instanceLocationNeedUpdate req.Location st1.inst.Proto.Location)
    { st1.inst.Proto with Location := req.Location } EventInstanceUpdate
  let st3 := st2.apply
    (decide (req.Protocol ≠ none ∧ strValue req.Protocol ≠ strValue st2.inst.Proto.Protocol))
    { st2.inst.Proto with Protocol := req.Protocol } EventInstanceUpdate
  let st4 := st3.apply
    (decide (req.Version ≠ none ∧ strValue req.Version ≠ strValue st3.inst.Proto.Version))
    { st3.inst.Proto with Version := req.Version } EventInstanceUpdate
  let st5 := st4.apply
    (decide (req.Priority ≠ none ∧ u32Value req.Priority ≠ u32Value st4.inst.Proto.Priority))
    { st4.inst.Proto with Priority := req.Priority } EventInstanceUpdate
  let st6 := st5.apply
    (decide (req.Weight ≠ none ∧ u32Value req.Weight ≠ u32Value st5.inst.Proto.Weight))
    { st5.inst.Proto with Weight := req.Weight } EventInstanceUpdate
  let st7 := st6.apply
    (decide (req.Healthy ≠ none ∧ boolValue req.Healthy ≠ st6.inst.Healthy))
    { st6.inst.Proto with Healthy := req.Healthy }
    (if boolValue req.Healthy then EventInstanceTurnHealth else EventInstanceTurnUnHealth)
  let st8 := st7.apply
    (decide (req.Isolate ≠ none ∧ boolValue req.Isolate ≠ st7.inst.Isolate))
    { st7.inst.Proto with Isolate := req.Isolate }
    (if boolValue req.Isolate then EventInstanceOpenIsolate else EventInstanceCloseIsolate)
  st8.apply
    (decide (req.LogicSet ≠ none ∧ strValue req.LogicSet ≠ strValue st8.inst.Proto.LogicSet))
    { st8.inst.Proto with LogicSet := req.LogicSet } EventInstanceUpdate

/-- `Server.updateInstanceAttribute`. `uuid` is the value `utils.NewUUID()` yields when
it is called, which happens only if something changed. -/
def updateInstanceAttribute (DefaultTLL : Nat) (uuid : String) (req : ApiInstance)
    (inst : ModelInstance) : AttributeUpdate :=
  let st9 := updatePlainAttributes req inst
  let hc := updateHealthCheck DefaultTLL req st9.inst
  let st10 : AttributeUpdate :=
    if hc.needUpdate then
      { needUpdate := true
        updateEvents := markEvent st9.updateEvents EventInstanceUpdate
        inst := hc.inst
        req := hc.req }
    else { st9 with inst := hc.inst, req := hc.req }
  if st10.needUpdate then
    { st10 with
      inst := { st10.inst with Proto := { st10.inst.Proto with Revision := some uuid } } }
  else st10

/-! ## The server and what it talks to -/

/-- `apiservice.Service`, the wire message, with the fields `createServiceIfAbsent` fills
and reads. -/
structure ApiService where
  Id : Option String := none
  Name : Option String := none
  Namespace : Option String := none
  Owners : Option String := none
  Metadata : Option Metadata := none
  deriving DecidableEq

/-- `apiservice.Response`, with the payloads the instance handlers set. -/
structure Response where
  Code : Code
  Instance : Option ApiInstance := none
  Service : Option ApiService := none
  deriving DecidableEq

/-- `api.NewInstanceResponse`. -/
def NewInstanceResponse (code : Code) (req : Option ApiInstance) : Response :=
  { Code := code, Instance := req }

/-- `api.NewResponseWithMsg`; the message text is not kept. -/
def NewResponseWithMsg (code : Code) : Response := { Code := code }

/-- An error of the store layer. -/
inductive StoreError
  | DuplicateEntryErr
  | Other
  deriving DecidableEq, Repr

/-- Modelled from the spec: `storeError2Response` and the store error codes are declared
outside the given sources. The spec surfaces a store failure as `StoreLayerException`,
except a unique-key collision, which is mapped to `ExistedResource`. -/
def storeError2Code : StoreError → Code
  | StoreError.DuplicateEntryErr => Code.ExistedResource
  | StoreError.Other => Code.StoreLayerException

/-- `wrapperInstanceStoreResponse`, for the non-nil error it is called with. -/
def wrapperInstanceStoreResponse (req : ApiInstance) (err : StoreError) : Response :=
  { Code := storeError2Code err, Instance := some req }

/-- The values the handlers read from the request `context.Context`. -/
structure Ctx where
  Token : String := ""
  Owner : String := ""
  OpenAsyncRegis : Bool := false
  EventMetadata : Option Metadata := none

/-- The batch controller `s.bc`. A future is played to its end: `Wait` failing with
`Code()` is `Except.error`, otherwise the result. -/
structure BatchCtrl (σ : Type) where
  CreateInstanceOpen : Bool
  DeleteInstanceOpen : Bool
  AsyncCreateInstance : σ → String → ApiInstance → Bool → Except Code Unit × σ
  AsyncDeleteInstance : σ → ApiInstance → Bool → Except Code ModelInstance × σ

/-- Everything the instance handlers call that lies outside `service/instance.go`: the
store, the service cache, `CreateService`, the rate limiter, the CMDB plugin, the batch
controller, the validators of `utils` and the package constants. `σ` is the state of
that outside world; reads leave it alone, writes return the next state. -/
structure Env (σ : Type) where
  GetInstance : σ → String → Except StoreError (Option ModelInstance)
  AddInstance : σ → ModelInstance → Option StoreError × σ
  UpdateInstance : σ → ModelInstance → Option StoreError × σ
  DeleteInstance : σ → String → Option StoreError × σ
  BatchSetInstanceIsolate : σ → List String → Nat → String → Option StoreError × σ
  GetService : σ → String → String → Except StoreError (Option Service)
  GetServiceByID : σ → String → Except StoreError (Option Service)
  GetSourceServiceToken : σ → String → String → Except StoreError (Option Service)
  GetInstancesMainByService : σ → String → String → Except StoreError (Option (List ModelInstance))
  CreateTransaction : σ → Option StoreError
  RLockService : σ → String → String → Except StoreError (Option Service)
  cacheGetServiceByName : σ → String → String → Option Service
  CreateService : σ → Ctx → ApiService → Response × σ
  allowInstanceAccess : σ → String → Bool × σ
  cmdbGetLocation : Option (String → Except Unit (Option Location))
  bc : Option (BatchCtrl σ)
  NewUUID : σ → String × σ
  checkMetadata : Option Metadata → Bool
  checkResourceName : Option String → Bool
  checkInstanceHost : Option String → Bool
  CheckDbStrFieldLen : Option String → Nat → Bool
  CheckDbMetaDataFieldLen : Option Metadata → Bool
  CalculateInstanceID : String → String → String → Nat → String
  CreateInstanceModel : String → ApiInstance → ModelInstance
  MaxDbServiceNameLength : Nat
  MaxDbServiceNamespaceLength : Nat
  MaxDbInsHostLength : Nat
  MaxDbInsProtocolLength : Nat
  MaxDbInsVersionLength : Nat
  MaxDbInsLogicSetLength : Nat
  MetadataInternalAutoCreated : String
  DefaultTLL : Nat

/-- A write the handlers issue to the store or the batch controller, with its outcome. -/
inductive StoreCall
  | AddInstance (data : ModelInstance) (ok : Bool)
  | UpdateInstance (data : ModelInstance) (ok : Bool)
  | DeleteInstance (id : String) (ok : Bool)
  | BatchSetInstanceIsolate (ids : List String) (isolate : Nat) (revision : String) (ok : Bool)
  | AsyncCreateInstance (svcId : String) (ins : ApiInstance) (ok : Bool)
  | AsyncDeleteInstance (ins : ApiInstance) (removed : Option ModelInstance)
  | CreateService (req : ApiService)
  | Commit
  deriving DecidableEq

/-- The state a handler runs in: the outside world, the events handed to
`eventhub.Publish` on `InstanceEventTopic` and the writes issued, both oldest first.
The hub is the one `InitEventHub` set up at boot. -/
structure World (σ : Type) where
  ext : σ
  events : List InstanceEvent := []
  calls : List StoreCall := []

variable {σ : Type}

/-- Record a write. -/
def World.call (w : World σ) (c : StoreCall) : World σ := { w with calls := w.calls ++ [c] }

/-- `Server.sendDiscoverEvent`: the event, with its own copy of the instance, goes to
`eventhub.Publish(eventhub.InstanceEventTopic, event)`. -/
def sendDiscoverEvent (w : World σ) (event : InstanceEvent) : World σ :=
  { w with events := w.events ++ [event] }

/-- Modelled from the spec: `InstanceEvent.InjectMetadata` is declared outside the given
sources. Of the event fields the spec lists, it fills `metadata` from the request
context and leaves the rest as built by the handler. -/
def InjectMetadata (ctx : Ctx) (event : InstanceEvent) : InstanceEvent :=
  match ctx.EventMetadata with
  | some m => { event with MetaData := some m }
  | none => event

/-- `parseInstanceReqToken`. -/
def parseInstanceReqToken (ctx : Ctx) (req : ApiInstance) : String :=
  if strValue req.ServiceToken ≠ "" then strValue req.ServiceToken else ctx.Token

/-- `CheckDbInstanceFieldLen`: the response of the first failed check, if any. -/
def CheckDbInstanceFieldLen (env : Env σ) (req : ApiInstance) : Option Response :=
  if !env.CheckDbStrFieldLen req.Service env.MaxDbServiceNameLength then
    some (NewInstanceResponse Code.InvalidServiceName (some req))
  else if !env.CheckDbStrFieldLen req.Namespace env.MaxDbServiceNamespaceLength then
    some (NewInstanceResponse Code.InvalidNamespaceName (some req))
  else if !env.CheckDbStrFieldLen req.Host env.MaxDbInsHostLength then
    some (NewInstanceResponse Code.InvalidInstanceHost (some req))
  else if !env.CheckDbStrFieldLen req.Protocol env.MaxDbInsProtocolLength then
    some (NewInstanceResponse Code.InvalidInstanceProtocol (some req))
  else if !env.CheckDbStrFieldLen req.Version env.MaxDbInsVersionLength then
    some (NewInstanceResponse Code.InvalidInstanceVersion (some req))
  else if !env.CheckDbStrFieldLen req.LogicSet env.MaxDbInsLogicSetLength then
    some (NewInstanceResponse Code.InvalidInstanceLogicSet (some req))
  else if !env.CheckDbMetaDataFieldLen req.Metadata then
    some (NewInstanceResponse Code.InvalidMetadata (some req))
  else if u32Value req.Port > 65535 then
    some (NewInstanceResponse Code.InvalidInstancePort (some req))
  else if u32Value req.Weight > 65535 then
    some (NewInstanceResponse Code.InvalidParameter (some req))
  else none

/-- Modelled from the spec: `utils.CheckInstanceTetrad` is declared outside the given
sources. Per the spec a request passes when its tetrad is valid (service, namespace
and host well formed, port in `[1, 65535]`), and the instance id is the id of the
request or, when that is absent, derived deterministically from the tetrad. -/
def CheckInstanceTetrad (env : Env σ) (req : ApiInstance) : Except Response String :=
  if !env.checkResourceName req.Service then
    Except.error (NewInstanceResponse Code.InvalidServiceName (some req))
  else if !env.checkResourceName req.Namespace then
    Except.error (NewInstanceResponse Code.InvalidNamespaceName (some req))
  else if !env.checkInstanceHost req.Host then
    Except.error (NewInstanceResponse Code.InvalidInstanceHost (some req))
  else if req.Port = none ∨ u32Value req.Port = 0 ∨ u32Value req.Port > 65535 then
    Except.error (NewInstanceResponse Code.InvalidInstancePort (some req))
  else if strValue req.Id ≠ "" then Except.ok (strValue req.Id)
  else
    Except.ok (env.CalculateInstanceID (strValue req.Namespace) (strValue req.Service)
      (strValue req.Host) (u32Value req.Port))

/-- `checkCreateInstance`; on success the instance id and the request behind the
pointer. -/
def checkCreateInstance (env : Env σ) (req : Option ApiInstance) :
    Except Response (String × ApiInstance) :=
  match req with
  | none => Except.error (NewInstanceResponse Code.EmptyRequest none)
  | some r =>
    if !env.checkMetadata r.Metadata then
      Except.error (NewInstanceResponse Code.InvalidMetadata (some r))
    else
      match CheckDbInstanceFieldLen env r with
      | some resp => Except.error resp
      | none =>
        match CheckInstanceTetrad env r with
        | Except.error resp => Except.error resp
        | Except.ok id => Except.ok (id, r)

/-- `checkReviseInstance`. -/
def checkReviseInstance (env : Env σ) (req : Option ApiInstance) :
    Except Response (String × ApiInstance) :=
  match req with
  | none => Except.error (NewInstanceResponse Code.EmptyRequest none)
  | some r =>
    match r.Id with
    | some id =>
      if id = "" then Except.error (NewInstanceResponse Code.InvalidInstanceID (some r))
      else Except.ok (id, r)
    | none =>
      match CheckDbInstanceFieldLen env r with
      | some resp => Except.error resp
      | none =>
        match CheckInstanceTetrad env r with
        | Except.error resp => Except.error resp
        | Except.ok id => Except.ok (id, r)

/-- `isEmptyLocation`. -/
def isEmptyLocation (loc : Option Location) : Bool :=
  loc = none ∨ (regionOf loc = "" ∧ zoneOf loc = "" ∧ campusOf loc = "")

/-- `Server.packCmdb`, returning the instance it fills. -/
def packCmdb (env : Env σ) (ins : ApiInstance) : ApiInstance :=
  match env.cmdbGetLocation with
  | none => ins
  | some getLocation =>
    if !isEmptyLocation ins.Location then ins
    else
      match getLocation (strValue ins.Host) with
      | Except.error _ => ins
      | Except.ok (some location) => { ins with Location := some location }
      | Except.ok none => ins

/-- `Server.loadService`. -/
def loadService (env : Env σ) (ext : σ) (ns svcName : String) :
    Except Response (Option Service) :=
  match env.cacheGetServiceByName ext svcName ns with
  | some svc =>
    if svc.IsAlias then Except.error (NewResponseWithMsg Code.BadRequest)
    else Except.ok (some svc)
  | none =>
    match env.GetService ext svcName ns with
    | Except.error _ => Except.error (NewResponseWithMsg Code.StoreLayerException)
    | Except.ok (some svc) =>
      if svc.IsAlias then Except.error (NewResponseWithMsg Code.BadRequest)
      else Except.ok (some svc)
    | Except.ok none => Except.ok none

/-- `Server.createServiceIfAbsent`. The single-flight runs the closure, whose error is
always nil. -/
def createServiceIfAbsent (env : Env σ) (ctx : Ctx) (w : World σ) (ns svcName : String) :
    Except Response String × World σ :=
  match loadService env w.ext ns svcName with
  | Except.error errResp => (Except.error errResp, w)
  | Except.ok (some svc) => (Except.ok svc.ID, w)
  | Except.ok none =>
    let simpleService : ApiService :=
      { Name := some svcName
        Namespace := some ns
        Owners := some (if ctx.Owner = "" then "Polaris" else ctx.Owner)
        Metadata := some (AList.singleton env.MetadataInternalAutoCreated "true") }
    let created := env.CreateService w.ext ctx simpleService
    let w1 := ({ w with ext := created.2 }).call (StoreCall.CreateService simpleService)
    if created.1.Code ≠ Code.ExecuteSuccess ∧ created.1.Code ≠ Code.ExistedResource then
      (Except.error created.1, w1)
    else
      (Except.ok (strValue ((created.1.Service).bind (·.Id))), w1)

/-- `Server.lockService`. The transaction is committed by `release`, which the failing
branches call themselves; on success the caller does (its `defer`). -/
def lockService (env : Env σ) (w : World σ) (ns svcName : String) :
    (Option Service × Code) × World σ :=
  match env.CreateTransaction w.ext with
  | some _ => ((none, Code.StoreLayerException), w)
  | none =>
    match env.RLockService w.ext svcName ns with
    | Except.error _ => ((none, Code.StoreLayerException), w.call StoreCall.Commit)
    | Except.ok none => ((none, Code.NotFoundService), w.call StoreCall.Commit)
    | Except.ok (some svc) =>
      if svc.IsAlias then ((none, Code.NotAllowAliasCreateInstance), w.call StoreCall.Commit)
      else ((some svc, Code.ExecuteSuccess), w)

/-- `Server.serialCreateInstance`. -/
def serialCreateInstance (env : Env σ) (w : World σ) (svcId : String)
    (req ins : ApiInstance) : Except Response ModelInstance × World σ :=
  match env.GetInstance w.ext (strValue ins.Id) with
  | Except.error _ =>
    (Except.error (NewInstanceResponse Code.StoreLayerException (some req)), w)
  | Except.ok found =>
    let ins1 :=
      match found with
      | some stored => if ins.Isolate = none then { ins with Isolate := stored.Proto.Isolate } else ins
      | none => ins
    let data := env.CreateInstanceModel svcId ins1
    let locked := lockService env w (strValue req.Namespace) (strValue req.Service)
    if locked.1.2 ≠ Code.ExecuteSuccess then
      (Except.error (NewInstanceResponse locked.1.2 (some req)), locked.2)
    else
      let added := env.AddInstance locked.2.ext data
      let w1 := (({ locked.2 with ext := added.2 }).call
        (StoreCall.AddInstance data added.1.isNone)).call StoreCall.Commit
      match added.1 with
      | some err => (Except.error (wrapperInstanceStoreResponse req err), w1)
      | none => (Except.ok data, w1)

/-- `Server.asyncCreateInstance`. -/
def asyncCreateInstance (env : Env σ) (bc : BatchCtrl σ) (ctx : Ctx) (w : World σ)
    (svcId : String) (req ins : ApiInstance) : Except Response ModelInstance × World σ :=
  let allowAsyncRegis := ctx.OpenAsyncRegis
  let future := bc.AsyncCreateInstance w.ext svcId ins (!allowAsyncRegis)
  let w1 := ({ w with ext := future.2 }).call
    (StoreCall.AsyncCreateInstance svcId ins future.1.toBool)
  match future.1 with
  | Except.error code =>
    let req1 := if code = Code.ExistedResource then { req with Id := some (strValue ins.Id) } else req
    (Except.error (NewInstanceResponse code (some req1)), w1)
  | Except.ok _ => (Except.ok (env.CreateInstanceModel svcId req), w1)

/-- `Server.createInstance`. -/
def createInstance (env : Env σ) (ctx : Ctx) (w : World σ) (req ins : ApiInstance) :
    Except Response ModelInstance × World σ :=
  match createServiceIfAbsent env ctx w (strValue req.Namespace) (strValue req.Service) with
  | (Except.error errResp, w1) => (Except.error errResp, w1)
  | (Except.ok svcId, w1) =>
    if svcId.length = 0 then (Except.error (NewResponseWithMsg Code.BadRequest), w1)
    else
      let ins1 := packCmdb env ins
      match env.bc with
      | none => serialCreateInstance env w1 svcId req ins1
      | some bc =>
        if !bc.CreateInstanceOpen then serialCreateInstance env w1 svcId req ins1
        else asyncCreateInstance env bc ctx w1 svcId req ins1

/-- `Server.CreateInstance`. -/
def CreateInstance (env : Env σ) (ctx : Ctx) (w : World σ) (req : Option ApiInstance) :
    Response × World σ :=
  match checkCreateInstance env req with
  | Except.error checkError => (checkError, w)
  | Except.ok (instanceID, r) =>
    let allowed := env.allowInstanceAccess w.ext instanceID
    let w1 : World σ := { w with ext := allowed.2 }
    if !allowed.1 then (NewInstanceResponse Code.InstanceTooManyRequests (some r), w1)
    else
      let ins : ApiInstance :=
        { r with ServiceToken := some (parseInstanceReqToken ctx r), Id := some instanceID }
      match createInstance env ctx w1 r ins with
      | (Except.error resp, w2) => (resp, w2)
      | (Except.ok data, w2) =>
        let svcName := strValue r.Service
        let svcNamespace := strValue r.Namespace
        let instanceProto := data.Proto
        let event := InjectMetadata ctx
          { Id := instanceID, Namespace := svcNamespace, Service := svcName,
            Instance := some instanceProto, EType := EventInstanceOnline }
        let w3 := sendDiscoverEvent w2 event
        let out : ApiInstance :=
          { Id := ins.Id, Service := some svcName, Namespace := some svcNamespace,
            VpcId := instanceProto.VpcId, Host := instanceProto.Host, Port := instanceProto.Port }
        (NewInstanceResponse Code.ExecuteSuccess (some out), w3)


/-- `Server.instanceAuth`. -/
def instanceAuth (env : Env σ) (ext : σ) (req : ApiInstance) (serviceID : String) :
    Except Response Service :=
  match env.GetServiceByID ext serviceID with
  | Except.error _ => Except.error (NewInstanceResponse Code.StoreLayerException (some req))
  | Except.ok none => Except.error (NewInstanceResponse Code.NotFoundResource (some req))
  | Except.ok (some service) => Except.ok service

/-- `Server.serialDeleteInstance`. -/
def serialDeleteInstance (env : Env σ) (ctx : Ctx) (w : World σ) (req ins : ApiInstance) :
    Response × World σ :=
  match env.GetInstance w.ext (strValue ins.Id) with
  | Except.error _ => (NewInstanceResponse Code.StoreLayerException (some req), w)
  | Except.ok none => (NewInstanceResponse Code.ExecuteSuccess (some req), w)
  | Except.ok (some stored) =>
    match instanceAuth env w.ext req stored.ServiceID with
    | Except.error resp => (resp, w)
    | Except.ok service =>
      let deleted := env.DeleteInstance w.ext stored.ID
      let w1 := ({ w with ext := deleted.2 }).call
        (StoreCall.DeleteInstance stored.ID deleted.1.isNone)
      match deleted.1 with
      | some err => (wrapperInstanceStoreResponse req err, w1)
      | none =>
        let event := InjectMetadata ctx
          { Id := stored.ID, Namespace := service.Namespace, Service := service.Name,
            Instance := some stored.Proto, EType := EventInstanceOffline }
        (NewInstanceResponse Code.ExecuteSuccess (some req), sendDiscoverEvent w1 event)

/-- `Server.asyncDeleteInstance`. -/
def asyncDeleteInstance (bc : BatchCtrl σ) (ctx : Ctx) (w : World σ) (req ins : ApiInstance) :
    Response × World σ :=
  let allowAsyncRegis := ctx.OpenAsyncRegis
  let future := bc.AsyncDeleteInstance w.ext ins (!allowAsyncRegis)
  let w1 := ({ w with ext := future.2 }).call
    (StoreCall.AsyncDeleteInstance ins future.1.toOption)
  match future.1 with
  | Except.error code =>
    if code = Code.NotFoundResource then (NewInstanceResponse Code.ExecuteSuccess (some req), w1)
    else (NewInstanceResponse code (some req), w1)
  | Except.ok removed =>
    let event := InjectMetadata ctx
      { Id := removed.ID, Namespace := strValue removed.Proto.Namespace,
        Service := strValue removed.Proto.Service,
        Instance := some removed.Proto, EType := EventInstanceOffline }
    (NewInstanceResponse Code.ExecuteSuccess (some req), sendDiscoverEvent w1 event)

/-- `Server.deleteInstance`. -/
def deleteInstance (env : Env σ) (ctx : Ctx) (w : World σ) (req ins : ApiInstance) :
    Response × World σ :=
  match env.bc with
  | none => serialDeleteInstance env ctx w req ins
  | some bc =>
    if !bc.DeleteInstanceOpen then serialDeleteInstance env ctx w req ins
    else asyncDeleteInstance bc ctx w req ins

/-- `Server.DeleteInstance`. -/
def DeleteInstance (env : Env σ) (ctx : Ctx) (w : World σ) (req : Option ApiInstance) :
    Response × World σ :=
  match checkReviseInstance env req with
  | Except.error checkError => (checkError, w)
  | Except.ok (instanceID, r) =>
    let allowed := env.allowInstanceAccess w.ext instanceID
    let w1 : World σ := { w with ext := allowed.2 }
    if !allowed.1 then (NewInstanceResponse Code.InstanceTooManyRequests (some r), w1)
    else
      let ins : ApiInstance :=
        { r with Id := some instanceID, ServiceToken := some (parseInstanceReqToken ctx r) }
      deleteInstance env ctx w1 r ins

/-- `Server.execInstancePreStep`; on success also the request behind the pointer. -/
def execInstancePreStep (env : Env σ) (ext : σ) (req : Option ApiInstance) :
    Except Response (Service × ModelInstance × ApiInstance) :=
  match checkReviseInstance env req with
  | Except.error checkError => Except.error checkError
  | Except.ok (instanceID, r) =>
    match env.GetInstance ext instanceID with
    | Except.error _ => Except.error (NewInstanceResponse Code.StoreLayerException (some r))
    | Except.ok none => Except.error (NewInstanceResponse Code.NotFoundInstance (some r))
    | Except.ok (some stored) =>
      match instanceAuth env ext r stored.ServiceID with
      | Except.error resp => Except.error resp
      | Except.ok service => Except.ok (service, stored, r)

/-- `Server.UpdateInstance`. The events go out in the order in which their types
entered the event set (Go ranges over the map in an unspecified order). -/
def UpdateInstance (env : Env σ) (ctx : Ctx) (w : World σ) (req : Option ApiInstance) :
    Response × World σ :=
  match execInstancePreStep env w.ext req with
  | Except.error preErr => (preErr, w)
  | Except.ok (service, stored, r) =>
    if !env.checkMetadata r.Metadata then
      (NewInstanceResponse Code.InvalidMetadata (some r), w)
    else
      let fresh := env.NewUUID w.ext
      let upd := updateInstanceAttribute env.DefaultTLL fresh.1 r stored
      if !upd.needUpdate then (NewInstanceResponse Code.NoNeedUpdate (some upd.req), w)
      else
        let updated := env.UpdateInstance fresh.2 upd.inst
        let w1 := ({ w with ext := updated.2 }).call
          (StoreCall.UpdateInstance upd.inst updated.1.isNone)
        match updated.1 with
        | some err => (wrapperInstanceStoreResponse upd.req err, w1)
        | none =>
          let w2 := upd.updateEvents.foldl
            (fun acc eventType =>
              sendDiscoverEvent acc (InjectMetadata ctx
                { Id := upd.inst.ID, Namespace := service.Namespace, Service := service.Name,
                  Instance := some upd.inst.Proto, EType := eventType }))
            w1
          (NewInstanceResponse Code.ExecuteSuccess (some upd.req), w2)

/-- `checkInstanceByHost`; on success the request behind the pointer. -/
def checkInstanceByHost (env : Env σ) (req : Option ApiInstance) : Except Response ApiInstance :=
  match req with
  | none => Except.error (NewInstanceResponse Code.EmptyRequest none)
  | some r =>
    if !env.checkResourceName r.Service then
      Except.error (NewInstanceResponse Code.InvalidServiceName (some r))
    else if !env.checkResourceName r.Namespace then
      Except.error (NewInstanceResponse Code.InvalidNamespaceName (some r))
    else if !env.checkInstanceHost r.Host then
      Except.error (NewInstanceResponse Code.InvalidInstanceHost (some r))
    else Except.ok r

/-- `Server.getInstancesMainByService`; a nil slice of instances is `none`. -/
def getInstancesMainByService (env : Env σ) (ext : σ) (req : ApiInstance) :
    Except Response (Option (List ModelInstance) × Service) :=
  match env.GetSourceServiceToken ext (strValue req.Service) (strValue req.Namespace) with
  | Except.error _ => Except.error (NewInstanceResponse Code.StoreLayerException (some req))
  | Except.ok none => Except.error (NewInstanceResponse Code.NotFoundService (some req))
  | Except.ok (some service) =>
    match env.GetInstancesMainByService ext service.ID (strValue req.Host) with
    | Except.error _ => Except.error (NewInstanceResponse Code.StoreLayerException (some req))
    | Except.ok instances => Except.ok (instances, service)

/-- The last loop of `UpdateInstanceIsolate`, run over the instances as they are at that
point: an event for each instance whose isolate flag differs from the requested one. -/
def isolateEvents (w : World σ) (req : ApiInstance) (instances : List ModelInstance) :
    World σ :=
  instances.foldl
    (fun acc stored =>
      if req.Isolate ≠ none ∧ stored.Isolate ≠ boolValue req.Isolate then
        sendDiscoverEvent acc
          { Id := stored.ID, Namespace := strValue req.Namespace,
            Service := strValue req.Service, Instance := some stored.Proto,
            EType := if boolValue req.Isolate then EventInstanceOpenIsolate
              else EventInstanceCloseIsolate }
      else acc)
    w

/-- `Server.UpdateInstanceIsolate`. The loop that collects the ids also stores the
requested flag into each fetched instance (they are pointers), so the event loop
afterwards reads the instances with the flag already overwritten. -/
def UpdateInstanceIsolate (env : Env σ) (w : World σ) (req : Option ApiInstance) :
    Response × World σ :=
  match checkInstanceByHost env req with
  | Except.error err => (err, w)
  | Except.ok r =>
    if r.Isolate = none then (NewInstanceResponse Code.InvalidInstanceIsolate (some r), w)
    else
      match getInstancesMainByService env w.ext r with
      | Except.error err => (err, w)
      | Except.ok (none, _) => (NewInstanceResponse Code.NotFoundInstance (some r), w)
      | Except.ok (some instances, _) =>
        let needUpdate := instances.any
          (fun stored => decide (r.Isolate ≠ none ∧ stored.Isolate ≠ boolValue r.Isolate))
        if !needUpdate then (NewInstanceResponse Code.NoNeedUpdate (some r), w)
        else
          let isolate := if boolValue r.Isolate then 1 else 0
          let instances1 := instances.map
            (fun stored => { stored with Proto := { stored.Proto with Isolate := r.Isolate } })
          let ids := instances1.map (fun stored => stored.ID)
          let fresh := env.NewUUID w.ext
          let written := env.BatchSetInstanceIsolate fresh.2 ids isolate fresh.1
          let w1 := ({ w with ext := written.2 }).call
            (StoreCall.BatchSetInstanceIsolate ids isolate fresh.1 written.1.isNone)
          match written.1 with
          | some err => (wrapperInstanceStoreResponse r err, w1)
          | none => (NewInstanceResponse Code.ExecuteSuccess (some r), isolateEvents w1 r instances1)

/-! ## A reference environment for concrete runs -/

/-- The state of the in-memory environment: stored instances and services, and the
number of UUIDs handed out. -/
structure MemState where
  instances : List ModelInstance := []
  services : List Service := []
  uuids : Nat := 0
  deriving DecidableEq

/-- Replace the stored instance of the same id, or add the instance. -/
def MemState.put (st : MemState) (data : ModelInstance) : MemState :=
  { st with instances := data :: st.instances.filter (fun i => i.ID ≠ data.ID) }

/-- An in-memory environment: no cache, no CMDB, no batch controller, no rate limit.
Its `AddInstance` replaces the row of the same id, which is what `serialCreateInstance`
relies on when it finds the instance already stored. -/
def memEnv : Env MemState where
  GetInstance st id := Except.ok (st.instances.find? (fun i => i.ID = id))
  AddInstance st data := (none, st.put data)
  UpdateInstance st data := (none, st.put data)
  DeleteInstance st id := (none, { st with instances := st.instances.filter (fun i => i.ID ≠ id) })
  BatchSetInstanceIsolate st ids isolate revision :=
    (none, { st with instances := st.instances.map (fun i =>
      if i.ID ∈ ids then
        { i with Proto := { i.Proto with Isolate := some (decide (isolate = 1)),
                                          Revision := some revision } }
      else i) })
  GetService st name ns :=
    Except.ok (st.services.find? (fun s => s.Name = name ∧ s.Namespace = ns))
  GetServiceByID st id := Except.ok (st.services.find? (fun s => s.ID = id))
  GetSourceServiceToken st name ns :=
    Except.ok (st.services.find? (fun s => s.Name = name ∧ s.Namespace = ns))
  GetInstancesMainByService st svcId host :=
    let found := st.instances.filter (fun i => i.ServiceID = svcId ∧ strValue i.Proto.Host = host)
    Except.ok (if found = [] then none else some found)
  CreateTransaction _ := none
  RLockService st name ns :=
    Except.ok (st.services.find? (fun s => s.Name = name ∧ s.Namespace = ns))
  cacheGetServiceByName _ _ _ := none
  CreateService st _ svc :=
    let id := strValue svc.Namespace ++ "/" ++ strValue svc.Name
    ({ Code := Code.ExecuteSuccess, Service := some { svc with Id := some id } },
      { st with services :=
          { ID := id, Name := strValue svc.Name, Namespace := strValue svc.Namespace }
            :: st.services })
  allowInstanceAccess st _ := (true, st)
  cmdbGetLocation := none
  bc := none
  NewUUID st := ("uuid-" ++ toString st.uuids, { st with uuids := st.uuids + 1 })
  checkMetadata _ := true
  checkResourceName v := decide (strValue v ≠ "")
  checkInstanceHost v := decide (strValue v ≠ "")
  CheckDbStrFieldLen v n := decide ((strValue v).length ≤ n)
  CheckDbMetaDataFieldLen _ := true
  CalculateInstanceID ns svc host port := ns ++ ":" ++ svc ++ ":" ++ host ++ ":" ++ toString port
  CreateInstanceModel svcId ins := { Proto := ins, ServiceID := svcId }
  MaxDbServiceNameLength := 128
  MaxDbServiceNamespaceLength := 64
  MaxDbInsHostLength := 128
  MaxDbInsProtocolLength := 32
  MaxDbInsVersionLength := 32
  MaxDbInsLogicSetLength := 128
  MetadataInternalAutoCreated := "internal-auto-created"
  DefaultTLL := 5

/-- A register request for `10.0.0.1:8080` of service `A` in namespace `default`. -/
def registerA : ApiInstance :=
  { Service := some "A", Namespace := some "default", Host := some "10.0.0.1", Port := some 8080 }

/-- The id `memEnv` derives for `registerA`. -/
def idA : String := "default:A:10.0.0.1:8080"

/-- The service `A` of namespace `default`. -/
def serviceA : Service := { ID := "default/A", Name := "A", Namespace := "default" }

/-- A stored instance of `serviceA` with the given payload and id `idA`. -/
def storedA (proto : ApiInstance) : ModelInstance :=
  { Proto := { proto with Id := some idA, Host := some "10.0.0.1", Port := some 8080 }
    ServiceID := "default/A" }

/-- A world of `memEnv` that holds `serviceA` and the given instances. -/
def worldA (instances : List ModelInstance) : World MemState :=
  { ext := { instances := instances, services := [serviceA] } }

/-! ## Specification vocabulary for the instance update -/

/-- The conditions of the nine plain `if`s, over the instance as stored. -/
structure PlainChanges where
  metadata : Bool
  location : Bool
  protocol : Bool
  version : Bool
  priority : Bool
  weight : Bool
  healthy : Bool
  isolate : Bool
  logicSet : Bool

/-- Which plain attributes a request changes on a stored instance. -/
def plainChanges (req : ApiInstance) (inst : ModelInstance) : PlainChanges :=
  { metadata := instanceMetaNeedUpdate req.Metadata inst.Proto.Metadata
    location := instanceLocationNeedUpdate req.Location inst.Proto.Location
    protocol := decide (req.Protocol ≠ none ∧ strValue req.Protocol ≠ strValue inst.Proto.Protocol)
    version := decide (req.Version ≠ none ∧ strValue req.Version ≠ strValue inst.Proto.Version)
    priority := decide (req.Priority ≠ none ∧ u32Value req.Priority ≠ u32Value inst.Proto.Priority)
    weight := decide (req.Weight ≠ none ∧ u32Value req.Weight ≠ u32Value inst.Proto.Weight)
    healthy := decide (req.Healthy ≠ none ∧ boolValue req.Healthy ≠ inst.Healthy)
    isolate := decide (req.Isolate ≠ none ∧ boolValue req.Isolate ≠ inst.Isolate)
    logicSet := decide (req.LogicSet ≠ none ∧ strValue req.LogicSet ≠ strValue inst.Proto.LogicSet) }

/-- The health check by value: type and TTL, if a check is stored. -/
def healthCheckView (h : Option HealthCheck) : Option (HealthCheckType × Nat) :=
  h.map (fun x => (x.HcType, heartbeatTtl h))

/-- The mutable fields of a stored instance, by value: the metadata map, the three
location names, the scalar attributes, the health-check switch, and the type and TTL
of the health check if one is stored. -/
structure MutableFields where
  metadata : Option Metadata
  region : String
  zone : String
  campus : String
  protocol : String
  version : String
  priority : Nat
  weight : Nat
  healthy : Bool
  isolate : Bool
  logicSet : String
  enableHealthCheck : Bool
  healthCheck : Option (HealthCheckType × Nat)

/-- The mutable field values of an instance. -/
def mutableFields (inst : ModelInstance) : MutableFields :=
  { metadata := inst.Proto.Metadata
    region := regionOf inst.Proto.Location
    zone := zoneOf inst.Proto.Location
    campus := campusOf inst.Proto.Location
    protocol := strValue inst.Proto.Protocol
    version := strValue inst.Proto.Version
    priority := u32Value inst.Proto.Priority
    weight := u32Value inst.Proto.Weight
    healthy := inst.Healthy
    isolate := inst.Isolate
    logicSet := strValue inst.Proto.LogicSet
    enableHealthCheck := inst.EnableHealthCheck
    healthCheck := healthCheckView inst.Proto.HealthCheck }

/-- The request switches health checking on for an instance that has it off: it carries
a heartbeat check, its enable flag is absent or true, and the stored flag is false.
This is when `updateHealthCheck` resets `Healthy` to false. -/
def OpensHealthCheck (req : ApiInstance) (inst : ModelInstance) : Prop :=
  TakesHeartbeat req ∧ inst.EnableHealthCheck = false

instance (req : ApiInstance) (inst : ModelInstance) : Decidable (OpensHealthCheck req inst) := by
  unfold OpensHealthCheck; infer_instance

/-- The request repeats the current value of every mutable field of the instance: the
same metadata entries, the same location names, the same scalar values, the same
health-check switch and the same health check. -/
def RepeatsFields (req : ApiInstance) (inst : ModelInstance) : Prop :=
  (∀ k, (metaOf req.Metadata).lookup k = (metaOf inst.Proto.Metadata).lookup k) ∧
  regionOf req.Location = regionOf inst.Proto.Location ∧
  zoneOf req.Location = zoneOf inst.Proto.Location ∧
  campusOf req.Location = campusOf inst.Proto.Location ∧
  strValue req.Protocol = strValue inst.Proto.Protocol ∧
  strValue req.Version = strValue inst.Proto.Version ∧
  u32Value req.Priority = u32Value inst.Proto.Priority ∧
  u32Value req.Weight = u32Value inst.Proto.Weight ∧
  boolValue req.Healthy = inst.Healthy ∧
  boolValue req.Isolate = inst.Isolate ∧
  strValue req.LogicSet = strValue inst.Proto.LogicSet ∧
  boolValue req.EnableHealthCheck = inst.EnableHealthCheck ∧
  req.HealthCheck = inst.Proto.HealthCheck

/-- The health-check state of a stored instance is settled: with health checking on, a
stored heartbeat check has type HEARTBEAT and a TTL in `[1, 60]`; with health checking
off, no health check is stored. -/
def HealthCheckSettled (inst : ModelInstance) : Prop :=
  if inst.EnableHealthCheck = true then
    heartbeatOf inst.Proto.HealthCheck = none ∨
      (healthCheckType inst.Proto.HealthCheck = HealthCheckType.HEARTBEAT ∧
        1 ≤ heartbeatTtl inst.Proto.HealthCheck ∧ heartbeatTtl inst.Proto.HealthCheck ≤ 60)
  else inst.Proto.HealthCheck = none

instance (inst : ModelInstance) : Decidable (HealthCheckSettled inst) := by
  unfold HealthCheckSettled; infer_instance

/-! ## Concrete instances for the update handlers -/

/-- A payload with health checking on and a heartbeat check of TTL 5. -/
def protoChecked : ApiInstance :=
  { EnableHealthCheck := some true
    HealthCheck := some { HcType := HealthCheckType.HEARTBEAT, Heartbeat := some { Ttl := some 5 } }
    Healthy := some true }

/-- A payload with health checking off that still carries a heartbeat check. -/
def protoOffWithCheck : ApiInstance :=
  { EnableHealthCheck := some false
    HealthCheck := some { HcType := HealthCheckType.HEARTBEAT, Heartbeat := some { Ttl := some 5 } } }

/-- A payload of an unhealthy instance without health checking. -/
def protoUnhealthy : ApiInstance := { Healthy := some false }

/-- A request that reports the instance healthy and switches heartbeat checking on. -/
def reqHealthyWithCheck : ApiInstance :=
  { Healthy := some true
    HealthCheck := some { HcType := HealthCheckType.HEARTBEAT, Heartbeat := some { Ttl := some 5 } } }

/-- A payload of an instance that is not isolated. -/
def protoNotIsolated : ApiInstance := { Isolate := some false }

/-- A request to isolate the instances of service `A` on host `10.0.0.1`. -/
def reqIsolate : ApiInstance :=
  { Service := some "A", Namespace := some "default", Host := some "10.0.0.1",
    Isolate := some true }



/-! ## Specification vocabulary for register and deregister -/

/-- The batch controller reports a failed create with a code other than
`ExecuteSuccess`. -/
def BatchFailureCoded (env : Env σ) : Prop :=
  ∀ bc, env.bc = some bc → ∀ ext svcId ins wait code,
    (bc.AsyncCreateInstance ext svcId ins wait).1 = Except.error code →
    code ≠ Code.ExecuteSuccess

/-- The id of the stored instance a write removed, if it removed one: a store delete
that succeeded, or a batched delete whose future returned the instance. -/
def removedBy : StoreCall → Option String
  | StoreCall.DeleteInstance id true => some id
  | StoreCall.AsyncDeleteInstance _ (some removed) => some removed.ID
  | _ => none
/-- What a delete handler does to the two logs: the events it publishes are one
`InstanceOffline` event per stored instance it removed, carrying that instance's id; it
removes at most one; and it publishes nothing unless it answers `ExecuteSuccess`. -/
def DeleteOutcome (w : World σ) (out : Response × World σ) : Prop :=
  ∃ cs es, out.2.calls = w.calls ++ cs ∧ out.2.events = w.events ++ es ∧
    es.map (fun e => (e.EType, e.Id))
      = (cs.filterMap removedBy).map (fun id => (EventInstanceOffline, id)) ∧
    es.length ≤ 1 ∧ (out.1.Code ≠ Code.ExecuteSuccess → es = [])

/-- A world of `memEnv` with nothing stored. -/
def worldEmpty : World MemState := { ext := {} }

/-! ## Specification vocabulary for absent instances and alias services -/

/-- The path `deleteInstance` takes reports the instance as absent: on the serial path
`GetInstance` yields nothing, on the batched path the future fails with
`NotFoundResource`. -/
def ReportsAbsent (env : Env σ) (ctx : Ctx) (ext : σ) (ins : ApiInstance) : Prop :=
  match env.bc with
  | none => env.GetInstance ext (strValue ins.Id) = Except.ok none
  | some bc =>
    if bc.DeleteInstanceOpen then
      (bc.AsyncDeleteInstance ext ins (!ctx.OpenAsyncRegis)).1 = Except.error Code.NotFoundResource
    else env.GetInstance ext (strValue ins.Id) = Except.ok none

/-- The write is `storage.DeleteInstance`. -/
def StoreCall.IsStoreDelete : StoreCall → Bool
  | StoreCall.DeleteInstance _ _ => true
  | _ => false

/-- The write is `storage.AddInstance`. -/
def StoreCall.IsAddInstance : StoreCall → Bool
  | StoreCall.AddInstance _ _ => true
  | _ => false

/-- The service cache, or on a miss the store, reports the service as an alias: the two
places `loadService` looks at. -/
def LoadSeesAlias (env : Env σ) (ext : σ) (ns svcName : String) : Prop :=
  (∃ svc, env.cacheGetServiceByName ext svcName ns = some svc ∧ svc.IsAlias = true) ∨
  (env.cacheGetServiceByName ext svcName ns = none ∧
    ∃ svc, env.GetService ext svcName ns = Except.ok (some svc) ∧ svc.IsAlias = true)

/-- The service row that `lockService` locks is an alias. -/
def LockSeesAlias (env : Env σ) (ext : σ) (ns svcName : String) : Prop :=
  env.CreateTransaction ext = none ∧
  ∃ svc, env.RLockService ext svcName ns = Except.ok (some svc) ∧ svc.IsAlias = true

/-- The create goes down the serial path: no batch controller, or batched creates are
switched off. -/
def SerialCreate (env : Env σ) : Prop :=
  ∀ bc, env.bc = some bc → bc.CreateInstanceOpen = false

/-- An alias of `serviceA`, stored under the name `B`. -/
def aliasB : Service :=
  { ID := "default/B", Name := "B", Namespace := "default", Reference := "default/A" }

/-- A register request for `10.0.0.1:8080` of the alias `B`. -/
def registerB : ApiInstance :=
  { Service := some "B", Namespace := some "default", Host := some "10.0.0.1", Port := some 8080 }

/-- A world of `memEnv` that holds `serviceA` and its alias. -/
def worldAlias : World MemState := { ext := { services := [serviceA, aliasB] } }

/-- The environment `memEnv` with a service cache that still holds the row `B` as an
ordinary service, as a cache does that has not yet loaded the alias. -/
def staleCacheEnv : Env MemState :=
  { memEnv with
    cacheGetServiceByName := fun _ name ns =>
      if name = "B" ∧ ns = "default" then
        some { ID := "default/B", Name := "B", Namespace := "default" }
      else none }

/-! ## Auth interceptors of the instance plane

`service/interceptor/auth/instance.go`, `service/interceptor/auth/client_v1.go` and the
older `service/instance_authability.go`. -/

/-- `authcommon.ResourceOperation`. -/
inductive ResourceOperation
  | Create
  | Delete
  | Modify
  | Read
  deriving DecidableEq, Repr

/-- `apiservice.BatchWriteResponse`; the info text is not kept. -/
structure BatchWriteResponse where
  Code : Code
  Size : Nat := 0
  Responses : List Response := []
  deriving DecidableEq

/-- `apiservice.BatchQueryResponse`, with the payload of the instance queries. -/
structure BatchQueryResponse where
  Code : Code
  Amount : Nat := 0
  Size : Nat := 0
  Instances : List ApiInstance := []
  deriving DecidableEq

/-- `api.NewResponse`. -/
def NewResponse (code : Code) : Response := { Code := code }

/-- `api.NewBatchWriteResponse`. -/
def NewBatchWriteResponse (code : Code) : BatchWriteResponse := { Code := code }

/-- `api.NewBatchWriteResponseWithMsg`; the message text is not kept. -/
def NewBatchWriteResponseWithMsg (code : Code) : BatchWriteResponse := { Code := code }

/-- `api.NewBatchQueryResponseWithMsg`; the message text is not kept. -/
def NewBatchQueryResponseWithMsg (code : Code) : BatchQueryResponse := { Code := code }

/-- The methods of the wrapped `DiscoverServer` that the instance interceptors forward
to. `κ` is `context.Context`, `ν` the state of the wrapped server; a query map is a
`map[string]string`. -/
structure DiscoverServer (κ ν : Type) where
  CreateInstances : κ → List (Option ApiInstance) → ν → BatchWriteResponse × ν
  DeleteInstances : κ → List (Option ApiInstance) → ν → BatchWriteResponse × ν
  DeleteInstancesByHost : κ → List (Option ApiInstance) → ν → BatchWriteResponse × ν
  UpdateInstances : κ → List (Option ApiInstance) → ν → BatchWriteResponse × ν
  UpdateInstancesIsolate : κ → List (Option ApiInstance) → ν → BatchWriteResponse × ν
  GetInstances : κ → Metadata → ν → BatchQueryResponse × ν
  GetInstancesCount : κ → ν → BatchQueryResponse × ν
  GetInstanceLabels : κ → Metadata → ν → Response × ν
  RegisterInstance : κ → Option ApiInstance → ν → Response × ν
  DeregisterInstance : κ → Option ApiInstance → ν → Response × ν
  UpdateInstance : κ → Option ApiInstance → ν → Response × ν

/-- One invocation of a method of the wrapped server, with its arguments. -/
inductive ServerCall (κ : Type)
  | CreateInstances (ctx : κ) (reqs : List (Option ApiInstance))
  | DeleteInstances (ctx : κ) (reqs : List (Option ApiInstance))
  | DeleteInstancesByHost (ctx : κ) (reqs : List (Option ApiInstance))
  | UpdateInstances (ctx : κ) (reqs : List (Option ApiInstance))
  | UpdateInstancesIsolate (ctx : κ) (reqs : List (Option ApiInstance))
  | GetInstances (ctx : κ) (query : Metadata)
  | GetInstancesCount (ctx : κ)
  | GetInstanceLabels (ctx : κ) (query : Metadata)
  | RegisterInstance (ctx : κ) (req : Option ApiInstance)
  | DeregisterInstance (ctx : κ) (req : Option ApiInstance)
  | UpdateInstance (ctx : κ) (req : Option ApiInstance)
  deriving DecidableEq

/-- The wrapped server as an interceptor sees it: its state and the invocations made so
far, oldest first. -/
structure Served (κ ν : Type) where
  inner : ν
  invoked : List (ServerCall κ) := []

/-- Invoke a method of the wrapped server: `run` is the method applied to its arguments,
`call` the record of the invocation. -/
def Served.invoke {κ ν ρ : Type} (w : Served κ ν) (call : ServerCall κ) (run : ν → ρ × ν) :
    ρ × Served κ ν :=
  ((run w.inner).1, { inner := (run w.inner).2, invoked := w.invoked ++ [call] })

/-- `ServerAuthAbility` of `service/interceptor/auth` with what its instance methods
call outside the given sources. `α` is `*authcommon.AcquireContext`, `ε` is `error`.
A permission check hands back the acquire context as the call leaves it and the error,
`none` for nil. `WithAuthContext ctx authCtx` is
`context.WithValue(ctx, utils.ContextAuthContextKey, authCtx)`; `ParseUserRole` is
`authcommon.ParseUserRole`, `SubAccountUserRole` the constant of that package. -/
structure ServerAuthAbility (κ α ε ν : Type) where
  nextSvr : DiscoverServer κ ν
  collectInstanceAuthContext : κ → List (Option ApiInstance) → ResourceOperation → String → α
  collectClientInstanceAuthContext :
    κ → List (Option ApiInstance) → ResourceOperation → String → α
  CheckConsolePermission : α → α × Option ε
  CheckClientPermission : α → α × Option ε
  GetRequestContext : α → κ
  WithAuthContext : κ → α → κ
  ParseUserRole : κ → Int
  SubAccountUserRole : Int
  convertToErrCode : ε → Code
  Collect : BatchWriteResponse → Response → BatchWriteResponse

variable {κ α ε ν : Type}

/-- `ServerAuthAbility.CreateInstances`. -/
def ServerAuthAbility.CreateInstances (svr : ServerAuthAbility κ α ε ν) (ctx : κ)
    (reqs : List (Option ApiInstance)) (w : Served κ ν) : BatchWriteResponse × Served κ ν :=
  let authCtx := svr.collectInstanceAuthContext ctx reqs ResourceOperation.Create "CreateInstances"
  let checked := svr.CheckConsolePermission authCtx
  match checked.2 with
  | some err =>
    let resp := NewResponseWithMsg (svr.convertToErrCode err)
    let batchResp := NewBatchWriteResponse Code.ExecuteSuccess
    (svr.Collect batchResp resp, w)
  | none =>
    let ctx1 := svr.WithAuthContext (svr.GetRequestContext checked.1) checked.1
    w.invoke (ServerCall.CreateInstances ctx1 reqs) (svr.nextSvr.CreateInstances ctx1 reqs)

/-- `ServerAuthAbility.DeleteInstances`. -/
def ServerAuthAbility.DeleteInstances (svr : ServerAuthAbility κ α ε ν) (ctx : κ)
    (reqs : List (Option ApiInstance)) (w : Served κ ν) : BatchWriteResponse × Served κ ν :=
  let authCtx := svr.collectInstanceAuthContext ctx reqs ResourceOperation.Delete "DeleteInstances"
  let checked := svr.CheckConsolePermission authCtx
  match checked.2 with
  | some err =>
    let resp := NewResponseWithMsg (svr.convertToErrCode err)
    let batchResp := NewBatchWriteResponse Code.ExecuteSuccess
    (svr.Collect batchResp resp, w)
  | none =>
    let ctx1 := svr.WithAuthContext (svr.GetRequestContext checked.1) checked.1
    w.invoke (ServerCall.DeleteInstances ctx1 reqs) (svr.nextSvr.DeleteInstances ctx1 reqs)

/-- `ServerAuthAbility.DeleteInstancesByHost`: after the permission check, a caller with
the sub-account role is turned away. -/
def ServerAuthAbility.DeleteInstancesByHost (svr : ServerAuthAbility κ α ε ν) (ctx : κ)
    (reqs : List (Option ApiInstance)) (w : Served κ ν) : BatchWriteResponse × Served κ ν :=
  let authCtx :=
    svr.collectInstanceAuthContext ctx reqs ResourceOperation.Delete "DeleteInstancesByHost"
  let checked := svr.CheckConsolePermission authCtx
  match checked.2 with
  | some err => (NewBatchWriteResponse (svr.convertToErrCode err), w)
  | none =>
    let ctx1 := svr.WithAuthContext (svr.GetRequestContext checked.1) checked.1
    if svr.ParseUserRole ctx1 = svr.SubAccountUserRole then
      let ret := NewBatchWriteResponse Code.ExecuteSuccess
      (svr.Collect ret (NewResponse Code.NotAllowedAccess), w)
    else
      w.invoke (ServerCall.DeleteInstancesByHost ctx1 reqs)
        (svr.nextSvr.DeleteInstancesByHost ctx1 reqs)

/-- `ServerAuthAbility.UpdateInstances`. -/
def ServerAuthAbility.UpdateInstances (svr : ServerAuthAbility κ α ε ν) (ctx : κ)
    (reqs : List (Option ApiInstance)) (w : Served κ ν) : BatchWriteResponse × Served κ ν :=
  let authCtx := svr.collectInstanceAuthContext ctx reqs ResourceOperation.Modify "UpdateInstances"
  let checked := svr.CheckConsolePermission authCtx
  match checked.2 with
  | some err => (NewBatchWriteResponseWithMsg (svr.convertToErrCode err), w)
  | none =>
    let ctx1 := svr.WithAuthContext (svr.GetRequestContext checked.1) checked.1
    w.invoke (ServerCall.UpdateInstances ctx1 reqs) (svr.nextSvr.UpdateInstances ctx1 reqs)

/-- `ServerAuthAbility.UpdateInstancesIsolate`. -/
def ServerAuthAbility.UpdateInstancesIsolate (svr : ServerAuthAbility κ α ε ν) (ctx : κ)
    (reqs : List (Option ApiInstance)) (w : Served κ ν) : BatchWriteResponse × Served κ ν :=
  let authCtx :=
    svr.collectInstanceAuthContext ctx reqs ResourceOperation.Modify "UpdateInstancesIsolate"
  let checked := svr.CheckConsolePermission authCtx
  match checked.2 with
  | some err => (NewBatchWriteResponseWithMsg (svr.convertToErrCode err), w)
  | none =>
    let ctx1 := svr.WithAuthContext (svr.GetRequestContext checked.1) checked.1
    w.invoke (ServerCall.UpdateInstancesIsolate ctx1 reqs)
      (svr.nextSvr.UpdateInstancesIsolate ctx1 reqs)

/-- `ServerAuthAbility.GetInstances`; the auth context is collected with no request. -/
def ServerAuthAbility.GetInstances (svr : ServerAuthAbility κ α ε ν) (ctx : κ)
    (query : Metadata) (w : Served κ ν) : BatchQueryResponse × Served κ ν :=
  let authCtx := svr.collectInstanceAuthContext ctx [] ResourceOperation.Read "GetInstances"
  let checked := svr.CheckConsolePermission authCtx
  match checked.2 with
  | some err => (NewBatchQueryResponseWithMsg (svr.convertToErrCode err), w)
  | none =>
    let ctx1 := svr.WithAuthContext (svr.GetRequestContext checked.1) checked.1
    w.invoke (ServerCall.GetInstances ctx1 query) (svr.nextSvr.GetInstances ctx1 query)

/-- `ServerAuthAbility.GetInstancesCount`. -/
def ServerAuthAbility.GetInstancesCount (svr : ServerAuthAbility κ α ε ν) (ctx : κ)
    (w : Served κ ν) : BatchQueryResponse × Served κ ν :=
  let authCtx := svr.collectInstanceAuthContext ctx [] ResourceOperation.Read "GetInstancesCount"
  let checked := svr.CheckConsolePermission authCtx
  match checked.2 with
  | some err => (NewBatchQueryResponseWithMsg (svr.convertToErrCode err), w)
  | none =>
    let ctx1 := svr.WithAuthContext (svr.GetRequestContext checked.1) checked.1
    w.invoke (ServerCall.GetInstancesCount ctx1) (svr.nextSvr.GetInstancesCount ctx1)

/-- `ServerAuthAbility.GetInstanceLabels`. -/
def ServerAuthAbility.GetInstanceLabels (svr : ServerAuthAbility κ α ε ν) (ctx : κ)
    (query : Metadata) (w : Served κ ν) : Response × Served κ ν :=
  let authCtx := svr.collectInstanceAuthContext ctx [] ResourceOperation.Read "GetInstanceLabels"
  let checked := svr.CheckConsolePermission authCtx
  match checked.2 with
  | some err => (NewResponseWithMsg (svr.convertToErrCode err), w)
  | none =>
    let ctx1 := svr.WithAuthContext (svr.GetRequestContext checked.1) checked.1
    w.invoke (ServerCall.GetInstanceLabels ctx1 query) (svr.nextSvr.GetInstanceLabels ctx1 query)

/-- `ServerAuthAbility.RegisterInstance` (`client_v1.go`). -/
def ServerAuthAbility.RegisterInstance (svr : ServerAuthAbility κ α ε ν) (ctx : κ)
    (req : Option ApiInstance) (w : Served κ ν) : Response × Served κ ν :=
  let authCtx :=
    svr.collectClientInstanceAuthContext ctx [req] ResourceOperation.Create "RegisterInstance"
  let checked := svr.CheckClientPermission authCtx
  match checked.2 with
  | some err => (NewResponseWithMsg (svr.convertToErrCode err), w)
  | none =>
    let ctx1 := svr.WithAuthContext (svr.GetRequestContext checked.1) checked.1
    w.invoke (ServerCall.RegisterInstance ctx1 req) (svr.nextSvr.RegisterInstance ctx1 req)

/-- `ServerAuthAbility.DeregisterInstance` (`client_v1.go`); the operation it collects
the auth context for is `Create`, as in the source. -/
def ServerAuthAbility.DeregisterInstance (svr : ServerAuthAbility κ α ε ν) (ctx : κ)
    (req : Option ApiInstance) (w : Served κ ν) : Response × Served κ ν :=
  let authCtx :=
    svr.collectClientInstanceAuthContext ctx [req] ResourceOperation.Create "DeregisterInstance"
  let checked := svr.CheckClientPermission authCtx
  match checked.2 with
  | some err => (NewResponseWithMsg (svr.convertToErrCode err), w)
  | none =>
    let ctx1 := svr.WithAuthContext (svr.GetRequestContext checked.1) checked.1
    w.invoke (ServerCall.DeregisterInstance ctx1 req) (svr.nextSvr.DeregisterInstance ctx1 req)

/-- `ServerAuthAbility.UpdateInstance` (`client_v1.go`). -/
def ServerAuthAbility.UpdateInstance (svr : ServerAuthAbility κ α ε ν) (ctx : κ)
    (req : Option ApiInstance) (w : Served κ ν) : Response × Served κ ν :=
  let authCtx :=
    svr.collectClientInstanceAuthContext ctx [req] ResourceOperation.Modify "UpdateInstance"
  let checked := svr.CheckClientPermission authCtx
  match checked.2 with
  | some err => (NewResponseWithMsg (svr.convertToErrCode err), w)
  | none =>
    let ctx1 := svr.WithAuthContext (svr.GetRequestContext checked.1) checked.1
    w.invoke (ServerCall.UpdateInstance ctx1 req) (svr.nextSvr.UpdateInstance ctx1 req)

/-- `serverAuthAbility` of `service/instance_authability.go`, the older interceptor, with
what its `DeleteInstancesByHost` calls. `VerifyToken` hands back the acquire context as
the call leaves it and the error; `ParseUserRole` is `utils.ParseUserRole`,
`AdminUserRole` the constant of `model`; `Collect` is the method of the batch
response. -/
structure serverAuthAbility (κ α ε ν : Type) where
  targetServer : DiscoverServer κ ν
  collectInstanceAuthContext : κ → List (Option ApiInstance) → ResourceOperation → α
  VerifyToken : α → α × Option ε
  GetRequestContext : α → κ
  WithAuthContext : κ → α → κ
  ParseUserRole : κ → Int
  AdminUserRole : Int
  convertToErrCode : ε → Code
  Collect : BatchWriteResponse → Response → BatchWriteResponse

/-- `serverAuthAbility.DeleteInstancesByHost`: after the token check, every caller but
the admin is turned away. -/
def serverAuthAbility.DeleteInstancesByHost (svr : serverAuthAbility κ α ε ν) (ctx : κ)
    (reqs : List (Option ApiInstance)) (w : Served κ ν) : BatchWriteResponse × Served κ ν :=
  let authCtx := svr.collectInstanceAuthContext ctx reqs ResourceOperation.Delete
  let checked := svr.VerifyToken authCtx
  match checked.2 with
  | some err => (NewBatchWriteResponse (svr.convertToErrCode err), w)
  | none =>
    let ctx1 := svr.WithAuthContext (svr.GetRequestContext checked.1) checked.1
    if svr.ParseUserRole ctx1 ≠ svr.AdminUserRole then
      let ret := NewBatchWriteResponse Code.ExecuteSuccess
      (svr.Collect ret (NewResponse Code.NotAllowedAccess), w)
    else
      w.invoke (ServerCall.DeleteInstancesByHost ctx1 reqs)
        (svr.targetServer.DeleteInstancesByHost ctx1 reqs)

/-! ### Specification vocabulary for the interceptors -/

/-- What an interceptor method does with the outcome `checked` of its permission check.
On an error the result is `deny err` and the wrapped server is as before, so it was not
invoked. Otherwise the result is what `run`, the wrapped method on the forwarded
arguments, answers, the wrapped server is in the state `run` leaves, and `call` is the
one invocation added to the log. -/
def Guarded {ρ : Type} (checked : α × Option ε) (deny : ε → ρ) (call : ServerCall κ)
    (run : ν → ρ × ν) (w : Served κ ν) (out : ρ × Served κ ν) : Prop :=
  match checked.2 with
  | some err => out = (deny err, w)
  | none =>
    out.1 = (run w.inner).1 ∧ out.2.inner = (run w.inner).2 ∧
      out.2.invoked = w.invoked ++ [call]

/-- The context an interceptor forwards: the request context of the acquire context,
with the acquire context stored in it. -/
def ServerAuthAbility.forwarded (svr : ServerAuthAbility κ α ε ν) (authCtx : α) : κ :=
  svr.WithAuthContext (svr.GetRequestContext authCtx) authCtx

/-- The outcome of the console permission check of an interceptor method: the acquire
context collected for the requests, the operation and the method name, checked. -/
def ServerAuthAbility.consoleChecked (svr : ServerAuthAbility κ α ε ν) (ctx : κ)
    (reqs : List (Option ApiInstance)) (op : ResourceOperation) (method : String) :
    α × Option ε :=
  svr.CheckConsolePermission (svr.collectInstanceAuthContext ctx reqs op method)

/-- The outcome of the client permission check of an interceptor method. -/
def ServerAuthAbility.clientChecked (svr : ServerAuthAbility κ α ε ν) (ctx : κ)
    (reqs : List (Option ApiInstance)) (op : ResourceOperation) (method : String) :
    α × Option ε :=
  svr.CheckClientPermission (svr.collectClientInstanceAuthContext ctx reqs op method)

/-- The context a method forwards after its console permission check. -/
def ServerAuthAbility.consoleForwarded (svr : ServerAuthAbility κ α ε ν) (ctx : κ)
    (reqs : List (Option ApiInstance)) (op : ResourceOperation) (method : String) : κ :=
  svr.forwarded (svr.consoleChecked ctx reqs op method).1

/-- The context a method forwards after its client permission check. -/
def ServerAuthAbility.clientForwarded (svr : ServerAuthAbility κ α ε ν) (ctx : κ)
    (reqs : List (Option ApiInstance)) (op : ResourceOperation) (method : String) : κ :=
  svr.forwarded (svr.clientChecked ctx reqs op method).1

/-! ### A concrete interceptor -/

/-- A request context that carries the role of the caller. -/
structure RoleCtx where
  role : Int
  deriving DecidableEq, Repr

/-- A wrapped server that counts its invocations and answers `ExecuteSuccess`. -/
def countingServer : DiscoverServer RoleCtx Nat where
  CreateInstances _ _ n := (NewBatchWriteResponse Code.ExecuteSuccess, n + 1)
  DeleteInstances _ _ n := (NewBatchWriteResponse Code.ExecuteSuccess, n + 1)
  DeleteInstancesByHost _ _ n := (NewBatchWriteResponse Code.ExecuteSuccess, n + 1)
  UpdateInstances _ _ n := (NewBatchWriteResponse Code.ExecuteSuccess, n + 1)
  UpdateInstancesIsolate _ _ n := (NewBatchWriteResponse Code.ExecuteSuccess, n + 1)
  GetInstances _ _ n := ({ Code := Code.ExecuteSuccess }, n + 1)
  GetInstancesCount _ n := ({ Code := Code.ExecuteSuccess }, n + 1)
  GetInstanceLabels _ _ n := (NewResponse Code.ExecuteSuccess, n + 1)
  RegisterInstance _ _ n := (NewResponse Code.ExecuteSuccess, n + 1)
  DeregisterInstance _ _ n := (NewResponse Code.ExecuteSuccess, n + 1)
  UpdateInstance _ _ n := (NewResponse Code.ExecuteSuccess, n + 1)

/-- An interceptor over `countingServer` whose permission checks pass exactly when
`allow` is set. The acquire context is the request context; the roles are admin `0`,
owner `20` and sub-account `50`; `Collect` appends the response. -/
def demoAuth (allow : Bool) : ServerAuthAbility RoleCtx RoleCtx Unit Nat where
  nextSvr := countingServer
  collectInstanceAuthContext ctx _ _ _ := ctx
  collectClientInstanceAuthContext ctx _ _ _ := ctx
  CheckConsolePermission a := (a, if allow then none else some ())
  CheckClientPermission a := (a, if allow then none else some ())
  GetRequestContext a := a
  WithAuthContext ctx _ := ctx
  ParseUserRole ctx := ctx.role
  SubAccountUserRole := 50
  convertToErrCode _ := Code.NotAllowedAccess
  Collect batch resp :=
    { batch with Size := batch.Size + 1, Responses := batch.Responses ++ [resp] }

/-- The older interceptor over `countingServer`, with a token check that passes. -/
def demoLegacyAuth : serverAuthAbility RoleCtx RoleCtx Unit Nat where
  targetServer := countingServer
  collectInstanceAuthContext ctx _ _ := ctx
  VerifyToken a := (a, none)
  GetRequestContext a := a
  WithAuthContext ctx _ := ctx
  ParseUserRole ctx := ctx.role
  AdminUserRole := 0
  convertToErrCode _ := Code.NotAllowedAccess
  Collect batch resp :=
    { batch with Size := batch.Size + 1, Responses := batch.Responses ++ [resp] }

/-! ## The config-file-group interceptor

`config/interceptor/auth/config_file_group_authibility.go`. -/

/-- `apiconfig.ConfigFileGroup`, with the fields the interceptor reads and the one it
sets. `Metadata` is `none` for a nil map. -/
structure ConfigFileGroup where
  Id : Option Nat := none
  Name : Option String := none
  Namespace : Option String := none
  Comment : Option String := none
  Owner : Option String := none
  Metadata : Option Metadata := none
  Editable : Option Bool := none
  deriving DecidableEq

/-- `apiconfig.ConfigBatchQueryResponse`, with the groups it lists. -/
structure ConfigBatchQueryResponse where
  Code : Code
  Total : Nat := 0
  ConfigFileGroups : List ConfigFileGroup := []
  deriving DecidableEq

/-- `api.NewConfigBatchQueryResponse`. -/
def NewConfigBatchQueryResponse (code : Code) : ConfigBatchQueryResponse := { Code := code }

/-- `model.ResourceOpInfo`. -/
structure ResourceOpInfo where
  ResourceType : Int
  Namespace : String
  ResourceName : String
  ResourceID : String
  Operation : ResourceOperation
  deriving DecidableEq, Repr

/-- `ServerAuthability` of `config/interceptor/auth` with what `QueryConfigFileGroups`
calls outside the given sources: the wrapped config server, the auth checker, the
acquire context and the constant `model.MetaKey3RdPlatform`. -/
structure ServerAuthability (κ α ε ν : Type) where
  nextServerQueryConfigFileGroups : κ → Metadata → ν → ConfigBatchQueryResponse × ν
  collectConfigGroupAuthContext : κ → List ConfigFileGroup → ResourceOperation → String → α
  CheckConsolePermission : α → α × Option ε
  AllowResourceOperate : α → ResourceOpInfo → Bool
  GetOperation : α → ResourceOperation
  GetRequestContext : α → κ
  WithAuthContext : κ → α → κ
  ConvertToErrCode : ε → Code
  MetaKey3RdPlatform : String

/-- The `model.ResourceOpInfo` that `QueryConfigFileGroups` asks the policy about for one
group. -/
def ServerAuthability.opInfo (s : ServerAuthability κ α ε ν) (authCtx : α)
    (group : ConfigFileGroup) : ResourceOpInfo :=
  { ResourceType := ResourceType_ConfigGroups
    Namespace := strValue group.Namespace
    ResourceName := strValue group.Name
    ResourceID := toString (u32Value group.Id)
    Operation := s.GetOperation authCtx }

/-- The body of the loop of `QueryConfigFileGroups` for one group. -/
def ServerAuthability.markEditable (s : ServerAuthability κ α ε ν) (authCtx : α)
    (group : ConfigFileGroup) : ConfigFileGroup :=
  let editable := s.AllowResourceOperate authCtx (s.opInfo authCtx group)
  let editable := if (metaOf group.Metadata).lookup s.MetaKey3RdPlatform ≠ none then false
    else editable
  { group with Editable := some editable }

/-- `ServerAuthability.QueryConfigFileGroups`; the second component is the state of the
wrapped server. -/
def ServerAuthability.QueryConfigFileGroups (s : ServerAuthability κ α ε ν) (ctx : κ)
    (filter : Metadata) (inner : ν) : ConfigBatchQueryResponse × ν :=
  let authCtx := s.collectConfigGroupAuthContext ctx [] ResourceOperation.Read
    "QueryConfigFileGroups"
  let checked := s.CheckConsolePermission authCtx
  match checked.2 with
  | some err => (NewConfigBatchQueryResponse (s.ConvertToErrCode err), inner)
  | none =>
    let ctx1 := s.WithAuthContext (s.GetRequestContext checked.1) checked.1
    let resp := s.nextServerQueryConfigFileGroups ctx1 filter inner
    if resp.1.ConfigFileGroups.length ≠ 0 then
      ({ resp.1 with ConfigFileGroups := resp.1.ConfigFileGroups.map (s.markEditable checked.1) },
        resp.2)
    else resp

/-! ### Specification vocabulary and a concrete config server -/

/-- The group carries the metadata key of a third-party platform. -/
def ConfigFileGroup.Has3RdPlatform (group : ConfigFileGroup) (key : String) : Prop :=
  key ∈ metaOf group.Metadata

instance (group : ConfigFileGroup) (key : String) : Decidable (group.Has3RdPlatform key) := by
  unfold ConfigFileGroup.Has3RdPlatform
  infer_instance

/-- The outcome of the permission check of `QueryConfigFileGroups`. -/
def ServerAuthability.queryChecked (s : ServerAuthability κ α ε ν) (ctx : κ) : α × Option ε :=
  s.CheckConsolePermission
    (s.collectConfigGroupAuthContext ctx [] ResourceOperation.Read "QueryConfigFileGroups")

/-- What the wrapped `QueryConfigFileGroups` answers on the context the interceptor
forwards. -/
def ServerAuthability.innerQuery (s : ServerAuthability κ α ε ν) (ctx : κ) (filter : Metadata)
    (inner : ν) : ConfigBatchQueryResponse × ν :=
  s.nextServerQueryConfigFileGroups
    (s.WithAuthContext (s.GetRequestContext (s.queryChecked ctx).1) (s.queryChecked ctx).1)
    filter inner

/-- A group of namespace `default` with the given id, name and metadata. -/
def groupOf (id : Nat) (name : String) (md : Option Metadata) : ConfigFileGroup :=
  { Id := some id, Name := some name, Namespace := some "default", Metadata := md }

/-- An interceptor whose check passes, whose policy allows every group and whose wrapped
server lists an open group and one that a third-party platform manages. -/
def demoConfigAuth : ServerAuthability Unit Unit Unit Unit where
  nextServerQueryConfigFileGroups _ _ st :=
    ({ Code := Code.ExecuteSuccess, Total := 2,
       ConfigFileGroups :=
        [groupOf 1 "open" none,
         groupOf 2 "managed" (some (AList.singleton "internal-3rd-platform" "true"))] }, st)
  collectConfigGroupAuthContext _ _ _ _ := ()
  CheckConsolePermission a := (a, none)
  AllowResourceOperate _ _ := true
  GetOperation _ := ResourceOperation.Read
  GetRequestContext _ := ()
  WithAuthContext _ _ := ()
  ConvertToErrCode _ := Code.NotAllowedAccess
  MetaKey3RdPlatform := "internal-3rd-platform"

/-! ## The leader health checker

`plugin/healthchecker/leader/checker_leader.go`, with the request types of
`plugin/healthchecker.go`. -/

/-- `store.LeaderChangeEvent`. -/
structure LeaderChangeEvent where
  Key : String
  Leader : Bool
  LeaderHost : String
  deriving DecidableEq, Repr

/-- What the event hub hands to `OnEvent`: a `store.LeaderChangeEvent`, or a value of
another type. -/
inductive HubEvent
  | leaderChange (e : LeaderChangeEvent)
  | other
  deriving DecidableEq, Repr

/-- `RecordValue`, with the fields the checker fills and reads. -/
structure RecordValue where
  Server : String := ""
  CurTimeSec : Int := 0
  Count : Int := 0
  deriving DecidableEq, Repr

/-- `WriteBeatRecord`. -/
structure WriteBeatRecord where
  Record : RecordValue
  Key : String
  deriving DecidableEq, Repr

/-- `ReadBeatRecord`. -/
structure ReadBeatRecord where
  Record : RecordValue := {}
  Exist : Bool := false
  deriving DecidableEq, Repr

/-- `plugin.QueryRequest`. -/
structure QueryRequest where
  InstanceId : String := ""
  Host : String := ""
  Port : Nat := 0
  Healthy : Bool := false
  deriving DecidableEq, Repr

/-- `plugin.ReportRequest`. -/
structure ReportRequest extends QueryRequest where
  LocalHost : String := ""
  CurTimeSec : Int := 0
  Count : Int := 0
  deriving DecidableEq, Repr

/-- `plugin.CheckRequest`; `CurTimeSec` is the value its closure returns. -/
structure CheckRequest extends QueryRequest where
  ExpireDurationSec : Nat := 0
  CurTimeSec : Int := 0
  deriving DecidableEq, Repr

/-- `plugin.CheckResponse`. -/
structure CheckResponse where
  Healthy : Bool := false
  LastHeartbeatTimeSec : Int := 0
  StayUnchanged : Bool := false
  Regular : Bool := false
  deriving DecidableEq, Repr

/-- `plugin.QueryResponse`. -/
structure QueryResponse where
  Server : String := ""
  Exists : Bool := false
  LastHeartbeatSec : Int := 0
  Count : Int := 0
  deriving DecidableEq, Repr

/-- A `Peer` as the checker holds it: the host it answers `Host()` with, and a serial that
tells apart the peers made by successive `NewRemotePeerFunc` calls; the local peer has
serial `0`. -/
structure Peer where
  Host : String
  Serial : Nat := 0
  deriving DecidableEq, Repr

/-- A call the checker makes on a peer, with its outcome where it has one. -/
inductive PeerOp
  | Serve (p : Peer) (host : String) (port : Nat) (ok : Bool)
  | Close (p : Peer)
  | Clean (p : Peer)
  | Put (p : Peer) (record : WriteBeatRecord) (ok : Bool)
  | Get (p : Peer) (key : String) (ok : Bool)
  | Del (p : Peer) (key : String) (ok : Bool)
  deriving DecidableEq, Repr

/-- What the checker returns as `error`: its own `ErrorRedirectOnlyOnce`, an error handed
back by a peer, or the runtime panic of a method call on a nil `Peer`. -/
inductive CheckerError
  | ErrorRedirectOnlyOnce
  | peer (msg : String)
  | nilPeer
  deriving DecidableEq, Repr

/-- The peers and the constants of other packages, which lie outside the given sources.
`π` is the state of the peers (storage and connections); every method of `Peer` takes
the peer it is called on. `Clean p` is `p.Storage().Clean()`, `LocalPort` is
`utils.LocalPort` and `electionKey` is `store.ElectionKeySelfServiceChecker`. -/
structure PeerEnv (π : Type) where
  Serve : Peer → String → Nat → π → Option String × π
  Close : Peer → π → π
  Clean : Peer → π → π
  Put : Peer → WriteBeatRecord → π → Option String × π
  Get : Peer → String → π → Except String ReadBeatRecord × π
  Del : Peer → String → π → Option String × π
  LocalPort : Nat
  electionKey : String

/-- `uninitializeSignal`. -/
def uninitializeSignal : Int := 0

/-- `initializedSignal`. -/
def initializedSignal : Int := 1

/-- `sendResource`. -/
def sendResource : String := "leaderchecker"

/-- `LeaderHealthChecker`, with the world it acts on: the state of the peers, the calls
made on them (oldest first), the number of remote peers made so far and the retries that
`becomeFollower` has started, each with the event and the leader version it was started
for. `initializeFlag` is the field `initialize`. The counters are kept as integers:
`leaderVersion` starts at `0` and steps by one per election event, the times are Unix
seconds. -/
structure LeaderHealthChecker (π : Type) where
  initializeFlag : Int := uninitializeSignal
  leaderChangeTimeSec : Int := 0
  suspendTimeSec : Int := 0
  leader : Int := 0
  leaderVersion : Int := 0
  remote : Option Peer := none
  self : Peer
  peers : π
  ops : List PeerOp := []
  made : Nat := 0
  retries : List (LeaderChangeEvent × Int) := []

/-- The part of a `context.Context` the checker reads: the incoming gRPC metadata, `none`
when the context carries none. `context.Background()` is the default. -/
structure CheckerCtx where
  incoming : Option (AList (fun _ : String => List String)) := none

variable {π : Type}

/-- `isSendFromPeer`. -/
def isSendFromPeer (ctx : CheckerCtx) : Bool :=
  match ctx.incoming with
  | some md => decide (sendResource ∈ md)
  | none => false

/-- `LeaderHealthChecker.isInitialize`. -/
def LeaderHealthChecker.isInitialize (c : LeaderHealthChecker π) : Bool :=
  c.initializeFlag = initializedSignal

/-- `LeaderHealthChecker.isLeader`. -/
def LeaderHealthChecker.isLeader (c : LeaderHealthChecker π) : Bool := c.leader = 1

/-- `LeaderHealthChecker.findLeaderPeer`; `none` is the nil `Peer`. -/
def LeaderHealthChecker.findLeaderPeer (c : LeaderHealthChecker π) : Option Peer :=
  if c.isLeader then some c.self else c.remote

/-- `LeaderHealthChecker.SuspendTimeSec`. -/
def LeaderHealthChecker.SuspendTimeSec (c : LeaderHealthChecker π) : Int := c.suspendTimeSec

/-- `LeaderHealthChecker.LeaderChangeTimeSec`. -/
def LeaderHealthChecker.LeaderChangeTimeSec (c : LeaderHealthChecker π) : Int :=
  c.leaderChangeTimeSec

/-- The value `commontime.CurrentMillisecond() / 1000` when the clock reads `nowMs`; the
division of Go truncates. -/
def curSec (nowMs : Int) : Int := Int.tdiv nowMs 1000

/-- `LeaderHealthChecker.Suspend` at clock reading `nowMs`. -/
def LeaderHealthChecker.Suspend (c : LeaderHealthChecker π) (nowMs : Int) :
    LeaderHealthChecker π :=
  { c with suspendTimeSec := curSec nowMs }

/-- `LeaderHealthChecker.refreshLeaderChangeTimeSec` at clock reading `nowMs`. -/
def LeaderHealthChecker.refreshLeaderChangeTimeSec (c : LeaderHealthChecker π) (nowMs : Int) :
    LeaderHealthChecker π :=
  { c with leaderChangeTimeSec := curSec nowMs }

/-- `LeaderHealthChecker.skipCheck` at clock reading `nowMs`. -/
def LeaderHealthChecker.skipCheck (c : LeaderHealthChecker π) (nowMs : Int) (_key : String)
    (expireDurationSec : Int) : Bool :=
  if !c.isInitialize then true
  else
    let suspendTimeSec := c.SuspendTimeSec
    let localCurTimeSec := curSec nowMs
    if suspendTimeSec > 0 ∧ localCurTimeSec ≥ suspendTimeSec ∧
        localCurTimeSec - suspendTimeSec < expireDurationSec then true
    else
      let leaderChangeTimeSec := c.LeaderChangeTimeSec
      if leaderChangeTimeSec > 0 ∧ localCurTimeSec ≥ leaderChangeTimeSec ∧
          localCurTimeSec - leaderChangeTimeSec < expireDurationSec then true
      else false

/-- Record a call on a peer together with the state of the peers it leaves. -/
def LeaderHealthChecker.did (c : LeaderHealthChecker π) (op : PeerOp) (peers : π) :
    LeaderHealthChecker π :=
  { c with peers := peers, ops := c.ops ++ [op] }

/-- `LeaderHealthChecker.becomeLeader`. -/
def LeaderHealthChecker.becomeLeader (env : PeerEnv π) (c : LeaderHealthChecker π) :
    LeaderHealthChecker π :=
  let c1 :=
    match c.remote with
    | some remote =>
      { c.did (PeerOp.Close remote) (env.Close remote c.peers) with remote := none }
    | none => c
  { c1 with leader := 1, initializeFlag := initializedSignal }

/-- The tail of `becomeFollower`: make a remote peer, dial the leader and, when that
fails, start the retry. -/
def LeaderHealthChecker.dialLeader (env : PeerEnv π) (c : LeaderHealthChecker π)
    (e : LeaderChangeEvent) (leaderVersion : Int) : LeaderHealthChecker π :=
  let remoteLeader : Peer := { Host := e.LeaderHost, Serial := c.made + 1 }
  let served := env.Serve remoteLeader e.LeaderHost env.LocalPort c.peers
  let c1 := { c.did (PeerOp.Serve remoteLeader e.LeaderHost env.LocalPort served.1.isNone)
    served.2 with made := c.made + 1 }
  match served.1 with
  | some _ => { c1 with retries := c1.retries ++ [(e, leaderVersion)] }
  | none => { c1 with remote := some remoteLeader, leader := 0,
                      initializeFlag := initializedSignal }

/-- `LeaderHealthChecker.becomeFollower`. -/
def LeaderHealthChecker.becomeFollower (env : PeerEnv π) (c : LeaderHealthChecker π)
    (e : LeaderChangeEvent) (leaderVersion : Int) : LeaderHealthChecker π :=
  if e.LeaderHost = "" then c
  else
    match c.remote with
    | some remote =>
      if e.LeaderHost = remote.Host then { c with initializeFlag := initializedSignal }
      else
        let c1 :=
          if e.LeaderHost ≠ remote.Host then
            ({ c with remote := none } : LeaderHealthChecker π).did (PeerOp.Close remote)
              (env.Close remote c.peers)
          else c
        c1.dialLeader env e leaderVersion
    | none => c.dialLeader env e leaderVersion

/-- The body of the retry that `becomeFollower` starts when the dial fails, run after its
sleep. -/
def LeaderHealthChecker.retryBecomeFollower (env : PeerEnv π) (c : LeaderHealthChecker π)
    (e : LeaderChangeEvent) (leaderVersion : Int) : LeaderHealthChecker π :=
  let curVersion := c.leaderVersion
  if leaderVersion ≠ curVersion then c
  else c.becomeFollower env e leaderVersion

/-- `LeaderHealthChecker.OnEvent` at clock reading `nowMs`; the error it returns is
always nil. -/
def LeaderHealthChecker.OnEvent (env : PeerEnv π) (c : LeaderHealthChecker π) (nowMs : Int)
    (i : HubEvent) : LeaderHealthChecker π :=
  match i with
  | HubEvent.other => c
  | HubEvent.leaderChange e =>
    if e.Key ≠ env.electionKey then c
    else
      let c1 := { c with leaderVersion := c.leaderVersion + 1 }
      let c2 := { c1 with initializeFlag := uninitializeSignal }
      let curLeaderVersion := c2.leaderVersion
      let c3 :=
        if e.Leader then c2.becomeLeader env
        else
          let c4 := c2.becomeFollower env e curLeaderVersion
          c4.did (PeerOp.Clean c4.self) (env.Clean c4.self c4.peers)
      c3.refreshLeaderChangeTimeSec nowMs

/-- `LeaderHealthChecker.Report`. -/
def LeaderHealthChecker.Report (env : PeerEnv π) (c : LeaderHealthChecker π) (ctx : CheckerCtx)
    (request : ReportRequest) : Option CheckerError × LeaderHealthChecker π :=
  if isSendFromPeer ctx then (some CheckerError.ErrorRedirectOnlyOnce, c)
  else if !c.isInitialize then (none, c)
  else
    match c.findLeaderPeer with
    | none => (some CheckerError.nilPeer, c)
    | some responsible =>
      let record : WriteBeatRecord :=
        { Record :=
            { Server := responsible.Host
              CurTimeSec := request.CurTimeSec
              Count := request.Count }
          Key := request.InstanceId }
      let put := env.Put responsible record c.peers
      let c1 := c.did (PeerOp.Put responsible record put.1.isNone) put.2
      match put.1 with
      | some err => (some (CheckerError.peer err), c1)
      | none => (none, c1)

/-- `LeaderHealthChecker.Query`. -/
def LeaderHealthChecker.Query (env : PeerEnv π) (c : LeaderHealthChecker π) (ctx : CheckerCtx)
    (request : QueryRequest) : Except CheckerError QueryResponse × LeaderHealthChecker π :=
  if isSendFromPeer ctx then (Except.error CheckerError.ErrorRedirectOnlyOnce, c)
  else if !c.isInitialize then (Except.ok { LastHeartbeatSec := 0 }, c)
  else
    match c.findLeaderPeer with
    | none => (Except.error CheckerError.nilPeer, c)
    | some responsible =>
      let got := env.Get responsible request.InstanceId c.peers
      let c1 := c.did (PeerOp.Get responsible request.InstanceId got.1.toBool) got.2
      match got.1 with
      | Except.error err => (Except.error (CheckerError.peer err), c1)
      | Except.ok record =>
        (Except.ok
          { Server := responsible.Host
            LastHeartbeatSec := record.Record.CurTimeSec
            Count := record.Record.Count
            Exists := record.Exist }, c1)

/-- The part of `Check` after the query and the skip test: the verdict on the
heartbeat. -/
def checkVerdict (request : CheckRequest) (checkResp : CheckResponse)
    (lastHeartbeatTime : Int) : CheckResponse :=
  let curTimeSec := request.CurTimeSec
  if curTimeSec > lastHeartbeatTime ∧
      curTimeSec - lastHeartbeatTime ≥ (request.ExpireDurationSec : Int) then
    let checkResp := { checkResp with Healthy := false }
    if request.Healthy then checkResp
    else { checkResp with StayUnchanged := true }
  else
    let checkResp := { checkResp with Healthy := true }
    if !request.Healthy then checkResp
    else { checkResp with StayUnchanged := true }

/-- `LeaderHealthChecker.Check` at clock reading `nowMs`; the query runs on
`context.Background()`. -/
def LeaderHealthChecker.Check (env : PeerEnv π) (c : LeaderHealthChecker π) (nowMs : Int)
    (request : CheckRequest) : Except CheckerError CheckResponse × LeaderHealthChecker π :=
  match c.Query env {} request.toQueryRequest with
  | (Except.error err, c1) => (Except.error err, c1)
  | (Except.ok queryResp, c1) =>
    let lastHeartbeatTime := queryResp.LastHeartbeatSec
    let checkResp : CheckResponse := { LastHeartbeatTimeSec := lastHeartbeatTime }
    if c1.skipCheck nowMs request.InstanceId (request.ExpireDurationSec : Int) then
      (Except.ok { checkResp with StayUnchanged := true }, c1)
    else (Except.ok (checkVerdict request checkResp lastHeartbeatTime), c1)

/-- `LeaderHealthChecker.Delete`. -/
def LeaderHealthChecker.Delete (env : PeerEnv π) (c : LeaderHealthChecker π) (ctx : CheckerCtx)
    (key : String) : Option CheckerError × LeaderHealthChecker π :=
  if isSendFromPeer ctx then (some CheckerError.ErrorRedirectOnlyOnce, c)
  else
    match c.findLeaderPeer with
    | none => (some CheckerError.nilPeer, c)
    | some responsible =>
      let del := env.Del responsible key c.peers
      let c1 := c.did (PeerOp.Del responsible key del.1.isNone) del.2
      (del.1.map CheckerError.peer, c1)

/-! ### Specification vocabulary for the checker -/

/-- The incoming context carries the `sendResource` metadata tag. -/
def CarriesSendTag (ctx : CheckerCtx) : Prop :=
  ∃ md, ctx.incoming = some md ∧ sendResource ∈ md

/-- A `Suspend` is on record, taken at `s`, and the local time `t` lies in `s ≤ t < s + E`.
The field is `0` until the first `Suspend`, so a recorded time is positive. -/
def SuspendWindow (c : LeaderHealthChecker π) (t E : Int) : Prop :=
  0 < c.suspendTimeSec ∧ c.suspendTimeSec ≤ t ∧ t < c.suspendTimeSec + E

instance (c : LeaderHealthChecker π) (t E : Int) : Decidable (SuspendWindow c t E) := by
  unfold SuspendWindow
  infer_instance

/-- A leader change is on record, seen at `c`, and the local time `t` lies in
`c ≤ t < c + E`. The field is `0` until the first leader change. -/
def LeaderChangeWindow (c : LeaderHealthChecker π) (t E : Int) : Prop :=
  0 < c.leaderChangeTimeSec ∧ c.leaderChangeTimeSec ≤ t ∧ t < c.leaderChangeTimeSec + E

instance (c : LeaderHealthChecker π) (t E : Int) : Decidable (LeaderChangeWindow c t E) := by
  unfold LeaderChangeWindow
  infer_instance

/-- The remote peer, when there is one, has a host: `becomeFollower` dials only a leader
whose host is not empty. -/
def RemoteNamed (c : LeaderHealthChecker π) : Prop :=
  ∀ p, c.remote = some p → p.Host ≠ ""

/-! ### Peers in memory -/

/-- The state of the in-memory peers: the heartbeat records the leader stores, and the
hosts that do not answer. -/
structure MemPeers where
  beats : List (String × RecordValue) := []
  down : List String := []
  deriving DecidableEq, Repr

/-- In-memory peers: one storage that every peer reaches unless its host is down. -/
def memPeers : PeerEnv MemPeers where
  Serve _ host _ st := if host ∈ st.down then (some "dial failed", st) else (none, st)
  Close _ st := st
  Clean _ st := { st with beats := [] }
  Put p record st :=
    if p.Host ∈ st.down then (some "peer closed", st)
    else (none, { st with beats :=
      (record.Key, record.Record) :: st.beats.filter (fun b => b.1 ≠ record.Key) })
  Get p key st :=
    if p.Host ∈ st.down then (Except.error "peer closed", st)
    else
      match st.beats.lookup key with
      | some record => (Except.ok { Record := record, Exist := true }, st)
      | none => (Except.ok {}, st)
  Del p key st :=
    if p.Host ∈ st.down then (some "peer closed", st)
    else (none, { st with beats := st.beats.filter (fun b => b.1 ≠ key) })
  LocalPort := 8091
  electionKey := "polaris.checker"

/-- A checker that is the initialized leader and stores one heartbeat of instance `i-1`,
taken at second `100`. -/
def leaderChecker : LeaderHealthChecker MemPeers :=
  { initializeFlag := initializedSignal
    leader := 1
    self := { Host := "10.0.0.1" }
    peers := { beats := [("i-1", { Server := "10.0.0.1", CurTimeSec := 100, Count := 1 })] } }

/-- A checker that is an initialized follower of `10.0.0.2`, which does not answer, with
a `Suspend` on record at second `100`. -/
def followerChecker : LeaderHealthChecker MemPeers :=
  { initializeFlag := initializedSignal
    suspendTimeSec := 100
    remote := some { Host := "10.0.0.2", Serial := 1 }
    made := 1
    self := { Host := "10.0.0.1" }
    peers := { down := ["10.0.0.2"] } }

/-- A checker that is an initialized follower of `10.0.0.2`, which answers. -/
def followingChecker : LeaderHealthChecker MemPeers :=
  { initializeFlag := initializedSignal
    remote := some { Host := "10.0.0.2", Serial := 1 }
    made := 1
    self := { Host := "10.0.0.1" }
    peers := {} }

/-- A context that carries the `sendResource` tag, as a request forwarded by a peer
does. -/
def peerCtx : CheckerCtx := { incoming := some (AList.singleton sendResource [""]) }

/-! ## Specification vocabulary for the watermark of the strategy cache -/

/-- The Unix seconds `t` lie in the range in which `float64` holds every integer. -/
def ExactSeconds (t : Int) : Prop := t.natAbs < 2 ^ 53

instance (t : Int) : Decidable (ExactSeconds t) := by
  unfold ExactSeconds; infer_instance

/-- The running maximum of the last-modify time and the modify times of a batch. -/
def maxModifyTime (prev : Int) (batch : List StrategyDetail) : Int :=
  batch.foldl (fun m r => max m r.ModifyTime) prev

/-- A valid rule without principals and resources, modified at second 0. -/
def epochRule : StrategyDetail :=
  { ID := "rule-0", Principals := [], Resources := [], Valid := true, ModifyTime := 0 }

/-! ## Specification vocabulary for the health check of an update -/

/-- A request that carries a heartbeat check with the given TTL and leaves the enable
flag out. -/
def reqHeartbeat (ttl : Nat) : ApiInstance :=
  { HealthCheck := some
      { HcType := HealthCheckType.UNKNOWN, Heartbeat := some { Ttl := some ttl } } }

/-- A request that sets the enable flag to false. -/
def reqCheckOff : ApiInstance := { EnableHealthCheck := some false }

/-! ## Specification vocabulary for absent fields of an update -/

/-- The location has a non-empty region, zone or campus. -/
def HasPlace (l : Option Location) : Prop :=
  regionOf l ≠ "" ∨ zoneOf l ≠ "" ∨ campusOf l ≠ ""

instance (l : Option Location) : Decidable (HasPlace l) := by
  unfold HasPlace; infer_instance

/-- The request leaves out the eight plain fields other than the location. -/
def LeavesOutPlain (req : ApiInstance) : Prop :=
  req.Metadata = none ∧ req.Protocol = none ∧ req.Version = none ∧ req.Priority = none ∧
    req.Weight = none ∧ req.Healthy = none ∧ req.Isolate = none ∧ req.LogicSet = none

instance (req : ApiInstance) : Decidable (LeavesOutPlain req) := by
  unfold LeavesOutPlain; infer_instance

/-- A payload of a healthy instance without health checking. -/
def protoHealthy : ApiInstance := { Healthy := some true }

/-- A payload of an instance placed in a region. -/
def protoPlaced : ApiInstance :=
  { Protocol := some "grpc", Weight := some 100,
    Location := some { Region := some "south", Zone := none, Campus := none } }

/-! ### Runs of the checker -/

/-- The checker before its first leader-change event: `Initialize` sets the local peer
and leaves the election fields at their zero values. -/
def startChecker (self : Peer) (peers : π) : LeaderHealthChecker π :=
  { self := self, peers := peers }

/-- The checker as `OnEvent` hands it to `becomeLeader` or `becomeFollower`: the leader
version stepped and the initialize flag cleared. -/
def LeaderHealthChecker.nextElection (c : LeaderHealthChecker π) : LeaderHealthChecker π :=
  { c with leaderVersion := c.leaderVersion + 1, initializeFlag := uninitializeSignal }

/-- What moves the election fields of a checker: an event handed to `OnEvent`, or a retry
that `becomeFollower` has started waking up. -/
inductive CheckerStep
  | event (nowMs : Int) (i : HubEvent)
  | retry (e : LeaderChangeEvent) (leaderVersion : Int)
  deriving DecidableEq, Repr

/-- One step of a checker. A retry runs once: it is taken off the started retries when it
wakes up, and a retry that was never started does not run. -/
def LeaderHealthChecker.step (env : PeerEnv π) (c : LeaderHealthChecker π) :
    CheckerStep → LeaderHealthChecker π
  | CheckerStep.event nowMs i => c.OnEvent env nowMs i
  | CheckerStep.retry e leaderVersion =>
    if (e, leaderVersion) ∈ c.retries then
      ({ c with retries := c.retries.erase (e, leaderVersion) } :
        LeaderHealthChecker π).retryBecomeFollower env e leaderVersion
    else c

/-- The checker after a sequence of steps, each holding the lock from start to end. -/
def LeaderHealthChecker.run (env : PeerEnv π) (c : LeaderHealthChecker π)
    (steps : List CheckerStep) : LeaderHealthChecker π :=
  steps.foldl (fun c s => c.step env s) c

/-- A responsible peer exists: the leader flag is set and there is no remote peer, or the
leader flag is clear and there is a remote peer. -/
def HasResponsible (c : LeaderHealthChecker π) : Prop :=
  (c.leader = 1 ∧ c.remote = none) ∨ (c.leader = 0 ∧ c.remote ≠ none)

/-- What holds of the election fields in every run. A remote peer is kept only with the
leader flag clear; an initialized checker has its leader flag set or a remote peer; a
started retry is for a version already reached, and one for the current version names a
host, the same as every other such retry, and finds the checker either without remote
peer and uninitialized or following the host it names. -/
structure ElectionInvariant (c : LeaderHealthChecker π) : Prop where
  follower : c.remote ≠ none → c.leader = 0
  responsible : c.initializeFlag = initializedSignal → c.leader = 1 ∨ c.remote ≠ none
  retryVersion : ∀ e v, (e, v) ∈ c.retries → v ≤ c.leaderVersion
  retryHost : ∀ e v, (e, v) ∈ c.retries → v = c.leaderVersion →
    e.LeaderHost ≠ "" ∧
      ((c.remote = none ∧ c.initializeFlag ≠ initializedSignal) ∨
        ∃ p, c.remote = some p ∧ e.LeaderHost = p.Host)
  retrySame : ∀ e1 e2 v, (e1, v) ∈ c.retries → (e2, v) ∈ c.retries → v = c.leaderVersion →
    e1.LeaderHost = e2.LeaderHost

/-- A follower event of the election of `memPeers` that names `10.0.0.2` as leader. -/
def followEvent : LeaderChangeEvent :=
  { Key := "polaris.checker", Leader := false, LeaderHost := "10.0.0.2" }

/-- A checker at start on `10.0.0.1`, with `10.0.0.2` not answering. -/
def loneChecker : LeaderHealthChecker MemPeers :=
  startChecker { Host := "10.0.0.1" } { down := ["10.0.0.2"] }

/-- A leader event of the election of `memPeers`. -/
def leadEvent : LeaderChangeEvent :=
  { Key := "polaris.checker", Leader := true, LeaderHost := "10.0.0.1" }

/-- A run in which the named leader does not answer the dial nor the retry, after which
the checker is elected itself. -/
def loneRun : List CheckerStep :=
  [CheckerStep.event 1000 (HubEvent.leaderChange followEvent),
    CheckerStep.retry followEvent 1,
    CheckerStep.event 3000 (HubEvent.leaderChange leadEvent)]

/-! ## The query filters of `GetInstances`

`preGetInstances` of `service/instance.go`, with its three tables. -/

/-- `InstanceFilterAttributes`: the keys of the table. -/
def InstanceFilterAttributes : List String :=
  ["service", "namespace", "host", "port", "keys", "values", "protocol", "version",
    "health_status", "healthy", "isolate", "weight", "logic_set", "cmdb_region", "cmdb_zone",
    "cmdb_idc", "priority", "offset", "limit"]

/-- `InsFilter2toreAttr`. -/
def InsFilter2toreAttr : Metadata :=
  (AList.singleton "healthy" "health_status").insert "service" "name"

/-- `NotInsFilterAttr`: the keys of the table, all bound to `true`. -/
def NotInsFilterAttr : List String := ["keys", "values"]

/-- `api.NewBatchQueryResponse`. -/
def NewBatchQueryResponse (code : Code) : BatchQueryResponse := { Code := code }

/-- The closure `bool2Str` of `preGetInstances`, on the query map. -/
def bool2Str (query : Metadata) (key : String) : Metadata :=
  match query.lookup key with
  | none => query
  | some val =>
    if val = "true" then query.insert key "1"
    else if val = "false" then query.insert key "0"
    else query

/-- The query map as the last loop of `preGetInstances` finds it: `health_status` is
deleted when `healthy` is given too, then the three boolean fields are rewritten. -/
def preparedQuery (query : Metadata) : Metadata :=
  let query1 :=
    if "health_status" ∈ query ∧ "healthy" ∈ query then query.erase "health_status" else query
  bool2Str (bool2Str (bool2Str query1 "health_status") "healthy") "isolate"

/-- The body of the last loop of `preGetInstances` for one entry: the filters with the
entry added, or the code of the error response. The message of the response is not
kept. -/
def filterEntry (filters : Metadata) (key value : String) : Except Code Metadata :=
  if key ∉ InstanceFilterAttributes then Except.error Code.InvalidParameter
  else if value = "" then Except.error Code.InvalidParameter
  else
    let key1 :=
      match InsFilter2toreAttr.lookup key with
      | some attr => attr
      | none => key
    if key1 ∉ NotInsFilterAttr then Except.ok (filters.insert key1 value)
    else Except.ok filters

/-- The last loop of `preGetInstances`; `order` is the order in which the `range` over
the query map hands out the keys. -/
def filterEntries (query : Metadata) : List String → Metadata → Except Code Metadata
  | [], filters => Except.ok filters
  | key :: rest, filters =>
    match query.lookup key with
    | none => filterEntries query rest filters
    | some value =>
      match filterEntry filters key value with
      | Except.error code => Except.error code
      | Except.ok filters1 => filterEntries query rest filters1

/-- `preGetInstances`: the filters, the metadata filter and the error response, each
`none` for nil. `order` is the order in which the `range` over the query map hands out
the keys. -/
def preGetInstances (order : List String) (query : Metadata) :
    Option Metadata × Option Metadata × Option BatchQueryResponse :=
  if query.entries.length = 0 then
    (none, none, some (NewBatchQueryResponse Code.EmptyQueryParameter))
  else
    let serviceIsAvail := decide ("service" ∈ query)
    let namespaceIsAvail := decide ("namespace" ∈ query)
    let hostIsAvail := decide ("host" ∈ query)
    if !(serviceIsAvail || namespaceIsAvail || hostIsAvail) then
      (none, none, some (NewBatchQueryResponse Code.InvalidQueryInsParameter))
    else
      let metaKeyAvail := decide ("keys" ∈ query)
      let metaValueAvail := decide ("values" ∈ query)
      if metaKeyAvail ≠ metaValueAvail then
        (none, none, some (NewBatchQueryResponseWithMsg Code.InvalidQueryInsParameter))
      else
        let metaFilter : Option Metadata :=
          if metaKeyAvail then
            some (AList.singleton (strValue (query.lookup "keys")) (strValue (query.lookup "values")))
          else none
        match filterEntries (preparedQuery query) order ∅ with
        | Except.error code => (none, metaFilter, some (NewBatchQueryResponseWithMsg code))
        | Except.ok filters => (some filters, metaFilter, none)

/-! ### Specification vocabulary for the query filters -/

/-- An order in which a `range` over the query map can hand out its keys. -/
def RangesQuery (query : Metadata) (order : List String) : Prop :=
  order.Perm query.keys

instance (query : Metadata) (order : List String) : Decidable (RangesQuery query order) := by
  unfold RangesQuery
  infer_instance

/-- The text `bool2Str` leaves for a value. -/
def boolText (val : String) : String :=
  if val = "true" then "1" else if val = "false" then "0" else val

/-- The name under which the store knows a query key. -/
def storeAttr (key : String) : String :=
  if key = "service" then "name" else if key = "healthy" then "health_status" else key

/-- The value of a query entry as the filters hold it: the three boolean fields are
rewritten. -/
def storeValue (key val : String) : String :=
  if key = "health_status" ∨ key = "healthy" ∨ key = "isolate" then boolText val else val

/-- The entry `health_status` of a query that gives `healthy` too, which `preGetInstances`
drops. -/
def Overruled (query : Metadata) (key : String) : Prop :=
  key = "health_status" ∧ "healthy" ∈ query

instance (query : Metadata) (key : String) : Decidable (Overruled query key) := by
  unfold Overruled
  infer_instance

/-- The shape of a query that the claim names: not empty, one of `service`, `namespace`
and `host` given, `keys` and `values` both given or neither. -/
def WellShaped (query : Metadata) : Prop :=
  query.entries ≠ [] ∧ ("service" ∈ query ∨ "namespace" ∈ query ∨ "host" ∈ query) ∧
    ("keys" ∈ query ↔ "values" ∈ query)

/-- Every key of the query is listed in `InstanceFilterAttributes`. -/
def KnownKeys (query : Metadata) : Prop :=
  ∀ key val, query.lookup key = some val → key ∈ InstanceFilterAttributes

/-- No value of the query is empty. -/
def NoEmptyValue (query : Metadata) : Prop :=
  ∀ key val, query.lookup key = some val → val ≠ ""

/-- No value of the query is empty, but for a `health_status` that is overruled. -/
def NoEmptyValueKept (query : Metadata) : Prop :=
  ∀ key val, query.lookup key = some val → ¬ Overruled query key → val ≠ ""

/-- A query for the healthy instances of service `A` that also carries an empty
`health_status`. -/
def queryHealthyA : Metadata :=
  ((AList.singleton "health_status" "").insert "healthy" "true").insert "service" "A"

/-- The entry under `key`, if the query has one, passes the two tests of the last loop:
the key is listed and the value is not empty. -/
def PassesEntry (query : Metadata) (key : String) : Prop :=
  ∀ val, query.lookup key = some val → key ∈ InstanceFilterAttributes ∧ val ≠ ""

/-! ## The routing rule cache

`cache/service/router_rule.go`. The bucket, the rule and route types and the conversions
of `common/model` lie outside the given sources; they are parameters. -/

/-- `model.RoutingConfig`, a V1 routing row; its id is the id of the service it belongs
to, `ModifyTime` is kept as its Unix seconds. -/
structure RoutingConfig where
  ID : String
  InBounds : String := ""
  OutBounds : String := ""
  Revision : String := ""
  Valid : Bool := true
  ModifyTime : Int := 0
  deriving DecidableEq, Repr

/-- `routingLevel`, with the three constants the cache names. -/
inductive routingLevel
  | level1RoutingV2
  | level2RoutingV2
  | level3RoutingV2
  deriving DecidableEq, Repr

/-- A Go `map[routingLevel][]*model.ExtendRouterConfig`: the slice under each key, `none`
where the map has no such key. -/
abbrev LevelRules (ρ : Type) := routingLevel → Option (List ρ)

/-- The index expression `entries[level]`: the nil slice where the key is absent. -/
def LevelRules.rulesAt {ρ : Type} (entries : LevelRules ρ) (level : routingLevel) : List ρ :=
  (entries level).getD []

/-- `apitraffic.Routing`, with the fields the cache fills; `τ` is `*apitraffic.RouteRule`
and `υ` is `*apitraffic.Route`. -/
structure Routing (τ υ : Type) where
  Namespace : String
  Service : String
  Inbounds : List υ := []
  Outbounds : List υ := []
  Rules : List τ := []
  Revision : String

/-- A call the cache makes on its bucket, and a conversion it attempts. -/
inductive RouterOp (ρ : Type)
  | deleteV1 (id : String)
  | convertV1toV2 (rule : RoutingConfig)
  | saveV1 (entry : RoutingConfig) (v2rule : List ρ)
  deriving DecidableEq

/-- What the cache calls outside the given sources. `β` is the state of the
`routeRuleBucket`, `ω` the state of the service cache and the store, `ρ` is
`*model.ExtendRouterConfig`. `sortSlice less s` is the slice `sort.Slice(s, less)` leaves,
`NewV2Revision` the value `utils.NewV2Revision()` hands out, `clearExtendInfo` the
assignment `ExtendInfo = nil` on a route. -/
structure RouterEnv (β ω ρ τ υ : Type) where
  deleteV1 : String → β → β
  saveV1 : RoutingConfig → List ρ → β → β
  listEnableRules : β → String → String → Bool → LevelRules ρ
  cacheGetServiceByID : ω → String → Option Service
  storeGetServiceByID : ω → String → Except String (Option Service)
  ConvertRoutingV1ToExtendV2 : String → String → RoutingConfig → Except String (List ρ × List ρ)
  ToApi : ρ → Except String τ
  GetRevision : τ → String
  CompositeComputeRevision : List String → Except String String
  NewV2Revision : String
  CompareRoutingV2 : ρ → ρ → Bool
  BuildV1RoutesFromV2 : String → String → List ρ → List υ × List υ × List String
  sortSlice : (ρ → ρ → Bool) → List ρ → List ρ
  clearExtendInfo : υ → υ

/-- The fields of `routingConfigCache` with the world it acts on. `lastMtime` is what
`LastMtime(rc.Name())` of the embedded base cache answers (Unix seconds), `ext` the state
of the service cache and the store, `ops` the bucket calls and conversions made so far,
oldest first. -/
structure routingConfigCache (β ω ρ : Type) where
  bucket : β
  pendingV1RuleIds : AList (fun _ : String => RoutingConfig)
  lastMtime : Int := 0
  ext : ω
  ops : List (RouterOp ρ) := []

variable {β ω ρ τ υ : Type}

/-- The part of `convertV1toV2` after the service is found. The text of the alias error
is not kept. -/
def convertForService (env : RouterEnv β ω ρ τ υ) (svc : Service) (rule : RoutingConfig) :
    Bool × Option (List ρ) × Option String :=
  if svc.IsAlias then (false, none, some "svc is alias")
  else
    match env.ConvertRoutingV1ToExtendV2 svc.Name svc.Namespace rule with
    | Except.error err => (false, none, some err)
    | Except.ok (inRules, outRules) => (true, some (inRules ++ outRules), none)

/-- `routingConfigCache.convertV1toV2`: the three results of the Go function. -/
def convertV1toV2 (env : RouterEnv β ω ρ τ υ) (ext : ω) (rule : RoutingConfig) :
    Bool × Option (List ρ) × Option String :=
  match env.cacheGetServiceByID ext rule.ID with
  | some svc => convertForService env svc rule
  | none =>
    match env.storeGetServiceByID ext rule.ID with
    | Except.error err => (false, none, some err)
    | Except.ok none => (true, none, none)
    | Except.ok (some s) => convertForService env s rule

/-- The body of the first loop of `setRoutingConfigV1`, on the cache and the running
`lastMtimeV1`. -/
def setRoutingConfigV1Row (env : RouterEnv β ω ρ τ υ) (acc : routingConfigCache β ω ρ × Int)
    (entry : RoutingConfig) : routingConfigCache β ω ρ × Int :=
  if entry.ID = "" then acc
  else
    let lastMtimeV1 := if entry.ModifyTime > acc.2 then entry.ModifyTime else acc.2
    if !entry.Valid then
      ({ acc.1 with
          bucket := env.deleteV1 entry.ID acc.1.bucket
          ops := acc.1.ops ++ [RouterOp.deleteV1 entry.ID] }, lastMtimeV1)
    else
      ({ acc.1 with pendingV1RuleIds := acc.1.pendingV1RuleIds.insert entry.ID entry },
        lastMtimeV1)

/-- The body of the second loop of `setRoutingConfigV1` for the key `id`. -/
def retryPendingV1 (env : RouterEnv β ω ρ τ υ) (rc : routingConfigCache β ω ρ) (id : String) :
    routingConfigCache β ω ρ :=
  match rc.pendingV1RuleIds.lookup id with
  | none => rc
  | some entry =>
    let res := convertV1toV2 env rc.ext entry
    let rc1 := { rc with ops := rc.ops ++ [RouterOp.convertV1toV2 entry] }
    if res.2.2 ≠ none then rc1
    else if !res.1 then rc1
    else
      match res.2.1 with
      | some v2rule =>
        { rc1 with
          pendingV1RuleIds := rc1.pendingV1RuleIds.erase id
          bucket := env.saveV1 entry v2rule rc1.bucket
          ops := rc1.ops ++ [RouterOp.saveV1 entry v2rule] }
      | none => rc1

/-- `routingConfigCache.setRoutingConfigV1`. `order` is the order in which the `range`
over `pendingV1RuleIds` hands out the keys. The second component is the time written to
`lastMtimes[rc.Name()]` in Unix seconds, `none` when nothing is written. -/
def setRoutingConfigV1 (env : RouterEnv β ω ρ τ υ) (order : List String)
    (rc : routingConfigCache β ω ρ) (cs : List RoutingConfig) :
    routingConfigCache β ω ρ × Option Int :=
  if cs.length = 0 then (rc, none)
  else
    let first := cs.foldl (setRoutingConfigV1Row env) (rc, rc.lastMtime)
    let second := order.foldl (retryPendingV1 env) first.1
    (second, some first.2)

/-- `routingConfigCache.ListRouterRule`. `order` is the order in which the `range` over
the map of `listEnableRules` hands out the levels. -/
def ListRouterRule (env : RouterEnv β ω ρ τ υ) (order : List routingLevel)
    (rc : routingConfigCache β ω ρ) (service ns : String) : List ρ :=
  let routerRules := env.listEnableRules rc.bucket service ns true
  order.foldl (fun ret level => ret ++ routerRules.rulesAt level) []

/-- The inner loop of `GetRouterConfigV2`: convert the items in turn, stop at the first
error. -/
def toApiRules (env : RouterEnv β ω ρ τ υ) :
    List ρ → List τ → Except String (List τ)
  | [], rulesV2 => Except.ok rulesV2
  | item :: items, rulesV2 =>
    match env.ToApi item with
    | Except.error err => Except.error err
    | Except.ok entry => toApiRules env items (rulesV2 ++ [entry])

/-- The outer loop of `GetRouterConfigV2` over the levels in `order`. -/
def toApiLevels (env : RouterEnv β ω ρ τ υ) (routerRules : LevelRules ρ) :
    List routingLevel → List τ → Except String (List τ)
  | [], rulesV2 => Except.ok rulesV2
  | level :: levels, rulesV2 =>
    match toApiRules env (routerRules.rulesAt level) rulesV2 with
    | Except.error err => Except.error err
    | Except.ok rulesV2 => toApiLevels env routerRules levels rulesV2

/-- The revision of a response: `CompositeComputeRevision`, or a fresh one when that
fails. -/
def composeRevision (env : RouterEnv β ω ρ τ υ) (revisions : List String) : String :=
  match env.CompositeComputeRevision revisions with
  | Except.ok revision => revision
  | Except.error _ => env.NewV2Revision

/-- `routingConfigCache.GetRouterConfigV2`; `order` as in `ListRouterRule`. The answer
`nil, nil` is `Except.ok none`. -/
def GetRouterConfigV2 (env : RouterEnv β ω ρ τ υ) (order : List routingLevel)
    (rc : routingConfigCache β ω ρ) (id service ns : String) :
    Except String (Option (Routing τ υ)) :=
  if id = "" ∧ service = "" ∧ ns = "" then Except.ok none
  else
    let routerRules := env.listEnableRules rc.bucket service ns true
    match toApiLevels env routerRules order [] with
    | Except.error err => Except.error err
    | Except.ok rulesV2 =>
      let revisions := rulesV2.map env.GetRevision
      Except.ok (some
        { Namespace := ns
          Service := service
          Rules := rulesV2
          Revision := composeRevision env revisions })

/-- `routingConfigCache.convertV2toV1`. -/
def convertV2toV1 (env : RouterEnv β ω ρ τ υ) (entries : LevelRules ρ)
    (service ns : String) : List υ × List υ × List String :=
  let level1 := env.sortSlice env.CompareRoutingV2 (entries.rulesAt routingLevel.level1RoutingV2)
  let level2 := env.sortSlice env.CompareRoutingV2 (entries.rulesAt routingLevel.level2RoutingV2)
  let level3 := env.sortSlice env.CompareRoutingV2 (entries.rulesAt routingLevel.level3RoutingV2)
  let built1 := env.BuildV1RoutesFromV2 service ns level1
  let built2 := env.BuildV1RoutesFromV2 service ns level2
  let built3 := env.BuildV1RoutesFromV2 service ns level3
  let revisions := built1.2.2 ++ built2.2.2 ++ built3.2.2
  let inRoutes := built1.1 ++ built2.1 ++ built3.1
  let outRoutes := built1.2.1 ++ built2.2.1 ++ built3.2.1
  (inRoutes, outRoutes, revisions)

/-- `formatRoutingResponseV1`. -/
def formatRoutingResponseV1 (env : RouterEnv β ω ρ τ υ) (ret : Routing τ υ) : Routing τ υ :=
  { ret with
    Inbounds := ret.Inbounds.map env.clearExtendInfo
    Outbounds := ret.Outbounds.map env.clearExtendInfo }

/-- `routingConfigCache.GetRouterConfig`. -/
def GetRouterConfig (env : RouterEnv β ω ρ τ υ) (rc : routingConfigCache β ω ρ)
    (id service ns : String) : Except String (Option (Routing τ υ)) :=
  if id = "" ∧ service = "" ∧ ns = "" then Except.ok none
  else
    let routerRules := env.listEnableRules rc.bucket service ns false
    let converted := convertV2toV1 env routerRules service ns
    Except.ok (some (formatRoutingResponseV1 env
      { Namespace := ns
        Service := service
        Inbounds := converted.1
        Outbounds := converted.2.1
        Revision := composeRevision env converted.2.2 }))

/-! ### Specification vocabulary for the routing rule cache -/

/-- The effect of a recorded call on the bucket; a conversion leaves the bucket alone. -/
def RouterOp.run (env : RouterEnv β ω ρ τ υ) : RouterOp ρ → β → β
  | RouterOp.deleteV1 id, bucket => env.deleteV1 id bucket
  | RouterOp.convertV1toV2 _, bucket => bucket
  | RouterOp.saveV1 entry v2rule, bucket => env.saveV1 entry v2rule bucket

/-- The bucket after the recorded calls, oldest first. -/
def replayOps (env : RouterEnv β ω ρ τ υ) (ops : List (RouterOp ρ)) (bucket : β) : β :=
  ops.foldl (fun b op => op.run env b) bucket

/-- The call is a `deleteV1`. -/
def RouterOp.IsDeleteV1 : RouterOp ρ → Bool
  | RouterOp.deleteV1 _ => true
  | _ => false

/-- An order in which a `range` over the map can hand out its keys: every key of the map
once. -/
def RangesLevels (entries : LevelRules ρ) (order : List routingLevel) : Prop :=
  order.Nodup ∧ ∀ level, level ∈ order ↔ entries level ≠ none

/-- An order in which a `range` over the pending rules can hand out their ids. -/
def RangesPending (pending : AList (fun _ : String => RoutingConfig)) (order : List String) :
    Prop :=
  order.Perm pending.keys

instance (pending : AList (fun _ : String => RoutingConfig)) (order : List String) :
    Decidable (RangesPending pending order) := by
  unfold RangesPending
  infer_instance

/-- The cache after the first loop of `setRoutingConfigV1`, over whose pending rules the
second loop ranges. -/
def afterRows (env : RouterEnv β ω ρ τ υ) (rc : routingConfigCache β ω ρ)
    (cs : List RoutingConfig) : routingConfigCache β ω ρ :=
  (cs.foldl (setRoutingConfigV1Row env) (rc, rc.lastMtime)).1

/-- The slice `out` is `inp` sorted by `less`, as `sort.Slice` leaves it: the same
elements, none placed after one it is less than. -/
def SortedCopy (less : ρ → ρ → Bool) (out inp : List ρ) : Prop :=
  out.Perm inp ∧ out.Pairwise (fun a b => less b a = false)

/-- The comparison tells any two different elements of the slice apart. -/
def TotalOn (less : ρ → ρ → Bool) (l : List ρ) : Prop :=
  ∀ a ∈ l, ∀ b ∈ l, less a b = false → less b a = false → a = b

/-! ### A routing rule cache in memory -/

/-- A V2 rule of the in-memory bucket. -/
structure MemRule where
  ID : String
  Priority : Nat
  Level : routingLevel
  deriving DecidableEq, Repr

/-- A bucket in memory: the rules converted from each V1 id; `listEnableRules` hands out
every rule of the bucket under its level. The service cache is cold and the store knows
the services of the world. A V1 row converts to one inbound rule of level 3. -/
def memRouter : RouterEnv (List (String × List MemRule)) (List Service) MemRule String String where
  deleteV1 id bucket := bucket.filter (fun e => e.1 ≠ id)
  saveV1 entry v2rule bucket := (entry.ID, v2rule) :: bucket.filter (fun e => e.1 ≠ entry.ID)
  listEnableRules bucket _ _ _ := fun level =>
    some ((bucket.flatMap (fun e => e.2)).filter (fun rule => rule.Level = level))
  cacheGetServiceByID _ _ := none
  storeGetServiceByID world id := Except.ok (world.find? (fun svc => svc.ID = id))
  ConvertRoutingV1ToExtendV2 _ _ rule :=
    Except.ok ([{ ID := rule.ID, Priority := 0, Level := routingLevel.level3RoutingV2 }], [])
  ToApi rule := Except.ok rule.ID
  GetRevision entry := entry
  CompositeComputeRevision revisions := Except.ok (String.join revisions)
  NewV2Revision := "fresh"
  CompareRoutingV2 a b := decide (a.Priority < b.Priority)
  BuildV1RoutesFromV2 _ _ rules := (rules.map (fun rule => rule.ID), [], rules.map (fun rule => rule.ID))
  sortSlice less rules := rules.insertionSort (fun a b => less b a = false)
  clearExtendInfo route := route

/-- A level-1 rule. -/
def ruleA : MemRule := { ID := "a", Priority := 1, Level := routingLevel.level1RoutingV2 }

/-- A level-2 rule. -/
def ruleB : MemRule := { ID := "b", Priority := 0, Level := routingLevel.level2RoutingV2 }

/-- A second level-1 rule, which `CompareRoutingV2` puts before `ruleA`. -/
def ruleC : MemRule := { ID := "c", Priority := 0, Level := routingLevel.level1RoutingV2 }

/-- A cache whose bucket holds `ruleA` and `ruleB`. -/
def leveledCache : routingConfigCache (List (String × List MemRule)) (List Service) MemRule :=
  { bucket := [("svc-1", [ruleA]), ("svc-2", [ruleB])], pendingV1RuleIds := ∅, ext := [] }

/-- The V1 row of service `default/A`. -/
def rowA : RoutingConfig := { ID := "default/A", ModifyTime := 10 }

/-- A tombstone of the V1 row of service `default/A`. -/
def tombstoneA : RoutingConfig := { ID := "default/A", Valid := false, ModifyTime := 20 }

/-- A V1 row of a service the store does not know. -/
def rowZ : RoutingConfig := { ID := "default/Z", ModifyTime := 30 }

/-- The V2 rule the in-memory router converts `rowA` to. -/
def ruleOfA : MemRule :=
  { ID := "default/A", Priority := 0, Level := routingLevel.level3RoutingV2 }

/-- A cache in which `rowA` is pending from a refresh that did not find its service; by
now the store knows `serviceA`. -/
def pendingCache : routingConfigCache (List (String × List MemRule)) (List Service) MemRule :=
  { bucket := [], pendingV1RuleIds := AList.singleton "default/A" rowA, lastMtime := 10,
    ext := [serviceA] }

/-- A map of levels that holds `ruleA` and `ruleC` under level 1 and `ruleB` under
level 2. -/
def levelsAC : LevelRules MemRule
  | routingLevel.level1RoutingV2 => some [ruleA, ruleC]
  | routingLevel.level2RoutingV2 => some [ruleB]
  | routingLevel.level3RoutingV2 => some []

/-- The map `levelsAC` with level 1 stored the other way round. -/
def levelsCA : LevelRules MemRule
  | routingLevel.level1RoutingV2 => some [ruleC, ruleA]
  | routingLevel.level2RoutingV2 => some [ruleB]
  | routingLevel.level3RoutingV2 => some []

/-- The conversion of `entry` succeeds with the V2 rules `rules`: no error, `ok`, and a
result that is not nil. -/
def ConvertsTo (env : RouterEnv β ω ρ τ υ) (ext : ω) (entry : RoutingConfig)
    (rules : List ρ) : Prop :=
  convertV1toV2 env ext entry = (true, some rules, none)

/-! ## Specification vocabulary for the conversion to `float64` -/

/-- The magnitude `float64` holds for a magnitude `m` from `2^53` on: the 53 leading bits
of `m`, rounded to nearest with ties to even, at the scale of `m`. -/
def roundMagnitude (m : Nat) : Nat :=
  let e := Nat.log2 m - 52
  let q := m / 2 ^ e
  let r := m % 2 ^ e
  let half := 2 ^ (e - 1)
  let q1 := if half < r ∨ (r = half ∧ q % 2 = 1) then q + 1 else q
  q1 * 2 ^ e

/-- The seconds `t` are a value `float64` holds: the conversion hands them back. -/
def HeldByFloat64 (t : Int) : Prop := float64OfInt t = t

/-- A valid rule without principals and resources, modified at second `2^53 + 1`. -/
def farRule : StrategyDetail :=
  { ID := "rule-far", Principals := [], Resources := [], Valid := true, ModifyTime := 2 ^ 53 + 1 }

/-! ## A batch controller in memory -/

/-- A batch controller in memory, open for creates: it stores the instance it is handed
under the service id it is handed, and knows no instance to delete. -/
def memBatch : BatchCtrl MemState where
  CreateInstanceOpen := true
  DeleteInstanceOpen := false
  AsyncCreateInstance st svcId ins _ := (Except.ok (), st.put { Proto := ins, ServiceID := svcId })
  AsyncDeleteInstance st _ _ := (Except.error Code.NotFoundResource, st)

/-- The environment `staleCacheEnv` with the batch controller `memBatch`, so that creates
go down the batched path. -/
def batchedStaleEnv : Env MemState := { staleCacheEnv with bc := some memBatch }

/-! ## Rules of one priority -/

/-- A third level-1 rule, of the same priority as `ruleC`. -/
def ruleD : MemRule := { ID := "d", Priority := 0, Level := routingLevel.level1RoutingV2 }

/-- A map of levels that holds `ruleC` and `ruleD` under level 1. -/
def levelsCD : LevelRules MemRule
  | routingLevel.level1RoutingV2 => some [ruleC, ruleD]
  | routingLevel.level2RoutingV2 => some []
  | routingLevel.level3RoutingV2 => some []

/-- The map `levelsCD` with level 1 stored the other way round. -/
def levelsDC : LevelRules MemRule
  | routingLevel.level1RoutingV2 => some [ruleD, ruleC]
  | routingLevel.level2RoutingV2 => some []
  | routingLevel.level3RoutingV2 => some []

/-! # Theorems -/

/-! ## The keys `"%d_%s"` are injective -/

theorem digitChar_spec (d : Nat) (h : d < 10) :
    Nat.digitChar d ≠ '_' ∧ Nat.digitChar d ≠ '-' ∧ digitVal (Nat.digitChar d) = d := by
  interval_cases d <;> decide

/-- Decimal printing with an accumulator: the printed prefix has no separator or sign
character and decodes to the printed number. -/
theorem toDigitsCore_spec (fuel : Nat) : ∀ (n : Nat) (ds : List Char), n < fuel →
    ∃ pre : List Char, Nat.toDigitsCore 10 fuel n ds = pre ++ ds ∧ pre ≠ [] ∧
      (∀ c ∈ pre, c ≠ '_' ∧ c ≠ '-') ∧
      ∀ a : Nat, pre.foldl (fun acc c => 10 * acc + digitVal c) a = a * 10 ^ pre.length + n := by
  induction fuel with
  | zero => intro n ds h; omega
  | succ fuel ih =>
    intro n ds h
    have hd := digitChar_spec (n % 10) (Nat.mod_lt _ (by decide))
    unfold Nat.toDigitsCore
    by_cases h0 : n / 10 = 0
    · refine ⟨[Nat.digitChar (n % 10)], by simp [h0], by simp, ?_, ?_⟩
      · intro c hc
        simp only [List.mem_singleton] at hc
        subst hc
        exact ⟨hd.1, hd.2.1⟩
      · intro a
        simp only [List.foldl_cons, List.foldl_nil, List.length_singleton, hd.2.2]
        omega
    · have hlt : n / 10 < fuel := by omega
      obtain ⟨pre, hpre, _, hchars, hval⟩ := ih (n / 10) (Nat.digitChar (n % 10) :: ds) hlt
      refine ⟨pre ++ [Nat.digitChar (n % 10)], by simp [h0, hpre], by simp, ?_, ?_⟩
      · intro c hc
        rcases List.mem_append.1 hc with hc | hc
        · exact hchars c hc
        · simp only [List.mem_singleton] at hc
          subst hc
          exact ⟨hd.1, hd.2.1⟩
      · intro a
        simp only [List.foldl_append, hval, List.foldl_cons, List.foldl_nil, hd.2.2,
          List.length_append, List.length_singleton, pow_succ]
        have := Nat.div_add_mod n 10
        nlinarith [this]

theorem toDigits_spec (n : Nat) :
    Nat.toDigits 10 n ≠ [] ∧ (∀ c ∈ Nat.toDigits 10 n, c ≠ '_' ∧ c ≠ '-') ∧
      (Nat.toDigits 10 n).foldl (fun acc c => 10 * acc + digitVal c) 0 = n := by
  obtain ⟨pre, hpre, hne, hchars, hval⟩ := toDigitsCore_spec (n + 1) n [] (Nat.lt_succ_self n)
  have h : Nat.toDigits 10 n = pre := by simp [Nat.toDigits, hpre]
  rw [h]
  exact ⟨hne, hchars, by simpa using hval 0⟩

theorem toDigits_injective {n m : Nat} (h : Nat.toDigits 10 n = Nat.toDigits 10 m) : n = m := by
  have hn := (toDigits_spec n).2.2
  have hm := (toDigits_spec m).2.2
  rw [h] at hn
  exact hn.symm.trans hm

theorem toString_int_data (a : Int) : (toString a).data = intChars a := by
  cases a with
  | ofNat n => rfl
  | negSucc n => rfl

theorem intChars_no_sep (a : Int) : '_' ∉ intChars a := by
  cases a with
  | ofNat n =>
    intro h
    exact ((toDigits_spec n).2.1 _ h).1 rfl
  | negSucc n =>
    intro h
    simp only [intChars, List.mem_cons] at h
    rcases h with h | h
    · exact absurd h (by decide)
    · exact ((toDigits_spec (n + 1)).2.1 _ h).1 rfl

theorem intChars_injective {a b : Int} (h : intChars a = intChars b) : a = b := by
  cases a with
  | ofNat n =>
    cases b with
    | ofNat m => exact congrArg Int.ofNat (toDigits_injective h)
    | negSucc m =>
      exfalso
      simp only [intChars] at h
      have hm : '-' ∈ Nat.toDigits 10 n := by rw [h]; exact List.mem_cons_self _ _
      exact ((toDigits_spec n).2.1 _ hm).2 rfl
  | negSucc n =>
    cases b with
    | ofNat m =>
      exfalso
      simp only [intChars] at h
      have hm : '-' ∈ Nat.toDigits 10 m := by rw [← h]; exact List.mem_cons_self _ _
      exact ((toDigits_spec m).2.1 _ hm).2 rfl
    | negSucc m =>
      simp only [intChars, List.cons.injEq, true_and] at h
      have := toDigits_injective h
      have hnm : n = m := by omega
      rw [hnm]

theorem append_sep_inj {c : Char} : ∀ (A A' R R' : List Char), c ∉ A → c ∉ A' →
    A ++ c :: R = A' ++ c :: R' → A = A' ∧ R = R' := by
  intro A
  induction A with
  | nil =>
    intro A' R R' _ hA' h
    cases A' with
    | nil => simpa using h
    | cons x xs =>
      simp only [List.nil_append, List.cons_append, List.cons.injEq] at h
      exact absurd (h.1 ▸ List.mem_cons_self _ _) hA'
  | cons y ys ih =>
    intro A' R R' hA hA' h
    cases A' with
    | nil =>
      simp only [List.nil_append, List.cons_append, List.cons.injEq] at h
      exact absurd (h.1 ▸ List.mem_cons_self _ _) hA
    | cons x xs =>
      simp only [List.cons_append, List.cons.injEq] at h
      obtain ⟨rfl, h2⟩ := h
      have := ih xs R R' (fun hm => hA (List.mem_cons_of_mem _ hm))
        (fun hm => hA' (List.mem_cons_of_mem _ hm)) h2
      exact ⟨by rw [this.1], this.2⟩

/-- The key `"%d_%s"` determines the number and the string it was built from. -/
theorem fmtKey_inj (a b : Int) (x y : String)
    (h : toString a ++ "_" ++ x = toString b ++ "_" ++ y) : a = b ∧ x = y := by
  have hd := congrArg String.data h
  simp only [String.data_append, toString_int_data, List.append_assoc] at hd
  simp only [List.singleton_append] at hd
  obtain ⟨h1, h2⟩ := append_sep_inj _ _ _ _ (intChars_no_sep a) (intChars_no_sep b) hd
  exact ⟨intChars_injective h1, String.ext h2⟩

theorem resKey_inj {r r' : StrategyResource} (h : resKey r = resKey r') : r = r' := by
  obtain ⟨h1, h2⟩ := fmtKey_inj _ _ _ _ h
  cases r; cases r'; simp_all

theorem principalKey_inj {p p' : Principal} (h : principalKey p = principalKey p') : p = p' := by
  obtain ⟨h1, h2⟩ := fmtKey_inj _ _ _ _ h
  cases p; cases p'; simp_all

/-! ## Reverse-index writes -/

theorem linked_writeSet (m : SyncMap SyncSet) (key val : String) (isDel : Bool) (k s : String) :
    Linked (writeSet m key val isDel) k s ↔
      if isDel then Linked m k s ∧ ¬(k = key ∧ s = val) else Linked m k s ∨ (k = key ∧ s = val) := by
  unfold writeSet Linked
  cases isDel with
  | true =>
    simp only [if_true]
    cases hm : m key with
    | none =>
      by_cases hk : k = key
      · subst hk; simp [hm]
      · simp [hk]
    | some values =>
      by_cases hk : k = key
      · subst hk; simp [SyncMap.Store, hm, SyncSet.Remove, List.mem_filter]
      · simp [SyncMap.Store, hk]
  | false =>
    simp only [Bool.false_eq_true, if_false]
    cases hm : m key with
    | none =>
      by_cases hk : k = key
      · subst hk; simp [SyncMap.Store, hm, SyncSet.Add]
      · simp [SyncMap.Store, hk]
    | some values =>
      by_cases hk : k = key
      · subst hk
        by_cases hv : val ∈ values
        · simp only [hm, SyncMap.Store, if_true, SyncSet.Add, hv, Option.getD_some, true_and]
          constructor
          · intro h; exact Or.inl h
          · rintro (h | h)
            · exact h
            · rw [h]; exact hv
        · simp [hm, SyncMap.Store, SyncSet.Add, hv]
      · simp [hm, SyncMap.Store, hk]

theorem linked_operateLink (sc : strategyCache) (t : Int) (r id : String) (del : Bool)
    (T : Int) (hT : IndexedType T) (k s : String) :
    Linked (resIdx (operateLink sc t r id del) T) k s ↔
      if del then Linked (resIdx sc T) k s ∧ ¬(t = T ∧ k = r ∧ s = id)
      else Linked (resIdx sc T) k s ∨ (t = T ∧ k = r ∧ s = id) := by
  unfold operateLink resIdx
  simp only [IndexedType, ResourceType_Namespaces, ResourceType_Services,
    ResourceType_ConfigGroups] at *
  rcases hT with rfl | rfl | rfl
  · by_cases h0 : t = 0
    · subst h0
      simp only [if_true, linked_writeSet, true_and]
    · by_cases h1 : t = 1
      · subst h1; cases del <;> simp
      · by_cases h2 : t = 2
        · subst h2; cases del <;> simp
        · cases del <;> simp [h0, h1, h2]
  · by_cases h0 : t = 0
    · subst h0; cases del <;> simp
    · by_cases h1 : t = 1
      · subst h1
        simp [linked_writeSet]
      · by_cases h2 : t = 2
        · subst h2; cases del <;> simp
        · cases del <;> simp [h0, h1, h2]
  · by_cases h0 : t = 0
    · subst h0; cases del <;> simp
    · by_cases h1 : t = 1
      · subst h1; cases del <;> simp
      · by_cases h2 : t = 2
        · subst h2
          simp [linked_writeSet]
        · cases del <;> simp [h0, h1, h2]

theorem operateLink_frame (sc : strategyCache) (t : Int) (r id : String) (del : Bool) :
    (operateLink sc t r id del).strategys = sc.strategys ∧
    (operateLink sc t r id del).uid2Strategy = sc.uid2Strategy ∧
    (operateLink sc t r id del).groupid2Strategy = sc.groupid2Strategy ∧
    (operateLink sc t r id del).lastMtime = sc.lastMtime ∧
    (operateLink sc t r id del).userCache = sc.userCache := by
  unfold operateLink
  split_ifs <;> simp

theorem linked_foldl_operateLink (items : List StrategyResource) (id : String) (del : Bool)
    (T : Int) (hT : IndexedType T) (k s : String) : ∀ sc : strategyCache,
    Linked (resIdx (items.foldl (fun c x => operateLink c x.ResType x.ResID id del) sc) T) k s ↔
      if del then Linked (resIdx sc T) k s ∧ ¬(s = id ∧ (⟨T, k⟩ : StrategyResource) ∈ items)
      else Linked (resIdx sc T) k s ∨ (s = id ∧ (⟨T, k⟩ : StrategyResource) ∈ items) := by
  induction items with
  | nil => intro sc; cases del <;> simp
  | cons x xs ih =>
    intro sc
    rw [List.foldl_cons, ih, linked_operateLink _ _ _ _ _ _ hT]
    have hx : (⟨T, k⟩ : StrategyResource) = x ↔ (x.ResType = T ∧ k = x.ResID) := by
      cases x; simp only [StrategyResource.mk.injEq]
      constructor
      · rintro ⟨rfl, rfl⟩; exact ⟨rfl, rfl⟩
      · rintro ⟨rfl, rfl⟩; exact ⟨rfl, rfl⟩
    cases del
    · simp only [Bool.false_eq_true, if_false, List.mem_cons, hx]
      tauto
    · simp only [if_true, List.mem_cons, hx]
      tauto

theorem foldl_operateLink_frame (items : List StrategyResource) (id : String) (del : Bool) :
    ∀ sc : strategyCache,
    (items.foldl (fun c x => operateLink c x.ResType x.ResID id del) sc).strategys = sc.strategys ∧
    (items.foldl (fun c x => operateLink c x.ResType x.ResID id del) sc).uid2Strategy
      = sc.uid2Strategy ∧
    (items.foldl (fun c x => operateLink c x.ResType x.ResID id del) sc).groupid2Strategy
      = sc.groupid2Strategy ∧
    (items.foldl (fun c x => operateLink c x.ResType x.ResID id del) sc).lastMtime
      = sc.lastMtime ∧
    (items.foldl (fun c x => operateLink c x.ResType x.ResID id del) sc).userCache
      = sc.userCache := by
  induction items with
  | nil => intro sc; simp
  | cons x xs ih =>
    intro sc
    rw [List.foldl_cons]
    obtain ⟨h1, h2, h3, h4, h5⟩ := ih (operateLink sc x.ResType x.ResID id del)
    obtain ⟨g1, g2, g3, g4, g5⟩ := operateLink_frame sc x.ResType x.ResID id del
    exact ⟨h1.trans g1, h2.trans g2, h3.trans g3, h4.trans g4, h5.trans g5⟩

theorem mem_delRes {x : StrategyResource} {old : StrategyDetailCache}
    {l : List StrategyResource} :
    x ∈ delRes old l ↔ x ∈ old.StrategyDetail.Resources ∧ x ∉ l := by
  unfold delRes
  rw [List.mem_filter, decide_eq_true_eq]
  constructor
  · rintro ⟨h1, h2⟩
    exact ⟨h1, fun h => h2 (List.mem_map.2 ⟨x, h, rfl⟩)⟩
  · rintro ⟨h1, h2⟩
    refine ⟨h1, fun h => h2 ?_⟩
    obtain ⟨y, hy, hk⟩ := List.mem_map.1 h
    rw [← resKey_inj hk]; exact hy

theorem retractResources_frame (sc : strategyCache) (rule : StrategyDetail) :
    (retractResources sc rule).strategys = sc.strategys ∧
    (retractResources sc rule).uid2Strategy = sc.uid2Strategy ∧
    (retractResources sc rule).groupid2Strategy = sc.groupid2Strategy ∧
    (retractResources sc rule).lastMtime = sc.lastMtime ∧
    (retractResources sc rule).userCache = sc.userCache := by
  unfold retractResources
  cases sc.strategys rule.ID with
  | none => exact ⟨rfl, rfl, rfl, rfl, rfl⟩
  | some old => exact foldl_operateLink_frame _ _ _ _

theorem handlerResourceRule_frame (sc : strategyCache) (rule : StrategyDetail) :
    (handlerResourceRule sc rule).strategys = sc.strategys ∧
    (handlerResourceRule sc rule).uid2Strategy = sc.uid2Strategy ∧
    (handlerResourceRule sc rule).groupid2Strategy = sc.groupid2Strategy ∧
    (handlerResourceRule sc rule).lastMtime = sc.lastMtime ∧
    (handlerResourceRule sc rule).userCache = sc.userCache := by
  unfold handlerResourceRule
  obtain ⟨h1, h2, h3, h4, h5⟩ := foldl_operateLink_frame rule.Resources rule.ID (!rule.Valid)
    (retractResources sc rule)
  obtain ⟨g1, g2, g3, g4, g5⟩ := retractResources_frame sc rule
  exact ⟨h1.trans g1, h2.trans g2, h3.trans g3, h4.trans g4, h5.trans g5⟩

theorem linked_retractResources (sc : strategyCache) (rule : StrategyDetail)
    (T : Int) (hT : IndexedType T) (k s : String) :
    Linked (resIdx (retractResources sc rule) T) k s ↔
      Linked (resIdx sc T) k s ∧
        ¬(s = rule.ID ∧ ∃ old, sc.strategys rule.ID = some old ∧
          (⟨T, k⟩ : StrategyResource) ∈ old.StrategyDetail.Resources ∧
          (⟨T, k⟩ : StrategyResource) ∉ rule.Resources) := by
  unfold retractResources
  cases sc.strategys rule.ID with
  | none => simp
  | some old =>
    simp only
    rw [linked_foldl_operateLink _ _ _ _ hT]
    simp [mem_delRes]

/-- One rule of the resource pass: when the links of the rule's id agree with the
forward map beforehand, they become the resources of the incoming rule if it is valid
and nothing if it is not; the links of other ids are untouched. -/
theorem linked_handlerResourceRule (sc : strategyCache) (rule : StrategyDetail)
    (T : Int) (hT : IndexedType T) (k s : String)
    (hinv : Linked (resIdx sc T) k rule.ID ↔
      ∃ old, sc.strategys rule.ID = some old ∧
        (⟨T, k⟩ : StrategyResource) ∈ old.StrategyDetail.Resources) :
    Linked (resIdx (handlerResourceRule sc rule) T) k s ↔
      if s = rule.ID then rule.Valid = true ∧ (⟨T, k⟩ : StrategyResource) ∈ rule.Resources
      else Linked (resIdx sc T) k s := by
  unfold handlerResourceRule
  rw [linked_foldl_operateLink _ _ _ _ hT, linked_retractResources _ _ _ hT]
  by_cases hs : s = rule.ID
  · rw [hs]
    simp only [if_true, true_and, hinv]
    cases rule.Valid
    · simp only [Bool.not_false, if_true, Bool.false_eq_true, false_and, iff_false]
      rintro ⟨⟨⟨old, h1, h2⟩, h3⟩, h4⟩
      exact h3 ⟨old, h1, h2, h4⟩
    · simp only [Bool.not_true, Bool.false_eq_true, if_false, true_and]
      constructor
      · rintro (⟨⟨old, h1, h2⟩, h3⟩ | h)
        · by_contra hn
          exact h3 ⟨old, h1, h2, hn⟩
        · exact h
      · intro h; exact Or.inr h
  · cases rule.Valid <;> simp [hs]

theorem handlerResourceStrategy_frame (batch : List StrategyDetail) : ∀ sc : strategyCache,
    (handlerResourceStrategy sc batch).strategys = sc.strategys ∧
    (handlerResourceStrategy sc batch).uid2Strategy = sc.uid2Strategy ∧
    (handlerResourceStrategy sc batch).groupid2Strategy = sc.groupid2Strategy ∧
    (handlerResourceStrategy sc batch).lastMtime = sc.lastMtime ∧
    (handlerResourceStrategy sc batch).userCache = sc.userCache := by
  induction batch with
  | nil => intro sc; exact ⟨rfl, rfl, rfl, rfl, rfl⟩
  | cons rule rest ih =>
    intro sc
    obtain ⟨h1, h2, h3, h4, h5⟩ := ih (handlerResourceRule sc rule)
    obtain ⟨g1, g2, g3, g4, g5⟩ := handlerResourceRule_frame sc rule
    exact ⟨h1.trans g1, h2.trans g2, h3.trans g3, h4.trans g4, h5.trans g5⟩

/-- The resource pass over a batch with distinct ids: the links of a batch rule's id
become the resources of that rule if it is valid and nothing otherwise; the links of
ids outside the batch are untouched. -/
theorem linked_handlerResourceStrategy (T : Int) (hT : IndexedType T) (k s : String)
    (batch : List StrategyDetail) : ∀ sc : strategyCache,
    (batch.map (fun r => r.ID)).Nodup →
    (∀ rule ∈ batch, (Linked (resIdx sc T) k rule.ID ↔
      ∃ old, sc.strategys rule.ID = some old ∧
        (⟨T, k⟩ : StrategyResource) ∈ old.StrategyDetail.Resources)) →
    (Linked (resIdx (handlerResourceStrategy sc batch) T) k s ↔
      match batch.find? (fun r => r.ID = s) with
      | some rule => rule.Valid = true ∧ (⟨T, k⟩ : StrategyResource) ∈ rule.Resources
      | none => Linked (resIdx sc T) k s) := by
  induction batch with
  | nil => intro sc _ _; simp [handlerResourceStrategy]
  | cons rule rest ih =>
    intro sc hnd hinv
    rw [List.map_cons, List.nodup_cons] at hnd
    have hstep : ∀ s', Linked (resIdx (handlerResourceRule sc rule) T) k s' ↔
        if s' = rule.ID then rule.Valid = true ∧ (⟨T, k⟩ : StrategyResource) ∈ rule.Resources
        else Linked (resIdx sc T) k s' := fun s' =>
      linked_handlerResourceRule sc rule T hT k s' (hinv rule (List.mem_cons_self _ _))
    have hinv' : ∀ r ∈ rest, (Linked (resIdx (handlerResourceRule sc rule) T) k r.ID ↔
        ∃ old, (handlerResourceRule sc rule).strategys r.ID = some old ∧
          (⟨T, k⟩ : StrategyResource) ∈ old.StrategyDetail.Resources) := by
      intro r hr
      have hne : r.ID ≠ rule.ID := by
        intro h
        exact hnd.1 (h ▸ List.mem_map.2 ⟨r, hr, rfl⟩)
      rw [hstep, if_neg hne, (handlerResourceRule_frame sc rule).1]
      exact hinv r (List.mem_cons_of_mem _ hr)
    have := ih (handlerResourceRule sc rule) hnd.2 hinv'
    show Linked (resIdx (handlerResourceStrategy (handlerResourceRule sc rule) rest) T) k s ↔ _
    rw [this, List.find?_cons]
    by_cases hs : rule.ID = s
    · have hnone : rest.find? (fun r => decide (r.ID = s)) = none := by
        rw [List.find?_eq_none]
        intro r hr
        simp only [decide_eq_true_eq]
        intro h
        exact hnd.1 (hs ▸ h ▸ List.mem_map.2 ⟨r, hr, rfl⟩)
      simp only [hnone, hs, decide_True, hstep]
      simp [hs.symm]
    · simp only [hs, decide_False]
      cases rest.find? (fun r => decide (r.ID = s)) with
      | some r => rfl
      | none =>
        simp only [hstep]
        rw [if_neg (fun h => hs h.symm)]

theorem linked_removePrincipalLink (sc : strategyCache) (p : Principal) (rule : StrategyDetail)
    (u : Bool) (k s : String) :
    Linked (prIdx (removePrincipalLink sc p rule) u) k s ↔
      Linked (prIdx sc u) k s ∧ ¬(s = rule.ID ∧ FiledUnder p u k) := by
  unfold removePrincipalLink prIdx FiledUnder
  by_cases hp : p.PrincipalRole = PrincipalUser
  · cases u
    · simp [hp, linked_writeSet]
    · simp [hp, linked_writeSet]; tauto
  · cases u
    · simp [hp, linked_writeSet]; tauto
    · simp [hp, linked_writeSet]

theorem linked_addPrincipalLink (sc : strategyCache) (p : Principal) (rule : StrategyDetail)
    (u : Bool) (k s : String) :
    Linked (prIdx (addPrincipalLink sc p rule) u) k s ↔
      Linked (prIdx sc u) k s ∨ (s = rule.ID ∧ FiledUnder p u k) := by
  unfold addPrincipalLink prIdx FiledUnder
  by_cases hp : p.PrincipalRole = PrincipalUser
  · cases u
    · simp [hp, linked_writeSet]
    · simp [hp, linked_writeSet]; tauto
  · cases u
    · simp [hp, linked_writeSet]; tauto
    · simp [hp, linked_writeSet]

theorem SameButPrincipalLinks.refl (a : strategyCache) : SameButPrincipalLinks a a :=
  ⟨rfl, rfl, rfl, rfl, rfl, rfl⟩

theorem SameButPrincipalLinks.trans {a b c : strategyCache} (h : SameButPrincipalLinks a b)
    (g : SameButPrincipalLinks b c) : SameButPrincipalLinks a c :=
  ⟨h.1.trans g.1, h.2.1.trans g.2.1, h.2.2.1.trans g.2.2.1, h.2.2.2.1.trans g.2.2.2.1,
    h.2.2.2.2.1.trans g.2.2.2.2.1, h.2.2.2.2.2.trans g.2.2.2.2.2⟩

theorem removePrincipalLink_frame (sc : strategyCache) (p : Principal) (rule : StrategyDetail) :
    SameButPrincipalLinks (removePrincipalLink sc p rule) sc := by
  unfold removePrincipalLink SameButPrincipalLinks
  split_ifs <;> simp

theorem addPrincipalLink_frame (sc : strategyCache) (p : Principal) (rule : StrategyDetail) :
    SameButPrincipalLinks (addPrincipalLink sc p rule) sc := by
  unfold addPrincipalLink SameButPrincipalLinks
  split_ifs <;> simp

theorem foldl_frame {α : Type} (f : strategyCache → α → strategyCache)
    (hf : ∀ c x, SameButPrincipalLinks (f c x) c) (items : List α) :
    ∀ sc : strategyCache, SameButPrincipalLinks (items.foldl f sc) sc := by
  induction items with
  | nil => intro sc; exact SameButPrincipalLinks.refl sc
  | cons x xs ih => intro sc; exact (ih (f sc x)).trans (hf sc x)

theorem linked_foldl_removePrincipalLink (items : List Principal) (rule : StrategyDetail)
    (u : Bool) (k s : String) : ∀ sc : strategyCache,
    Linked (prIdx (items.foldl (fun c p => removePrincipalLink c p rule) sc) u) k s ↔
      Linked (prIdx sc u) k s ∧ ¬(s = rule.ID ∧ ∃ p ∈ items, FiledUnder p u k) := by
  induction items with
  | nil => intro sc; simp
  | cons x xs ih =>
    intro sc
    rw [List.foldl_cons, ih, linked_removePrincipalLink]
    have hx : (∃ p ∈ x :: xs, FiledUnder p u k) ↔
        FiledUnder x u k ∨ ∃ p ∈ xs, FiledUnder p u k := by simp
    rw [hx]
    generalize (∃ p ∈ xs, FiledUnder p u k) = Q
    tauto

theorem linked_foldl_addPrincipalLink (items : List Principal) (rule : StrategyDetail)
    (u : Bool) (k s : String) : ∀ sc : strategyCache,
    Linked (prIdx (items.foldl (fun c p => addPrincipalLink c p rule) sc) u) k s ↔
      Linked (prIdx sc u) k s ∨ (s = rule.ID ∧ ∃ p ∈ items, FiledUnder p u k) := by
  induction items with
  | nil => intro sc; simp
  | cons x xs ih =>
    intro sc
    rw [List.foldl_cons, ih, linked_addPrincipalLink]
    have hx : (∃ p ∈ x :: xs, FiledUnder p u k) ↔
        FiledUnder x u k ∨ ∃ p ∈ xs, FiledUnder p u k := by simp
    rw [hx]
    generalize (∃ p ∈ xs, FiledUnder p u k) = Q
    tauto

theorem mem_delMembers {x : Principal} {old : StrategyDetailCache} {l : List Principal} :
    x ∈ delMembers old l ↔ x ∈ old.StrategyDetail.Principals ∧ x ∉ l := by
  unfold delMembers
  rw [List.mem_filter, decide_eq_true_eq]
  constructor
  · rintro ⟨h1, h2⟩
    exact ⟨h1, fun h => h2 (List.mem_map.2 ⟨x, h, rfl⟩)⟩
  · rintro ⟨h1, h2⟩
    refine ⟨h1, fun h => h2 ?_⟩
    obtain ⟨y, hy, hk⟩ := List.mem_map.1 h
    rw [← principalKey_inj hk]; exact hy

theorem retractPrincipals_frame (sc : strategyCache) (rule : StrategyDetail) :
    SameButPrincipalLinks (retractPrincipals sc rule) sc := by
  unfold retractPrincipals
  cases sc.strategys rule.ID with
  | none => exact SameButPrincipalLinks.refl sc
  | some old => exact foldl_frame _ (fun c x => removePrincipalLink_frame c x rule) _ sc

theorem handlerPrincipalRule_frame (sc : strategyCache) (rule : StrategyDetail) :
    SameButPrincipalLinks (handlerPrincipalRule sc rule) sc := by
  unfold handlerPrincipalRule
  split_ifs
  · exact (foldl_frame _ (fun c x => addPrincipalLink_frame c x rule) _ _).trans
      (retractPrincipals_frame sc rule)
  · exact (foldl_frame _ (fun c x => removePrincipalLink_frame c x rule) _ _).trans
      (retractPrincipals_frame sc rule)

theorem handlerPrincipalStrategy_frame (batch : List StrategyDetail) (sc : strategyCache) :
    SameButPrincipalLinks (handlerPrincipalStrategy sc batch) sc :=
  foldl_frame _ handlerPrincipalRule_frame batch sc

theorem linked_retractPrincipals (sc : strategyCache) (rule : StrategyDetail)
    (u : Bool) (k s : String) :
    Linked (prIdx (retractPrincipals sc rule) u) k s ↔
      Linked (prIdx sc u) k s ∧
        ¬(s = rule.ID ∧ ∃ old, sc.strategys rule.ID = some old ∧
          ∃ p ∈ old.StrategyDetail.Principals, p ∉ rule.Principals ∧ FiledUnder p u k) := by
  unfold retractPrincipals
  cases sc.strategys rule.ID with
  | none => simp
  | some old =>
    simp only
    rw [linked_foldl_removePrincipalLink]
    simp only [mem_delMembers, Option.some.injEq, exists_eq_left']
    constructor
    · rintro ⟨h1, h2⟩
      refine ⟨h1, fun h => h2 ⟨h.1, ?_⟩⟩
      obtain ⟨p, hp, hn, hf⟩ := h.2
      exact ⟨p, ⟨hp, hn⟩, hf⟩
    · rintro ⟨h1, h2⟩
      refine ⟨h1, fun h => h2 ⟨h.1, ?_⟩⟩
      obtain ⟨p, ⟨hp, hn⟩, hf⟩ := h.2
      exact ⟨p, hp, hn, hf⟩

/-- One rule of the principal pass, the counterpart of `linked_handlerResourceRule`. -/
theorem linked_handlerPrincipalRule (sc : strategyCache) (rule : StrategyDetail)
    (u : Bool) (k s : String)
    (hinv : Linked (prIdx sc u) k rule.ID ↔
      ∃ old, sc.strategys rule.ID = some old ∧
        ∃ p ∈ old.StrategyDetail.Principals, FiledUnder p u k) :
    Linked (prIdx (handlerPrincipalRule sc rule) u) k s ↔
      if s = rule.ID then rule.Valid = true ∧ ∃ p ∈ rule.Principals, FiledUnder p u k
      else Linked (prIdx sc u) k s := by
  unfold handlerPrincipalRule
  by_cases hv : rule.Valid = true
  · rw [if_pos hv, linked_foldl_addPrincipalLink, linked_retractPrincipals]
    by_cases hs : s = rule.ID
    · rw [hs]
      simp only [if_true, true_and, hinv, hv]
      constructor
      · rintro (⟨⟨old, h1, p, hp, hf⟩, h3⟩ | h)
        · by_contra hn
          exact h3 ⟨old, h1, p, hp, fun hmem => hn ⟨p, hmem, hf⟩, hf⟩
        · exact h
      · intro h; exact Or.inr h
    · simp [hs]
  · rw [if_neg hv, linked_foldl_removePrincipalLink, linked_retractPrincipals]
    by_cases hs : s = rule.ID
    · rw [hs]
      simp only [if_true, true_and, hinv, hv, false_and, iff_false, Bool.false_eq_true]
      rintro ⟨⟨⟨old, h1, p, hp, hf⟩, h3⟩, h4⟩
      exact h3 ⟨old, h1, p, hp, fun hmem => h4 ⟨p, hmem, hf⟩, hf⟩
    · simp [hs]

theorem linked_handlerPrincipalStrategy (u : Bool) (k s : String)
    (batch : List StrategyDetail) : ∀ sc : strategyCache,
    (batch.map (fun r => r.ID)).Nodup →
    (∀ rule ∈ batch, (Linked (prIdx sc u) k rule.ID ↔
      ∃ old, sc.strategys rule.ID = some old ∧
        ∃ p ∈ old.StrategyDetail.Principals, FiledUnder p u k)) →
    (Linked (prIdx (handlerPrincipalStrategy sc batch) u) k s ↔
      match batch.find? (fun r => r.ID = s) with
      | some rule => rule.Valid = true ∧ ∃ p ∈ rule.Principals, FiledUnder p u k
      | none => Linked (prIdx sc u) k s) := by
  induction batch with
  | nil => intro sc _ _; simp [handlerPrincipalStrategy]
  | cons rule rest ih =>
    intro sc hnd hinv
    rw [List.map_cons, List.nodup_cons] at hnd
    have hstep : ∀ s', Linked (prIdx (handlerPrincipalRule sc rule) u) k s' ↔
        if s' = rule.ID then rule.Valid = true ∧ ∃ p ∈ rule.Principals, FiledUnder p u k
        else Linked (prIdx sc u) k s' := fun s' =>
      linked_handlerPrincipalRule sc rule u k s' (hinv rule (List.mem_cons_self _ _))
    have hinv' : ∀ r ∈ rest, (Linked (prIdx (handlerPrincipalRule sc rule) u) k r.ID ↔
        ∃ old, (handlerPrincipalRule sc rule).strategys r.ID = some old ∧
          ∃ p ∈ old.StrategyDetail.Principals, FiledUnder p u k) := by
      intro r hr
      have hne : r.ID ≠ rule.ID := by
        intro h
        exact hnd.1 (h ▸ List.mem_map.2 ⟨r, hr, rfl⟩)
      rw [hstep, if_neg hne, (handlerPrincipalRule_frame sc rule).1]
      exact hinv r (List.mem_cons_of_mem _ hr)
    have := ih (handlerPrincipalRule sc rule) hnd.2 hinv'
    show Linked (prIdx (handlerPrincipalStrategy (handlerPrincipalRule sc rule) rest) u) k s ↔ _
    rw [this, List.find?_cons]
    by_cases hs : rule.ID = s
    · have hnone : rest.find? (fun r => decide (r.ID = s)) = none := by
        rw [List.find?_eq_none]
        intro r hr
        simp only [decide_eq_true_eq]
        intro h
        exact hnd.1 (hs ▸ h ▸ List.mem_map.2 ⟨r, hr, rfl⟩)
      simp only [hnone, hs, decide_True, hstep]
      simp [hs.symm]
    · simp only [hs, decide_False]
      cases rest.find? (fun r => decide (r.ID = s)) with
      | some r => rfl
      | none =>
        simp only [hstep]
        rw [if_neg (fun h => hs h.symm)]

theorem setStrategysRule_links (acc : SetStrategysResult) (rule : StrategyDetail) :
    (setStrategysRule acc rule).cache.uid2Strategy = acc.cache.uid2Strategy ∧
    (setStrategysRule acc rule).cache.groupid2Strategy = acc.cache.groupid2Strategy ∧
    (setStrategysRule acc rule).cache.namespace2Strategy = acc.cache.namespace2Strategy ∧
    (setStrategysRule acc rule).cache.service2Strategy = acc.cache.service2Strategy ∧
    (setStrategysRule acc rule).cache.configGroup2Strategy = acc.cache.configGroup2Strategy ∧
    (setStrategysRule acc rule).cache.userCache = acc.cache.userCache := by
  unfold setStrategysRule
  cases rule.Valid
  · simp
  · cases acc.cache.strategys rule.ID <;> simp

theorem setStrategysRule_strategys (acc : SetStrategysResult) (rule : StrategyDetail)
    (s : String) :
    (setStrategysRule acc rule).cache.strategys s =
      if s = rule.ID then
        (if rule.Valid then some (buildEnchanceStrategyDetail rule) else none)
      else acc.cache.strategys s := by
  unfold setStrategysRule
  cases rule.Valid
  · simp [SyncMap.Delete]
  · cases acc.cache.strategys rule.ID <;> simp [SyncMap.Store]

theorem foldl_setStrategysRule_links (batch : List StrategyDetail) :
    ∀ acc : SetStrategysResult,
    (batch.foldl setStrategysRule acc).cache.uid2Strategy = acc.cache.uid2Strategy ∧
    (batch.foldl setStrategysRule acc).cache.groupid2Strategy = acc.cache.groupid2Strategy ∧
    (batch.foldl setStrategysRule acc).cache.namespace2Strategy
      = acc.cache.namespace2Strategy ∧
    (batch.foldl setStrategysRule acc).cache.service2Strategy = acc.cache.service2Strategy ∧
    (batch.foldl setStrategysRule acc).cache.configGroup2Strategy
      = acc.cache.configGroup2Strategy ∧
    (batch.foldl setStrategysRule acc).cache.userCache = acc.cache.userCache := by
  induction batch with
  | nil => intro acc; exact ⟨rfl, rfl, rfl, rfl, rfl, rfl⟩
  | cons rule rest ih =>
    intro acc
    obtain ⟨h1, h2, h3, h4, h5, h6⟩ := ih (setStrategysRule acc rule)
    obtain ⟨g1, g2, g3, g4, g5, g6⟩ := setStrategysRule_links acc rule
    exact ⟨h1.trans g1, h2.trans g2, h3.trans g3, h4.trans g4, h5.trans g5, h6.trans g6⟩

/-- The forward map after the last loop of `setStrategys`, for a batch with distinct
ids: a batch rule is stored if valid and absent if not; other ids keep their rule. -/
theorem foldl_setStrategysRule_strategys (s : String) (batch : List StrategyDetail) :
    ∀ acc : SetStrategysResult, (batch.map (fun r => r.ID)).Nodup →
    (batch.foldl setStrategysRule acc).cache.strategys s =
      match batch.find? (fun r => r.ID = s) with
      | some rule => if rule.Valid then some (buildEnchanceStrategyDetail rule) else none
      | none => acc.cache.strategys s := by
  induction batch with
  | nil => intro acc _; rfl
  | cons rule rest ih =>
    intro acc hnd
    rw [List.map_cons, List.nodup_cons] at hnd
    rw [List.foldl_cons, ih _ hnd.2, List.find?_cons]
    by_cases hs : rule.ID = s
    · have hnone : rest.find? (fun r => decide (r.ID = s)) = none := by
        rw [List.find?_eq_none]
        intro r hr
        simp only [decide_eq_true_eq]
        intro h
        exact hnd.1 (hs ▸ h ▸ List.mem_map.2 ⟨r, hr, rfl⟩)
      simp only [hnone, hs, decide_True, setStrategysRule_strategys]
      simp [hs.symm]
    · simp only [hs, decide_False]
      cases rest.find? (fun r => decide (r.ID = s)) with
      | some r => rfl
      | none =>
        simp only [setStrategysRule_strategys]
        rw [if_neg (fun h => hs h.symm)]

theorem setStrategys_links (sc : strategyCache) (batch : List StrategyDetail) :
    (setStrategys sc batch).cache.namespace2Strategy
      = (handlerResourceStrategy sc batch).namespace2Strategy ∧
    (setStrategys sc batch).cache.service2Strategy
      = (handlerResourceStrategy sc batch).service2Strategy ∧
    (setStrategys sc batch).cache.configGroup2Strategy
      = (handlerResourceStrategy sc batch).configGroup2Strategy ∧
    (setStrategys sc batch).cache.uid2Strategy
      = (handlerPrincipalStrategy (handlerResourceStrategy sc batch) batch).uid2Strategy ∧
    (setStrategys sc batch).cache.groupid2Strategy
      = (handlerPrincipalStrategy (handlerResourceStrategy sc batch) batch).groupid2Strategy ∧
    (setStrategys sc batch).cache.userCache = sc.userCache := by
  unfold setStrategys
  simp only
  obtain ⟨h1, h2, h3, h4, h5, h6⟩ := foldl_setStrategysRule_links batch
    { cache := handlerPrincipalStrategy (handlerResourceStrategy sc batch) batch
      lastMtime := (handlerPrincipalStrategy (handlerResourceStrategy sc batch) batch).lastMtime
      add := 0, update := 0, remove := 0 }
  obtain ⟨_, g2, g3, g4, _, g6⟩ :=
    handlerPrincipalStrategy_frame batch (handlerResourceStrategy sc batch)
  obtain ⟨_, _, _, _, f5⟩ := handlerResourceStrategy_frame batch sc
  exact ⟨h3.trans g2, h4.trans g3, h5.trans g4, h1, h2, (h6.trans g6).trans f5⟩

theorem setStrategys_strategys (sc : strategyCache) (batch : List StrategyDetail)
    (hnd : (batch.map (fun r => r.ID)).Nodup) (s : String) :
    (setStrategys sc batch).cache.strategys s =
      match batch.find? (fun r => r.ID = s) with
      | some rule => if rule.Valid then some (buildEnchanceStrategyDetail rule) else none
      | none => sc.strategys s := by
  unfold setStrategys
  simp only
  rw [foldl_setStrategysRule_strategys s batch _ hnd]
  have h : (handlerPrincipalStrategy (handlerResourceStrategy sc batch) batch).strategys
      = sc.strategys :=
    (handlerPrincipalStrategy_frame batch _).1.trans (handlerResourceStrategy_frame batch sc).1
  simp only [h]

theorem buildEnchanceStrategyDetail_detail (rule : StrategyDetail) :
    (buildEnchanceStrategyDetail rule).StrategyDetail = rule := rfl

theorem filedUnder_user (pr : Principal) (p : String) :
    FiledUnder pr true p ↔ pr.PrincipalID = p ∧ pr.PrincipalRole = PrincipalUser := by
  unfold FiledUnder
  simp only [decide_eq_true_eq]
  tauto

theorem filedUnder_group (pr : Principal) (p : String) :
    FiledUnder pr false p ↔ pr.PrincipalID = p ∧ pr.PrincipalRole ≠ PrincipalUser := by
  unfold FiledUnder
  simp only [decide_eq_false_iff_not]
  tauto

/-- The resource half of `IndexesAgree`, for one indexed type. -/
theorem setStrategys_resource_agree (sc : strategyCache) (batch : List StrategyDetail)
    (hnd : (batch.map (fun r => r.ID)).Nodup) (T : Int) (hT : IndexedType T)
    (hinv : ∀ resId s, Linked (resIdx sc T) resId s ↔
      ∃ rule, sc.strategys s = some rule ∧
        (⟨T, resId⟩ : StrategyResource) ∈ rule.StrategyDetail.Resources)
    (resId s : String) :
    Linked (resIdx (handlerResourceStrategy sc batch) T) resId s ↔
      ∃ rule, (setStrategys sc batch).cache.strategys s = some rule ∧
        (⟨T, resId⟩ : StrategyResource) ∈ rule.StrategyDetail.Resources := by
  rw [linked_handlerResourceStrategy T hT resId s batch sc hnd (fun rule _ => hinv resId rule.ID),
    setStrategys_strategys sc batch hnd s]
  cases batch.find? (fun r => decide (r.ID = s)) with
  | none => exact hinv resId s
  | some rule =>
    simp only
    cases hv : rule.Valid
    · simp
    · simp [buildEnchanceStrategyDetail_detail]

/-- The principal half of `IndexesAgree`, for one of the two principal indexes. -/
theorem setStrategys_principal_agree (sc : strategyCache) (batch : List StrategyDetail)
    (hnd : (batch.map (fun r => r.ID)).Nodup) (u : Bool)
    (hinv : ∀ p s, Linked (prIdx sc u) p s ↔
      ∃ rule, sc.strategys s = some rule ∧
        ∃ pr ∈ rule.StrategyDetail.Principals, FiledUnder pr u p)
    (p s : String) :
    Linked (prIdx (handlerPrincipalStrategy (handlerResourceStrategy sc batch) batch) u) p s ↔
      ∃ rule, (setStrategys sc batch).cache.strategys s = some rule ∧
        ∃ pr ∈ rule.StrategyDetail.Principals, FiledUnder pr u p := by
  obtain ⟨f1, f2, f3, _, _⟩ := handlerResourceStrategy_frame batch sc
  have hidx : prIdx (handlerResourceStrategy sc batch) u = prIdx sc u := by
    unfold prIdx; rw [f2, f3]
  rw [linked_handlerPrincipalStrategy u p s batch (handlerResourceStrategy sc batch) hnd
      (fun rule _ => by rw [hidx, f1]; exact hinv p rule.ID),
    setStrategys_strategys sc batch hnd s, hidx]
  cases batch.find? (fun r => decide (r.ID = s)) with
  | none => exact hinv p s
  | some rule =>
    simp only
    cases hv : rule.Valid
    · simp
    · simp [buildEnchanceStrategyDetail_detail]

/-- `setStrategys` keeps the reverse indexes a view of the forward map, for a batch in
which each rule id occurs once. -/
theorem setStrategys_indexesAgree (sc : strategyCache) (batch : List StrategyDetail)
    (hnd : (batch.map (fun r => r.ID)).Nodup) (h : IndexesAgree sc) :
    IndexesAgree (setStrategys sc batch).cache := by
  obtain ⟨l1, l2, l3, l4, l5, _⟩ := setStrategys_links sc batch
  constructor
  · intro resId s
    rw [l1]
    exact setStrategys_resource_agree sc batch hnd ResourceType_Namespaces (Or.inl rfl)
      h.namespaces resId s
  · intro resId s
    rw [l2]
    exact setStrategys_resource_agree sc batch hnd ResourceType_Services (Or.inr (Or.inl rfl))
      h.services resId s
  · intro resId s
    rw [l3]
    exact setStrategys_resource_agree sc batch hnd ResourceType_ConfigGroups
      (Or.inr (Or.inr rfl)) h.configGroups resId s
  · intro p s
    rw [l4]
    have := setStrategys_principal_agree sc batch hnd true
      (fun p s => by simpa only [filedUnder_user] using h.users p s) p s
    simpa only [filedUnder_user] using this
  · intro p s
    rw [l5]
    have := setStrategys_principal_agree sc batch hnd false
      (fun p s => by simpa only [filedUnder_group] using h.groups p s) p s
    simpa only [filedUnder_group] using this

theorem indexesAgree_Initialize (userCache : String → List String) :
    IndexesAgree (strategyCache.Initialize userCache) := by
  constructor <;> intro a s <;> simp [strategyCache.Initialize, Linked, SyncMap.empty]

theorem checkResourceEditable_fold (sc : strategyCache) (q : Principal) (ids : List String) :
    ∀ init : Bool,
    ids.foldl
      (fun editable strategyId =>
        match sc.strategys strategyId with
        | some rule =>
          if q.PrincipalRole = PrincipalUser then
            editable || (rule.UserPrincipal q.PrincipalID).isSome
          else
            editable || (rule.GroupPrincipal q.PrincipalID).isSome
        | none => editable) init = true ↔
      init = true ∨ ∃ s ∈ ids, ∃ rule, sc.strategys s = some rule ∧ InPrincipalSet rule q := by
  induction ids with
  | nil => intro init; simp
  | cons x xs ih =>
    intro init
    rw [List.foldl_cons, ih]
    simp only [List.mem_cons, exists_eq_or_imp]
    cases hx : sc.strategys x with
    | none => simp
    | some rule =>
      unfold InPrincipalSet
      by_cases hq : q.PrincipalRole = PrincipalUser
      · simp only [hq, if_true, Bool.or_eq_true, Option.some.injEq, exists_eq_left']
        tauto
      · simp only [hq, if_false, Bool.or_eq_true, Option.some.injEq, exists_eq_left']
        tauto

theorem checkResourceEditable_iff (sc : strategyCache) (ids : SyncSet) (q : Principal)
    (mustCheck : Bool) :
    checkResourceEditable sc ids q mustCheck = true ↔
      (ids = [] ∧ mustCheck = false) ∨
      ∃ s ∈ ids, ∃ rule, sc.strategys s = some rule ∧ InPrincipalSet rule q := by
  unfold checkResourceEditable
  simp only [SyncSet.Len]
  cases ids with
  | nil => cases mustCheck <;> simp
  | cons x xs =>
    have h := checkResourceEditable_fold sc q (x :: xs) false
    simp only [Bool.false_eq_true, false_or] at h
    simp only [List.length_cons, ne_eq, Nat.add_one_ne_zero, not_false_eq_true, decide_True,
      Bool.not_true, Bool.false_and, Bool.false_eq_true, if_false, h, false_and, false_or,
      reduceCtorEq]

theorem mem_expandPrincipals (sc : strategyCache) (p q : Principal) :
    q ∈ expandPrincipals sc p ↔
      q = p ∨ (p.PrincipalRole = PrincipalUser ∧
        ∃ gid ∈ sc.userCache p.PrincipalID,
          q = { PrincipalID := gid, PrincipalRole := PrincipalGroup }) := by
  unfold expandPrincipals
  by_cases hp : p.PrincipalRole = PrincipalUser
  · simp only [hp, if_true, List.mem_cons, List.mem_map, true_and]
    constructor
    · rintro (h | ⟨g, hg, rfl⟩)
      · exact Or.inl h
      · exact Or.inr ⟨g, hg, rfl⟩
    · rintro (h | ⟨g, hg, rfl⟩)
      · exact Or.inl h
      · exact Or.inr ⟨g, hg, rfl⟩
  · simp [hp]

theorem resourceIndex_indexed (sc : strategyCache) (t : Int) (ht : IndexedType t) :
    resourceIndex sc t = some (resIdx sc t) := by
  unfold resourceIndex resIdx
  rcases ht with rfl | rfl | rfl
  · simp
  · simp [ResourceType_Services, ResourceType_Namespaces]
  · simp [ResourceType_Services, ResourceType_Namespaces, ResourceType_ConfigGroups]

/-- The editable check, spelled out over the reverse index of an indexed type. -/
theorem isResourceEditable_spec (sc : strategyCache) (p : Principal) (t : Int)
    (ht : IndexedType t) (r : String) :
    IsResourceEditable sc p t r = true ↔
      (resIdx sc t r = none ∨ resIdx sc t r = some []) ∨
      ∃ q, (q = p ∨ (p.PrincipalRole = PrincipalUser ∧
              ∃ gid ∈ sc.userCache p.PrincipalID,
                q = { PrincipalID := gid, PrincipalRole := PrincipalGroup })) ∧
        ∃ s, (Linked (resIdx sc t) r s ∨ Linked (resIdx sc t) "*" s) ∧
          ∃ rule, sc.strategys s = some rule ∧ InPrincipalSet rule q := by
  unfold IsResourceEditable
  rw [resourceIndex_indexed sc t ht]
  simp only
  cases hval : resIdx sc t r with
  | none => simp
  | some val =>
    simp only [List.any_eq_true, Bool.or_eq_true, mem_expandPrincipals, reduceCtorEq, false_or,
      Option.some.injEq]
    constructor
    · rintro ⟨q, hq, hgrant⟩
      rcases hgrant with hall | hone
      · cases hA : resIdx sc t "*" with
        | none => simp [hA] at hall
        | some all =>
          simp only [hA, checkResourceEditable_iff, reduceCtorEq, and_false, false_or] at hall
          obtain ⟨s, hs, rule, hrule, hin⟩ := hall
          exact Or.inr ⟨q, hq, s, Or.inr (by simp [Linked, hA, hs]), rule, hrule, hin⟩
      · rw [checkResourceEditable_iff] at hone
        rcases hone with ⟨hnil, _⟩ | ⟨s, hs, rule, hrule, hin⟩
        · exact Or.inl hnil
        · exact Or.inr ⟨q, hq, s, Or.inl (by simp [Linked, hval, hs]), rule, hrule, hin⟩
    · rintro (hnil | ⟨q, hq, s, hlink, rule, hrule, hin⟩)
      · refine ⟨p, Or.inl rfl, Or.inr ?_⟩
        rw [checkResourceEditable_iff]
        exact Or.inl ⟨hnil, rfl⟩
      · refine ⟨q, hq, ?_⟩
        rcases hlink with hl | hl
        · right
          rw [checkResourceEditable_iff]
          exact Or.inr ⟨s, by simpa [Linked, hval] using hl, rule, hrule, hin⟩
        · left
          cases hA : resIdx sc t "*" with
          | none => simp [Linked, hA] at hl
          | some all =>
            simp only [checkResourceEditable_iff]
            exact Or.inr ⟨s, by simpa [Linked, hA] using hl, rule, hrule, hin⟩

theorem cacheWithRule_agree (rid n1 n2 u : String) (mtime : Int) :
    IndexesAgree (cacheWithRule rid n1 n2 u mtime) :=
  setStrategys_indexesAgree _ _ (by simp) (indexesAgree_Initialize _)

theorem cacheAfterNarrowing_agree (rid n1 n2 u : String) (mtime mtime' : Int) :
    IndexesAgree (cacheAfterNarrowing rid n1 n2 u mtime mtime') :=
  setStrategys_indexesAgree _ _ (by simp) (cacheWithRule_agree rid n1 n2 u mtime)

theorem cacheAfterNarrowing_strategys (rid n1 n2 u : String) (mtime mtime' : Int) (s : String) :
    (cacheAfterNarrowing rid n1 n2 u mtime mtime').strategys s =
      if s = rid then some (buildEnchanceStrategyDetail (ruleFirstOnly rid n1 u mtime'))
      else none := by
  unfold cacheAfterNarrowing
  rw [setStrategys_strategys _ _ (by simp)]
  by_cases hs : s = rid
  · subst hs
    simp [ruleFirstOnly]
  · have hs' : ¬ rid = s := fun h => hs h.symm
    simp only [List.find?_cons, ruleFirstOnly, hs', decide_False, List.find?_nil, hs, if_false]
    unfold cacheWithRule
    rw [setStrategys_strategys _ _ (by simp)]
    simp [ruleBoth, hs', strategyCache.Initialize, SyncMap.empty]

theorem userPrincipal_ruleFirstOnly (rid n1 u : String) (mtime : Int) :
    InPrincipalSet (buildEnchanceStrategyDetail (ruleFirstOnly rid n1 u mtime))
      { PrincipalID := u, PrincipalRole := PrincipalUser } := by
  simp [InPrincipalSet, buildEnchanceStrategyDetail, ruleFirstOnly, SyncMap.Store]

/-- C1, as the code has it: after the refresh that narrows the rule to `n1`, the user
may edit `n1` through the rule and may edit `n2` as well, because `n2` is left with no
linked rule (either `n2` is `n1`, or the rule's id is no longer in the set of `n2`). -/
theorem narrowed_rule_editable (rid n1 n2 u : String) (mtime mtime' : Int) :
    IsResourceEditable (cacheAfterNarrowing rid n1 n2 u mtime mtime')
        { PrincipalID := u, PrincipalRole := PrincipalUser } ResourceType_Namespaces n2 = true ∧
    IsResourceEditable (cacheAfterNarrowing rid n1 n2 u mtime mtime')
        { PrincipalID := u, PrincipalRole := PrincipalUser } ResourceType_Namespaces n1 = true ∧
    (n2 = n1 ∨ ∀ s, ¬ Linked (cacheAfterNarrowing rid n1 n2 u mtime mtime').namespace2Strategy
      n2 s) := by
  have hagree := cacheAfterNarrowing_agree rid n1 n2 u mtime mtime'
  have hfwd := cacheAfterNarrowing_strategys rid n1 n2 u mtime mtime'
  have hn1 : IsResourceEditable (cacheAfterNarrowing rid n1 n2 u mtime mtime')
      { PrincipalID := u, PrincipalRole := PrincipalUser } ResourceType_Namespaces n1 = true := by
    rw [isResourceEditable_spec _ _ _ (Or.inl rfl)]
    refine Or.inr ⟨_, Or.inl rfl, rid, Or.inl ?_, _, ?_, userPrincipal_ruleFirstOnly rid n1 u mtime'⟩
    · show Linked (cacheAfterNarrowing rid n1 n2 u mtime mtime').namespace2Strategy n1 rid
      rw [hagree.namespaces]
      exact ⟨_, by rw [hfwd, if_pos rfl], by simp [buildEnchanceStrategyDetail, ruleFirstOnly]⟩
    · rw [hfwd, if_pos rfl]
  have hlinks : n2 = n1 ∨
      ∀ s, ¬ Linked (cacheAfterNarrowing rid n1 n2 u mtime mtime').namespace2Strategy n2 s := by
    by_cases h : n2 = n1
    · exact Or.inl h
    · right
      intro s hl
      rw [hagree.namespaces] at hl
      obtain ⟨rule, hrule, hmem⟩ := hl
      rw [hfwd] at hrule
      by_cases hs : s = rid
      · rw [if_pos hs] at hrule
        cases hrule
        simp [buildEnchanceStrategyDetail, ruleFirstOnly] at hmem
        exact h hmem
      · rw [if_neg hs] at hrule
        cases hrule
  refine ⟨?_, hn1, hlinks⟩
  rcases hlinks with h | h
  · subst h; exact hn1
  · rw [isResourceEditable_spec _ _ _ (Or.inl rfl)]
    left
    have hidx : resIdx (cacheAfterNarrowing rid n1 n2 u mtime mtime') ResourceType_Namespaces
        = (cacheAfterNarrowing rid n1 n2 u mtime mtime').namespace2Strategy := by
      simp [resIdx]
    rw [hidx]
    cases hv : (cacheAfterNarrowing rid n1 n2 u mtime mtime').namespace2Strategy n2 with
    | none => exact Or.inl rfl
    | some set =>
      right
      cases set with
      | nil => rfl
      | cons x xs =>
        exfalso
        exact h x (by simp [Linked, hv])

/-- C1 as stated fails on a concrete run: after the refresh the check for `n2` answers
true, not false. -/
theorem narrowed_rule_counterexample :
    ¬ (IsResourceEditable (cacheAfterNarrowing "r" "n1" "n2" "u" 1 2)
          { PrincipalID := "u", PrincipalRole := PrincipalUser } ResourceType_Namespaces "n2"
          = false ∧
        IsResourceEditable (cacheAfterNarrowing "r" "n1" "n2" "u" 1 2)
          { PrincipalID := "u", PrincipalRole := PrincipalUser } ResourceType_Namespaces "n1"
          = true) := by
  decide

/-- C2: for an indexed resource type, `IsResourceEditable` answers true exactly when
(a) the reverse index holds no entry, or an empty set, for the resource id, or (b) the
principal itself or, for a user, one of the groups linked to it, is in the matching
principal set (user set for a user, group set otherwise) of a cached rule whose id is
linked to the resource id or to the wildcard `*`. An empty wildcard set links no rule
and so grants nothing. -/
theorem isResourceEditable_iff (sc : strategyCache) (p : Principal) (t : Int)
    (ht : t = ResourceType_Namespaces ∨ t = ResourceType_Services ∨
      t = ResourceType_ConfigGroups) (r : String) :
    IsResourceEditable sc p t r = true ↔
      (resIdx sc t r = none ∨ resIdx sc t r = some []) ∨
      ∃ q, (q = p ∨ (p.PrincipalRole = PrincipalUser ∧
              ∃ gid ∈ sc.userCache p.PrincipalID,
                q = { PrincipalID := gid, PrincipalRole := PrincipalGroup })) ∧
        ∃ s, (Linked (resIdx sc t) r s ∨ Linked (resIdx sc t) "*" s) ∧
          ∃ rule, sc.strategys s = some rule ∧ InPrincipalSet rule q :=
  isResourceEditable_spec sc p t ht r

/-- C2 at the cache of the narrowing scenario, for the user of the rule and `n1`. -/
theorem isResourceEditable_iff_witness :
    (ResourceType_Namespaces = ResourceType_Namespaces ∨
      ResourceType_Namespaces = ResourceType_Services ∨
      ResourceType_Namespaces = ResourceType_ConfigGroups) ∧
    (IsResourceEditable (cacheAfterNarrowing "r" "n1" "n2" "u" 1 2)
        { PrincipalID := "u", PrincipalRole := PrincipalUser } ResourceType_Namespaces "n1"
        = true ↔
      (resIdx (cacheAfterNarrowing "r" "n1" "n2" "u" 1 2) ResourceType_Namespaces "n1" = none ∨
        resIdx (cacheAfterNarrowing "r" "n1" "n2" "u" 1 2) ResourceType_Namespaces "n1"
          = some []) ∨
      ∃ q, (q = { PrincipalID := "u", PrincipalRole := PrincipalUser } ∨
            ((⟨"u", PrincipalUser⟩ : Principal).PrincipalRole = PrincipalUser ∧
              ∃ gid ∈ (cacheAfterNarrowing "r" "n1" "n2" "u" 1 2).userCache "u",
                q = { PrincipalID := gid, PrincipalRole := PrincipalGroup })) ∧
        ∃ s, (Linked (resIdx (cacheAfterNarrowing "r" "n1" "n2" "u" 1 2)
                ResourceType_Namespaces) "n1" s ∨
              Linked (resIdx (cacheAfterNarrowing "r" "n1" "n2" "u" 1 2)
                ResourceType_Namespaces) "*" s) ∧
          ∃ rule, (cacheAfterNarrowing "r" "n1" "n2" "u" 1 2).strategys s = some rule ∧
            InPrincipalSet rule q) :=
  ⟨Or.inl rfl,
    isResourceEditable_iff (cacheAfterNarrowing "r" "n1" "n2" "u" 1 2)
      { PrincipalID := "u", PrincipalRole := PrincipalUser } ResourceType_Namespaces
      (Or.inl rfl) "n1"⟩

theorem find?_of_mem_nodup (s : String) (batch : List StrategyDetail) (rule : StrategyDetail) :
    (batch.map (fun r => r.ID)).Nodup → rule ∈ batch → rule.ID = s →
    batch.find? (fun r => r.ID = s) = some rule := by
  induction batch with
  | nil => intro _ h; cases h
  | cons x xs ih =>
    intro hnd hmem hid
    rw [List.map_cons, List.nodup_cons] at hnd
    rw [List.find?_cons]
    rcases List.mem_cons.1 hmem with h | h
    · subst h; simp [hid]
    · have hne : x.ID ≠ s := by
        intro hx
        exact hnd.1 (hx ▸ hid ▸ List.mem_map.2 ⟨rule, h, rfl⟩)
      simp only [hne, decide_False]
      exact ih hnd.2 h hid

/-- The forward map at the id of a batch rule, after `setStrategys`. -/
theorem setStrategys_strategys_of_mem (sc : strategyCache) (batch : List StrategyDetail)
    (hnd : (batch.map (fun r => r.ID)).Nodup) (rule : StrategyDetail) (hr : rule ∈ batch) :
    (setStrategys sc batch).cache.strategys rule.ID =
      if rule.Valid then some (buildEnchanceStrategyDetail rule) else none := by
  rw [setStrategys_strategys sc batch hnd, find?_of_mem_nodup rule.ID batch rule hnd hr rfl]

/-- C3: from a cache whose reverse indexes agree with the forward map, and for a batch
in which each rule id occurs once, `setStrategys` leaves every rule of the batch with
`Valid = false` absent from the forward map and its id in no set of the five reverse
indexes. -/
theorem setStrategys_drops_invalid (sc : strategyCache) (batch : List StrategyDetail)
    (hagree : IndexesAgree sc) (hnd : (batch.map (fun r => r.ID)).Nodup)
    (rule : StrategyDetail) (hr : rule ∈ batch) (hv : rule.Valid = false) :
    (setStrategys sc batch).cache.strategys rule.ID = none ∧
    ∀ key set,
      ((setStrategys sc batch).cache.namespace2Strategy key = some set → rule.ID ∉ set) ∧
      ((setStrategys sc batch).cache.service2Strategy key = some set → rule.ID ∉ set) ∧
      ((setStrategys sc batch).cache.configGroup2Strategy key = some set → rule.ID ∉ set) ∧
      ((setStrategys sc batch).cache.uid2Strategy key = some set → rule.ID ∉ set) ∧
      ((setStrategys sc batch).cache.groupid2Strategy key = some set → rule.ID ∉ set) := by
  have hfwd : (setStrategys sc batch).cache.strategys rule.ID = none := by
    rw [setStrategys_strategys_of_mem sc batch hnd rule hr, hv]; rfl
  have hagree' := setStrategys_indexesAgree sc batch hnd hagree
  refine ⟨hfwd, fun key set => ⟨?_, ?_, ?_, ?_, ?_⟩⟩
  · intro hset hmem
    have : Linked (setStrategys sc batch).cache.namespace2Strategy key rule.ID := by
      simp [Linked, hset, hmem]
    rw [hagree'.namespaces, hfwd] at this
    simp at this
  · intro hset hmem
    have : Linked (setStrategys sc batch).cache.service2Strategy key rule.ID := by
      simp [Linked, hset, hmem]
    rw [hagree'.services, hfwd] at this
    simp at this
  · intro hset hmem
    have : Linked (setStrategys sc batch).cache.configGroup2Strategy key rule.ID := by
      simp [Linked, hset, hmem]
    rw [hagree'.configGroups, hfwd] at this
    simp at this
  · intro hset hmem
    have : Linked (setStrategys sc batch).cache.uid2Strategy key rule.ID := by
      simp [Linked, hset, hmem]
    rw [hagree'.users, hfwd] at this
    simp at this
  · intro hset hmem
    have : Linked (setStrategys sc batch).cache.groupid2Strategy key rule.ID := by
      simp [Linked, hset, hmem]
    rw [hagree'.groups, hfwd] at this
    simp at this

/-- C3 at the cache that holds one rule, refreshed with the tombstone of that rule. -/
theorem setStrategys_drops_invalid_witness :
    (setStrategys (cacheWithRule "r" "n1" "n2" "u" 1)
        [ruleTombstone "r" "n1" "n2" "u" 2]).cache.strategys
      (ruleTombstone "r" "n1" "n2" "u" 2).ID = none ∧
    ∀ key set,
      ((setStrategys (cacheWithRule "r" "n1" "n2" "u" 1)
          [ruleTombstone "r" "n1" "n2" "u" 2]).cache.namespace2Strategy key = some set →
        (ruleTombstone "r" "n1" "n2" "u" 2).ID ∉ set) ∧
      ((setStrategys (cacheWithRule "r" "n1" "n2" "u" 1)
          [ruleTombstone "r" "n1" "n2" "u" 2]).cache.service2Strategy key = some set →
        (ruleTombstone "r" "n1" "n2" "u" 2).ID ∉ set) ∧
      ((setStrategys (cacheWithRule "r" "n1" "n2" "u" 1)
          [ruleTombstone "r" "n1" "n2" "u" 2]).cache.configGroup2Strategy key = some set →
        (ruleTombstone "r" "n1" "n2" "u" 2).ID ∉ set) ∧
      ((setStrategys (cacheWithRule "r" "n1" "n2" "u" 1)
          [ruleTombstone "r" "n1" "n2" "u" 2]).cache.uid2Strategy key = some set →
        (ruleTombstone "r" "n1" "n2" "u" 2).ID ∉ set) ∧
      ((setStrategys (cacheWithRule "r" "n1" "n2" "u" 1)
          [ruleTombstone "r" "n1" "n2" "u" 2]).cache.groupid2Strategy key = some set →
        (ruleTombstone "r" "n1" "n2" "u" 2).ID ∉ set) :=
  setStrategys_drops_invalid (cacheWithRule "r" "n1" "n2" "u" 1)
    [ruleTombstone "r" "n1" "n2" "u" 2] (cacheWithRule_agree "r" "n1" "n2" "u" 1)
    (by simp) (ruleTombstone "r" "n1" "n2" "u" 2) (by simp) rfl

/-- C4: `setStrategys` preserves the invariant that the reverse indexes are a view of
the forward map, for a batch with distinct rule ids: afterwards a strategy id is in a
resource index at a key iff the stored rule has a resource of that type with that id,
and in the user (resp. group) index at a key iff the stored rule has a user (resp.
non-user) principal with that id. In particular, for a rule of the batch, an indexed
resource that the incoming rule does not list, and a principal id that the incoming rule
does not list with a role of the same index, are not linked to the rule's id. -/
theorem setStrategys_preserves_view (sc : strategyCache) (batch : List StrategyDetail)
    (hagree : IndexesAgree sc) (hnd : (batch.map (fun r => r.ID)).Nodup) :
    IndexesAgree (setStrategys sc batch).cache ∧
    ∀ rule ∈ batch,
      (∀ T k, (T = ResourceType_Namespaces ∨ T = ResourceType_Services ∨
            T = ResourceType_ConfigGroups) →
          (⟨T, k⟩ : StrategyResource) ∉ rule.Resources →
          ¬ Linked (resIdx (setStrategys sc batch).cache T) k rule.ID) ∧
      (∀ k, (∀ q ∈ rule.Principals,
            ¬ (q.PrincipalID = k ∧ q.PrincipalRole = PrincipalUser)) →
          ¬ Linked (setStrategys sc batch).cache.uid2Strategy k rule.ID) ∧
      (∀ k, (∀ q ∈ rule.Principals,
            ¬ (q.PrincipalID = k ∧ q.PrincipalRole ≠ PrincipalUser)) →
          ¬ Linked (setStrategys sc batch).cache.groupid2Strategy k rule.ID) := by
  have hagree' := setStrategys_indexesAgree sc batch hnd hagree
  refine ⟨hagree', fun rule hr => ?_⟩
  have hfwd := setStrategys_strategys_of_mem sc batch hnd rule hr
  have hstored : ∀ stored, (setStrategys sc batch).cache.strategys rule.ID = some stored →
      stored.StrategyDetail = rule := by
    intro stored hs
    rw [hfwd] at hs
    cases hval : rule.Valid
    · rw [hval] at hs; cases hs
    · rw [hval] at hs
      simp only [if_true, Option.some.injEq] at hs
      rw [← hs]; rfl
  refine ⟨?_, ?_, ?_⟩
  · intro T k hT hnot hl
    have hl' : ∃ stored, (setStrategys sc batch).cache.strategys rule.ID = some stored ∧
        (⟨T, k⟩ : StrategyResource) ∈ stored.StrategyDetail.Resources := by
      rcases hT with rfl | rfl | rfl
      · exact (hagree'.namespaces k rule.ID).1 (by simpa [resIdx] using hl)
      · exact (hagree'.services k rule.ID).1
          (by simpa [resIdx, ResourceType_Services, ResourceType_Namespaces] using hl)
      · exact (hagree'.configGroups k rule.ID).1
          (by simpa [resIdx, ResourceType_Services, ResourceType_Namespaces,
            ResourceType_ConfigGroups] using hl)
    obtain ⟨stored, hs, hmem⟩ := hl'
    rw [hstored stored hs] at hmem
    exact hnot hmem
  · intro k hnot hl
    obtain ⟨stored, hs, q, hq, hqk⟩ := (hagree'.users k rule.ID).1 hl
    rw [hstored stored hs] at hq
    exact hnot q hq hqk
  · intro k hnot hl
    obtain ⟨stored, hs, q, hq, hqk⟩ := (hagree'.groups k rule.ID).1 hl
    rw [hstored stored hs] at hq
    exact hnot q hq hqk

/-- C4 at the cache that holds one rule, refreshed with the rule narrowed to `n1`. -/
theorem setStrategys_preserves_view_witness :
    IndexesAgree (setStrategys (cacheWithRule "r" "n1" "n2" "u" 1)
      [ruleFirstOnly "r" "n1" "u" 2]).cache ∧
    ∀ rule ∈ [ruleFirstOnly "r" "n1" "u" 2],
      (∀ T k, (T = ResourceType_Namespaces ∨ T = ResourceType_Services ∨
            T = ResourceType_ConfigGroups) →
          (⟨T, k⟩ : StrategyResource) ∉ rule.Resources →
          ¬ Linked (resIdx (setStrategys (cacheWithRule "r" "n1" "n2" "u" 1)
            [ruleFirstOnly "r" "n1" "u" 2]).cache T) k rule.ID) ∧
      (∀ k, (∀ q ∈ rule.Principals,
            ¬ (q.PrincipalID = k ∧ q.PrincipalRole = PrincipalUser)) →
          ¬ Linked (setStrategys (cacheWithRule "r" "n1" "n2" "u" 1)
            [ruleFirstOnly "r" "n1" "u" 2]).cache.uid2Strategy k rule.ID) ∧
      (∀ k, (∀ q ∈ rule.Principals,
            ¬ (q.PrincipalID = k ∧ q.PrincipalRole ≠ PrincipalUser)) →
          ¬ Linked (setStrategys (cacheWithRule "r" "n1" "n2" "u" 1)
            [ruleFirstOnly "r" "n1" "u" 2]).cache.groupid2Strategy k rule.ID) :=
  setStrategys_preserves_view (cacheWithRule "r" "n1" "n2" "u" 1)
    [ruleFirstOnly "r" "n1" "u" 2] (cacheWithRule_agree "r" "n1" "n2" "u" 1) (by simp)


theorem apply_inst (st : AttributeUpdate) (c : Bool) (p : ApiInstance) (t : InstanceEventType) :
    (st.apply c p t).inst = if c = true then { st.inst with Proto := p } else st.inst := by
  unfold AttributeUpdate.apply; split <;> rfl

theorem apply_needUpdate (st : AttributeUpdate) (c : Bool) (p : ApiInstance)
    (t : InstanceEventType) : (st.apply c p t).needUpdate = (st.needUpdate || c) := by
  unfold AttributeUpdate.apply; cases c <;> simp

theorem apply_events (st : AttributeUpdate) (c : Bool) (p : ApiInstance)
    (t : InstanceEventType) :
    (st.apply c p t).updateEvents =
      if c = true then markEvent st.updateEvents t else st.updateEvents := by
  unfold AttributeUpdate.apply; split <;> rfl

theorem apply_req (st : AttributeUpdate) (c : Bool) (p : ApiInstance) (t : InstanceEventType) :
    (st.apply c p t).req = st.req := by
  unfold AttributeUpdate.apply; split <;> rfl

theorem mem_markEvent (l : List InstanceEventType) (t t' : InstanceEventType) :
    t' ∈ markEvent l t ↔ t' ∈ l ∨ t' = t := by
  unfold markEvent
  by_cases h : t ∈ l
  · rw [if_pos h]
    constructor
    · intro h'; exact Or.inl h'
    · rintro (h' | h')
      · exact h'
      · rw [h']; exact h
  · rw [if_neg h]; simp

theorem mem_apply_events (st : AttributeUpdate) (c : Bool) (p : ApiInstance)
    (t t' : InstanceEventType) :
    t' ∈ (st.apply c p t).updateEvents ↔ t' ∈ st.updateEvents ∨ (c = true ∧ t' = t) := by
  rw [apply_events]
  cases c
  · simp
  · simp [mem_markEvent]

theorem plain_metadata (req : ApiInstance) (inst : ModelInstance) :
    (updatePlainAttributes req inst).inst.Proto.Metadata =
      if (plainChanges req inst).metadata = true then req.Metadata else inst.Proto.Metadata := by
  simp only [updatePlainAttributes, plainChanges, apply_inst, apply_ite ModelInstance.Proto,
    apply_ite ApiInstance.Metadata, ite_self, ModelInstance.Healthy, ModelInstance.Isolate]

theorem plain_location (req : ApiInstance) (inst : ModelInstance) :
    (updatePlainAttributes req inst).inst.Proto.Location =
      if (plainChanges req inst).location = true then req.Location else inst.Proto.Location := by
  simp only [updatePlainAttributes, plainChanges, apply_inst, apply_ite ModelInstance.Proto,
    apply_ite ApiInstance.Location, ite_self, ModelInstance.Healthy, ModelInstance.Isolate]

theorem plain_protocol (req : ApiInstance) (inst : ModelInstance) :
    (updatePlainAttributes req inst).inst.Proto.Protocol =
      if (plainChanges req inst).protocol = true then req.Protocol else inst.Proto.Protocol := by
  simp only [updatePlainAttributes, plainChanges, apply_inst, apply_ite ModelInstance.Proto,
    apply_ite ApiInstance.Protocol, ite_self, ModelInstance.Healthy, ModelInstance.Isolate]

theorem plain_version (req : ApiInstance) (inst : ModelInstance) :
    (updatePlainAttributes req inst).inst.Proto.Version =
      if (plainChanges req inst).version = true then req.Version else inst.Proto.Version := by
  simp only [updatePlainAttributes, plainChanges, apply_inst, apply_ite ModelInstance.Proto,
    apply_ite ApiInstance.Version, ite_self, ModelInstance.Healthy, ModelInstance.Isolate]

theorem plain_priority (req : ApiInstance) (inst : ModelInstance) :
    (updatePlainAttributes req inst).inst.Proto.Priority =
      if (plainChanges req inst).priority = true then req.Priority else inst.Proto.Priority := by
  simp only [updatePlainAttributes, plainChanges, apply_inst, apply_ite ModelInstance.Proto,
    apply_ite ApiInstance.Priority, ite_self, ModelInstance.Healthy, ModelInstance.Isolate]

theorem plain_weight (req : ApiInstance) (inst : ModelInstance) :
    (updatePlainAttributes req inst).inst.Proto.Weight =
      if (plainChanges req inst).weight = true then req.Weight else inst.Proto.Weight := by
  simp only [updatePlainAttributes, plainChanges, apply_inst, apply_ite ModelInstance.Proto,
    apply_ite ApiInstance.Weight, ite_self, ModelInstance.Healthy, ModelInstance.Isolate]

theorem plain_healthy (req : ApiInstance) (inst : ModelInstance) :
    (updatePlainAttributes req inst).inst.Proto.Healthy =
      if (plainChanges req inst).healthy = true then req.Healthy else inst.Proto.Healthy := by
  simp only [updatePlainAttributes, plainChanges, apply_inst, apply_ite ModelInstance.Proto,
    apply_ite ApiInstance.Healthy, ite_self, ModelInstance.Healthy, ModelInstance.Isolate]

theorem plain_isolate (req : ApiInstance) (inst : ModelInstance) :
    (updatePlainAttributes req inst).inst.Proto.Isolate =
      if (plainChanges req inst).isolate = true then req.Isolate else inst.Proto.Isolate := by
  simp only [updatePlainAttributes, plainChanges, apply_inst, apply_ite ModelInstance.Proto,
    apply_ite ApiInstance.Isolate, ite_self, ModelInstance.Healthy, ModelInstance.Isolate]

theorem plain_logicSet (req : ApiInstance) (inst : ModelInstance) :
    (updatePlainAttributes req inst).inst.Proto.LogicSet =
      if (plainChanges req inst).logicSet = true then req.LogicSet else inst.Proto.LogicSet := by
  simp only [updatePlainAttributes, plainChanges, apply_inst, apply_ite ModelInstance.Proto,
    apply_ite ApiInstance.LogicSet, ite_self, ModelInstance.Healthy, ModelInstance.Isolate]

theorem plain_frame_EnableHealthCheck (req : ApiInstance) (inst : ModelInstance) :
    (updatePlainAttributes req inst).inst.Proto.EnableHealthCheck = inst.Proto.EnableHealthCheck := by
  simp only [updatePlainAttributes, apply_inst, apply_ite ModelInstance.Proto,
    apply_ite ApiInstance.EnableHealthCheck, ite_self]

theorem plain_frame_HealthCheck (req : ApiInstance) (inst : ModelInstance) :
    (updatePlainAttributes req inst).inst.Proto.HealthCheck = inst.Proto.HealthCheck := by
  simp only [updatePlainAttributes, apply_inst, apply_ite ModelInstance.Proto,
    apply_ite ApiInstance.HealthCheck, ite_self]

theorem plain_frame_Revision (req : ApiInstance) (inst : ModelInstance) :
    (updatePlainAttributes req inst).inst.Proto.Revision = inst.Proto.Revision := by
  simp only [updatePlainAttributes, apply_inst, apply_ite ModelInstance.Proto,
    apply_ite ApiInstance.Revision, ite_self]

theorem plain_frame_Id (req : ApiInstance) (inst : ModelInstance) :
    (updatePlainAttributes req inst).inst.Proto.Id = inst.Proto.Id := by
  simp only [updatePlainAttributes, apply_inst, apply_ite ModelInstance.Proto,
    apply_ite ApiInstance.Id, ite_self]

theorem plain_req (req : ApiInstance) (inst : ModelInstance) :
    (updatePlainAttributes req inst).req = req := by
  simp only [updatePlainAttributes, apply_req]

theorem plain_needUpdate (req : ApiInstance) (inst : ModelInstance) :
    (updatePlainAttributes req inst).needUpdate =
      ((plainChanges req inst).metadata || (plainChanges req inst).location ||
        (plainChanges req inst).protocol || (plainChanges req inst).version ||
        (plainChanges req inst).priority || (plainChanges req inst).weight ||
        (plainChanges req inst).healthy || (plainChanges req inst).isolate ||
        (plainChanges req inst).logicSet) := by
  simp only [updatePlainAttributes, plainChanges, apply_needUpdate, apply_inst,
    apply_ite ModelInstance.Proto, apply_ite ApiInstance.Metadata,
    apply_ite ApiInstance.Location, apply_ite ApiInstance.Protocol,
    apply_ite ApiInstance.Version, apply_ite ApiInstance.Priority, apply_ite ApiInstance.Weight,
    apply_ite ApiInstance.Healthy, apply_ite ApiInstance.Isolate, apply_ite ApiInstance.LogicSet,
    ite_self, ModelInstance.Healthy, ModelInstance.Isolate, Bool.false_or]

/-- The event types marked by the nine plain `if`s. -/
theorem mem_plain_events (req : ApiInstance) (inst : ModelInstance) (t : InstanceEventType) :
    t ∈ (updatePlainAttributes req inst).updateEvents ↔
      (((plainChanges req inst).metadata = true ∨ (plainChanges req inst).location = true ∨
          (plainChanges req inst).protocol = true ∨ (plainChanges req inst).version = true ∨
          (plainChanges req inst).priority = true ∨ (plainChanges req inst).weight = true ∨
          (plainChanges req inst).logicSet = true) ∧ t = EventInstanceUpdate) ∨
      ((plainChanges req inst).healthy = true ∧
        t = (if boolValue req.Healthy then EventInstanceTurnHealth
          else EventInstanceTurnUnHealth)) ∨
      ((plainChanges req inst).isolate = true ∧
        t = (if boolValue req.Isolate then EventInstanceOpenIsolate
          else EventInstanceCloseIsolate)) := by
  simp only [updatePlainAttributes, plainChanges, mem_apply_events, apply_inst,
    apply_ite ModelInstance.Proto, apply_ite ApiInstance.Metadata,
    apply_ite ApiInstance.Location, apply_ite ApiInstance.Protocol,
    apply_ite ApiInstance.Version, apply_ite ApiInstance.Priority, apply_ite ApiInstance.Weight,
    apply_ite ApiInstance.Healthy, apply_ite ApiInstance.Isolate, apply_ite ApiInstance.LogicSet,
    ite_self, ModelInstance.Healthy, ModelInstance.Isolate, List.not_mem_nil, false_or]
  tauto

theorem plain_events_nil (req : ApiInstance) (inst : ModelInstance)
    (h : (updatePlainAttributes req inst).needUpdate = false) :
    (updatePlainAttributes req inst).updateEvents = [] := by
  rw [plain_needUpdate] at h
  simp only [Bool.or_eq_false_iff] at h
  obtain ⟨⟨⟨⟨⟨⟨⟨⟨h1, h2⟩, h3⟩, h4⟩, h5⟩, h6⟩, h7⟩, h8⟩, h9⟩ := h
  apply List.eq_nil_iff_forall_not_mem.2
  intro t ht
  rw [mem_plain_events] at ht
  simp [h1, h2, h3, h4, h5, h6, h7, h8, h9] at ht


theorem takes_not_off (req : ApiInstance) (h : TakesHeartbeat req) : ¬ TurnsCheckOff req := by
  rintro ⟨h1, h2⟩
  rcases h.2 with h3 | h3
  · exact h1 h3
  · rw [h2] at h3; cases h3

theorem updateHealthCheck_takes (D : Nat) (req : ApiInstance) (i : ModelInstance)
    (h : TakesHeartbeat req) : updateHealthCheck D req i = heartbeatBranch D req i := by
  unfold updateHealthCheck
  simp only [h, if_true, takes_not_off req h, if_false]

theorem updateHealthCheck_off (D : Nat) (req : ApiInstance) (i : ModelInstance)
    (h : TurnsCheckOff req) :
    updateHealthCheck D req i =
      switchOffBranch req { needUpdate := false, inst := i, req := req } := by
  unfold updateHealthCheck
  have hno : ¬ TakesHeartbeat req := fun ht => takes_not_off req ht h
  simp only [h, if_true, hno, if_false]

theorem updateHealthCheck_skip (D : Nat) (req : ApiInstance) (i : ModelInstance)
    (h1 : ¬ TakesHeartbeat req) (h2 : ¬ TurnsCheckOff req) :
    updateHealthCheck D req i = { needUpdate := false, inst := i, req := req } := by
  unfold updateHealthCheck
  simp only [h1, h2, if_false]

/-- What `updateHealthCheck` leaves alone: every field of the message but `Healthy`,
`EnableHealthCheck` and `HealthCheck`. -/
theorem updateHealthCheck_frame (D : Nat) (req : ApiInstance) (i : ModelInstance) :
    (updateHealthCheck D req i).inst.Proto.Metadata = i.Proto.Metadata ∧
    (updateHealthCheck D req i).inst.Proto.Location = i.Proto.Location ∧
    (updateHealthCheck D req i).inst.Proto.Protocol = i.Proto.Protocol ∧
    (updateHealthCheck D req i).inst.Proto.Version = i.Proto.Version ∧
    (updateHealthCheck D req i).inst.Proto.Priority = i.Proto.Priority ∧
    (updateHealthCheck D req i).inst.Proto.Weight = i.Proto.Weight ∧
    (updateHealthCheck D req i).inst.Proto.Isolate = i.Proto.Isolate ∧
    (updateHealthCheck D req i).inst.Proto.LogicSet = i.Proto.LogicSet ∧
    (updateHealthCheck D req i).inst.Proto.Revision = i.Proto.Revision ∧
    (updateHealthCheck D req i).inst.Proto.Id = i.Proto.Id := by
  by_cases h1 : TakesHeartbeat req
  · rw [updateHealthCheck_takes D req i h1]
    unfold heartbeatBranch
    cases i.EnableHealthCheck <;> simp
  · by_cases h2 : TurnsCheckOff req
    · rw [updateHealthCheck_off D req i h2]
      simp [switchOffBranch]
    · rw [updateHealthCheck_skip D req i h1 h2]
      simp

/-- The `Healthy` field after `updateHealthCheck`: reset when health checking is
switched on, untouched otherwise. -/
theorem updateHealthCheck_healthy (D : Nat) (req : ApiInstance) (i : ModelInstance) :
    (updateHealthCheck D req i).inst.Proto.Healthy =
      if OpensHealthCheck req i then some false else i.Proto.Healthy := by
  unfold OpensHealthCheck
  by_cases h1 : TakesHeartbeat req
  · rw [updateHealthCheck_takes D req i h1]
    unfold heartbeatBranch
    rcases Bool.eq_false_or_eq_true i.EnableHealthCheck with he | he <;> simp [h1, he]
  · by_cases h2 : TurnsCheckOff req
    · rw [updateHealthCheck_off D req i h2]
      simp [switchOffBranch, h1]
    · rw [updateHealthCheck_skip D req i h1 h2]
      simp [h1]

theorem healthCheckView_heartbeatCheck (D : Nat) (req : ApiInstance) :
    healthCheckView (some (heartbeatCheck D req)) =
      some (HealthCheckType.HEARTBEAT, normalTtl D (heartbeatTtl req.HealthCheck)) := by
  simp [healthCheckView, heartbeatCheck, heartbeatTtl, heartbeatOf, u32Value]

theorem healthCheckView_eq_some (h : Option HealthCheck) (t : HealthCheckType) (n : Nat) :
    healthCheckView h = some (t, n) ↔ h ≠ none ∧ healthCheckType h = t ∧ heartbeatTtl h = n := by
  cases h with
  | none => simp [healthCheckView]
  | some x => simp [healthCheckView, healthCheckType]

/-- `updateHealthCheck` reports a change exactly when the health-check switch or the
stored health check, taken by value, is different afterwards. -/
theorem updateHealthCheck_needUpdate_iff (D : Nat) (req : ApiInstance) (i : ModelInstance) :
    (updateHealthCheck D req i).needUpdate = true ↔
      (updateHealthCheck D req i).inst.EnableHealthCheck ≠ i.EnableHealthCheck ∨
      healthCheckView (updateHealthCheck D req i).inst.Proto.HealthCheck
        ≠ healthCheckView i.Proto.HealthCheck := by
  by_cases h1 : TakesHeartbeat req
  · rw [updateHealthCheck_takes D req i h1]
    unfold heartbeatBranch
    simp only [healthCheckView_heartbeatCheck, ne_eq, Bool.or_eq_true, decide_eq_true_eq,
      Bool.not_eq_true']
    have hview : (some (HealthCheckType.HEARTBEAT, normalTtl D (heartbeatTtl req.HealthCheck))
          = healthCheckView i.Proto.HealthCheck) ↔
        (i.Proto.HealthCheck ≠ none ∧
          healthCheckType i.Proto.HealthCheck = HealthCheckType.HEARTBEAT ∧
          heartbeatTtl i.Proto.HealthCheck = normalTtl D (heartbeatTtl req.HealthCheck)) := by
      rw [eq_comm, healthCheckView_eq_some]
    rw [hview]
    have hnone : i.Proto.HealthCheck = none →
        healthCheckType i.Proto.HealthCheck ≠ HealthCheckType.HEARTBEAT := by
      intro hn; rw [hn]; simp [healthCheckType]
    rcases Bool.eq_false_or_eq_true i.EnableHealthCheck with he | he
    · have he' : i.EnableHealthCheck = true := he
      simp only [he', Bool.true_eq_false, false_or, Bool.not_true, Bool.false_eq_true, if_false]
      simp only [ModelInstance.EnableHealthCheck] at he' ⊢
      simp only [he', not_true_eq_false, false_or]
      constructor
      · rintro (h | h)
        · intro hc; exact h hc.2.2.symm
        · intro hc; exact h hc.2.1.symm
      · intro h
        by_cases ht : HealthCheckType.HEARTBEAT = healthCheckType i.Proto.HealthCheck
        · left
          intro hc
          apply h
          refine ⟨fun hn => hnone hn ht.symm, ht.symm, hc.symm⟩
        · exact Or.inr ht
    · have he' : i.Proto.EnableHealthCheck.getD false = false := he
      simp [he', ModelInstance.EnableHealthCheck, boolValue]
  · by_cases h2 : TurnsCheckOff req
    · rw [updateHealthCheck_off D req i h2]
      have hreq : boolValue req.EnableHealthCheck = false := h2.2
      have hafter :
          (switchOffBranch req { needUpdate := false, inst := i, req := req }).inst.EnableHealthCheck
            = false := rfl
      have hcheck :
          (switchOffBranch req { needUpdate := false, inst := i, req := req }).inst.Proto.HealthCheck
            = none := rfl
      have hneed : (switchOffBranch req { needUpdate := false, inst := i, req := req }).needUpdate
          = (decide (false ≠ i.EnableHealthCheck) || decide (i.Proto.HealthCheck ≠ none)) := by
        simp [switchOffBranch, hreq]
      rw [hafter, hcheck, hneed]
      simp only [Bool.or_eq_true, decide_eq_true_eq, ne_eq]
      have hv : (healthCheckView none = healthCheckView i.Proto.HealthCheck) ↔
          i.Proto.HealthCheck = none := by
        cases i.Proto.HealthCheck with
        | none => simp
        | some x => simp [healthCheckView]
      rw [hv]
    · rw [updateHealthCheck_skip D req i h1 h2]
      simp


theorem updateInstanceAttribute_needUpdate (D : Nat) (uuid : String) (req : ApiInstance)
    (inst : ModelInstance) :
    (updateInstanceAttribute D uuid req inst).needUpdate =
      ((updatePlainAttributes req inst).needUpdate ||
        (updateHealthCheck D req (updatePlainAttributes req inst).inst).needUpdate) := by
  unfold updateInstanceAttribute
  simp only
  rcases Bool.eq_false_or_eq_true
    (updateHealthCheck D req (updatePlainAttributes req inst).inst).needUpdate with h | h
  · simp [h]
  · rcases Bool.eq_false_or_eq_true (updatePlainAttributes req inst).needUpdate with g | g
    · simp [h, g]
    · simp [h, g]

theorem updateInstanceAttribute_inst (D : Nat) (uuid : String) (req : ApiInstance)
    (inst : ModelInstance) :
    (updateInstanceAttribute D uuid req inst).inst =
      if (updateInstanceAttribute D uuid req inst).needUpdate = true then
        { (updateHealthCheck D req (updatePlainAttributes req inst).inst).inst with
          Proto := { (updateHealthCheck D req (updatePlainAttributes req inst).inst).inst.Proto with
            Revision := some uuid } }
      else (updateHealthCheck D req (updatePlainAttributes req inst).inst).inst := by
  rw [updateInstanceAttribute_needUpdate]
  unfold updateInstanceAttribute
  simp only
  rcases Bool.eq_false_or_eq_true
    (updateHealthCheck D req (updatePlainAttributes req inst).inst).needUpdate with h | h
  · simp [h]
  · rcases Bool.eq_false_or_eq_true (updatePlainAttributes req inst).needUpdate with g | g
    · simp [h, g]
    · simp [h, g]

theorem mem_updateInstanceAttribute_events (D : Nat) (uuid : String) (req : ApiInstance)
    (inst : ModelInstance) (t : InstanceEventType) :
    t ∈ (updateInstanceAttribute D uuid req inst).updateEvents ↔
      t ∈ (updatePlainAttributes req inst).updateEvents ∨
      ((updateHealthCheck D req (updatePlainAttributes req inst).inst).needUpdate = true ∧
        t = EventInstanceUpdate) := by
  unfold updateInstanceAttribute
  simp only
  rcases Bool.eq_false_or_eq_true
    (updateHealthCheck D req (updatePlainAttributes req inst).inst).needUpdate with h | h
  · simp [h, mem_markEvent]
  · rcases Bool.eq_false_or_eq_true (updatePlainAttributes req inst).needUpdate with g | g
    · simp [h, g]
    · simp [h, g]

theorem updateInstanceAttribute_events_nil (D : Nat) (uuid : String) (req : ApiInstance)
    (inst : ModelInstance) (h : (updateInstanceAttribute D uuid req inst).needUpdate = false) :
    (updateInstanceAttribute D uuid req inst).updateEvents = [] := by
  rw [updateInstanceAttribute_needUpdate, Bool.or_eq_false_iff] at h
  apply List.eq_nil_iff_forall_not_mem.2
  intro t ht
  rw [mem_updateInstanceAttribute_events, plain_events_nil req inst h.1] at ht
  simp [h.2] at ht

theorem mutableFields_revision (i : ModelInstance) (uuid : String) :
    mutableFields { i with Proto := { i.Proto with Revision := some uuid } } = mutableFields i :=
  rfl

theorem mutableFields_updateInstanceAttribute (D : Nat) (uuid : String) (req : ApiInstance)
    (inst : ModelInstance) :
    mutableFields (updateInstanceAttribute D uuid req inst).inst =
      mutableFields (updateHealthCheck D req (updatePlainAttributes req inst).inst).inst := by
  rw [updateInstanceAttribute_inst]
  split
  · exact mutableFields_revision _ _
  · rfl

theorem updateInstanceAttribute_revision (D : Nat) (uuid : String) (req : ApiInstance)
    (inst : ModelInstance) :
    (updateInstanceAttribute D uuid req inst).inst.Proto.Revision =
      if (updateInstanceAttribute D uuid req inst).needUpdate = true then some uuid
      else inst.Proto.Revision := by
  rw [updateInstanceAttribute_inst]
  split
  · rfl
  · rw [(updateHealthCheck_frame D req _).2.2.2.2.2.2.2.2.1, plain_frame_Revision]

/-- A metadata map never needs an update to itself. -/
theorem instanceMetaNeedUpdate_same (req old : Option Metadata)
    (h : ∀ k, (metaOf req).lookup k = (metaOf old).lookup k) :
    instanceMetaNeedUpdate req old = false := by
  unfold instanceMetaNeedUpdate
  cases req with
  | none => rfl
  | some r =>
    have hr : ∀ k, r.lookup k = (metaOf old).lookup k := by
      intro k; simpa [metaOf] using h k
    have hperm : r.entries.Perm (metaOf old).entries := by
      apply List.lookup_ext r.nodupKeys (metaOf old).nodupKeys
      intro x y
      have := hr x
      simp only [AList.lookup] at this
      rw [this]
    have hlen : r.entries.length = (metaOf old).entries.length := hperm.length_eq
    simp only [hlen, ne_eq, not_true_eq_false, if_false]
    have h1 : r.entries.any (fun e =>
        match (metaOf old).lookup e.1 with
        | none => true
        | some oldValue => decide (e.2 ≠ oldValue)) = false := by
      rw [List.any_eq_false]
      intro e he
      have hl : r.lookup e.1 = some e.2 := by
        rw [← Option.mem_def, AList.mem_lookup_iff]
        exact he
      rw [← hr, hl]
      simp
    have h2 : (metaOf old).entries.any (fun e =>
        match r.lookup e.1 with
        | none => true
        | some newValue => decide (e.2 ≠ newValue)) = false := by
      rw [List.any_eq_false]
      intro e he
      have hl : (metaOf old).lookup e.1 = some e.2 := by
        rw [← Option.mem_def, AList.mem_lookup_iff]
        exact he
      rw [hr, hl]
      simp
    simp only [h1, h2, Bool.false_eq_true, if_false]

theorem instanceLocationNeedUpdate_iff (req old : Option Location) :
    instanceLocationNeedUpdate req old = true ↔
      regionOf req ≠ regionOf old ∨ zoneOf req ≠ zoneOf old ∨ campusOf req ≠ campusOf old := by
  unfold instanceLocationNeedUpdate
  by_cases h1 : regionOf req = regionOf old
  · by_cases h2 : zoneOf req = zoneOf old
    · by_cases h3 : campusOf req = campusOf old
      · simp [h1, h2, h3]
      · simp [h1, h2, h3]
    · simp [h1, h2]
  · simp [h1]


theorem opens_needUpdate (D : Nat) (req : ApiInstance) (i : ModelInstance)
    (h : OpensHealthCheck req i) : (updateHealthCheck D req i).needUpdate = true := by
  rw [updateHealthCheck_takes D req i h.1]
  unfold heartbeatBranch
  simp [h.2]

/-- Without a change reported by either half of the diff, every mutable field keeps its
value. -/
theorem mutableFields_unchanged (D : Nat) (req : ApiInstance) (inst : ModelInstance)
    (hp : (updatePlainAttributes req inst).needUpdate = false)
    (hh : (updateHealthCheck D req (updatePlainAttributes req inst).inst).needUpdate = false) :
    mutableFields (updateHealthCheck D req (updatePlainAttributes req inst).inst).inst
      = mutableFields inst := by
  obtain ⟨f1, f2, f3, f4, f5, f6, f7, f8, _, _⟩ :=
    updateHealthCheck_frame D req (updatePlainAttributes req inst).inst
  rw [plain_needUpdate] at hp
  simp only [Bool.or_eq_false_iff] at hp
  obtain ⟨⟨⟨⟨⟨⟨⟨⟨c1, c2⟩, c3⟩, c4⟩, c5⟩, c6⟩, c7⟩, c8⟩, c9⟩ := hp
  have hopen : ¬ OpensHealthCheck req (updatePlainAttributes req inst).inst := by
    intro ho
    rw [opens_needUpdate D req _ ho] at hh
    cases hh
  have hhealthy := updateHealthCheck_healthy D req (updatePlainAttributes req inst).inst
  rw [if_neg hopen] at hhealthy
  have hiff := updateHealthCheck_needUpdate_iff D req (updatePlainAttributes req inst).inst
  rw [hh] at hiff
  simp only [Bool.false_eq_true, ne_eq, false_iff, not_or, not_not] at hiff
  obtain ⟨he, hv⟩ := hiff
  simp only [ModelInstance.EnableHealthCheck, plain_frame_EnableHealthCheck] at he
  rw [plain_frame_HealthCheck] at hv
  simp only [mutableFields, ModelInstance.Healthy, ModelInstance.Isolate,
    ModelInstance.EnableHealthCheck, f1, f2, f3, f4, f5, f6, f7, f8, hhealthy, he, hv,
    plain_metadata, plain_location, plain_protocol, plain_version, plain_priority, plain_weight,
    plain_healthy, plain_isolate, plain_logicSet, c1, c2, c3, c4, c5, c6, c7, c8, c9,
    Bool.false_eq_true, if_false]

/-- A change reported by the health-check half shows in the switch or in the check. -/
theorem mutableFields_changed_of_check (D : Nat) (req : ApiInstance) (inst : ModelInstance)
    (hh : (updateHealthCheck D req (updatePlainAttributes req inst).inst).needUpdate = true) :
    mutableFields (updateHealthCheck D req (updatePlainAttributes req inst).inst).inst
      ≠ mutableFields inst := by
  have hiff := (updateHealthCheck_needUpdate_iff D req (updatePlainAttributes req inst).inst).1 hh
  simp only [ModelInstance.EnableHealthCheck, plain_frame_EnableHealthCheck,
    plain_frame_HealthCheck] at hiff
  intro heq
  rcases hiff with h | h
  · exact h (congrArg MutableFields.enableHealthCheck heq)
  · exact h (congrArg MutableFields.healthCheck heq)

/-- A change reported by the plain half, the health-check half reporting none, shows in
the field that changed. -/
theorem mutableFields_changed_of_plain (D : Nat) (req : ApiInstance) (inst : ModelInstance)
    (hp : (updatePlainAttributes req inst).needUpdate = true)
    (hh : (updateHealthCheck D req (updatePlainAttributes req inst).inst).needUpdate = false) :
    mutableFields (updateHealthCheck D req (updatePlainAttributes req inst).inst).inst
      ≠ mutableFields inst := by
  obtain ⟨f1, f2, f3, f4, f5, f6, f7, f8, _, _⟩ :=
    updateHealthCheck_frame D req (updatePlainAttributes req inst).inst
  have hopen : ¬ OpensHealthCheck req (updatePlainAttributes req inst).inst := by
    intro ho
    rw [opens_needUpdate D req _ ho] at hh
    cases hh
  have hhealthy := updateHealthCheck_healthy D req (updatePlainAttributes req inst).inst
  rw [if_neg hopen] at hhealthy
  rw [plain_needUpdate] at hp
  simp only [Bool.or_eq_true] at hp
  intro heq
  rcases hp with ((((((((c | c) | c) | c) | c) | c) | c) | c) | c)
  · have := congrArg MutableFields.metadata heq
    simp only [mutableFields, f1, plain_metadata, c, if_true] at this
    have hsame := instanceMetaNeedUpdate_same req.Metadata inst.Proto.Metadata
      (fun k => by rw [this])
    simp only [plainChanges] at c
    rw [hsame] at c
    cases c
  · have h1 := congrArg MutableFields.region heq
    have h2 := congrArg MutableFields.zone heq
    have h3 := congrArg MutableFields.campus heq
    simp only [mutableFields, f2, plain_location, c, if_true] at h1 h2 h3
    simp only [plainChanges] at c
    rw [instanceLocationNeedUpdate_iff] at c
    rcases c with c | c | c
    · exact c h1
    · exact c h2
    · exact c h3
  · have := congrArg MutableFields.protocol heq
    simp only [mutableFields, f3, plain_protocol, c, if_true] at this
    simp only [plainChanges, decide_eq_true_eq] at c
    exact c.2 this
  · have := congrArg MutableFields.version heq
    simp only [mutableFields, f4, plain_version, c, if_true] at this
    simp only [plainChanges, decide_eq_true_eq] at c
    exact c.2 this
  · have := congrArg MutableFields.priority heq
    simp only [mutableFields, f5, plain_priority, c, if_true] at this
    simp only [plainChanges, decide_eq_true_eq] at c
    exact c.2 this
  · have := congrArg MutableFields.weight heq
    simp only [mutableFields, f6, plain_weight, c, if_true] at this
    simp only [plainChanges, decide_eq_true_eq] at c
    exact c.2 this
  · have := congrArg MutableFields.healthy heq
    simp only [mutableFields, ModelInstance.Healthy, hhealthy, plain_healthy, c, if_true] at this
    simp only [plainChanges, decide_eq_true_eq, ModelInstance.Healthy] at c
    exact c.2 this
  · have := congrArg MutableFields.isolate heq
    simp only [mutableFields, ModelInstance.Isolate, f7, plain_isolate, c, if_true] at this
    simp only [plainChanges, decide_eq_true_eq, ModelInstance.Isolate] at c
    exact c.2 this
  · have := congrArg MutableFields.logicSet heq
    simp only [mutableFields, f8, plain_logicSet, c, if_true] at this
    simp only [plainChanges, decide_eq_true_eq] at c
    exact c.2 this

/-- `updateInstanceAttribute` reports a change exactly when a mutable field value is
different afterwards. -/
theorem needUpdate_iff_changed (D : Nat) (uuid : String) (req : ApiInstance)
    (inst : ModelInstance) :
    (updateInstanceAttribute D uuid req inst).needUpdate = true ↔
      mutableFields (updateInstanceAttribute D uuid req inst).inst ≠ mutableFields inst := by
  rw [mutableFields_updateInstanceAttribute, updateInstanceAttribute_needUpdate]
  rcases Bool.eq_false_or_eq_true
    (updateHealthCheck D req (updatePlainAttributes req inst).inst).needUpdate with hh | hh
  · simp only [hh, Bool.or_true, true_iff]
    exact mutableFields_changed_of_check D req inst hh
  · rcases Bool.eq_false_or_eq_true (updatePlainAttributes req inst).needUpdate with hp | hp
    · simp only [hh, hp, Bool.or_false, true_iff]
      exact mutableFields_changed_of_plain D req inst hp hh
    · simp only [hh, hp, Bool.or_false, Bool.false_eq_true, false_iff, ne_eq, not_not]
      exact mutableFields_unchanged D req inst hp hh

/-- C7: `updateInstanceAttribute` replaces the revision of the instance iff some mutable
field value of the instance differs after the call from its value before: if a field
differs, a change is reported and the revision is the fresh UUID; if no field differs,
no change is reported, the revision is the old one and the event set is empty. -/
theorem revision_replaced_iff_field_changed (DefaultTLL : Nat) (uuid : String)
    (req : ApiInstance) (inst : ModelInstance) :
    (mutableFields (updateInstanceAttribute DefaultTLL uuid req inst).inst ≠ mutableFields inst →
      (updateInstanceAttribute DefaultTLL uuid req inst).needUpdate = true ∧
      (updateInstanceAttribute DefaultTLL uuid req inst).inst.Proto.Revision = some uuid) ∧
    (mutableFields (updateInstanceAttribute DefaultTLL uuid req inst).inst = mutableFields inst →
      (updateInstanceAttribute DefaultTLL uuid req inst).needUpdate = false ∧
      (updateInstanceAttribute DefaultTLL uuid req inst).inst.Proto.Revision
        = inst.Proto.Revision ∧
      (updateInstanceAttribute DefaultTLL uuid req inst).updateEvents = []) := by
  constructor
  · intro hne
    have hn := (needUpdate_iff_changed DefaultTLL uuid req inst).2 hne
    refine ⟨hn, ?_⟩
    rw [updateInstanceAttribute_revision, if_pos hn]
  · intro heq
    have hn : (updateInstanceAttribute DefaultTLL uuid req inst).needUpdate = false := by
      rcases Bool.eq_false_or_eq_true (updateInstanceAttribute DefaultTLL uuid req inst).needUpdate
        with h | h
      · exact absurd heq ((needUpdate_iff_changed DefaultTLL uuid req inst).1 h)
      · exact h
    refine ⟨hn, ?_, updateInstanceAttribute_events_nil DefaultTLL uuid req inst hn⟩
    rw [updateInstanceAttribute_revision, hn]
    simp



/-- The result of `updateHealthCheck` on the instance as the plain half leaves it. -/
theorem updateHealthCheck_after_plain (D : Nat) (req : ApiInstance) (inst : ModelInstance) :
    (updateHealthCheck D req (updatePlainAttributes req inst).inst).needUpdate
      = (updateHealthCheck D req inst).needUpdate := by
  have he := plain_frame_EnableHealthCheck req inst
  have hc := plain_frame_HealthCheck req inst
  by_cases h1 : TakesHeartbeat req
  · rw [updateHealthCheck_takes D req _ h1, updateHealthCheck_takes D req _ h1]
    simp only [heartbeatBranch, ModelInstance.EnableHealthCheck, he, hc]
  · by_cases h2 : TurnsCheckOff req
    · rw [updateHealthCheck_off D req _ h2, updateHealthCheck_off D req _ h2]
      simp only [switchOffBranch, ModelInstance.EnableHealthCheck, he, hc]
    · rw [updateHealthCheck_skip D req _ h1 h2, updateHealthCheck_skip D req _ h1 h2]

theorem opens_after_plain (req : ApiInstance) (inst : ModelInstance) :
    OpensHealthCheck req (updatePlainAttributes req inst).inst ↔ OpensHealthCheck req inst := by
  simp only [OpensHealthCheck, ModelInstance.EnableHealthCheck, plain_frame_EnableHealthCheck]

/-- A request that repeats the stored values changes none of the plain attributes. -/
theorem plain_needUpdate_of_repeats (req : ApiInstance) (inst : ModelInstance)
    (h : RepeatsFields req inst) : (updatePlainAttributes req inst).needUpdate = false := by
  obtain ⟨h1, h2, h3, h4, h5, h6, h7, h8, h9, h10, h11, _, _⟩ := h
  rw [plain_needUpdate]
  have c1 : (plainChanges req inst).metadata = false :=
    instanceMetaNeedUpdate_same req.Metadata inst.Proto.Metadata h1
  have c2 : (plainChanges req inst).location = false := by
    have := instanceLocationNeedUpdate_iff req.Location inst.Proto.Location
    simp only [h2, h3, h4, ne_eq, not_true_eq_false, or_self, iff_false,
      Bool.not_eq_true] at this
    exact this
  simp only [c1, c2, Bool.or_self, Bool.false_or]
  simp only [plainChanges, h5, h6, h7, h8, h9, h10, h11, ne_eq, not_true_eq_false, and_false,
    decide_False, Bool.or_self]

/-- A request that repeats the health-check state of an instance whose state is settled
changes nothing in it. -/
theorem updateHealthCheck_of_repeats (D : Nat) (req : ApiInstance) (inst : ModelInstance)
    (h : RepeatsFields req inst) (hs : HealthCheckSettled inst) :
    (updateHealthCheck D req inst).needUpdate = false := by
  obtain ⟨_, _, _, _, _, _, _, _, _, _, _, he, hc⟩ := h
  unfold HealthCheckSettled at hs
  by_cases h1 : TakesHeartbeat req
  · rw [updateHealthCheck_takes D req _ h1]
    obtain ⟨hb, _⟩ := h1
    rw [hc] at hb
    by_cases hen : inst.EnableHealthCheck = true
    · rw [if_pos hen] at hs
      rcases hs with hs | ⟨ht, hlo, hhi⟩
      · exact absurd hs hb
      · have httl : normalTtl D (heartbeatTtl req.HealthCheck)
            = heartbeatTtl inst.Proto.HealthCheck := by
          rw [hc]
          unfold normalTtl
          rw [if_neg]
          omega
        simp [heartbeatBranch, hen, httl, ht]
    · rw [if_neg hen] at hs
      rw [hs] at hb
      exact absurd rfl hb
  · by_cases h2 : TurnsCheckOff req
    · rw [updateHealthCheck_off D req _ h2]
      have hoff : inst.EnableHealthCheck = false := by rw [← he]; exact h2.2
      rw [hoff] at hs
      simp only [Bool.false_eq_true, if_false] at hs
      simp [switchOffBranch, h2.2, hoff, hs]
    · rw [updateHealthCheck_skip D req _ h1 h2]

/-- The diff of a repeating request against a settled instance reports no change. -/
theorem updateInstanceAttribute_of_repeats (D : Nat) (uuid : String) (req : ApiInstance)
    (inst : ModelInstance) (h : RepeatsFields req inst) (hs : HealthCheckSettled inst) :
    (updateInstanceAttribute D uuid req inst).needUpdate = false := by
  rw [updateInstanceAttribute_needUpdate, updateHealthCheck_after_plain,
    plain_needUpdate_of_repeats req inst h, updateHealthCheck_of_repeats D req inst h hs]
  rfl

/-- C5, with the proviso the code needs: for a stored instance whose health-check state
is settled (health checking on with no heartbeat check or one of type HEARTBEAT and TTL
in `[1, 60]`; health checking off with no check stored) and an update request that
passes the pre-step and the metadata check and repeats the current value of every
mutable field, `UpdateInstance` answers `NoNeedUpdate` and leaves the world as it was:
no store call is issued and no event is published. -/
theorem updateInstance_repeat_is_noop (env : Env σ) (ctx : Ctx) (w : World σ)
    (req : Option ApiInstance) (service : Service) (stored : ModelInstance) (r : ApiInstance)
    (hpre : execInstancePreStep env w.ext req = Except.ok (service, stored, r))
    (hmeta : env.checkMetadata r.Metadata = true)
    (hrep : RepeatsFields r stored) (hset : HealthCheckSettled stored) :
    (UpdateInstance env ctx w req).1.Code = Code.NoNeedUpdate ∧
    (UpdateInstance env ctx w req).2 = w := by
  unfold UpdateInstance
  simp only [hpre, hmeta, Bool.not_true, Bool.false_eq_true, if_false,
    updateInstanceAttribute_of_repeats env.DefaultTLL _ r stored hrep hset, Bool.not_false,
    if_true, NewInstanceResponse, and_self]



/-- C5 at a stored instance with a settled heartbeat check, updated with its own payload. -/
theorem updateInstance_repeat_is_noop_witness :
    execInstancePreStep memEnv (worldA [storedA protoChecked]).ext
        (some (storedA protoChecked).Proto)
      = Except.ok (serviceA, storedA protoChecked, (storedA protoChecked).Proto) ∧
    RepeatsFields (storedA protoChecked).Proto (storedA protoChecked) ∧
    HealthCheckSettled (storedA protoChecked) ∧
    (UpdateInstance memEnv {} (worldA [storedA protoChecked])
        (some (storedA protoChecked).Proto)).1.Code = Code.NoNeedUpdate ∧
    (UpdateInstance memEnv {} (worldA [storedA protoChecked])
        (some (storedA protoChecked).Proto)).2 = worldA [storedA protoChecked] :=
  ⟨rfl, ⟨fun _ => rfl, rfl, rfl, rfl, rfl, rfl, rfl, rfl, rfl, rfl, rfl, rfl, rfl⟩, by decide,
    updateInstance_repeat_is_noop memEnv {} (worldA [storedA protoChecked])
      (some (storedA protoChecked).Proto) serviceA (storedA protoChecked)
      (storedA protoChecked).Proto rfl rfl
      ⟨fun _ => rfl, rfl, rfl, rfl, rfl, rfl, rfl, rfl, rfl, rfl, rfl, rfl, rfl⟩ (by decide)⟩

/-- C5 as stated fails: the stored instance has health checking off but a heartbeat
check stored; the request repeats its payload, and `UpdateInstance` answers
`ExecuteSuccess`, writes the instance and publishes an `Update` event. -/
theorem updateInstance_repeat_counterexample :
    RepeatsFields (storedA protoOffWithCheck).Proto (storedA protoOffWithCheck) ∧
    ¬ ((UpdateInstance memEnv {} (worldA [storedA protoOffWithCheck])
          (some (storedA protoOffWithCheck).Proto)).1.Code = Code.NoNeedUpdate ∧
        (UpdateInstance memEnv {} (worldA [storedA protoOffWithCheck])
          (some (storedA protoOffWithCheck).Proto)).2.calls = [] ∧
        (UpdateInstance memEnv {} (worldA [storedA protoOffWithCheck])
          (some (storedA protoOffWithCheck).Proto)).2.events = []) :=
  ⟨⟨fun _ => rfl, rfl, rfl, rfl, rfl, rfl, rfl, rfl, rfl, rfl, rfl, rfl, rfl⟩, by decide⟩



/-- The `Isolate` field after `updateInstanceAttribute`. -/
theorem updateInstanceAttribute_isolate (D : Nat) (uuid : String) (req : ApiInstance)
    (inst : ModelInstance) :
    (updateInstanceAttribute D uuid req inst).inst.Proto.Isolate =
      if (plainChanges req inst).isolate = true then req.Isolate else inst.Proto.Isolate := by
  rw [updateInstanceAttribute_inst]
  split
  · show (updateHealthCheck D req (updatePlainAttributes req inst).inst).inst.Proto.Isolate = _
    rw [(updateHealthCheck_frame D req _).2.2.2.2.2.2.1, plain_isolate]
  · rw [(updateHealthCheck_frame D req _).2.2.2.2.2.2.1, plain_isolate]

/-- The `Healthy` field after `updateInstanceAttribute`. -/
theorem updateInstanceAttribute_healthy (D : Nat) (uuid : String) (req : ApiInstance)
    (inst : ModelInstance) :
    (updateInstanceAttribute D uuid req inst).inst.Proto.Healthy =
      if OpensHealthCheck req inst then some false
      else if (plainChanges req inst).healthy = true then req.Healthy else inst.Proto.Healthy := by
  have h := updateHealthCheck_healthy D req (updatePlainAttributes req inst).inst
  rw [plain_healthy] at h
  simp only [opens_after_plain] at h
  rw [updateInstanceAttribute_inst]
  split
  · exact h
  · exact h

theorem mem_events_healthy (D : Nat) (uuid : String) (req : ApiInstance)
    (inst : ModelInstance) (b : Bool) :
    (if b then EventInstanceTurnHealth else EventInstanceTurnUnHealth)
        ∈ (updateInstanceAttribute D uuid req inst).updateEvents ↔
      (plainChanges req inst).healthy = true ∧ boolValue req.Healthy = b := by
  rw [mem_updateInstanceAttribute_events, mem_plain_events]
  rcases Bool.eq_false_or_eq_true (boolValue req.Healthy) with h | h <;>
  rcases Bool.eq_false_or_eq_true (boolValue req.Isolate) with g | g <;>
  cases b <;> simp [h, g]

theorem mem_events_isolate (D : Nat) (uuid : String) (req : ApiInstance)
    (inst : ModelInstance) (b : Bool) :
    (if b then EventInstanceOpenIsolate else EventInstanceCloseIsolate)
        ∈ (updateInstanceAttribute D uuid req inst).updateEvents ↔
      (plainChanges req inst).isolate = true ∧ boolValue req.Isolate = b := by
  rw [mem_updateInstanceAttribute_events, mem_plain_events]
  rcases Bool.eq_false_or_eq_true (boolValue req.Healthy) with h | h <;>
  rcases Bool.eq_false_or_eq_true (boolValue req.Isolate) with g | g <;>
  cases b <;> simp [h, g]

/-- A flag that is rewritten only when the request differs from it goes from `¬ b` to
`b` exactly when the request differs and asks for `b`. -/
theorem flag_transition (reqFlag old : Option Bool) (b : Bool) :
    (decide (reqFlag ≠ none ∧ boolValue reqFlag ≠ boolValue old) = true ∧ boolValue reqFlag = b) ↔
      (boolValue old = !b) ∧
        boolValue (if decide (reqFlag ≠ none ∧ boolValue reqFlag ≠ boolValue old) = true
          then reqFlag else old) = b := by
  cases reqFlag with
  | none =>
    cases old with
    | none => cases b <;> simp [boolValue]
    | some o => cases b <;> cases o <;> simp [boolValue]
  | some v =>
    cases old with
    | none => cases b <;> cases v <;> simp [boolValue]
    | some o => cases b <;> cases v <;> cases o <;> simp [boolValue]

/-- C6, as the code has it: the event set contains `OpenIsolate` (resp. `CloseIsolate`)
exactly when the isolate flag goes from false to true (resp. true to false); and, unless
the same update switches health checking on for an instance that had it off, it contains
`TurnUnHealth` exactly when the healthy flag goes from true to false and `TurnHealth`
exactly when it goes from false to true. -/
theorem events_reflect_transitions (DefaultTLL : Nat) (uuid : String) (req : ApiInstance)
    (inst : ModelInstance) :
    (EventInstanceOpenIsolate ∈ (updateInstanceAttribute DefaultTLL uuid req inst).updateEvents ↔
      inst.Isolate = false ∧
        (updateInstanceAttribute DefaultTLL uuid req inst).inst.Isolate = true) ∧
    (EventInstanceCloseIsolate ∈ (updateInstanceAttribute DefaultTLL uuid req inst).updateEvents ↔
      inst.Isolate = true ∧
        (updateInstanceAttribute DefaultTLL uuid req inst).inst.Isolate = false) ∧
    (¬ OpensHealthCheck req inst →
      (EventInstanceTurnUnHealth ∈ (updateInstanceAttribute DefaultTLL uuid req inst).updateEvents ↔
        inst.Healthy = true ∧
          (updateInstanceAttribute DefaultTLL uuid req inst).inst.Healthy = false) ∧
      (EventInstanceTurnHealth ∈ (updateInstanceAttribute DefaultTLL uuid req inst).updateEvents ↔
        inst.Healthy = false ∧
          (updateInstanceAttribute DefaultTLL uuid req inst).inst.Healthy = true)) := by
  have hi := fun b => mem_events_isolate DefaultTLL uuid req inst b
  have hh := fun b => mem_events_healthy DefaultTLL uuid req inst b
  have hiso := updateInstanceAttribute_isolate DefaultTLL uuid req inst
  have hhea := updateInstanceAttribute_healthy DefaultTLL uuid req inst
  refine ⟨?_, ?_, fun hopen => ⟨?_, ?_⟩⟩
  · have := hi true
    simp only [if_true] at this
    rw [this]
    simp only [ModelInstance.Isolate, hiso, plainChanges]
    exact flag_transition req.Isolate inst.Proto.Isolate true
  · have := hi false
    simp only [Bool.false_eq_true, if_false] at this
    rw [this]
    simp only [ModelInstance.Isolate, hiso, plainChanges]
    exact flag_transition req.Isolate inst.Proto.Isolate false
  · have := hh false
    simp only [Bool.false_eq_true, if_false] at this
    rw [this]
    rw [if_neg hopen] at hhea
    simp only [ModelInstance.Healthy, hhea, plainChanges]
    exact flag_transition req.Healthy inst.Proto.Healthy false
  · have := hh true
    simp only [if_true] at this
    rw [this]
    rw [if_neg hopen] at hhea
    simp only [ModelInstance.Healthy, hhea, plainChanges]
    exact flag_transition req.Healthy inst.Proto.Healthy true

/-- C6 at a healthy instance with heartbeat checking on, for a request that reports it
unhealthy. -/
theorem events_reflect_transitions_witness :
    ¬ OpensHealthCheck { Healthy := some false } (storedA protoChecked) ∧
    (EventInstanceTurnUnHealth ∈ (updateInstanceAttribute 5 "uuid" { Healthy := some false }
          (storedA protoChecked)).updateEvents ↔
      (storedA protoChecked).Healthy = true ∧
        (updateInstanceAttribute 5 "uuid" { Healthy := some false }
          (storedA protoChecked)).inst.Healthy = false) ∧
    (EventInstanceTurnHealth ∈ (updateInstanceAttribute 5 "uuid" { Healthy := some false }
          (storedA protoChecked)).updateEvents ↔
      (storedA protoChecked).Healthy = false ∧
        (updateInstanceAttribute 5 "uuid" { Healthy := some false }
          (storedA protoChecked)).inst.Healthy = true) :=
  ⟨by decide,
    (events_reflect_transitions 5 "uuid" { Healthy := some false } (storedA protoChecked)).2.2
      (by decide)⟩

/-- C6 as stated fails: an unhealthy instance without health checking gets a request
that reports it healthy and switches heartbeat checking on. The event set contains
`TurnHealth`, yet the instance is unhealthy before and after the call. -/
theorem events_reflect_transitions_counterexample :
    ¬ ((EventInstanceTurnUnHealth
          ∈ (updateInstanceAttribute 5 "uuid" reqHealthyWithCheck
              (storedA protoUnhealthy)).updateEvents ↔
        (storedA protoUnhealthy).Healthy = true ∧
          (updateInstanceAttribute 5 "uuid" reqHealthyWithCheck
            (storedA protoUnhealthy)).inst.Healthy = false) ∧
      (EventInstanceTurnHealth
          ∈ (updateInstanceAttribute 5 "uuid" reqHealthyWithCheck
              (storedA protoUnhealthy)).updateEvents ↔
        (storedA protoUnhealthy).Healthy = false ∧
          (updateInstanceAttribute 5 "uuid" reqHealthyWithCheck
            (storedA protoUnhealthy)).inst.Healthy = true) ∧
      (EventInstanceOpenIsolate
          ∈ (updateInstanceAttribute 5 "uuid" reqHealthyWithCheck
              (storedA protoUnhealthy)).updateEvents ↔
        (storedA protoUnhealthy).Isolate = false ∧
          (updateInstanceAttribute 5 "uuid" reqHealthyWithCheck
            (storedA protoUnhealthy)).inst.Isolate = true) ∧
      (EventInstanceCloseIsolate
          ∈ (updateInstanceAttribute 5 "uuid" reqHealthyWithCheck
              (storedA protoUnhealthy)).updateEvents ↔
        (storedA protoUnhealthy).Isolate = true ∧
          (updateInstanceAttribute 5 "uuid" reqHealthyWithCheck
            (storedA protoUnhealthy)).inst.Isolate = false)) := by
  decide



/-- The event loop of `UpdateInstanceIsolate` publishes nothing when every instance it
ranges over already carries the requested flag. -/
theorem isolateEvents_of_overwritten (w : World σ) (req : ApiInstance)
    (instances : List ModelInstance)
    (h : ∀ stored ∈ instances, stored.Isolate = boolValue req.Isolate) :
    isolateEvents w req instances = w := by
  unfold isolateEvents
  induction instances generalizing w with
  | nil => rfl
  | cons x xs ih =>
    rw [List.foldl_cons]
    have hx : ¬ (req.Isolate ≠ none ∧ x.Isolate ≠ boolValue req.Isolate) := by
      intro hc
      exact hc.2 (h x (List.mem_cons_self _ _))
    rw [if_neg hx]
    exact ih w (fun s hs => h s (List.mem_cons_of_mem _ hs))

/-- `UpdateInstanceIsolate` never publishes an event: the flag of every fetched instance
is overwritten with the requested one before the loop that compares them. -/
theorem updateInstanceIsolate_events (env : Env σ) (w : World σ) (req : Option ApiInstance) :
    (UpdateInstanceIsolate env w req).2.events = w.events := by
  unfold UpdateInstanceIsolate
  cases checkInstanceByHost env req with
  | error err => rfl
  | ok r =>
    simp only
    by_cases hiso : r.Isolate = none
    · simp [hiso]
    · simp only [hiso, if_false]
      cases getInstancesMainByService env w.ext r with
      | error err => rfl
      | ok found =>
        obtain ⟨instances, service⟩ := found
        cases instances with
        | none => rfl
        | some instances =>
          simp only
          split
          · rfl
          · split
            · rfl
            · rw [isolateEvents_of_overwritten]
              · rfl
              · intro stored hs
                obtain ⟨orig, _, rfl⟩ := List.mem_map.1 hs
                rfl

/-- C8 fails on the code: one stored instance that is not isolated, and a request to
isolate the instances of its host. `UpdateInstanceIsolate` answers `ExecuteSuccess` and
writes the flag, but publishes no event, where the claim has one `OpenIsolate` event. -/
theorem updateInstanceIsolate_no_event :
    (UpdateInstanceIsolate memEnv (worldA [storedA protoNotIsolated]) (some reqIsolate)).1.Code
      = Code.ExecuteSuccess ∧
    (UpdateInstanceIsolate memEnv (worldA [storedA protoNotIsolated])
      (some reqIsolate)).2.ext.instances.map (fun i => i.Isolate) = [true] ∧
    (UpdateInstanceIsolate memEnv (worldA [storedA protoNotIsolated]) (some reqIsolate)).2.events
      = [] := by
  decide



theorem injectMetadata_type (ctx : Ctx) (e : InstanceEvent) :
    (InjectMetadata ctx e).EType = e.EType ∧ (InjectMetadata ctx e).Id = e.Id := by
  unfold InjectMetadata
  cases ctx.EventMetadata <;> exact ⟨rfl, rfl⟩

theorem storeError2Code_ne (err : StoreError) : storeError2Code err ≠ Code.ExecuteSuccess := by
  cases err <;> simp [storeError2Code]

theorem checkDbInstanceFieldLen_code (env : Env σ) (r : ApiInstance) (resp : Response)
    (h : CheckDbInstanceFieldLen env r = some resp) : resp.Code ≠ Code.ExecuteSuccess := by
  unfold CheckDbInstanceFieldLen at h
  split_ifs at h <;> (cases h; simp [NewInstanceResponse])

theorem checkInstanceTetrad_code (env : Env σ) (r : ApiInstance) (resp : Response)
    (h : CheckInstanceTetrad env r = Except.error resp) : resp.Code ≠ Code.ExecuteSuccess := by
  unfold CheckInstanceTetrad at h
  split_ifs at h <;> (cases h; simp [NewInstanceResponse])

theorem checkCreateInstance_code (env : Env σ) (req : Option ApiInstance) (resp : Response)
    (h : checkCreateInstance env req = Except.error resp) : resp.Code ≠ Code.ExecuteSuccess := by
  unfold checkCreateInstance at h
  cases req with
  | none =>
    simp only at h
    cases h
    simp [NewInstanceResponse]
  | some r =>
    simp only at h
    split_ifs at h
    · cases h; simp [NewInstanceResponse]
    · cases hdb : CheckDbInstanceFieldLen env r with
      | some resp' =>
        rw [hdb] at h
        simp only at h
        cases h
        exact checkDbInstanceFieldLen_code env r _ hdb
      | none =>
        rw [hdb] at h
        simp only at h
        cases ht : CheckInstanceTetrad env r with
        | error resp' =>
          rw [ht] at h
          simp only at h
          cases h
          exact checkInstanceTetrad_code env r _ ht
        | ok id =>
          rw [ht] at h
          cases h

theorem checkReviseInstance_code (env : Env σ) (req : Option ApiInstance) (resp : Response)
    (h : checkReviseInstance env req = Except.error resp) : resp.Code ≠ Code.ExecuteSuccess := by
  unfold checkReviseInstance at h
  cases req with
  | none =>
    simp only at h
    cases h
    simp [NewInstanceResponse]
  | some r =>
    simp only at h
    cases hid : r.Id with
    | some id =>
      rw [hid] at h
      simp only at h
      split_ifs at h
      · cases h; simp [NewInstanceResponse]
    | none =>
      rw [hid] at h
      simp only at h
      cases hdb : CheckDbInstanceFieldLen env r with
      | some resp' =>
        rw [hdb] at h
        simp only at h
        cases h
        exact checkDbInstanceFieldLen_code env r _ hdb
      | none =>
        rw [hdb] at h
        simp only at h
        cases ht : CheckInstanceTetrad env r with
        | error resp' =>
          rw [ht] at h
          simp only at h
          cases h
          exact checkInstanceTetrad_code env r _ ht
        | ok id =>
          rw [ht] at h
          cases h

theorem loadService_code (env : Env σ) (ext : σ) (ns svcName : String) (resp : Response)
    (h : loadService env ext ns svcName = Except.error resp) :
    resp.Code ≠ Code.ExecuteSuccess := by
  unfold loadService at h
  split at h
  · split_ifs at h
    cases h; simp [NewResponseWithMsg]
  · split at h
    · cases h; simp [NewResponseWithMsg]
    · split_ifs at h
      cases h; simp [NewResponseWithMsg]
    · cases h

theorem createServiceIfAbsent_spec (env : Env σ) (ctx : Ctx) (w : World σ)
    (ns svcName : String) :
    (createServiceIfAbsent env ctx w ns svcName).2.events = w.events ∧
    ∀ resp, (createServiceIfAbsent env ctx w ns svcName).1 = Except.error resp →
      resp.Code ≠ Code.ExecuteSuccess := by
  unfold createServiceIfAbsent
  cases hl : loadService env w.ext ns svcName with
  | error errResp =>
    refine ⟨rfl, fun resp h => ?_⟩
    simp only at h
    cases h
    exact loadService_code env w.ext ns svcName _ hl
  | ok found =>
    cases found with
    | some svc => exact ⟨rfl, fun resp h => by cases h⟩
    | none =>
      simp only
      split_ifs
      all_goals refine ⟨rfl, fun resp h => ?_⟩
      all_goals cases h
      all_goals exact And.left (by assumption)

theorem lockService_spec (env : Env σ) (w : World σ) (ns svcName : String) :
    (lockService env w ns svcName).2.events = w.events := by
  unfold lockService
  split
  · rfl
  · split
    · rfl
    · rfl
    · split_ifs <;> rfl

theorem serialCreateInstance_spec (env : Env σ) (w : World σ) (svcId : String)
    (req ins : ApiInstance) :
    (serialCreateInstance env w svcId req ins).2.events = w.events ∧
    ∀ resp, (serialCreateInstance env w svcId req ins).1 = Except.error resp →
      resp.Code ≠ Code.ExecuteSuccess := by
  unfold serialCreateInstance
  cases hg : env.GetInstance w.ext (strValue ins.Id) with
  | error e =>
    refine ⟨rfl, fun resp h => ?_⟩
    cases h
    simp [NewInstanceResponse]
  | ok found =>
    simp only
    generalize env.CreateInstanceModel svcId _ = data
    have hlock := lockService_spec env w (strValue req.Namespace) (strValue req.Service)
    by_cases hc : (lockService env w (strValue req.Namespace) (strValue req.Service)).1.2
        ≠ Code.ExecuteSuccess
    · rw [if_pos hc]
      refine ⟨hlock, fun resp h => ?_⟩
      cases h
      exact hc
    · rw [if_neg hc]
      cases ha : (env.AddInstance
          (lockService env w (strValue req.Namespace) (strValue req.Service)).2.ext data).1 with
      | some err =>
        refine ⟨hlock, fun resp h => ?_⟩
        cases h
        exact storeError2Code_ne _
      | none =>
        refine ⟨hlock, fun resp h => ?_⟩
        cases h

theorem asyncCreateInstance_spec (env : Env σ) (bc : BatchCtrl σ) (ctx : Ctx) (w : World σ)
    (svcId : String) (req ins : ApiInstance)
    (hbc : ∀ ext svcId ins wait code,
      (bc.AsyncCreateInstance ext svcId ins wait).1 = Except.error code →
      code ≠ Code.ExecuteSuccess) :
    (asyncCreateInstance env bc ctx w svcId req ins).2.events = w.events ∧
    ∀ resp, (asyncCreateInstance env bc ctx w svcId req ins).1 = Except.error resp →
      resp.Code ≠ Code.ExecuteSuccess := by
  unfold asyncCreateInstance
  simp only
  cases hf : (bc.AsyncCreateInstance w.ext svcId ins (!ctx.OpenAsyncRegis)).1 with
  | error code =>
    refine ⟨rfl, fun resp h => ?_⟩
    cases h
    exact hbc _ _ _ _ _ hf
  | ok u => exact ⟨rfl, fun resp h => by cases h⟩

theorem createInstance_spec (env : Env σ) (ctx : Ctx) (w : World σ) (req ins : ApiInstance)
    (hbc : BatchFailureCoded env) :
    (createInstance env ctx w req ins).2.events = w.events ∧
    ∀ resp, (createInstance env ctx w req ins).1 = Except.error resp →
      resp.Code ≠ Code.ExecuteSuccess := by
  unfold createInstance
  obtain ⟨hev, hcode⟩ :=
    createServiceIfAbsent_spec env ctx w (strValue req.Namespace) (strValue req.Service)
  cases hs : createServiceIfAbsent env ctx w (strValue req.Namespace) (strValue req.Service) with
  | mk res w1 =>
    rw [hs] at hev hcode
    simp only at hev hcode
    cases res with
    | error errResp =>
      exact ⟨hev, fun resp h => by cases h; exact hcode _ rfl⟩
    | ok svcId =>
      simp only
      split_ifs with hlen
      · refine ⟨hev, fun resp h => ?_⟩
        cases h; simp [NewResponseWithMsg]
      · cases hb : env.bc with
        | none =>
          simp only
          obtain ⟨h1, h2⟩ := serialCreateInstance_spec env w1 svcId req (packCmdb env ins)
          exact ⟨h1.trans hev, h2⟩
        | some bc =>
          simp only
          split_ifs
          · obtain ⟨h1, h2⟩ := serialCreateInstance_spec env w1 svcId req (packCmdb env ins)
            exact ⟨h1.trans hev, h2⟩
          · obtain ⟨h1, h2⟩ := asyncCreateInstance_spec env bc ctx w1 svcId req
              (packCmdb env ins) (hbc bc hb)
            exact ⟨h1.trans hev, h2⟩

/-- What a `CreateInstance` call does to the event log: a call that does not answer
`ExecuteSuccess` publishes nothing; a call that does publishes one `InstanceOnline`
event whose id is the instance id of the request, which the response carries too. -/
theorem createInstance_outcome (env : Env σ) (ctx : Ctx) (w : World σ)
    (req : Option ApiInstance) (hbc : BatchFailureCoded env) :
    ((CreateInstance env ctx w req).1.Code ≠ Code.ExecuteSuccess ∧
      (CreateInstance env ctx w req).2.events = w.events) ∨
    ((CreateInstance env ctx w req).1.Code = Code.ExecuteSuccess ∧
      ∃ id r e, checkCreateInstance env req = Except.ok (id, r) ∧
        (CreateInstance env ctx w req).2.events = w.events ++ [e] ∧
        e.EType = EventInstanceOnline ∧ e.Id = id ∧
        (CreateInstance env ctx w req).1.Instance.bind (fun i => i.Id) = some id) := by
  unfold CreateInstance
  cases hc : checkCreateInstance env req with
  | error checkError =>
    left
    exact ⟨checkCreateInstance_code env req _ hc, rfl⟩
  | ok found =>
    obtain ⟨instanceID, r⟩ := found
    simp only
    split_ifs with hallow
    · left
      exact ⟨by simp [NewInstanceResponse], rfl⟩
    · obtain ⟨hev, hcode⟩ := createInstance_spec env ctx
        { w with ext := (env.allowInstanceAccess w.ext instanceID).2 } r
        { r with ServiceToken := some (parseInstanceReqToken ctx r), Id := some instanceID } hbc
      cases hcr : createInstance env ctx
        { w with ext := (env.allowInstanceAccess w.ext instanceID).2 } r
        { r with ServiceToken := some (parseInstanceReqToken ctx r), Id := some instanceID } with
      | mk res w2 =>
        rw [hcr] at hev hcode
        simp only at hev hcode
        cases res with
        | error resp =>
          left
          exact ⟨hcode _ rfl, hev⟩
        | ok data =>
          right
          refine ⟨rfl, instanceID, r,
            InjectMetadata ctx
              { Id := instanceID, Namespace := strValue r.Namespace, Service := strValue r.Service,
                Instance := some data.Proto, EType := EventInstanceOnline },
            rfl, ?_, (injectMetadata_type ctx _).1, (injectMetadata_type ctx _).2, rfl⟩
          simp only [sendDiscoverEvent, hev]



theorem deleteOutcome_silent (w : World σ) (out : Response × World σ)
    (hc : out.2.calls = w.calls) (he : out.2.events = w.events) : DeleteOutcome w out :=
  ⟨[], [], by simp [hc], by simp [he], rfl, by simp, fun _ => rfl⟩

theorem serialDeleteInstance_outcome (env : Env σ) (ctx : Ctx) (w : World σ)
    (req ins : ApiInstance) : DeleteOutcome w (serialDeleteInstance env ctx w req ins) := by
  unfold serialDeleteInstance
  cases hg : env.GetInstance w.ext (strValue ins.Id) with
  | error e => exact deleteOutcome_silent w _ rfl rfl
  | ok found =>
    cases found with
    | none => exact deleteOutcome_silent w _ rfl rfl
    | some stored =>
      simp only
      cases ha : instanceAuth env w.ext req stored.ServiceID with
      | error resp => exact deleteOutcome_silent w _ rfl rfl
      | ok service =>
        simp only
        cases hd : (env.DeleteInstance w.ext stored.ID).1 with
        | some err =>
          refine ⟨[StoreCall.DeleteInstance stored.ID false], [], ?_, ?_, ?_, ?_, fun _ => rfl⟩
          · simp [World.call]
          · simp [World.call]
          · simp [removedBy]
          · simp
        | none =>
          refine ⟨[StoreCall.DeleteInstance stored.ID true],
            [InjectMetadata ctx
              { Id := stored.ID, Namespace := service.Namespace, Service := service.Name,
                Instance := some stored.Proto, EType := EventInstanceOffline }],
            ?_, ?_, ?_, ?_, ?_⟩
          · simp [World.call, sendDiscoverEvent]
          · simp [World.call, sendDiscoverEvent]
          · simp [removedBy, (injectMetadata_type ctx _).1, (injectMetadata_type ctx _).2]
          · simp
          · intro h
            exact absurd rfl h

theorem asyncDeleteInstance_outcome (bc : BatchCtrl σ) (ctx : Ctx) (w : World σ)
    (req ins : ApiInstance) : DeleteOutcome w (asyncDeleteInstance bc ctx w req ins) := by
  unfold asyncDeleteInstance
  simp only
  cases hf : (bc.AsyncDeleteInstance w.ext ins (!ctx.OpenAsyncRegis)).1 with
  | error code =>
    simp only
    split_ifs
    · refine ⟨[StoreCall.AsyncDeleteInstance ins none], [], ?_, ?_, ?_, ?_, fun _ => rfl⟩
      · simp [World.call, Except.toOption]
      · simp [World.call]
      · simp [removedBy]
      · simp
    · refine ⟨[StoreCall.AsyncDeleteInstance ins none], [], ?_, ?_, ?_, ?_, fun _ => rfl⟩
      · simp [World.call, Except.toOption]
      · simp [World.call]
      · simp [removedBy]
      · simp
  | ok removed =>
    refine ⟨[StoreCall.AsyncDeleteInstance ins (some removed)],
      [InjectMetadata ctx
        { Id := removed.ID, Namespace := strValue removed.Proto.Namespace,
          Service := strValue removed.Proto.Service,
          Instance := some removed.Proto, EType := EventInstanceOffline }],
      ?_, ?_, ?_, ?_, ?_⟩
    · simp [World.call, sendDiscoverEvent, Except.toOption]
    · simp [World.call, sendDiscoverEvent]
    · simp [removedBy, (injectMetadata_type ctx _).1, (injectMetadata_type ctx _).2]
    · simp
    · intro h
      exact absurd rfl h

theorem deleteInstance_outcome (env : Env σ) (ctx : Ctx) (w : World σ)
    (req ins : ApiInstance) : DeleteOutcome w (deleteInstance env ctx w req ins) := by
  unfold deleteInstance
  cases env.bc with
  | none => exact serialDeleteInstance_outcome env ctx w req ins
  | some bc =>
    simp only
    split_ifs
    · exact serialDeleteInstance_outcome env ctx w req ins
    · exact asyncDeleteInstance_outcome bc ctx w req ins

theorem DeleteInstance_outcome (env : Env σ) (ctx : Ctx) (w : World σ)
    (req : Option ApiInstance) : DeleteOutcome w (DeleteInstance env ctx w req) := by
  unfold DeleteInstance
  cases hc : checkReviseInstance env req with
  | error checkError => exact deleteOutcome_silent w _ rfl rfl
  | ok found =>
    obtain ⟨instanceID, r⟩ := found
    simp only
    split_ifs
    · exact deleteOutcome_silent w _ rfl rfl
    · exact deleteInstance_outcome env ctx
        { w with ext := (env.allowInstanceAccess w.ext instanceID).2 } r _

theorem memEnv_batchFailureCoded : BatchFailureCoded memEnv := by
  intro bc h
  simp [memEnv] at h



/-- C9, as the code has it: when a request is registered twice and both calls answer
`ExecuteSuccess`, the second call returns the same instance id as the first and, like
every successful call, publishes one more `InstanceOnline` event for that id. -/
theorem register_twice (env : Env σ) (ctx : Ctx) (w : World σ) (req : Option ApiInstance)
    (hbc : BatchFailureCoded env)
    (h1 : (CreateInstance env ctx w req).1.Code = Code.ExecuteSuccess)
    (h2 : (CreateInstance env ctx (CreateInstance env ctx w req).2 req).1.Code
      = Code.ExecuteSuccess) :
    (CreateInstance env ctx (CreateInstance env ctx w req).2 req).1.Instance.bind (fun i => i.Id)
      = (CreateInstance env ctx w req).1.Instance.bind (fun i => i.Id) ∧
    ∃ e, (CreateInstance env ctx (CreateInstance env ctx w req).2 req).2.events
        = (CreateInstance env ctx w req).2.events ++ [e] ∧
      e.EType = EventInstanceOnline ∧
      some e.Id = (CreateInstance env ctx w req).1.Instance.bind (fun i => i.Id) := by
  rcases createInstance_outcome env ctx w req hbc with ⟨hne, _⟩ | ⟨_, id, r, e, hc, _, _, _, hid⟩
  · exact absurd h1 hne
  · rcases createInstance_outcome env ctx (CreateInstance env ctx w req).2 req hbc with
      ⟨hne, _⟩ | ⟨_, id', r', e', hc', hev', het', hid', hresp'⟩
    · exact absurd h2 hne
    · rw [hc] at hc'
      cases hc'
      refine ⟨hresp'.trans hid.symm, e', hev', het', ?_⟩
      rw [hid, hid']

/-- C9 in the in-memory environment, registering `registerA` twice from the empty
world. -/
theorem register_twice_witness :
    BatchFailureCoded memEnv ∧
    (CreateInstance memEnv {} worldEmpty (some registerA)).1.Code = Code.ExecuteSuccess ∧
    (CreateInstance memEnv {} (CreateInstance memEnv {} worldEmpty (some registerA)).2
      (some registerA)).1.Code = Code.ExecuteSuccess ∧
    (CreateInstance memEnv {} (CreateInstance memEnv {} worldEmpty (some registerA)).2
        (some registerA)).1.Instance.bind (fun i => i.Id)
      = (CreateInstance memEnv {} worldEmpty (some registerA)).1.Instance.bind (fun i => i.Id) ∧
    ∃ e, (CreateInstance memEnv {} (CreateInstance memEnv {} worldEmpty (some registerA)).2
          (some registerA)).2.events
        = (CreateInstance memEnv {} worldEmpty (some registerA)).2.events ++ [e] ∧
      e.EType = EventInstanceOnline ∧
      some e.Id
        = (CreateInstance memEnv {} worldEmpty (some registerA)).1.Instance.bind (fun i => i.Id) :=
  ⟨memEnv_batchFailureCoded, by decide, by decide,
    register_twice memEnv {} worldEmpty (some registerA) memEnv_batchFailureCoded
      (by decide) (by decide)⟩

/-- C9 as stated fails: with a store whose `AddInstance` replaces the row of the same
id, the second registration of `registerA` succeeds with the same id and publishes a
second `InstanceOnline` event. -/
theorem register_twice_counterexample :
    (CreateInstance memEnv {} (CreateInstance memEnv {} worldEmpty (some registerA)).2
      (some registerA)).2.events.map (fun e => (e.EType, e.Id))
      = [(EventInstanceOnline, idA), (EventInstanceOnline, idA)] ∧
    ¬ ((CreateInstance memEnv {} (CreateInstance memEnv {} worldEmpty (some registerA)).2
          (some registerA)).1.Instance.bind (fun i => i.Id)
        = (CreateInstance memEnv {} worldEmpty (some registerA)).1.Instance.bind (fun i => i.Id) ∧
      (CreateInstance memEnv {} (CreateInstance memEnv {} worldEmpty (some registerA)).2
          (some registerA)).2.events
        = (CreateInstance memEnv {} worldEmpty (some registerA)).2.events) := by
  decide

/-- C10: a `CreateInstance` call that answers `ExecuteSuccess` publishes exactly one
`InstanceOnline` event, carrying the instance id that the response returns, and a call
that answers another code publishes nothing; a `DeleteInstance` call publishes exactly
one `InstanceOffline` event for the stored instance it removes, carrying its id, removes
at most one, and publishes nothing when it answers a code other than `ExecuteSuccess`. -/
theorem register_deregister_events (env : Env σ) (ctx : Ctx) (w : World σ)
    (req : Option ApiInstance) (hbc : BatchFailureCoded env) :
    ((CreateInstance env ctx w req).1.Code = Code.ExecuteSuccess →
      ∃ id e, (CreateInstance env ctx w req).2.events = w.events ++ [e] ∧
        e.EType = EventInstanceOnline ∧ e.Id = id ∧
        (CreateInstance env ctx w req).1.Instance.bind (fun i => i.Id) = some id) ∧
    ((CreateInstance env ctx w req).1.Code ≠ Code.ExecuteSuccess →
      (CreateInstance env ctx w req).2.events = w.events) ∧
    ∃ cs es, (DeleteInstance env ctx w req).2.calls = w.calls ++ cs ∧
      (DeleteInstance env ctx w req).2.events = w.events ++ es ∧
      es.map (fun e => (e.EType, e.Id))
        = (cs.filterMap removedBy).map (fun id => (EventInstanceOffline, id)) ∧
      es.length ≤ 1 ∧
      ((DeleteInstance env ctx w req).1.Code ≠ Code.ExecuteSuccess → es = []) := by
  refine ⟨fun hs => ?_, fun hn => ?_, DeleteInstance_outcome env ctx w req⟩
  · rcases createInstance_outcome env ctx w req hbc with ⟨hne, _⟩ | ⟨_, id, r, e, _, hev, het, hid, hr⟩
    · exact absurd hs hne
    · exact ⟨id, e, hev, het, hid, hr⟩
  · rcases createInstance_outcome env ctx w req hbc with ⟨_, hev⟩ | ⟨hs, _⟩
    · exact hev
    · exact absurd hs hn

/-- C10 in the in-memory environment, for `registerA` on a world that stores it. -/
theorem register_deregister_events_witness :
    BatchFailureCoded memEnv ∧
    ((CreateInstance memEnv {} (worldA [storedA {}]) (some registerA)).1.Code
        = Code.ExecuteSuccess →
      ∃ id e, (CreateInstance memEnv {} (worldA [storedA {}]) (some registerA)).2.events
          = (worldA [storedA {}]).events ++ [e] ∧
        e.EType = EventInstanceOnline ∧ e.Id = id ∧
        (CreateInstance memEnv {} (worldA [storedA {}]) (some registerA)).1.Instance.bind
          (fun i => i.Id) = some id) ∧
    ((CreateInstance memEnv {} (worldA [storedA {}]) (some registerA)).1.Code
        ≠ Code.ExecuteSuccess →
      (CreateInstance memEnv {} (worldA [storedA {}]) (some registerA)).2.events
        = (worldA [storedA {}]).events) ∧
    ∃ cs es, (DeleteInstance memEnv {} (worldA [storedA {}]) (some registerA)).2.calls
        = (worldA [storedA {}]).calls ++ cs ∧
      (DeleteInstance memEnv {} (worldA [storedA {}]) (some registerA)).2.events
        = (worldA [storedA {}]).events ++ es ∧
      es.map (fun e => (e.EType, e.Id))
        = (cs.filterMap removedBy).map (fun id => (EventInstanceOffline, id)) ∧
      es.length ≤ 1 ∧
      ((DeleteInstance memEnv {} (worldA [storedA {}]) (some registerA)).1.Code
        ≠ Code.ExecuteSuccess → es = []) :=
  ⟨memEnv_batchFailureCoded,
    register_deregister_events memEnv {} (worldA [storedA {}]) (some registerA)
      memEnv_batchFailureCoded⟩

/-! ## Deleting an instance that is not stored -/

theorem serialDeleteInstance_absent (env : Env σ) (ctx : Ctx) (w : World σ)
    (req ins : ApiInstance) (h : env.GetInstance w.ext (strValue ins.Id) = Except.ok none) :
    serialDeleteInstance env ctx w req ins
      = (NewInstanceResponse Code.ExecuteSuccess (some req), w) := by
  unfold serialDeleteInstance
  rw [h]

theorem asyncDeleteInstance_absent (bc : BatchCtrl σ) (ctx : Ctx) (w : World σ)
    (req ins : ApiInstance)
    (h : (bc.AsyncDeleteInstance w.ext ins (!ctx.OpenAsyncRegis)).1
      = Except.error Code.NotFoundResource) :
    (asyncDeleteInstance bc ctx w req ins).1 = NewInstanceResponse Code.ExecuteSuccess (some req) ∧
    (asyncDeleteInstance bc ctx w req ins).2.events = w.events ∧
    (asyncDeleteInstance bc ctx w req ins).2.calls
      = w.calls ++ [StoreCall.AsyncDeleteInstance ins none] := by
  unfold asyncDeleteInstance
  simp [h, World.call, Except.toOption]

theorem deleteInstance_absent (env : Env σ) (ctx : Ctx) (w : World σ) (req ins : ApiInstance)
    (h : ReportsAbsent env ctx w.ext ins) :
    (deleteInstance env ctx w req ins).1 = NewInstanceResponse Code.ExecuteSuccess (some req) ∧
    (deleteInstance env ctx w req ins).2.events = w.events ∧
    ∃ cs, (deleteInstance env ctx w req ins).2.calls = w.calls ++ cs ∧
      ∀ c ∈ cs, c.IsStoreDelete = false ∧ removedBy c = none := by
  unfold ReportsAbsent at h
  unfold deleteInstance
  cases hb : env.bc with
  | none =>
    rw [hb] at h
    simp only at h ⊢
    rw [serialDeleteInstance_absent env ctx w req ins h]
    exact ⟨rfl, rfl, [], by simp, by simp⟩
  | some bc =>
    rw [hb] at h
    simp only at h ⊢
    by_cases ho : bc.DeleteInstanceOpen = true
    · rw [if_pos ho] at h
      simp only [ho, Bool.not_true, Bool.false_eq_true, if_false]
      obtain ⟨h1, h2, h3⟩ := asyncDeleteInstance_absent bc ctx w req ins h
      refine ⟨h1, h2, [StoreCall.AsyncDeleteInstance ins none], h3, ?_⟩
      intro c hc
      rw [List.mem_singleton] at hc
      subst hc
      exact ⟨rfl, rfl⟩
    · rw [if_neg ho] at h
      simp only [Bool.not_eq_true] at ho
      simp only [ho, Bool.not_false, if_true]
      rw [serialDeleteInstance_absent env ctx w req ins h]
      exact ⟨rfl, rfl, [], by simp, by simp⟩

/-- C11: a delete request that passes the checks and the rate allowance and names an
instance the store does not hold (serial path: `GetInstance` yields nothing; batched
path: the future reports `NotFoundResource`) is answered `ExecuteSuccess`; no store
delete is issued, no stored instance is removed and no event is published. -/
theorem deleteInstance_absent_is_silent (env : Env σ) (ctx : Ctx) (w : World σ)
    (req : Option ApiInstance) (instanceID : String) (r : ApiInstance)
    (hcheck : checkReviseInstance env req = Except.ok (instanceID, r))
    (hallow : (env.allowInstanceAccess w.ext instanceID).1 = true)
    (habsent : ReportsAbsent env ctx (env.allowInstanceAccess w.ext instanceID).2
      { r with Id := some instanceID, ServiceToken := some (parseInstanceReqToken ctx r) }) :
    (DeleteInstance env ctx w req).1 = NewInstanceResponse Code.ExecuteSuccess (some r) ∧
    (DeleteInstance env ctx w req).2.events = w.events ∧
    ∃ cs, (DeleteInstance env ctx w req).2.calls = w.calls ++ cs ∧
      ∀ c ∈ cs, c.IsStoreDelete = false ∧ removedBy c = none := by
  unfold DeleteInstance
  rw [hcheck]
  simp only [hallow, Bool.not_true, Bool.false_eq_true, if_false]
  exact deleteInstance_absent env ctx
    { w with ext := (env.allowInstanceAccess w.ext instanceID).2 } r _ habsent

/-- C11 at work: `registerA` is deregistered twice from a store that holds it. The second
call finds nothing, succeeds and leaves both logs as the first call left them. -/
theorem deleteInstance_absent_is_silent_witness :
    (DeleteInstance memEnv {} (DeleteInstance memEnv {} (worldA [storedA {}])
      (some registerA)).2 (some registerA)).1
      = NewInstanceResponse Code.ExecuteSuccess (some registerA) ∧
    (DeleteInstance memEnv {} (DeleteInstance memEnv {} (worldA [storedA {}])
      (some registerA)).2 (some registerA)).2.events
      = (DeleteInstance memEnv {} (worldA [storedA {}]) (some registerA)).2.events ∧
    ∃ cs, (DeleteInstance memEnv {} (DeleteInstance memEnv {} (worldA [storedA {}])
        (some registerA)).2 (some registerA)).2.calls
        = (DeleteInstance memEnv {} (worldA [storedA {}]) (some registerA)).2.calls ++ cs ∧
      ∀ c ∈ cs, c.IsStoreDelete = false ∧ removedBy c = none :=
  deleteInstance_absent_is_silent memEnv {}
    (DeleteInstance memEnv {} (worldA [storedA {}]) (some registerA)).2
    (some registerA) idA registerA rfl (by decide) rfl

/-! ## Alias services -/

theorem loadService_alias (env : Env σ) (ext : σ) (ns svcName : String)
    (h : LoadSeesAlias env ext ns svcName) :
    loadService env ext ns svcName = Except.error (NewResponseWithMsg Code.BadRequest) := by
  unfold loadService
  rcases h with ⟨svc, hc, ha⟩ | ⟨hc, svc, hs, ha⟩
  · rw [hc]
    simp [ha]
  · rw [hc]
    simp only
    rw [hs]
    simp [ha]

theorem lockService_alias (env : Env σ) (w : World σ) (ns svcName : String)
    (h : LockSeesAlias env w.ext ns svcName) :
    lockService env w ns svcName
      = ((none, Code.NotAllowAliasCreateInstance), w.call StoreCall.Commit) := by
  obtain ⟨ht, svc, hs, ha⟩ := h
  unfold lockService
  rw [ht]
  simp only
  rw [hs]
  simp [ha]

theorem createServiceIfAbsent_calls (env : Env σ) (ctx : Ctx) (w : World σ)
    (ns svcName : String) :
    ∃ cs, (createServiceIfAbsent env ctx w ns svcName).2.calls = w.calls ++ cs ∧
      ∀ c ∈ cs, c.IsAddInstance = false := by
  unfold createServiceIfAbsent
  cases hl : loadService env w.ext ns svcName with
  | error errResp => exact ⟨[], by simp, by simp⟩
  | ok found =>
    cases found with
    | some svc => exact ⟨[], by simp, by simp⟩
    | none =>
      simp only
      split_ifs
      all_goals refine ⟨[StoreCall.CreateService _], rfl, ?_⟩
      all_goals intro c hc
      all_goals rw [List.mem_singleton] at hc
      all_goals subst hc
      all_goals rfl

theorem serialCreateInstance_alias (env : Env σ) (w : World σ) (svcId : String)
    (req ins : ApiInstance)
    (h : LockSeesAlias env w.ext (strValue req.Namespace) (strValue req.Service)) :
    (∃ resp, (serialCreateInstance env w svcId req ins).1 = Except.error resp ∧
      (resp.Code = Code.StoreLayerException ∨ resp.Code = Code.NotAllowAliasCreateInstance)) ∧
    (serialCreateInstance env w svcId req ins).2.events = w.events ∧
    (serialCreateInstance env w svcId req ins).2.ext = w.ext ∧
    ∃ cs, (serialCreateInstance env w svcId req ins).2.calls = w.calls ++ cs ∧
      ∀ c ∈ cs, c.IsAddInstance = false := by
  unfold serialCreateInstance
  cases hg : env.GetInstance w.ext (strValue ins.Id) with
  | error e =>
    exact ⟨⟨_, rfl, Or.inl rfl⟩, rfl, rfl, [], by simp, by simp⟩
  | ok found =>
    simp only
    rw [lockService_alias env w _ _ h]
    simp only [ne_eq, reduceCtorEq, not_false_eq_true, if_true]
    refine ⟨⟨_, rfl, Or.inr rfl⟩, rfl, rfl, [StoreCall.Commit], rfl, ?_⟩
    intro c hc
    rw [List.mem_singleton] at hc
    subst hc
    rfl

theorem createInstance_alias (env : Env σ) (ctx : Ctx) (w : World σ) (req ins : ApiInstance)
    (halias :
      LoadSeesAlias env w.ext (strValue req.Namespace) (strValue req.Service) ∨
      (SerialCreate env ∧
        LockSeesAlias env
          (createServiceIfAbsent env ctx w (strValue req.Namespace) (strValue req.Service)).2.ext
          (strValue req.Namespace) (strValue req.Service))) :
    (∃ resp, (createInstance env ctx w req ins).1 = Except.error resp ∧
      resp.Code ≠ Code.ExecuteSuccess) ∧
    (createInstance env ctx w req ins).2.events = w.events ∧
    ∃ cs, (createInstance env ctx w req ins).2.calls = w.calls ++ cs ∧
      ∀ c ∈ cs, c.IsAddInstance = false := by
  unfold createInstance
  rcases halias with hload | ⟨hserial, hlock⟩
  · have hc : createServiceIfAbsent env ctx w (strValue req.Namespace) (strValue req.Service)
        = (Except.error (NewResponseWithMsg Code.BadRequest), w) := by
      unfold createServiceIfAbsent
      rw [loadService_alias env _ _ _ hload]
    rw [hc]
    exact ⟨⟨_, rfl, by simp [NewResponseWithMsg]⟩, rfl, [], by simp, by simp⟩
  · obtain ⟨cs0, hcalls0, hno0⟩ := createServiceIfAbsent_calls env ctx w
      (strValue req.Namespace) (strValue req.Service)
    obtain ⟨hev0, hcode0⟩ := createServiceIfAbsent_spec env ctx w
      (strValue req.Namespace) (strValue req.Service)
    cases hs : createServiceIfAbsent env ctx w (strValue req.Namespace)
        (strValue req.Service) with
    | mk res w1 =>
      rw [hs] at hcalls0 hev0 hcode0 hlock
      simp only at hcalls0 hev0 hcode0 hlock
      cases res with
      | error errResp => exact ⟨⟨_, rfl, hcode0 _ rfl⟩, hev0, cs0, hcalls0, hno0⟩
      | ok svcId =>
        simp only
        by_cases hlen : svcId.length = 0
        · rw [if_pos hlen]
          exact ⟨⟨_, rfl, by simp [NewResponseWithMsg]⟩, hev0, cs0, hcalls0, hno0⟩
        · rw [if_neg hlen]
          have key :
              (∃ resp, (serialCreateInstance env w1 svcId req (packCmdb env ins)).1
                  = Except.error resp ∧ resp.Code ≠ Code.ExecuteSuccess) ∧
              (serialCreateInstance env w1 svcId req (packCmdb env ins)).2.events = w.events ∧
              ∃ cs, (serialCreateInstance env w1 svcId req (packCmdb env ins)).2.calls
                  = w.calls ++ cs ∧ ∀ c ∈ cs, c.IsAddInstance = false := by
            obtain ⟨⟨resp, hresp, hcode⟩, hev, _, cs, hcalls, hno⟩ :=
              serialCreateInstance_alias env w1 svcId req (packCmdb env ins) hlock
            refine ⟨⟨resp, hresp, ?_⟩, hev.trans hev0, cs0 ++ cs, ?_, ?_⟩
            · rcases hcode with hcode | hcode <;> simp [hcode]
            · rw [hcalls, hcalls0, List.append_assoc]
            · intro c hc
              rcases List.mem_append.1 hc with hc | hc
              · exact hno0 c hc
              · exact hno c hc
          cases hb : env.bc with
          | none => exact key
          | some bc =>
            simp only [hserial bc hb, Bool.not_false, if_true]
            exact key

/-- Where the two alias tests refuse a create. `loadService` answers `BadRequest` when
the cache, or on a miss the store, reports an alias; `lockService` commits its
transaction and answers `NotAllowAliasCreateInstance` when the locked service row is an
alias. So a valid `CreateInstance` request whose service is reported as an alias by
`loadService`, or on the serial path by the row `lockService` locks, is refused: no
`AddInstance` reaches the store and nothing is published. -/
theorem alias_never_receives_instances (env : Env σ) (ctx : Ctx) (w : World σ)
    (req : Option ApiInstance) (id : String) (r : ApiInstance)
    (hcheck : checkCreateInstance env req = Except.ok (id, r))
    (halias :
      LoadSeesAlias env (env.allowInstanceAccess w.ext id).2
        (strValue r.Namespace) (strValue r.Service) ∨
      (SerialCreate env ∧
        LockSeesAlias env
          (createServiceIfAbsent env ctx { w with ext := (env.allowInstanceAccess w.ext id).2 }
            (strValue r.Namespace) (strValue r.Service)).2.ext
          (strValue r.Namespace) (strValue r.Service))) :
    (∀ ext ns svcName, LoadSeesAlias env ext ns svcName →
      loadService env ext ns svcName = Except.error (NewResponseWithMsg Code.BadRequest)) ∧
    (∀ (w0 : World σ) ns svcName, LockSeesAlias env w0.ext ns svcName →
      lockService env w0 ns svcName
        = ((none, Code.NotAllowAliasCreateInstance), w0.call StoreCall.Commit)) ∧
    (CreateInstance env ctx w req).1.Code ≠ Code.ExecuteSuccess ∧
    (CreateInstance env ctx w req).2.events = w.events ∧
    ∃ cs, (CreateInstance env ctx w req).2.calls = w.calls ++ cs ∧
      ∀ c ∈ cs, c.IsAddInstance = false := by
  refine ⟨loadService_alias env, fun w0 => lockService_alias env w0, ?_⟩
  unfold CreateInstance
  rw [hcheck]
  simp only
  by_cases hallow : (!(env.allowInstanceAccess w.ext id).1) = true
  · rw [if_pos hallow]
    exact ⟨by simp [NewInstanceResponse], rfl, [], by simp, by simp⟩
  rw [if_neg hallow]
  obtain ⟨⟨resp, hresp, hcode⟩, hev, cs, hcalls, hno⟩ := createInstance_alias env ctx
    { w with ext := (env.allowInstanceAccess w.ext id).2 } r
    { r with ServiceToken := some (parseInstanceReqToken ctx r), Id := some id } halias
  cases hrun : createInstance env ctx
      { w with ext := (env.allowInstanceAccess w.ext id).2 } r
      { r with ServiceToken := some (parseInstanceReqToken ctx r), Id := some id } with
  | mk res w2 =>
    rw [hrun] at hresp hev hcalls
    simp only at hresp hev hcalls
    subst hresp
    exact ⟨hcode, hev, cs, hcalls, hno⟩

/-- The serial path with a stale cache: the store holds `B` as an alias of `A` while the
service cache still has `B` as an ordinary service, so `loadService` lets the request
through; the row that `lockService` locks is the alias and the request is refused
there. -/
theorem alias_never_receives_instances_witness :
    (CreateInstance staleCacheEnv {} worldAlias (some registerB)).1.Code
      = Code.NotAllowAliasCreateInstance ∧
    (CreateInstance staleCacheEnv {} worldAlias (some registerB)).2.calls = [StoreCall.Commit] ∧
    (CreateInstance staleCacheEnv {} worldAlias (some registerB)).2.ext.instances = [] ∧
    (CreateInstance staleCacheEnv {} worldAlias (some registerB)).2.events = worldAlias.events :=
  ⟨by decide, by decide, by decide,
    (alias_never_receives_instances staleCacheEnv {} worldAlias (some registerB)
      "default:B:10.0.0.1:8080" registerB rfl
      (Or.inr ⟨(show SerialCreate staleCacheEnv from fun bc h => by cases h),
        (show _ ∧ _ from ⟨rfl, aliasB, rfl, rfl⟩)⟩)).2.2.2.1⟩

/-! ## The instance interceptors -/

theorem guarded_match {ρ : Type} (checked : α × Option ε) (deny : ε → ρ) (call : ServerCall κ)
    (run : ν → ρ × ν) (w : Served κ ν) :
    Guarded checked deny call run w
      (match checked.2 with
        | some err => (deny err, w)
        | none => w.invoke call run) := by
  unfold Guarded
  cases checked.2 with
  | some err => rfl
  | none => exact ⟨rfl, rfl, rfl⟩

/-- C13: each instance-plane interceptor method is guarded by its permission check. When
the check returns an error the wrapped server is left as it was, not invoked, and the
response is built from `convertToErrCode(err)`; when the check passes the wrapped method
is invoked once, on the forwarded context and the request as given, and its response is
handed back as it is. -/
theorem interceptors_guard_wrapped_server (svr : ServerAuthAbility κ α ε ν) (ctx : κ)
    (reqs : List (Option ApiInstance)) (query : Metadata) (req : Option ApiInstance)
    (w : Served κ ν) :
    (Guarded (svr.consoleChecked ctx reqs ResourceOperation.Create "CreateInstances")
        (fun err => svr.Collect (NewBatchWriteResponse Code.ExecuteSuccess)
          (NewResponseWithMsg (svr.convertToErrCode err)))
        (ServerCall.CreateInstances
          (svr.consoleForwarded ctx reqs ResourceOperation.Create "CreateInstances") reqs)
        (svr.nextSvr.CreateInstances
          (svr.consoleForwarded ctx reqs ResourceOperation.Create "CreateInstances") reqs)
        w (svr.CreateInstances ctx reqs w)) ∧
    (Guarded (svr.consoleChecked ctx reqs ResourceOperation.Delete "DeleteInstances")
        (fun err => svr.Collect (NewBatchWriteResponse Code.ExecuteSuccess)
          (NewResponseWithMsg (svr.convertToErrCode err)))
        (ServerCall.DeleteInstances
          (svr.consoleForwarded ctx reqs ResourceOperation.Delete "DeleteInstances") reqs)
        (svr.nextSvr.DeleteInstances
          (svr.consoleForwarded ctx reqs ResourceOperation.Delete "DeleteInstances") reqs)
        w (svr.DeleteInstances ctx reqs w)) ∧
    (Guarded (svr.consoleChecked ctx reqs ResourceOperation.Modify "UpdateInstances")
        (fun err => NewBatchWriteResponseWithMsg (svr.convertToErrCode err))
        (ServerCall.UpdateInstances
          (svr.consoleForwarded ctx reqs ResourceOperation.Modify "UpdateInstances") reqs)
        (svr.nextSvr.UpdateInstances
          (svr.consoleForwarded ctx reqs ResourceOperation.Modify "UpdateInstances") reqs)
        w (svr.UpdateInstances ctx reqs w)) ∧
    (Guarded (svr.consoleChecked ctx reqs ResourceOperation.Modify "UpdateInstancesIsolate")
        (fun err => NewBatchWriteResponseWithMsg (svr.convertToErrCode err))
        (ServerCall.UpdateInstancesIsolate
          (svr.consoleForwarded ctx reqs ResourceOperation.Modify "UpdateInstancesIsolate") reqs)
        (svr.nextSvr.UpdateInstancesIsolate
          (svr.consoleForwarded ctx reqs ResourceOperation.Modify "UpdateInstancesIsolate") reqs)
        w (svr.UpdateInstancesIsolate ctx reqs w)) ∧
    (Guarded (svr.consoleChecked ctx [] ResourceOperation.Read "GetInstances")
        (fun err => NewBatchQueryResponseWithMsg (svr.convertToErrCode err))
        (ServerCall.GetInstances
          (svr.consoleForwarded ctx [] ResourceOperation.Read "GetInstances") query)
        (svr.nextSvr.GetInstances
          (svr.consoleForwarded ctx [] ResourceOperation.Read "GetInstances") query)
        w (svr.GetInstances ctx query w)) ∧
    (Guarded (svr.consoleChecked ctx [] ResourceOperation.Read "GetInstancesCount")
        (fun err => NewBatchQueryResponseWithMsg (svr.convertToErrCode err))
        (ServerCall.GetInstancesCount
          (svr.consoleForwarded ctx [] ResourceOperation.Read "GetInstancesCount"))
        (svr.nextSvr.GetInstancesCount
          (svr.consoleForwarded ctx [] ResourceOperation.Read "GetInstancesCount"))
        w (svr.GetInstancesCount ctx w)) ∧
    (Guarded (svr.consoleChecked ctx [] ResourceOperation.Read "GetInstanceLabels")
        (fun err => NewResponseWithMsg (svr.convertToErrCode err))
        (ServerCall.GetInstanceLabels
          (svr.consoleForwarded ctx [] ResourceOperation.Read "GetInstanceLabels") query)
        (svr.nextSvr.GetInstanceLabels
          (svr.consoleForwarded ctx [] ResourceOperation.Read "GetInstanceLabels") query)
        w (svr.GetInstanceLabels ctx query w)) ∧
    (Guarded (svr.clientChecked ctx [req] ResourceOperation.Create "RegisterInstance")
        (fun err => NewResponseWithMsg (svr.convertToErrCode err))
        (ServerCall.RegisterInstance
          (svr.clientForwarded ctx [req] ResourceOperation.Create "RegisterInstance") req)
        (svr.nextSvr.RegisterInstance
          (svr.clientForwarded ctx [req] ResourceOperation.Create "RegisterInstance") req)
        w (svr.RegisterInstance ctx req w)) ∧
    (Guarded (svr.clientChecked ctx [req] ResourceOperation.Create "DeregisterInstance")
        (fun err => NewResponseWithMsg (svr.convertToErrCode err))
        (ServerCall.DeregisterInstance
          (svr.clientForwarded ctx [req] ResourceOperation.Create "DeregisterInstance") req)
        (svr.nextSvr.DeregisterInstance
          (svr.clientForwarded ctx [req] ResourceOperation.Create "DeregisterInstance") req)
        w (svr.DeregisterInstance ctx req w)) ∧
    (Guarded (svr.clientChecked ctx [req] ResourceOperation.Modify "UpdateInstance")
        (fun err => NewResponseWithMsg (svr.convertToErrCode err))
        (ServerCall.UpdateInstance
          (svr.clientForwarded ctx [req] ResourceOperation.Modify "UpdateInstance") req)
        (svr.nextSvr.UpdateInstance
          (svr.clientForwarded ctx [req] ResourceOperation.Modify "UpdateInstance") req)
        w (svr.UpdateInstance ctx req w)) := by
  refine ⟨?_, ?_, ?_, ?_, ?_, ?_, ?_, ?_, ?_, ?_⟩
  all_goals exact guarded_match _ _ _ _ w

/-- The role tests of the two interceptors. The older interceptor
(`service/instance_authability.go`) turns away every caller whose role is not the admin
role once the token check has passed. The interceptor of `service/interceptor/auth` turns away the callers whose role
is the sub-account role; every other role that passes the permission check is
forwarded. A caller that is turned away gets the batch response that collects
`NotAllowedAccess`, and the wrapped `DeleteInstancesByHost` is not invoked. -/
theorem deleteInstancesByHost_roles (old : serverAuthAbility κ α ε ν)
    (svr : ServerAuthAbility κ α ε ν) (ctx : κ) (reqs : List (Option ApiInstance))
    (w : Served κ ν) :
    ((old.VerifyToken (old.collectInstanceAuthContext ctx reqs ResourceOperation.Delete)).2
        = none →
      old.ParseUserRole (old.WithAuthContext
        (old.GetRequestContext
          (old.VerifyToken (old.collectInstanceAuthContext ctx reqs ResourceOperation.Delete)).1)
        (old.VerifyToken (old.collectInstanceAuthContext ctx reqs ResourceOperation.Delete)).1)
        ≠ old.AdminUserRole →
      old.DeleteInstancesByHost ctx reqs w
        = (old.Collect (NewBatchWriteResponse Code.ExecuteSuccess)
            (NewResponse Code.NotAllowedAccess), w)) ∧
    ((svr.consoleChecked ctx reqs ResourceOperation.Delete "DeleteInstancesByHost").2 = none →
      (svr.ParseUserRole
          (svr.consoleForwarded ctx reqs ResourceOperation.Delete "DeleteInstancesByHost")
          = svr.SubAccountUserRole →
        svr.DeleteInstancesByHost ctx reqs w
          = (svr.Collect (NewBatchWriteResponse Code.ExecuteSuccess)
              (NewResponse Code.NotAllowedAccess), w)) ∧
      (svr.ParseUserRole
          (svr.consoleForwarded ctx reqs ResourceOperation.Delete "DeleteInstancesByHost")
          ≠ svr.SubAccountUserRole →
        svr.DeleteInstancesByHost ctx reqs w
          = w.invoke
              (ServerCall.DeleteInstancesByHost
                (svr.consoleForwarded ctx reqs ResourceOperation.Delete "DeleteInstancesByHost")
                reqs)
              (svr.nextSvr.DeleteInstancesByHost
                (svr.consoleForwarded ctx reqs ResourceOperation.Delete "DeleteInstancesByHost")
                reqs))) := by
  refine ⟨fun hcheck hrole => ?_, fun hcheck => ⟨fun hrole => ?_, fun hrole => ?_⟩⟩
  · unfold serverAuthAbility.DeleteInstancesByHost
    simp only [hcheck]
    rw [if_pos hrole]
  · unfold ServerAuthAbility.DeleteInstancesByHost
    unfold ServerAuthAbility.consoleForwarded ServerAuthAbility.forwarded
      ServerAuthAbility.consoleChecked at hrole
    unfold ServerAuthAbility.consoleChecked at hcheck
    simp only [hcheck]
    rw [if_pos hrole]
  · unfold ServerAuthAbility.DeleteInstancesByHost
    unfold ServerAuthAbility.consoleForwarded ServerAuthAbility.forwarded
      ServerAuthAbility.consoleChecked at hrole ⊢
    unfold ServerAuthAbility.consoleChecked at hcheck
    simp only [hcheck]
    rw [if_neg hrole]

/-- A sub-account (role `50`) passes the checks of both interceptors and is turned away
by both; the wrapped server is not invoked. -/
theorem deleteInstancesByHost_roles_witness :
    demoLegacyAuth.DeleteInstancesByHost ⟨50⟩ [] { inner := 0 }
      = ({ Code := Code.ExecuteSuccess, Size := 1,
           Responses := [NewResponse Code.NotAllowedAccess] }, { inner := 0 }) ∧
    (demoAuth true).DeleteInstancesByHost ⟨50⟩ [] { inner := 0 }
      = ({ Code := Code.ExecuteSuccess, Size := 1,
           Responses := [NewResponse Code.NotAllowedAccess] }, { inner := 0 }) :=
  ⟨(deleteInstancesByHost_roles demoLegacyAuth (demoAuth true) ⟨50⟩ [] { inner := 0 }).1
      rfl (by decide),
    ((deleteInstancesByHost_roles demoLegacyAuth (demoAuth true) ⟨50⟩ [] { inner := 0 }).2
      rfl).1 rfl⟩

/-- C14 fails on the code of `service/interceptor/auth`: a caller with the owner role
(`20`, neither admin `0` nor sub-account `50`) passes the permission check and is not the
admin. The interceptor tests for the sub-account role only, so the wrapped
`DeleteInstancesByHost` is invoked and its response handed back, where the comment on the
method has the delete reserved to the super account. The older interceptor, which tests
for the admin role, turns the same caller away. -/
theorem deleteInstancesByHost_owner_forwarded :
    ((demoAuth true).consoleChecked ⟨20⟩ [] ResourceOperation.Delete
      "DeleteInstancesByHost").2 = none ∧
    (demoAuth true).ParseUserRole ⟨20⟩ ≠ demoLegacyAuth.AdminUserRole ∧
    ((demoAuth true).DeleteInstancesByHost ⟨20⟩ [] { inner := 0 }).2.invoked
      = [ServerCall.DeleteInstancesByHost ⟨20⟩ []] ∧
    ((demoAuth true).DeleteInstancesByHost ⟨20⟩ [] { inner := 0 }).2.inner = 1 ∧
    ((demoAuth true).DeleteInstancesByHost ⟨20⟩ [] { inner := 0 }).1
      = NewBatchWriteResponse Code.ExecuteSuccess ∧
    (demoLegacyAuth.DeleteInstancesByHost ⟨20⟩ [] { inner := 0 }).2.invoked = [] := by
  decide

/-! ## The config-file-group interceptor -/

theorem markEditable_spec (s : ServerAuthability κ α ε ν) (authCtx : α)
    (group : ConfigFileGroup) :
    s.markEditable authCtx group
      = { group with Editable := (s.markEditable authCtx group).Editable } ∧
    (group.Has3RdPlatform s.MetaKey3RdPlatform →
      (s.markEditable authCtx group).Editable = some false) ∧
    (¬ group.Has3RdPlatform s.MetaKey3RdPlatform →
      (s.markEditable authCtx group).Editable
        = some (s.AllowResourceOperate authCtx (s.opInfo authCtx group))) := by
  unfold ServerAuthability.markEditable ConfigFileGroup.Has3RdPlatform
  refine ⟨rfl, fun h => ?_, fun h => ?_⟩
  · have hl : (metaOf group.Metadata).lookup s.MetaKey3RdPlatform ≠ none := by
      rw [ne_eq, AList.lookup_eq_none]
      exact fun hn => hn h
    simp only
    rw [if_pos hl]
  · have hl : ¬ ((metaOf group.Metadata).lookup s.MetaKey3RdPlatform ≠ none) := by
      rw [ne_eq, AList.lookup_eq_none, not_not]
      exact h
    simp only
    rw [if_neg hl]

theorem queryConfigFileGroups_eq (s : ServerAuthability κ α ε ν) (ctx : κ) (filter : Metadata)
    (inner : ν) (hcheck : (s.queryChecked ctx).2 = none) :
    s.QueryConfigFileGroups ctx filter inner
      = ({ (s.innerQuery ctx filter inner).1 with
            ConfigFileGroups := (s.innerQuery ctx filter inner).1.ConfigFileGroups.map
              (s.markEditable (s.queryChecked ctx).1) },
          (s.innerQuery ctx filter inner).2) := by
  unfold ServerAuthability.QueryConfigFileGroups
  unfold ServerAuthability.queryChecked at hcheck
  simp only [hcheck]
  unfold ServerAuthability.innerQuery ServerAuthability.queryChecked
  split_ifs with hlen
  · rfl
  · rw [ne_eq, not_not, List.length_eq_zero] at hlen
    generalize s.nextServerQueryConfigFileGroups _ filter inner = resp at hlen ⊢
    obtain ⟨⟨code, total, groups⟩, st⟩ := resp
    simp only at hlen
    subst hlen
    rfl

/-- C15: when the permission check passes, `QueryConfigFileGroups` hands back the groups
of the wrapped server, as many and in the same order, each unchanged but for `Editable`:
`false` when the metadata of the group holds the 3rd-platform key, whatever the policy
answers, and otherwise the answer of `AllowResourceOperate` for that group. -/
theorem queryConfigFileGroups_editable (s : ServerAuthability κ α ε ν) (ctx : κ)
    (filter : Metadata) (inner : ν) (hcheck : (s.queryChecked ctx).2 = none) :
    (s.QueryConfigFileGroups ctx filter inner).1.ConfigFileGroups.length
      = (s.innerQuery ctx filter inner).1.ConfigFileGroups.length ∧
    ∀ (i : Nat) (group : ConfigFileGroup),
      (s.innerQuery ctx filter inner).1.ConfigFileGroups[i]? = some group →
      ∃ marked, (s.QueryConfigFileGroups ctx filter inner).1.ConfigFileGroups[i]? = some marked ∧
        marked = { group with Editable := marked.Editable } ∧
        (group.Has3RdPlatform s.MetaKey3RdPlatform → marked.Editable = some false) ∧
        (¬ group.Has3RdPlatform s.MetaKey3RdPlatform →
          marked.Editable = some (s.AllowResourceOperate (s.queryChecked ctx).1
            (s.opInfo (s.queryChecked ctx).1 group))) := by
  rw [queryConfigFileGroups_eq s ctx filter inner hcheck]
  refine ⟨by simp, fun i group hget => ?_⟩
  refine ⟨s.markEditable (s.queryChecked ctx).1 group, ?_,
    markEditable_spec s (s.queryChecked ctx).1 group⟩
  simp only [List.getElem?_map, hget, Option.map_some']

/-- C15 at work: the policy allows both groups; the open one is editable, the one that
carries the 3rd-platform key is not. -/
theorem queryConfigFileGroups_editable_witness :
    (demoConfigAuth.QueryConfigFileGroups () ∅ ()).1.ConfigFileGroups.length = 2 ∧
    ∃ marked, (demoConfigAuth.QueryConfigFileGroups () ∅ ()).1.ConfigFileGroups[1]?
        = some marked ∧
      marked.Editable = some false :=
  ⟨(queryConfigFileGroups_editable demoConfigAuth () ∅ () rfl).1,
    ((queryConfigFileGroups_editable demoConfigAuth () ∅ () rfl).2 1
      (groupOf 2 "managed" (some (AList.singleton "internal-3rd-platform" "true"))) rfl).imp
      (fun _ h => ⟨h.1, h.2.2.1 (by decide)⟩)⟩

/-! ## The leader health checker -/

theorem isSendFromPeer_iff (ctx : CheckerCtx) : isSendFromPeer ctx = true ↔ CarriesSendTag ctx := by
  unfold isSendFromPeer CarriesSendTag
  cases ctx.incoming with
  | none => simp
  | some md => simp

theorem query_frame (env : PeerEnv π) (c : LeaderHealthChecker π) (ctx : CheckerCtx)
    (request : QueryRequest) :
    (c.Query env ctx request).2.initializeFlag = c.initializeFlag ∧
    (c.Query env ctx request).2.suspendTimeSec = c.suspendTimeSec ∧
    (c.Query env ctx request).2.leaderChangeTimeSec = c.leaderChangeTimeSec := by
  unfold LeaderHealthChecker.Query
  split_ifs
  · exact ⟨rfl, rfl, rfl⟩
  · exact ⟨rfl, rfl, rfl⟩
  · cases c.findLeaderPeer with
    | none => exact ⟨rfl, rfl, rfl⟩
    | some responsible =>
      simp only
      cases (env.Get responsible request.InstanceId c.peers).1 with
      | error err => exact ⟨rfl, rfl, rfl⟩
      | ok record => exact ⟨rfl, rfl, rfl⟩

theorem skipCheck_congr (c c1 : LeaderHealthChecker π) (nowMs : Int) (key : String) (E : Int)
    (hi : c1.initializeFlag = c.initializeFlag) (hs : c1.suspendTimeSec = c.suspendTimeSec)
    (hl : c1.leaderChangeTimeSec = c.leaderChangeTimeSec) :
    c1.skipCheck nowMs key E = c.skipCheck nowMs key E := by
  unfold LeaderHealthChecker.skipCheck LeaderHealthChecker.isInitialize
    LeaderHealthChecker.SuspendTimeSec LeaderHealthChecker.LeaderChangeTimeSec
  rw [hi, hs, hl]

theorem skipCheck_iff (c : LeaderHealthChecker π) (nowMs : Int) (key : String) (E : Int) :
    c.skipCheck nowMs key E = true ↔
      (c.isInitialize = false ∨ SuspendWindow c (curSec nowMs) E ∨
        LeaderChangeWindow c (curSec nowMs) E) := by
  unfold LeaderHealthChecker.skipCheck SuspendWindow LeaderChangeWindow
    LeaderHealthChecker.SuspendTimeSec LeaderHealthChecker.LeaderChangeTimeSec
  cases hinit : c.isInitialize with
  | false => simp
  | true =>
    simp only [Bool.not_true, Bool.false_eq_true, if_false]
    constructor
    · intro h
      right
      by_cases hs : c.suspendTimeSec > 0 ∧ curSec nowMs ≥ c.suspendTimeSec ∧
          curSec nowMs - c.suspendTimeSec < E
      · left
        exact ⟨hs.1, hs.2.1, by omega⟩
      · rw [if_neg hs] at h
        by_cases hl : c.leaderChangeTimeSec > 0 ∧ curSec nowMs ≥ c.leaderChangeTimeSec ∧
            curSec nowMs - c.leaderChangeTimeSec < E
        · right
          exact ⟨hl.1, hl.2.1, by omega⟩
        · rw [if_neg hl] at h
          cases h
    · rintro (h | h | h)
      · cases h
      · rw [if_pos ⟨h.1, h.2.1, by omega⟩]
      · by_cases hs : c.suspendTimeSec > 0 ∧ curSec nowMs ≥ c.suspendTimeSec ∧
            curSec nowMs - c.suspendTimeSec < E
        · rw [if_pos hs]
        · rw [if_neg hs, if_pos ⟨h.1, h.2.1, by omega⟩]

/-- C20: a `Report`, `Query` or `Delete` whose incoming context carries the
`sendResource` metadata tag is refused with `ErrorRedirectOnlyOnce`; the checker, the
state of its peers and the log of calls on them are as before, whatever the leader and
initialize flags are. -/
theorem redirected_request_is_refused (env : PeerEnv π) (c : LeaderHealthChecker π)
    (ctx : CheckerCtx) (report : ReportRequest) (query : QueryRequest) (key : String)
    (htag : CarriesSendTag ctx) :
    c.Report env ctx report = (some CheckerError.ErrorRedirectOnlyOnce, c) ∧
    c.Query env ctx query = (Except.error CheckerError.ErrorRedirectOnlyOnce, c) ∧
    c.Delete env ctx key = (some CheckerError.ErrorRedirectOnlyOnce, c) := by
  have h := (isSendFromPeer_iff ctx).2 htag
  unfold LeaderHealthChecker.Report LeaderHealthChecker.Query LeaderHealthChecker.Delete
  rw [if_pos h, if_pos h, if_pos h]
  exact ⟨rfl, rfl, rfl⟩

/-- C20 at work: a leader that holds a heartbeat of `i-1` refuses the forwarded request
and makes no call on a peer. -/
theorem redirected_request_is_refused_witness :
    (leaderChecker.Report memPeers peerCtx { InstanceId := "i-1", CurTimeSec := 120 }).2.ops = [] ∧
    (leaderChecker.Query memPeers peerCtx { InstanceId := "i-1" }).1
      = Except.error CheckerError.ErrorRedirectOnlyOnce ∧
    (leaderChecker.Delete memPeers peerCtx "i-1").2.peers = leaderChecker.peers :=
  have h := redirected_request_is_refused memPeers leaderChecker peerCtx
    { InstanceId := "i-1", CurTimeSec := 120 } { InstanceId := "i-1" } "i-1"
    ⟨AList.singleton sendResource [""], rfl, by decide⟩
  ⟨by rw [h.1]; rfl, by rw [h.2.1], by rw [h.2.2]⟩

theorem check_of_query (env : PeerEnv π) (c c1 : LeaderHealthChecker π) (nowMs : Int)
    (request : CheckRequest) (q : QueryResponse)
    (hq : c.Query env {} request.toQueryRequest = (Except.ok q, c1)) :
    c.Check env nowMs request
      = if c.skipCheck nowMs request.InstanceId (request.ExpireDurationSec : Int) then
          (Except.ok { LastHeartbeatTimeSec := q.LastHeartbeatSec, StayUnchanged := true }, c1)
        else
          (Except.ok (checkVerdict request { LastHeartbeatTimeSec := q.LastHeartbeatSec }
            q.LastHeartbeatSec), c1) := by
  obtain ⟨hi, hs, hl⟩ := query_frame env c {} request.toQueryRequest
  rw [hq] at hi hs hl
  unfold LeaderHealthChecker.Check
  rw [hq]
  simp only
  rw [skipCheck_congr c c1 nowMs request.InstanceId _ hi hs hl]

theorem check_of_query_error (env : PeerEnv π) (c c1 : LeaderHealthChecker π) (nowMs : Int)
    (request : CheckRequest) (err : CheckerError)
    (hq : c.Query env {} request.toQueryRequest = (Except.error err, c1)) :
    c.Check env nowMs request = (Except.error err, c1) := by
  unfold LeaderHealthChecker.Check
  rw [hq]

theorem query_uninitialized (env : PeerEnv π) (c : LeaderHealthChecker π)
    (request : QueryRequest) (h : c.isInitialize = false) :
    c.Query env {} request = (Except.ok { LastHeartbeatSec := 0 }, c) := by
  unfold LeaderHealthChecker.Query
  simp [isSendFromPeer, h]

theorem checkVerdict_spec (request : CheckRequest) (L : Int) :
    (checkVerdict request { LastHeartbeatTimeSec := L } L).LastHeartbeatTimeSec = L ∧
    ((checkVerdict request { LastHeartbeatTimeSec := L } L).Healthy = false ↔
      request.CurTimeSec > L ∧ request.CurTimeSec - L ≥ (request.ExpireDurationSec : Int)) ∧
    ((checkVerdict request { LastHeartbeatTimeSec := L } L).StayUnchanged = true ↔
      (checkVerdict request { LastHeartbeatTimeSec := L } L).Healthy = request.Healthy) := by
  unfold checkVerdict
  by_cases hexp : request.CurTimeSec > L ∧
      request.CurTimeSec - L ≥ (request.ExpireDurationSec : Int)
  · simp only [hexp, and_self, if_true]
    cases request.Healthy <;> simp
  · simp only [hexp, if_false]
    cases request.Healthy <;> simp

/-- C16, as the code has it: when the check is not skipped and the heartbeat query
succeeds with last heartbeat time `L`, `Check` at current time `T` with expiry `E`
answers with `LastHeartbeatTimeSec = L`, with `Healthy = false` exactly when `T > L` and
`T − L ≥ E` (for `E ≥ 1` that is `T − L ≥ E`), and with `StayUnchanged = true` exactly when
the computed `Healthy` equals the `Healthy` flag of the request. -/
theorem check_verdict (env : PeerEnv π) (c c1 : LeaderHealthChecker π) (nowMs : Int)
    (request : CheckRequest) (q : QueryResponse)
    (hquery : c.Query env {} request.toQueryRequest = (Except.ok q, c1))
    (hskip : c.skipCheck nowMs request.InstanceId (request.ExpireDurationSec : Int) = false) :
    ∃ resp, c.Check env nowMs request = (Except.ok resp, c1) ∧
      resp.LastHeartbeatTimeSec = q.LastHeartbeatSec ∧
      (resp.Healthy = false ↔
        request.CurTimeSec > q.LastHeartbeatSec ∧
          request.CurTimeSec - q.LastHeartbeatSec ≥ (request.ExpireDurationSec : Int)) ∧
      (1 ≤ request.ExpireDurationSec →
        (resp.Healthy = false ↔
          request.CurTimeSec - q.LastHeartbeatSec ≥ (request.ExpireDurationSec : Int))) ∧
      (resp.Healthy = true ↔ ¬ (resp.Healthy = false)) ∧
      (resp.StayUnchanged = true ↔ resp.Healthy = request.Healthy) := by
  obtain ⟨h1, h2, h3⟩ := checkVerdict_spec request q.LastHeartbeatSec
  refine ⟨checkVerdict request { LastHeartbeatTimeSec := q.LastHeartbeatSec } q.LastHeartbeatSec,
    ?_, h1, h2, ?_, by simp, h3⟩
  · rw [check_of_query env c c1 nowMs request q hquery, hskip]
    simp
  · intro hE
    rw [h2]
    constructor
    · exact fun h => h.2
    · intro h
      exact ⟨by omega, h⟩

/-- C16 at work: the leader holds a heartbeat of `i-1` taken at second `100`; checked at
second `103` with expiry `3`, the instance is reported unhealthy. -/
theorem check_verdict_witness :
    ∃ resp, leaderChecker.Check memPeers 200000
        { InstanceId := "i-1", Healthy := true, ExpireDurationSec := 3, CurTimeSec := 103 }
        = (Except.ok resp, leaderChecker.did (PeerOp.Get leaderChecker.self "i-1" true)
            leaderChecker.peers) ∧
      resp.LastHeartbeatTimeSec = 100 ∧ resp.Healthy = false ∧ resp.StayUnchanged = false := by
  obtain ⟨resp, hcheck, hlast, hhealthy, _, _, hstay⟩ :=
    check_verdict memPeers leaderChecker
      (leaderChecker.did (PeerOp.Get leaderChecker.self "i-1" true) leaderChecker.peers) 200000
      { InstanceId := "i-1", Healthy := true, ExpireDurationSec := 3, CurTimeSec := 103 }
      { Server := "10.0.0.1", Exists := true, LastHeartbeatSec := 100, Count := 1 } rfl rfl
  have hh : resp.Healthy = false := hhealthy.2 (by decide)
  refine ⟨resp, hcheck, hlast, hh, ?_⟩
  cases hs : resp.StayUnchanged with
  | false => rfl
  | true =>
    have := hstay.1 hs
    rw [hh] at this
    cases this

/-- C16 fails at expiry `0`: the last heartbeat of `i-1` is at second `100` and the check
runs at second `100`, so `T − L ≥ E` holds (`0 ≥ 0`), the check is not skipped and the
query succeeds; yet `Check` reports the instance healthy, because it looks at the gap
only when `T > L`. -/
theorem check_verdict_counterexample :
    leaderChecker.skipCheck 200000 "i-1" ((0 : Nat) : Int) = false ∧
    (leaderChecker.Query memPeers {} { InstanceId := "i-1" }).1
      = Except.ok { Server := "10.0.0.1", Exists := true, LastHeartbeatSec := 100, Count := 1 } ∧
    (100 : Int) - 100 ≥ ((0 : Nat) : Int) ∧
    (leaderChecker.Check memPeers 200000
      { InstanceId := "i-1", ExpireDurationSec := 0, CurTimeSec := 100 }).1
      = Except.ok { Healthy := true, LastHeartbeatTimeSec := 100 } :=
  ⟨rfl, rfl, by decide, rfl⟩

/-- C17, as the code has it. `skipCheck` answers true exactly when the checker is
uninitialized, or a `Suspend` is on record at `s` with `s ≤ t < s + E`, or a leader change
is on record at `c` with `c ≤ t < c + E`, for the local time `t` and the expiry `E` of the
request. Under any of the three, `Check` returns a response with `StayUnchanged = true`
whenever its heartbeat query succeeds, which it always does on an uninitialized checker;
when the query fails, `Check` returns the error of the query and no response. -/
theorem check_skipped (env : PeerEnv π) (c : LeaderHealthChecker π) (nowMs : Int)
    (request : CheckRequest) :
    (c.skipCheck nowMs request.InstanceId (request.ExpireDurationSec : Int) = true ↔
      (c.isInitialize = false ∨
        SuspendWindow c (curSec nowMs) (request.ExpireDurationSec : Int) ∨
        LeaderChangeWindow c (curSec nowMs) (request.ExpireDurationSec : Int))) ∧
    ((c.isInitialize = false ∨
        SuspendWindow c (curSec nowMs) (request.ExpireDurationSec : Int) ∨
        LeaderChangeWindow c (curSec nowMs) (request.ExpireDurationSec : Int)) →
      (∀ q c1, c.Query env {} request.toQueryRequest = (Except.ok q, c1) →
        c.Check env nowMs request
          = (Except.ok { LastHeartbeatTimeSec := q.LastHeartbeatSec, StayUnchanged := true },
              c1)) ∧
      (∀ err c1, c.Query env {} request.toQueryRequest = (Except.error err, c1) →
        c.Check env nowMs request = (Except.error err, c1))) ∧
    (c.isInitialize = false →
      c.Check env nowMs request
        = (Except.ok { LastHeartbeatTimeSec := 0, StayUnchanged := true }, c)) := by
  have hiff := skipCheck_iff c nowMs request.InstanceId (request.ExpireDurationSec : Int)
  refine ⟨hiff, fun hcond => ⟨fun q c1 hq => ?_, fun err c1 hq => ?_⟩, fun hinit => ?_⟩
  · rw [check_of_query env c c1 nowMs request q hq, hiff.2 hcond]
    simp
  · exact check_of_query_error env c c1 nowMs request err hq
  · rw [check_of_query env c c nowMs request { LastHeartbeatSec := 0 }
      (query_uninitialized env c _ hinit), hiff.2 (Or.inl hinit)]
    simp

/-- C17 at work: the leader is suspended at second `150`; a check at second `152` with
expiry `10` finds the heartbeat of `i-1` and stays unchanged. -/
theorem check_skipped_witness :
    (leaderChecker.Suspend 150000).Check memPeers 152000
        { InstanceId := "i-1", Healthy := true, ExpireDurationSec := 10, CurTimeSec := 152 }
      = (Except.ok { LastHeartbeatTimeSec := 100, StayUnchanged := true },
          (leaderChecker.Suspend 150000).did (PeerOp.Get leaderChecker.self "i-1" true)
            leaderChecker.peers) :=
  ((check_skipped memPeers (leaderChecker.Suspend 150000) 152000
      { InstanceId := "i-1", Healthy := true, ExpireDurationSec := 10, CurTimeSec := 152 }).2.1
    (Or.inr (Or.inl (by decide)))).1
    { Server := "10.0.0.1", Exists := true, LastHeartbeatSec := 100, Count := 1 } _ rfl

/-- C17 fails when the heartbeat query fails: the checker is an initialized follower with
a `Suspend` on record at second `100`, the check runs at second `105` with expiry `10`,
inside the window, and the leader does not answer. `Check` returns the error of the
query, not a response with `StayUnchanged = true`. -/
theorem check_skipped_counterexample :
    SuspendWindow followerChecker (curSec 105000) ((10 : Nat) : Int) ∧
    followerChecker.skipCheck 105000 "i-1" ((10 : Nat) : Int) = true ∧
    (followerChecker.Check memPeers 105000
      { InstanceId := "i-1", ExpireDurationSec := 10, CurTimeSec := 105 }).1
      = Except.error (CheckerError.peer "peer closed") :=
  ⟨by decide, rfl, rfl⟩

theorem becomeLeader_spec (env : PeerEnv π) (c : LeaderHealthChecker π) :
    (c.becomeLeader env).leader = 1 ∧ (c.becomeLeader env).remote = none ∧
    (c.becomeLeader env).initializeFlag = initializedSignal ∧
    (c.becomeLeader env).ops = c.ops ++ (c.remote.map PeerOp.Close).toList ∧
    (c.becomeLeader env).leaderVersion = c.leaderVersion := by
  unfold LeaderHealthChecker.becomeLeader
  cases hr : c.remote with
  | none => simp [hr]
  | some remote => simp [LeaderHealthChecker.did]

theorem dialLeader_frame (env : PeerEnv π) (c : LeaderHealthChecker π) (e : LeaderChangeEvent)
    (v : Int) :
    (c.dialLeader env e v).leaderVersion = c.leaderVersion ∧
    (c.dialLeader env e v).self = c.self ∧
    ((c.dialLeader env e v).remote = c.remote ∨
      (c.dialLeader env e v).remote = some { Host := e.LeaderHost, Serial := c.made + 1 }) := by
  unfold LeaderHealthChecker.dialLeader
  simp only
  cases (env.Serve { Host := e.LeaderHost, Serial := c.made + 1 } e.LeaderHost env.LocalPort
      c.peers).1 with
  | some err => exact ⟨rfl, rfl, Or.inl rfl⟩
  | none => exact ⟨rfl, rfl, Or.inr rfl⟩

theorem becomeFollower_empty (env : PeerEnv π) (c : LeaderHealthChecker π)
    (e : LeaderChangeEvent) (v : Int) (h : e.LeaderHost = "") :
    c.becomeFollower env e v = c := by
  unfold LeaderHealthChecker.becomeFollower
  rw [if_pos h]

theorem becomeFollower_same (env : PeerEnv π) (c : LeaderHealthChecker π)
    (e : LeaderChangeEvent) (v : Int) (p : Peer) (hremote : c.remote = some p)
    (hsame : e.LeaderHost = p.Host) (hhost : p.Host ≠ "") :
    c.becomeFollower env e v = { c with initializeFlag := initializedSignal } := by
  unfold LeaderHealthChecker.becomeFollower
  rw [if_neg (by rw [hsame]; exact hhost), hremote]
  simp only
  rw [if_pos hsame]

theorem becomeFollower_frame (env : PeerEnv π) (c : LeaderHealthChecker π)
    (e : LeaderChangeEvent) (v : Int) :
    (c.becomeFollower env e v).leaderVersion = c.leaderVersion ∧
    (c.becomeFollower env e v).self = c.self ∧
    (RemoteNamed c → RemoteNamed (c.becomeFollower env e v)) := by
  unfold LeaderHealthChecker.becomeFollower
  by_cases hempty : e.LeaderHost = ""
  · rw [if_pos hempty]
    exact ⟨rfl, rfl, id⟩
  · rw [if_neg hempty]
    have hdial : ∀ c0 : LeaderHealthChecker π, c0.leaderVersion = c.leaderVersion →
        c0.self = c.self → RemoteNamed c0 →
        (c0.dialLeader env e v).leaderVersion = c.leaderVersion ∧
        (c0.dialLeader env e v).self = c.self ∧
        (RemoteNamed c → RemoteNamed (c0.dialLeader env e v)) := by
      intro c0 hv hself hnamed
      obtain ⟨h1, h2, h3⟩ := dialLeader_frame env c0 e v
      refine ⟨h1.trans hv, h2.trans hself, fun _ p hp => ?_⟩
      rcases h3 with h3 | h3
      · exact hnamed p (h3 ▸ hp)
      · rw [h3] at hp
        cases hp
        exact hempty
    cases hremote : c.remote with
    | none =>
      simp only
      exact hdial c rfl rfl (fun p hp => by rw [hremote] at hp; cases hp)
    | some remote =>
      simp only
      by_cases hsame : e.LeaderHost = remote.Host
      · rw [if_pos hsame]
        exact ⟨rfl, rfl, fun h p hp => h p (hremote.trans hp)⟩
      · rw [if_neg hsame, if_pos hsame]
        exact hdial _ rfl rfl (fun p hp => by cases hp)

theorem becomeLeader_named (env : PeerEnv π) (c : LeaderHealthChecker π) :
    RemoteNamed (c.becomeLeader env) := by
  intro p hp
  rw [(becomeLeader_spec env c).2.1] at hp
  cases hp

/-- The remote peer of a checker keeps having a host through every event: `RemoteNamed`
holds while there is no remote peer, as at start, and `OnEvent` preserves it. -/
theorem onEvent_remoteNamed (env : PeerEnv π) (c : LeaderHealthChecker π) (nowMs : Int)
    (i : HubEvent) (h : RemoteNamed c) : RemoteNamed (c.OnEvent env nowMs i) := by
  unfold LeaderHealthChecker.OnEvent
  cases i with
  | other => exact h
  | leaderChange e =>
    simp only
    split_ifs with hkey hleader
    · exact h
    · exact becomeLeader_named env _
    · exact (becomeFollower_frame env
        { c with leaderVersion := c.leaderVersion + 1, initializeFlag := uninitializeSignal }
        e (c.leaderVersion + 1)).2.2 h

/-- C18: for a leader-change event with the election key, `OnEvent` adds one to
`leaderVersion` and sets `leaderChangeTimeSec` to the clock. With `leader = true` the
checker ends with the leader flag set, no remote peer (the one it had, if any, is closed)
and initialized; with `leader = false` and an empty `leaderHost` it ends uninitialized,
the remote peer untouched. An event of another type or with another key leaves the
checker as it is. -/
theorem onEvent_leader_change (env : PeerEnv π) (c : LeaderHealthChecker π) (nowMs : Int) :
    (∀ e : LeaderChangeEvent, e.Key = env.electionKey →
      (c.OnEvent env nowMs (HubEvent.leaderChange e)).leaderVersion = c.leaderVersion + 1 ∧
      (c.OnEvent env nowMs (HubEvent.leaderChange e)).leaderChangeTimeSec = curSec nowMs ∧
      (e.Leader = true →
        (c.OnEvent env nowMs (HubEvent.leaderChange e)).leader = 1 ∧
        (c.OnEvent env nowMs (HubEvent.leaderChange e)).remote = none ∧
        (c.OnEvent env nowMs (HubEvent.leaderChange e)).initializeFlag = initializedSignal ∧
        (c.OnEvent env nowMs (HubEvent.leaderChange e)).ops
          = c.ops ++ (c.remote.map PeerOp.Close).toList) ∧
      (e.Leader = false → e.LeaderHost = "" →
        (c.OnEvent env nowMs (HubEvent.leaderChange e)).initializeFlag = uninitializeSignal ∧
        (c.OnEvent env nowMs (HubEvent.leaderChange e)).remote = c.remote ∧
        (c.OnEvent env nowMs (HubEvent.leaderChange e)).ops
          = c.ops ++ [PeerOp.Clean c.self])) ∧
    c.OnEvent env nowMs HubEvent.other = c ∧
    (∀ e : LeaderChangeEvent, e.Key ≠ env.electionKey →
      c.OnEvent env nowMs (HubEvent.leaderChange e) = c) := by
  refine ⟨fun e hkey => ?_, rfl, fun e hkey => ?_⟩
  · unfold LeaderHealthChecker.OnEvent
    simp only
    rw [if_neg (not_not.2 hkey)]
    cases hleader : e.Leader with
    | true =>
      rw [if_pos rfl]
      obtain ⟨h1, h2, h3, h4, h5⟩ := becomeLeader_spec env
        { c with leaderVersion := c.leaderVersion + 1, initializeFlag := uninitializeSignal }
      refine ⟨h5, rfl, fun _ => ⟨h1, h2, h3, h4⟩, fun h => absurd h (by decide)⟩
    | false =>
      rw [if_neg (by decide)]
      obtain ⟨h1, _, _⟩ := becomeFollower_frame env
        { c with leaderVersion := c.leaderVersion + 1, initializeFlag := uninitializeSignal }
        e (c.leaderVersion + 1)
      refine ⟨h1, rfl, fun h => absurd h (by decide), fun _ hempty => ?_⟩
      rw [becomeFollower_empty env _ e _ hempty]
      exact ⟨rfl, rfl, rfl⟩
  · unfold LeaderHealthChecker.OnEvent
    simp only
    rw [if_pos hkey]

/-- C18 at work: a follower of `10.0.0.2` is told it is the leader; it closes the remote
peer and ends as the initialized leader, one version on. -/
theorem onEvent_leader_change_witness :
    (followingChecker.OnEvent memPeers 5000
      (HubEvent.leaderChange ⟨"polaris.checker", true, "10.0.0.1"⟩)).leaderVersion = 1 ∧
    (followingChecker.OnEvent memPeers 5000
      (HubEvent.leaderChange ⟨"polaris.checker", true, "10.0.0.1"⟩)).leaderChangeTimeSec = 5 ∧
    (followingChecker.OnEvent memPeers 5000
      (HubEvent.leaderChange ⟨"polaris.checker", true, "10.0.0.1"⟩)).remote = none ∧
    (followingChecker.OnEvent memPeers 5000
      (HubEvent.leaderChange ⟨"polaris.checker", true, "10.0.0.1"⟩)).ops
      = [PeerOp.Close ⟨"10.0.0.2", 1⟩] :=
  have h := (onEvent_leader_change memPeers followingChecker 5000).1
    ⟨"polaris.checker", true, "10.0.0.1"⟩ rfl
  ⟨h.1, h.2.1, (h.2.2.1 rfl).2.1, (h.2.2.1 rfl).2.2.2⟩

/-- C19: a leader-change event with the election key and `leader = false` whose
`leaderHost` is the host of the current remote peer keeps that peer: it is neither closed
nor replaced, no peer is dialed (the only call made is the cleaning of the local
storage), and the checker is marked initialized. -/
theorem follower_keeps_same_leader (env : PeerEnv π) (c : LeaderHealthChecker π) (nowMs : Int)
    (e : LeaderChangeEvent) (p : Peer) (hnamed : RemoteNamed c)
    (hkey : e.Key = env.electionKey) (hfollow : e.Leader = false)
    (hremote : c.remote = some p) (hsame : e.LeaderHost = p.Host) :
    (c.OnEvent env nowMs (HubEvent.leaderChange e)).remote = some p ∧
    (c.OnEvent env nowMs (HubEvent.leaderChange e)).initializeFlag = initializedSignal ∧
    (c.OnEvent env nowMs (HubEvent.leaderChange e)).ops = c.ops ++ [PeerOp.Clean c.self] ∧
    (c.OnEvent env nowMs (HubEvent.leaderChange e)).made = c.made ∧
    (c.OnEvent env nowMs (HubEvent.leaderChange e)).retries = c.retries ∧
    c.becomeFollower env e (c.leaderVersion + 1)
      = { c with initializeFlag := initializedSignal } := by
  have hhost : p.Host ≠ "" := hnamed p hremote
  have h2 := becomeFollower_same env
    { c with leaderVersion := c.leaderVersion + 1, initializeFlag := uninitializeSignal }
    e (c.leaderVersion + 1) p hremote hsame hhost
  refine ⟨?_, ?_, ?_, ?_, ?_, becomeFollower_same env c e _ p hremote hsame hhost⟩
  all_goals unfold LeaderHealthChecker.OnEvent
  all_goals simp only [hkey, hfollow, ne_eq, not_true_eq_false, if_false, Bool.false_eq_true]
  all_goals rw [h2]
  · exact hremote
  all_goals rfl

/-- C19 at work: the follower of `10.0.0.2` hears again that `10.0.0.2` leads. -/
theorem follower_keeps_same_leader_witness :
    (followingChecker.OnEvent memPeers 5000
      (HubEvent.leaderChange ⟨"polaris.checker", false, "10.0.0.2"⟩)).remote
      = some ⟨"10.0.0.2", 1⟩ ∧
    (followingChecker.OnEvent memPeers 5000
      (HubEvent.leaderChange ⟨"polaris.checker", false, "10.0.0.2"⟩)).ops
      = [PeerOp.Clean ⟨"10.0.0.1", 0⟩] :=
  have h := follower_keeps_same_leader memPeers followingChecker 5000
    ⟨"polaris.checker", false, "10.0.0.2"⟩ ⟨"10.0.0.2", 1⟩
    (by intro p hp; cases hp; decide) rfl rfl rfl rfl
  ⟨h.1, h.2.2.1⟩

/-! ## C24: the watermark of `setStrategys` -/

/-- One step of the last loop moves the watermark by `maxMtime`. -/
theorem setStrategysRule_lastMtime (acc : SetStrategysResult) (rule : StrategyDetail) :
    (setStrategysRule acc rule).lastMtime = maxMtime acc.lastMtime rule.ModifyTime := by
  unfold setStrategysRule
  cases rule.Valid
  · rfl
  · simp only [Bool.not_true, Bool.false_eq_true, if_false]
    cases acc.cache.strategys rule.ID <;> rfl

theorem foldl_setStrategysRule_lastMtime (batch : List StrategyDetail) :
    ∀ acc : SetStrategysResult,
      (batch.foldl setStrategysRule acc).lastMtime
        = batch.foldl (fun m r => maxMtime m r.ModifyTime) acc.lastMtime := by
  induction batch with
  | nil => intro acc; rfl
  | cons rule rest ih =>
    intro acc
    rw [List.foldl_cons, List.foldl_cons, ih, setStrategysRule_lastMtime]

/-- The watermark `setStrategys` returns, as a fold of `maxMtime` over the batch. -/
theorem setStrategys_lastMtime (sc : strategyCache) (batch : List StrategyDetail) :
    (setStrategys sc batch).lastMtime
      = batch.foldl (fun m r => maxMtime m r.ModifyTime) sc.lastMtime := by
  unfold setStrategys
  simp only
  rw [foldl_setStrategysRule_lastMtime]
  have h1 := (handlerPrincipalStrategy_frame batch (handlerResourceStrategy sc batch)).2.2.2.2.1
  have h2 := (handlerResourceStrategy_frame batch sc).2.2.2.1
  show batch.foldl _ (handlerPrincipalStrategy (handlerResourceStrategy sc batch) batch).lastMtime
    = _
  rw [h1, h2]

/-- On seconds that `float64` holds exactly, `maxMtime` is the maximum. -/
theorem maxMtime_exact (a b : Int) (ha : ExactSeconds a) (hb : ExactSeconds b) :
    maxMtime a b = max a b ∧ ExactSeconds (max a b) := by
  unfold ExactSeconds at ha hb
  constructor
  · unfold maxMtime float64OfInt
    simp only [if_pos ha, if_pos hb]
  · rcases max_choice a b with h | h <;> rw [h] <;> assumption

theorem foldl_maxMtime_exact (batch : List StrategyDetail) :
    ∀ prev : Int, ExactSeconds prev → (∀ r ∈ batch, ExactSeconds r.ModifyTime) →
      batch.foldl (fun m r => maxMtime m r.ModifyTime) prev = maxModifyTime prev batch := by
  induction batch with
  | nil => intro prev _ _; rfl
  | cons rule rest ih =>
    intro prev hp hr
    have h := maxMtime_exact prev rule.ModifyTime hp (hr rule (List.mem_cons_self _ _))
    rw [List.foldl_cons, h.1, ih _ h.2 (fun r hr1 => hr r (List.mem_cons_of_mem _ hr1))]
    rfl

/-- The running maximum bounds the start and every row, and is one of them. -/
theorem maxModifyTime_spec (batch : List StrategyDetail) :
    ∀ prev : Int,
      prev ≤ maxModifyTime prev batch ∧
      (∀ r ∈ batch, r.ModifyTime ≤ maxModifyTime prev batch) ∧
      (maxModifyTime prev batch = prev ∨
        ∃ r ∈ batch, maxModifyTime prev batch = r.ModifyTime) := by
  induction batch with
  | nil => intro prev; exact ⟨le_refl _, fun r hr => absurd hr (List.not_mem_nil r), Or.inl rfl⟩
  | cons rule rest ih =>
    intro prev
    obtain ⟨h1, h2, h3⟩ := ih (max prev rule.ModifyTime)
    have e : maxModifyTime prev (rule :: rest) = maxModifyTime (max prev rule.ModifyTime) rest :=
      rfl
    rw [e]
    refine ⟨le_trans (le_max_left _ _) h1, ?_, ?_⟩
    · intro r hr
      rcases List.mem_cons.1 hr with hr | hr
      · rw [hr]; exact le_trans (le_max_right _ _) h1
      · exact h2 r hr
    · rcases h3 with h3 | ⟨r, hr, h3⟩
      · rcases max_choice prev rule.ModifyTime with h | h
        · left; rw [h3, h]
        · right; exact ⟨rule, List.mem_cons_self _ _, by rw [h3, h]⟩
      · right; exact ⟨r, List.mem_cons_of_mem _ hr, h3⟩

/-- Below `2^53` seconds the watermark is the maximum: when the previous last-modify time
and the modify time of every row of the batch, valid or not, lie below `2^53` seconds in
magnitude, the watermark returned by `setStrategys` is at least the previous time and at
least every row's time, and it is one of these values. -/
theorem setStrategys_watermark (sc : strategyCache) (batch : List StrategyDetail)
    (hprev : ExactSeconds sc.lastMtime) (hrows : ∀ r ∈ batch, ExactSeconds r.ModifyTime) :
    (setStrategys sc batch).lastMtime = maxModifyTime sc.lastMtime batch ∧
    sc.lastMtime ≤ (setStrategys sc batch).lastMtime ∧
    (∀ r ∈ batch, r.ModifyTime ≤ (setStrategys sc batch).lastMtime) ∧
    ((setStrategys sc batch).lastMtime = sc.lastMtime ∨
      ∃ r ∈ batch, (setStrategys sc batch).lastMtime = r.ModifyTime) := by
  have h : (setStrategys sc batch).lastMtime = maxModifyTime sc.lastMtime batch := by
    rw [setStrategys_lastMtime, foldl_maxMtime_exact batch _ hprev hrows]
  rw [h]
  exact ⟨rfl, maxModifyTime_spec batch sc.lastMtime⟩

/-- The double nearest to `2^53 + 1` is `2^53`. -/
theorem float64OfInt_far : float64OfInt (2 ^ 53 + 1) = 2 ^ 53 := by
  have hlog : Nat.log2 (2 ^ 53 + 1) = 53 := by
    rw [Nat.log2_eq_log_two]
    exact (Nat.log_eq_iff (Or.inl (by decide))).2 ⟨by norm_num, by norm_num⟩
  have hm : (2 ^ 53 + 1 : Int).natAbs = 2 ^ 53 + 1 := by decide
  unfold float64OfInt
  simp only [hm, hlog]
  decide

/-- The watermark of an empty cache with last-modify time 0 after a batch of a valid row
modified at second 100 and an invalid row modified at second 200. -/
theorem setStrategys_watermark_witness :
    ExactSeconds (strategyCache.Initialize (fun _ => [])).lastMtime ∧
    (∀ r ∈ [{ epochRule with ModifyTime := 100 },
        { epochRule with ID := "rule-1", Valid := false, ModifyTime := 200 }],
      ExactSeconds r.ModifyTime) ∧
    (setStrategys (strategyCache.Initialize (fun _ => []))
      [{ epochRule with ModifyTime := 100 },
        { epochRule with ID := "rule-1", Valid := false, ModifyTime := 200 }]).lastMtime = 200 :=
  have hp : ExactSeconds (strategyCache.Initialize (fun _ => [])).lastMtime := by decide
  have hr : ∀ r ∈ [{ epochRule with ModifyTime := 100 },
      { epochRule with ID := "rule-1", Valid := false, ModifyTime := 200 }],
      ExactSeconds r.ModifyTime := by decide
  ⟨hp, hr, (setStrategys_watermark _ _ hp hr).1.trans (by decide)⟩

/-! ## C25: the health check an update leaves behind -/

/-- The heartbeat branch stores a heartbeat check with the normalised TTL and leaves
health checking on. -/
theorem heartbeatBranch_check (D : Nat) (req : ApiInstance) (i : ModelInstance) :
    (heartbeatBranch D req i).inst.Proto.HealthCheck = some (heartbeatCheck D req) ∧
    (heartbeatBranch D req i).inst.EnableHealthCheck = true := by
  refine ⟨rfl, ?_⟩
  simp only [heartbeatBranch, ModelInstance.EnableHealthCheck]
  rcases Bool.eq_false_or_eq_true (boolValue i.Proto.EnableHealthCheck) with h | h
  · simp [h]
  · simp only [h, Bool.not_false, if_true]
    rfl

/-- C25: after `updateHealthCheck` has processed a request that carries a heartbeat check
and whose enable flag is absent or true, the health check of the instance has type
HEARTBEAT, its TTL is the requested one when that lies between 1 and 60 and `DefaultTLL`
when it is 0 or above 60, and health checking is on. After a request whose enable flag is
false, the enable flag of the instance is false and it has no health check. -/
theorem updateHealthCheck_sets_check (DefaultTLL : Nat) (req : ApiInstance)
    (inst : ModelInstance) :
    (TakesHeartbeat req →
      (updateHealthCheck DefaultTLL req inst).inst.Proto.HealthCheck ≠ none ∧
      healthCheckType (updateHealthCheck DefaultTLL req inst).inst.Proto.HealthCheck
        = HealthCheckType.HEARTBEAT ∧
      (1 ≤ heartbeatTtl req.HealthCheck ∧ heartbeatTtl req.HealthCheck ≤ 60 →
        heartbeatTtl (updateHealthCheck DefaultTLL req inst).inst.Proto.HealthCheck
          = heartbeatTtl req.HealthCheck) ∧
      (heartbeatTtl req.HealthCheck = 0 ∨ 60 < heartbeatTtl req.HealthCheck →
        heartbeatTtl (updateHealthCheck DefaultTLL req inst).inst.Proto.HealthCheck
          = DefaultTLL) ∧
      (updateHealthCheck DefaultTLL req inst).inst.EnableHealthCheck = true) ∧
    (TurnsCheckOff req →
      (updateHealthCheck DefaultTLL req inst).inst.Proto.EnableHealthCheck = some false ∧
      (updateHealthCheck DefaultTLL req inst).inst.EnableHealthCheck = false ∧
      (updateHealthCheck DefaultTLL req inst).inst.Proto.HealthCheck = none) := by
  constructor
  · intro h
    rw [updateHealthCheck_takes DefaultTLL req inst h]
    have hb := heartbeatBranch_check DefaultTLL req inst
    have hv := (healthCheckView_eq_some _ _ _).1
      (healthCheckView_heartbeatCheck DefaultTLL req)
    rw [hb.1]
    refine ⟨hv.1, hv.2.1, ?_, ?_, hb.2⟩
    · intro hr
      rw [hv.2.2, normalTtl, if_neg]
      omega
    · intro hr
      rw [hv.2.2, normalTtl, if_pos]
      omega
  · intro h
    rw [updateHealthCheck_off DefaultTLL req inst h]
    exact ⟨rfl, rfl, rfl⟩

/-- C25 at a stored instance without health checking: a heartbeat request with TTL 30
keeps the TTL, and a request that switches checking off on a checked instance clears the
check. -/
theorem updateHealthCheck_sets_check_witness :
    (TakesHeartbeat (reqHeartbeat 30) ∧
      (1 ≤ heartbeatTtl (reqHeartbeat 30).HealthCheck ∧
        heartbeatTtl (reqHeartbeat 30).HealthCheck ≤ 60) ∧
      healthCheckType (updateHealthCheck 5 (reqHeartbeat 30) (storedA protoUnhealthy)).inst.Proto.HealthCheck
        = HealthCheckType.HEARTBEAT ∧
      heartbeatTtl (updateHealthCheck 5 (reqHeartbeat 30) (storedA protoUnhealthy)).inst.Proto.HealthCheck
        = 30) ∧
    (TakesHeartbeat (reqHeartbeat 90) ∧
      (heartbeatTtl (reqHeartbeat 90).HealthCheck = 0 ∨
        60 < heartbeatTtl (reqHeartbeat 90).HealthCheck) ∧
      heartbeatTtl (updateHealthCheck 5 (reqHeartbeat 90) (storedA protoUnhealthy)).inst.Proto.HealthCheck
        = 5) ∧
    (TurnsCheckOff reqCheckOff ∧
      (updateHealthCheck 5 reqCheckOff (storedA protoChecked)).inst.Proto.EnableHealthCheck
        = some false ∧
      (updateHealthCheck 5 reqCheckOff (storedA protoChecked)).inst.Proto.HealthCheck = none) :=
  have h30 : TakesHeartbeat (reqHeartbeat 30) := by decide
  have r30 : 1 ≤ heartbeatTtl (reqHeartbeat 30).HealthCheck ∧
      heartbeatTtl (reqHeartbeat 30).HealthCheck ≤ 60 := by decide
  have h90 : TakesHeartbeat (reqHeartbeat 90) := by decide
  have r90 : heartbeatTtl (reqHeartbeat 90).HealthCheck = 0 ∨
      60 < heartbeatTtl (reqHeartbeat 90).HealthCheck := by decide
  have hoff : TurnsCheckOff reqCheckOff := by decide
  have a := (updateHealthCheck_sets_check 5 (reqHeartbeat 30) (storedA protoUnhealthy)).1 h30
  have b := (updateHealthCheck_sets_check 5 (reqHeartbeat 90) (storedA protoUnhealthy)).1 h90
  have c := (updateHealthCheck_sets_check 5 reqCheckOff (storedA protoChecked)).2 hoff
  ⟨⟨h30, r30, a.2.1, a.2.2.1 r30⟩, ⟨h90, r90, b.2.2.2.1 r90⟩, ⟨hoff, c.1, c.2.2⟩⟩

/-! ## C27: fields an update request leaves out -/

/-- The plain fields other than `Healthy` and `Isolate` after `updateInstanceAttribute`
are those `updatePlainAttributes` leaves. -/
theorem updateInstanceAttribute_plain_fields (D : Nat) (uuid : String) (req : ApiInstance)
    (inst : ModelInstance) :
    (updateInstanceAttribute D uuid req inst).inst.Proto.Metadata
      = (updatePlainAttributes req inst).inst.Proto.Metadata ∧
    (updateInstanceAttribute D uuid req inst).inst.Proto.Location
      = (updatePlainAttributes req inst).inst.Proto.Location ∧
    (updateInstanceAttribute D uuid req inst).inst.Proto.Protocol
      = (updatePlainAttributes req inst).inst.Proto.Protocol ∧
    (updateInstanceAttribute D uuid req inst).inst.Proto.Version
      = (updatePlainAttributes req inst).inst.Proto.Version ∧
    (updateInstanceAttribute D uuid req inst).inst.Proto.Priority
      = (updatePlainAttributes req inst).inst.Proto.Priority ∧
    (updateInstanceAttribute D uuid req inst).inst.Proto.Weight
      = (updatePlainAttributes req inst).inst.Proto.Weight ∧
    (updateInstanceAttribute D uuid req inst).inst.Proto.LogicSet
      = (updatePlainAttributes req inst).inst.Proto.LogicSet := by
  have hf := updateHealthCheck_frame D req (updatePlainAttributes req inst).inst
  rw [updateInstanceAttribute_inst]
  split
  · exact ⟨hf.1, hf.2.1, hf.2.2.1, hf.2.2.2.1, hf.2.2.2.2.1, hf.2.2.2.2.2.1,
      hf.2.2.2.2.2.2.2.1⟩
  · exact ⟨hf.1, hf.2.1, hf.2.2.1, hf.2.2.2.1, hf.2.2.2.2.1, hf.2.2.2.2.2.1,
      hf.2.2.2.2.2.2.2.1⟩

/-- A request without a location differs from every stored location that names a place. -/
theorem locationNeedUpdate_of_absent (old : Option Location) (h : HasPlace old) :
    instanceLocationNeedUpdate none old = true := by
  unfold HasPlace at h
  unfold instanceLocationNeedUpdate
  have hr : regionOf none = "" := rfl
  have hz : zoneOf none = "" := rfl
  have hc : campusOf none = "" := rfl
  rw [hr, hz, hc]
  by_cases h1 : "" ≠ regionOf old
  · rw [if_pos h1]
  · rw [if_neg h1]
    by_cases h2 : "" ≠ zoneOf old
    · rw [if_pos h2]
    · rw [if_neg h2]
      by_cases h3 : "" ≠ campusOf old
      · rw [if_pos h3]
      · exfalso
        rcases h with h | h | h
        · exact h1 (Ne.symm h)
        · exact h2 (Ne.symm h)
        · exact h3 (Ne.symm h)

/-- The conditions of the eight plain `if`s other than the location are false for a
request that leaves the eight fields out. -/
theorem plainChanges_of_leavesOut (req : ApiInstance) (inst : ModelInstance)
    (h : LeavesOutPlain req) :
    (plainChanges req inst).metadata = false ∧ (plainChanges req inst).protocol = false ∧
    (plainChanges req inst).version = false ∧ (plainChanges req inst).priority = false ∧
    (plainChanges req inst).weight = false ∧ (plainChanges req inst).healthy = false ∧
    (plainChanges req inst).isolate = false ∧ (plainChanges req inst).logicSet = false := by
  obtain ⟨h1, h2, h3, h4, h5, h6, h7, h8⟩ := h
  simp [plainChanges, h1, h2, h3, h4, h5, h6, h7, h8, instanceMetaNeedUpdate]

/-- C27, amended: for a stored instance whose location names a region, zone or campus, a
request without a location makes `updateInstanceAttribute` return `needUpdate = true`
with the Update event and store the absent location. A request that leaves out the
protocol, version, priority, weight, isolate flag, logic set or metadata leaves that
stored value as it was; one that leaves out the healthy flag leaves the stored flag as it
was unless it switches heartbeat checking on, which resets the flag to false. When all
eight are left out, `needUpdate` is decided by the location and the health check alone,
and Update is the only event. -/
theorem absent_fields_of_update (DefaultTLL : Nat) (uuid : String) (req : ApiInstance)
    (inst : ModelInstance) :
    (req.Location = none → HasPlace inst.Proto.Location →
      (updateInstanceAttribute DefaultTLL uuid req inst).needUpdate = true ∧
      EventInstanceUpdate ∈ (updateInstanceAttribute DefaultTLL uuid req inst).updateEvents ∧
      (updateInstanceAttribute DefaultTLL uuid req inst).inst.Proto.Location = none) ∧
    (req.Protocol = none →
      (updateInstanceAttribute DefaultTLL uuid req inst).inst.Proto.Protocol
        = inst.Proto.Protocol) ∧
    (req.Version = none →
      (updateInstanceAttribute DefaultTLL uuid req inst).inst.Proto.Version
        = inst.Proto.Version) ∧
    (req.Priority = none →
      (updateInstanceAttribute DefaultTLL uuid req inst).inst.Proto.Priority
        = inst.Proto.Priority) ∧
    (req.Weight = none →
      (updateInstanceAttribute DefaultTLL uuid req inst).inst.Proto.Weight
        = inst.Proto.Weight) ∧
    (req.Isolate = none →
      (updateInstanceAttribute DefaultTLL uuid req inst).inst.Proto.Isolate
        = inst.Proto.Isolate) ∧
    (req.LogicSet = none →
      (updateInstanceAttribute DefaultTLL uuid req inst).inst.Proto.LogicSet
        = inst.Proto.LogicSet) ∧
    (req.Metadata = none →
      (updateInstanceAttribute DefaultTLL uuid req inst).inst.Proto.Metadata
        = inst.Proto.Metadata) ∧
    (req.Healthy = none →
      (updateInstanceAttribute DefaultTLL uuid req inst).inst.Proto.Healthy
        = if OpensHealthCheck req inst then some false else inst.Proto.Healthy) ∧
    (LeavesOutPlain req →
      (updateInstanceAttribute DefaultTLL uuid req inst).needUpdate
        = (instanceLocationNeedUpdate req.Location inst.Proto.Location ||
            (updateHealthCheck DefaultTLL req inst).needUpdate) ∧
      ∀ t ∈ (updateInstanceAttribute DefaultTLL uuid req inst).updateEvents,
        t = EventInstanceUpdate) := by
  have hf := updateInstanceAttribute_plain_fields DefaultTLL uuid req inst
  refine ⟨?_, ?_, ?_, ?_, ?_, ?_, ?_, ?_, ?_, ?_⟩
  · intro hl hp
    have hloc : (plainChanges req inst).location = true := by
      show instanceLocationNeedUpdate req.Location inst.Proto.Location = true
      rw [hl]
      exact locationNeedUpdate_of_absent _ hp
    have hplain : (updatePlainAttributes req inst).needUpdate = true := by
      rw [plain_needUpdate, hloc]
      simp
    refine ⟨?_, ?_, ?_⟩
    · rw [updateInstanceAttribute_needUpdate, hplain]
      rfl
    · rw [mem_updateInstanceAttribute_events, mem_plain_events]
      exact Or.inl (Or.inl ⟨Or.inr (Or.inl hloc), rfl⟩)
    · rw [hf.2.1, plain_location, if_pos hloc, hl]
  · intro h
    rw [hf.2.2.1, plain_protocol]
    have : (plainChanges req inst).protocol = false := by simp [plainChanges, h]
    rw [this]
    rfl
  · intro h
    rw [hf.2.2.2.1, plain_version]
    have : (plainChanges req inst).version = false := by simp [plainChanges, h]
    rw [this]
    rfl
  · intro h
    rw [hf.2.2.2.2.1, plain_priority]
    have : (plainChanges req inst).priority = false := by simp [plainChanges, h]
    rw [this]
    rfl
  · intro h
    rw [hf.2.2.2.2.2.1, plain_weight]
    have : (plainChanges req inst).weight = false := by simp [plainChanges, h]
    rw [this]
    rfl
  · intro h
    rw [updateInstanceAttribute_isolate]
    have : (plainChanges req inst).isolate = false := by simp [plainChanges, h]
    rw [this]
    rfl
  · intro h
    rw [hf.2.2.2.2.2.2, plain_logicSet]
    have : (plainChanges req inst).logicSet = false := by simp [plainChanges, h]
    rw [this]
    rfl
  · intro h
    rw [hf.1, plain_metadata]
    have : (plainChanges req inst).metadata = false := by
      simp [plainChanges, h, instanceMetaNeedUpdate]
    rw [this]
    rfl
  · intro h
    rw [updateInstanceAttribute_healthy]
    have : (plainChanges req inst).healthy = false := by simp [plainChanges, h]
    rw [this]
    rfl
  · intro h
    obtain ⟨h1, h2, h3, h4, h5, h6, h7, h8⟩ := plainChanges_of_leavesOut req inst h
    constructor
    · rw [updateInstanceAttribute_needUpdate, updateHealthCheck_after_plain, plain_needUpdate,
        h1, h2, h3, h4, h5, h6, h7, h8]
      simp [plainChanges]
    · intro t ht
      rw [mem_updateInstanceAttribute_events, mem_plain_events, h6, h7] at ht
      rcases ht with (⟨_, ht⟩ | ⟨hc, _⟩ | ⟨hc, _⟩) | ⟨_, ht⟩
      · exact ht
      · exact absurd hc (by decide)
      · exact absurd hc (by decide)
      · exact ht

/-- C27 at an instance placed in a region, for a request that carries a heartbeat check
and nothing else: the location is cleared, protocol and weight stay. -/
theorem absent_fields_of_update_witness :
    (reqHeartbeat 30).Location = none ∧ HasPlace (storedA protoPlaced).Proto.Location ∧
    (reqHeartbeat 30).Protocol = none ∧ (reqHeartbeat 30).Weight = none ∧
    (updateInstanceAttribute 5 "uuid" (reqHeartbeat 30) (storedA protoPlaced)).needUpdate = true ∧
    EventInstanceUpdate
      ∈ (updateInstanceAttribute 5 "uuid" (reqHeartbeat 30) (storedA protoPlaced)).updateEvents ∧
    (updateInstanceAttribute 5 "uuid" (reqHeartbeat 30) (storedA protoPlaced)).inst.Proto.Location
      = none ∧
    (updateInstanceAttribute 5 "uuid" (reqHeartbeat 30) (storedA protoPlaced)).inst.Proto.Protocol
      = some "grpc" ∧
    (updateInstanceAttribute 5 "uuid" (reqHeartbeat 30) (storedA protoPlaced)).inst.Proto.Weight
      = some 100 :=
  have h := absent_fields_of_update 5 "uuid" (reqHeartbeat 30) (storedA protoPlaced)
  have hl : (reqHeartbeat 30).Location = none := rfl
  have hp : HasPlace (storedA protoPlaced).Proto.Location := by decide
  ⟨hl, hp, rfl, rfl, (h.1 hl hp).1, (h.1 hl hp).2.1, (h.1 hl hp).2.2, h.2.1 rfl,
    h.2.2.2.2.1 rfl⟩

/-- C27 as stated fails for the healthy flag: a healthy instance without health checking
gets a request that carries a heartbeat check and no healthy flag. The stored flag does
not stay: switching the check on resets it to false. -/
theorem absent_fields_of_update_counterexample :
    ¬ ((reqHeartbeat 30).Healthy = none →
      (updateInstanceAttribute 5 "uuid" (reqHeartbeat 30) (storedA protoHealthy)).inst.Proto.Healthy
        = (storedA protoHealthy).Proto.Healthy) := by
  decide

/-! ## C29: `Delete` before the checker is initialized -/

/-- `OnEvent` on a follower event of the election. -/
theorem onEvent_follower (env : PeerEnv π) (c : LeaderHealthChecker π) (nowMs : Int)
    (e : LeaderChangeEvent) (hkey : e.Key = env.electionKey) (hl : e.Leader = false) :
    c.OnEvent env nowMs (HubEvent.leaderChange e) =
      ((c.nextElection.becomeFollower env e (c.leaderVersion + 1)).did
        (PeerOp.Clean (c.nextElection.becomeFollower env e (c.leaderVersion + 1)).self)
        (env.Clean (c.nextElection.becomeFollower env e (c.leaderVersion + 1)).self
          (c.nextElection.becomeFollower env e (c.leaderVersion + 1)).peers)
        ).refreshLeaderChangeTimeSec nowMs := by
  unfold LeaderHealthChecker.OnEvent
  simp only
  rw [if_neg (not_not.2 hkey), hl]
  rfl

/-- `OnEvent` on a leader event of the election. -/
theorem onEvent_leader (env : PeerEnv π) (c : LeaderHealthChecker π) (nowMs : Int)
    (e : LeaderChangeEvent) (hkey : e.Key = env.electionKey) (hl : e.Leader = true) :
    c.OnEvent env nowMs (HubEvent.leaderChange e) =
      (c.nextElection.becomeLeader env).refreshLeaderChangeTimeSec nowMs := by
  unfold LeaderHealthChecker.OnEvent
  simp only
  rw [if_neg (not_not.2 hkey), hl]
  rfl

/-- `OnEvent` on anything but an event of the election. -/
theorem onEvent_other (env : PeerEnv π) (c : LeaderHealthChecker π) (nowMs : Int)
    (i : HubEvent) (h : ∀ e, i = HubEvent.leaderChange e → e.Key ≠ env.electionKey) :
    c.OnEvent env nowMs i = c := by
  unfold LeaderHealthChecker.OnEvent
  cases i with
  | other => rfl
  | leaderChange e =>
    simp only
    rw [if_pos (h e rfl)]

/-- A dial that fails leaves the election fields alone and starts a retry. -/
theorem dialLeader_failed (env : PeerEnv π) (c : LeaderHealthChecker π) (e : LeaderChangeEvent)
    (v : Int) (err : String)
    (h : (env.Serve { Host := e.LeaderHost, Serial := c.made + 1 } e.LeaderHost env.LocalPort
      c.peers).1 = some err) :
    (c.dialLeader env e v).remote = c.remote ∧ (c.dialLeader env e v).leader = c.leader ∧
    (c.dialLeader env e v).initializeFlag = c.initializeFlag ∧
    (c.dialLeader env e v).leaderVersion = c.leaderVersion ∧
    (c.dialLeader env e v).retries = c.retries ++ [(e, v)] := by
  simp [LeaderHealthChecker.dialLeader, LeaderHealthChecker.did, h]

/-- A dial that succeeds makes the checker an initialized follower of the new peer. -/
theorem dialLeader_served (env : PeerEnv π) (c : LeaderHealthChecker π) (e : LeaderChangeEvent)
    (v : Int)
    (h : (env.Serve { Host := e.LeaderHost, Serial := c.made + 1 } e.LeaderHost env.LocalPort
      c.peers).1 = none) :
    (c.dialLeader env e v).remote = some { Host := e.LeaderHost, Serial := c.made + 1 } ∧
    (c.dialLeader env e v).leader = 0 ∧
    (c.dialLeader env e v).initializeFlag = initializedSignal ∧
    (c.dialLeader env e v).leaderVersion = c.leaderVersion ∧
    (c.dialLeader env e v).retries = c.retries := by
  simp [LeaderHealthChecker.dialLeader, LeaderHealthChecker.did, h]

/-- Without the peer tag, `Delete` on a checker that is not leader and has no remote peer
calls `Del` on the absent peer, whatever the initialize flag says. -/
theorem delete_absent_peer (env : PeerEnv π) (c : LeaderHealthChecker π) (ctx : CheckerCtx)
    (key : String) (htag : ¬ CarriesSendTag ctx) (hl : c.leader ≠ 1) (hr : c.remote = none) :
    c.findLeaderPeer = none ∧ c.Delete env ctx key = (some CheckerError.nilPeer, c) := by
  have hsend : isSendFromPeer ctx = false := by
    rcases Bool.eq_false_or_eq_true (isSendFromPeer ctx) with h | h
    · exact absurd ((isSendFromPeer_iff ctx).1 h) htag
    · exact h
  have hfind : c.findLeaderPeer = none := by
    unfold LeaderHealthChecker.findLeaderPeer LeaderHealthChecker.isLeader
    rw [if_neg (by simpa using hl), hr]
  refine ⟨hfind, ?_⟩
  unfold LeaderHealthChecker.Delete
  rw [hsend, hfind]
  rfl

/-- Without a remote peer, `becomeFollower` on a named leader goes straight to the dial. -/
theorem becomeFollower_none (env : PeerEnv π) (c : LeaderHealthChecker π)
    (e : LeaderChangeEvent) (v : Int) (hhost : e.LeaderHost ≠ "") (hr : c.remote = none) :
    c.becomeFollower env e v = c.dialLeader env e v := by
  unfold LeaderHealthChecker.becomeFollower
  rw [if_neg hhost, hr]

/-- C29: `Delete` routes without testing the initialize flag. At the start, before any
leader-change event, and after a follower event of the election whose dial to the named
leader failed on a checker that is not leader and has no remote peer, the checker is
uninitialized and `findLeaderPeer` hands back the absent remote peer; a `Delete` without
the peer tag then calls `Del` on that absent value, where `Report` on the same state
returns early. -/
theorem delete_before_initialized (env : PeerEnv π) (ctx : CheckerCtx) (key : String)
    (htag : ¬ CarriesSendTag ctx) :
    (∀ (self : Peer) (peers : π),
      (startChecker self peers).isInitialize = false ∧
      (startChecker self peers).findLeaderPeer = none ∧
      (startChecker self peers).Delete env ctx key
        = (some CheckerError.nilPeer, startChecker self peers)) ∧
    (∀ (c : LeaderHealthChecker π) (nowMs : Int) (e : LeaderChangeEvent) (err : String)
        (request : ReportRequest),
      c.leader ≠ 1 → c.remote = none → e.Key = env.electionKey → e.Leader = false →
      e.LeaderHost ≠ "" →
      (env.Serve { Host := e.LeaderHost, Serial := c.made + 1 } e.LeaderHost env.LocalPort
        c.peers).1 = some err →
      (c.OnEvent env nowMs (HubEvent.leaderChange e)).isInitialize = false ∧
      (c.OnEvent env nowMs (HubEvent.leaderChange e)).findLeaderPeer = none ∧
      (c.OnEvent env nowMs (HubEvent.leaderChange e)).Delete env ctx key
        = (some CheckerError.nilPeer, c.OnEvent env nowMs (HubEvent.leaderChange e)) ∧
      (c.OnEvent env nowMs (HubEvent.leaderChange e)).Report env ctx request
        = (none, c.OnEvent env nowMs (HubEvent.leaderChange e))) := by
  constructor
  · intro self peers
    have hl : (startChecker self peers).leader ≠ 1 := by
      show (0 : Int) ≠ 1
      decide
    have h := delete_absent_peer env (startChecker self peers) ctx key htag hl rfl
    exact ⟨rfl, h.1, h.2⟩
  · intro c nowMs e err request hl hr hkey hfol hhost hdial
    have hd := dialLeader_failed env c.nextElection e (c.leaderVersion + 1) err hdial
    have hev : c.OnEvent env nowMs (HubEvent.leaderChange e) =
        ((c.nextElection.dialLeader env e (c.leaderVersion + 1)).did
          (PeerOp.Clean (c.nextElection.dialLeader env e (c.leaderVersion + 1)).self)
          (env.Clean (c.nextElection.dialLeader env e (c.leaderVersion + 1)).self
            (c.nextElection.dialLeader env e (c.leaderVersion + 1)).peers)
          ).refreshLeaderChangeTimeSec nowMs := by
      rw [onEvent_follower env c nowMs e hkey hfol,
        becomeFollower_none env c.nextElection e _ hhost hr]
    have hremote : (c.OnEvent env nowMs (HubEvent.leaderChange e)).remote = none := by
      rw [hev]
      exact hd.1.trans hr
    have hleader : (c.OnEvent env nowMs (HubEvent.leaderChange e)).leader ≠ 1 := by
      rw [hev]
      exact fun h => hl (hd.2.1.symm.trans h)
    have hinit : (c.OnEvent env nowMs (HubEvent.leaderChange e)).isInitialize = false := by
      rw [hev]
      show decide (_ = initializedSignal) = false
      have : (c.nextElection.dialLeader env e (c.leaderVersion + 1)).initializeFlag
          = uninitializeSignal := hd.2.2.1
      simp [LeaderHealthChecker.refreshLeaderChangeTimeSec, LeaderHealthChecker.did, this,
        uninitializeSignal, initializedSignal]
    have h := delete_absent_peer env _ ctx key htag hleader hremote
    refine ⟨hinit, h.1, h.2, ?_⟩
    have hsend : isSendFromPeer ctx = false := by
      rcases Bool.eq_false_or_eq_true (isSendFromPeer ctx) with h | h
      · exact absurd ((isSendFromPeer_iff ctx).1 h) htag
      · exact h
    unfold LeaderHealthChecker.Report
    rw [hsend, hinit]
    rfl

/-- C29 on the in-memory peers: a checker at start whose leader `10.0.0.2` does not
answer gets the follower event; the `Delete` that follows runs on the absent peer. -/
theorem delete_before_initialized_witness :
    ¬ CarriesSendTag {} ∧ loneChecker.leader ≠ 1 ∧ loneChecker.remote = none ∧
    followEvent.Key = memPeers.electionKey ∧ followEvent.Leader = false ∧
    followEvent.LeaderHost ≠ "" ∧
    (memPeers.Serve { Host := followEvent.LeaderHost, Serial := loneChecker.made + 1 }
      followEvent.LeaderHost memPeers.LocalPort loneChecker.peers).1 = some "dial failed" ∧
    (loneChecker.OnEvent memPeers 1000 (HubEvent.leaderChange followEvent)).findLeaderPeer
      = none ∧
    ((loneChecker.OnEvent memPeers 1000 (HubEvent.leaderChange followEvent)).Delete memPeers {}
      "i-1").1 = some CheckerError.nilPeer :=
  have htag : ¬ CarriesSendTag {} := by
    rintro ⟨md, h, _⟩
    cases h
  have h := (delete_before_initialized memPeers {} "i-1" htag).2 loneChecker 1000 followEvent
    "dial failed" {} (by decide) rfl rfl rfl (by decide) rfl
  ⟨htag, by decide, rfl, rfl, rfl, by decide, rfl, h.2.1, congrArg Prod.fst h.2.2.1⟩

/-! ## C28: an initialized checker has a responsible peer -/

/-- The two values of the initialize flag differ. -/
theorem uninitialize_ne : uninitializeSignal ≠ initializedSignal := by decide

/-- The two ways a dial ends, on the election fields. -/
theorem dialLeader_cases (env : PeerEnv π) (c : LeaderHealthChecker π) (e : LeaderChangeEvent)
    (v : Int) :
    (c.dialLeader env e v).leaderVersion = c.leaderVersion ∧
    ((∃ p, (c.dialLeader env e v).remote = some p ∧ e.LeaderHost = p.Host ∧
        (c.dialLeader env e v).leader = 0 ∧
        (c.dialLeader env e v).initializeFlag = initializedSignal ∧
        (c.dialLeader env e v).retries = c.retries) ∨
      ((c.dialLeader env e v).remote = c.remote ∧
        (c.dialLeader env e v).leader = c.leader ∧
        (c.dialLeader env e v).initializeFlag = c.initializeFlag ∧
        (c.dialLeader env e v).retries = c.retries ++ [(e, v)])) := by
  cases h : (env.Serve { Host := e.LeaderHost, Serial := c.made + 1 } e.LeaderHost
      env.LocalPort c.peers).1 with
  | some err =>
    obtain ⟨h1, h2, h3, h4, h5⟩ := dialLeader_failed env c e v err h
    exact ⟨h4, Or.inr ⟨h1, h2, h3, h5⟩⟩
  | none =>
    obtain ⟨h1, h2, h3, h4, h5⟩ := dialLeader_served env c e v h
    exact ⟨h4, Or.inl ⟨_, h1, rfl, h2, h3, h5⟩⟩

/-- The three ways `becomeFollower` ends on a named leader: the checker follows that
host already; or it does not, and then the dial makes it an initialized follower of the
host, or fails, which leaves it without remote peer and starts a retry. -/
theorem becomeFollower_cases (env : PeerEnv π) (c : LeaderHealthChecker π)
    (e : LeaderChangeEvent) (v : Int) (hhost : e.LeaderHost ≠ "") :
    (c.becomeFollower env e v).leaderVersion = c.leaderVersion ∧
    ((∃ p, c.remote = some p ∧ e.LeaderHost = p.Host ∧
        (c.becomeFollower env e v).remote = some p ∧
        (c.becomeFollower env e v).leader = c.leader ∧
        (c.becomeFollower env e v).initializeFlag = initializedSignal ∧
        (c.becomeFollower env e v).retries = c.retries) ∨
      ((∀ p, c.remote = some p → e.LeaderHost ≠ p.Host) ∧
        ((∃ p, (c.becomeFollower env e v).remote = some p ∧ e.LeaderHost = p.Host ∧
            (c.becomeFollower env e v).leader = 0 ∧
            (c.becomeFollower env e v).initializeFlag = initializedSignal ∧
            (c.becomeFollower env e v).retries = c.retries) ∨
          ((c.becomeFollower env e v).remote = none ∧
            (c.becomeFollower env e v).leader = c.leader ∧
            (c.becomeFollower env e v).initializeFlag = c.initializeFlag ∧
            (c.becomeFollower env e v).retries = c.retries ++ [(e, v)])))) := by
  unfold LeaderHealthChecker.becomeFollower
  rw [if_neg hhost]
  cases hr : c.remote with
  | none =>
    simp only
    obtain ⟨h1, h2⟩ := dialLeader_cases env c e v
    refine ⟨h1, Or.inr ⟨(fun p hp => by cases hp), ?_⟩⟩
    rcases h2 with h2 | ⟨h3, h4⟩
    · exact Or.inl h2
    · exact Or.inr ⟨h3.trans hr, h4⟩
  | some remote =>
    simp only
    by_cases hsame : e.LeaderHost = remote.Host
    · rw [if_pos hsame]
      exact ⟨rfl, Or.inl ⟨remote, rfl, hsame, rfl, rfl, rfl, rfl⟩⟩
    · rw [if_neg hsame, if_pos hsame]
      obtain ⟨h1, h2⟩ := dialLeader_cases env
        (({ c with remote := none } : LeaderHealthChecker π).did (PeerOp.Close remote)
          (env.Close remote c.peers)) e v
      refine ⟨h1, Or.inr ⟨(fun p hp => by cases hp; exact hsame), ?_⟩⟩
      rcases h2 with h2 | h2
      · exact Or.inl h2
      · exact Or.inr h2

/-- The invariant looks at the election fields only. -/
theorem electionInvariant_congr (c d : LeaderHealthChecker π) (h : ElectionInvariant c)
    (h1 : d.remote = c.remote) (h2 : d.leader = c.leader)
    (h3 : d.initializeFlag = c.initializeFlag) (h4 : d.leaderVersion = c.leaderVersion)
    (h5 : d.retries = c.retries) : ElectionInvariant d := by
  constructor
  · rw [h1, h2]; exact h.follower
  · rw [h1, h2, h3]; exact h.responsible
  · rw [h4, h5]; exact h.retryVersion
  · rw [h1, h3, h4, h5]; exact h.retryHost
  · rw [h4, h5]; exact h.retrySame

/-- The checker at start satisfies the invariant. -/
theorem startChecker_invariant (self : Peer) (peers : π) :
    ElectionInvariant (startChecker self peers) := by
  constructor
  · intro h; exact absurd rfl h
  · intro h; exact absurd h uninitialize_ne
  · intro e v h; exact absurd h (List.not_mem_nil _)
  · intro e v h; exact absurd h (List.not_mem_nil _)
  · intro e1 e2 v h; exact absurd h (List.not_mem_nil _)

/-- Stepping the version makes every started retry stale. -/
theorem nextElection_stale (c : LeaderHealthChecker π) (h : ElectionInvariant c)
    (e : LeaderChangeEvent) (v : Int) (hm : (e, v) ∈ c.nextElection.retries) :
    v ≠ c.nextElection.leaderVersion := by
  have := h.retryVersion e v hm
  show v ≠ c.leaderVersion + 1
  omega

theorem nextElection_invariant (c : LeaderHealthChecker π) (h : ElectionInvariant c) :
    ElectionInvariant c.nextElection := by
  constructor
  · exact h.follower
  · intro hi; exact absurd hi uninitialize_ne
  · intro e v hm
    have := h.retryVersion e v hm
    show v ≤ c.leaderVersion + 1
    omega
  · intro e v hm hv; exact absurd hv (nextElection_stale c h e v hm)
  · intro e1 e2 v hm _ hv; exact absurd hv (nextElection_stale c h e1 v hm)

/-- `becomeFollower` at the current version keeps the invariant, when the checker follows
the named host already or is uninitialized and the started retries of this version name
the same host. -/
theorem becomeFollower_invariant (env : PeerEnv π) (c : LeaderHealthChecker π)
    (e : LeaderChangeEvent) (hhost : e.LeaderHost ≠ "") (h : ElectionInvariant c)
    (hq : (∃ p, c.remote = some p ∧ e.LeaderHost = p.Host) ∨
      c.initializeFlag ≠ initializedSignal)
    (hsame : ∀ e1, (e1, c.leaderVersion) ∈ c.retries → e1.LeaderHost = e.LeaderHost) :
    ElectionInvariant (c.becomeFollower env e c.leaderVersion) := by
  obtain ⟨hv, hcases⟩ := becomeFollower_cases env c e c.leaderVersion hhost
  rcases hcases with ⟨p, hp, hph, h1, h2, h3, h4⟩ | ⟨hne, ⟨p, h1, hph, h2, h3, h4⟩ | ⟨h1, h2, h3, h4⟩⟩
  · constructor
    · rw [h2]; intro _; exact h.follower (by rw [hp]; exact Option.some_ne_none p)
    · intro _; right; rw [h1]; exact Option.some_ne_none p
    · rw [hv, h4]; exact h.retryVersion
    · rw [hv, h4]
      intro e1 v hm hve
      refine ⟨(h.retryHost e1 v hm hve).1, Or.inr ⟨p, h1, ?_⟩⟩
      rw [hve] at hm
      exact (hsame e1 hm).trans hph
    · rw [hv, h4]; exact h.retrySame
  · constructor
    · intro _; exact h2
    · intro _; right; rw [h1]; exact Option.some_ne_none p
    · rw [hv, h4]; exact h.retryVersion
    · rw [hv, h4]
      intro e1 v hm hve
      refine ⟨(h.retryHost e1 v hm hve).1, Or.inr ⟨p, h1, ?_⟩⟩
      rw [hve] at hm
      exact (hsame e1 hm).trans hph
    · rw [hv, h4]; exact h.retrySame
  · have hinit : c.initializeFlag ≠ initializedSignal := by
      rcases hq with ⟨p, hp, hph⟩ | hq
      · exact absurd hph (hne p hp)
      · exact hq
    constructor
    · intro hr; exact absurd h1 hr
    · rw [h3]; intro hi; exact absurd hi hinit
    · rw [hv, h4]
      intro e1 v hm
      rcases List.mem_append.1 hm with hm | hm
      · exact h.retryVersion e1 v hm
      · rw [List.mem_singleton] at hm
        rw [(Prod.mk.inj hm).2]
    · rw [hv, h4, h1, h3]
      intro e1 v hm hve
      refine ⟨?_, Or.inl ⟨rfl, hinit⟩⟩
      rcases List.mem_append.1 hm with hm | hm
      · exact (h.retryHost e1 v hm hve).1
      · rw [List.mem_singleton] at hm
        rw [(Prod.mk.inj hm).1]
        exact hhost
    · rw [hv, h4]
      intro e1 e2 v hm1 hm2 hve
      rw [hve] at hm1 hm2
      have key : ∀ e0, (e0, c.leaderVersion) ∈ c.retries ++ [(e, c.leaderVersion)] →
          e0.LeaderHost = e.LeaderHost := by
        intro e0 hm
        rcases List.mem_append.1 hm with hm | hm
        · exact hsame e0 hm
        · rw [List.mem_singleton] at hm
          rw [(Prod.mk.inj hm).1]
      exact (key e1 hm1).trans (key e2 hm2).symm

/-- `becomeLeader` leaves the started retries alone. -/
theorem becomeLeader_retries (env : PeerEnv π) (c : LeaderHealthChecker π) :
    (c.becomeLeader env).retries = c.retries := by
  unfold LeaderHealthChecker.becomeLeader
  cases hr : c.remote with
  | none => simp [hr]
  | some remote => simp [LeaderHealthChecker.did]

/-- `OnEvent` keeps the invariant. -/
theorem onEvent_invariant (env : PeerEnv π) (c : LeaderHealthChecker π) (nowMs : Int)
    (i : HubEvent) (h : ElectionInvariant c) : ElectionInvariant (c.OnEvent env nowMs i) := by
  by_cases hev : ∃ e, i = HubEvent.leaderChange e ∧ e.Key = env.electionKey
  · obtain ⟨e, hi, hkey⟩ := hev
    rw [hi]
    have hn := nextElection_invariant c h
    rcases Bool.eq_false_or_eq_true e.Leader with hl | hl
    · rw [onEvent_leader env c nowMs e hkey hl]
      obtain ⟨h1, h2, h3, _, h5⟩ := becomeLeader_spec env c.nextElection
      have h6 := becomeLeader_retries env c.nextElection
      have hb : ElectionInvariant (c.nextElection.becomeLeader env) := by
        constructor
        · intro hr; exact absurd h2 hr
        · intro _; exact Or.inl h1
        · rw [h5, h6]; exact hn.retryVersion
        · intro e1 v hm hve
          rw [h6] at hm
          rw [h5] at hve
          exact absurd hve (nextElection_stale c h e1 v hm)
        · rw [h5, h6]; exact hn.retrySame
      exact electionInvariant_congr _ _ hb rfl rfl rfl rfl rfl
    · rw [onEvent_follower env c nowMs e hkey hl]
      have hb : ElectionInvariant
          (c.nextElection.becomeFollower env e (c.leaderVersion + 1)) := by
        by_cases hhost : e.LeaderHost = ""
        · rw [becomeFollower_empty env _ e _ hhost]
          exact hn
        · exact becomeFollower_invariant env c.nextElection e hhost hn
            (Or.inr uninitialize_ne)
            (fun e1 hm => absurd rfl (nextElection_stale c h e1 _ hm))
      exact electionInvariant_congr _ _ hb rfl rfl rfl rfl rfl
  · rw [onEvent_other env c nowMs i (fun e hi hkey => hev ⟨e, hi, hkey⟩)]
    exact h

/-- A step keeps the invariant. -/
theorem step_invariant (env : PeerEnv π) (c : LeaderHealthChecker π) (s : CheckerStep)
    (h : ElectionInvariant c) : ElectionInvariant (c.step env s) := by
  cases s with
  | event nowMs i => exact onEvent_invariant env c nowMs i h
  | retry e v =>
    show ElectionInvariant
      (if (e, v) ∈ c.retries then
        ({ c with retries := c.retries.erase (e, v) } :
          LeaderHealthChecker π).retryBecomeFollower env e v
      else c)
    by_cases hm : (e, v) ∈ c.retries
    · rw [if_pos hm]
      have hsub : ∀ x, x ∈ c.retries.erase (e, v) → x ∈ c.retries :=
        fun x hx => List.mem_of_mem_erase hx
      have h0 : ElectionInvariant
          ({ c with retries := c.retries.erase (e, v) } : LeaderHealthChecker π) := by
        constructor
        · exact h.follower
        · exact h.responsible
        · intro e1 v1 hm1; exact h.retryVersion e1 v1 (hsub _ hm1)
        · intro e1 v1 hm1; exact h.retryHost e1 v1 (hsub _ hm1)
        · intro e1 e2 v1 hm1 hm2; exact h.retrySame e1 e2 v1 (hsub _ hm1) (hsub _ hm2)
      unfold LeaderHealthChecker.retryBecomeFollower
      simp only
      by_cases hv : v = c.leaderVersion
      · subst hv
        rw [if_neg (not_not.2 rfl)]
        obtain ⟨hhost, hstate⟩ := h.retryHost e c.leaderVersion hm rfl
        refine becomeFollower_invariant env _ e hhost h0 ?_ ?_
        · rcases hstate with ⟨_, hi⟩ | hp
          · exact Or.inr hi
          · exact Or.inl hp
        · intro e1 hm1
          exact h.retrySame e1 e c.leaderVersion (hsub _ hm1) hm rfl
      · rw [if_pos hv]
        exact h0
    · rw [if_neg hm]
      exact h

/-- Every run from a state that satisfies the invariant ends in one. -/
theorem run_invariant (env : PeerEnv π) (steps : List CheckerStep) :
    ∀ c : LeaderHealthChecker π, ElectionInvariant c → ElectionInvariant (c.run env steps) := by
  induction steps with
  | nil => intro c h; exact h
  | cons s rest ih => intro c h; exact ih _ (step_invariant env c s h)

/-- Under the invariant an initialized checker has a responsible peer. -/
theorem hasResponsible_of_invariant (c : LeaderHealthChecker π) (h : ElectionInvariant c)
    (hi : c.isInitialize = true) : HasResponsible c ∧ c.findLeaderPeer ≠ none := by
  have hflag : c.initializeFlag = initializedSignal := by
    simpa [LeaderHealthChecker.isInitialize] using hi
  have hres : HasResponsible c := by
    rcases h.responsible hflag with hl | hr
    · left
      refine ⟨hl, ?_⟩
      by_contra hr
      have := h.follower hr
      omega
    · exact Or.inr ⟨h.follower hr, hr⟩
  refine ⟨hres, ?_⟩
  unfold LeaderHealthChecker.findLeaderPeer LeaderHealthChecker.isLeader
  rcases hres with ⟨hl, _⟩ | ⟨hl, hr⟩
  · rw [if_pos (by simpa using hl)]
    exact Option.some_ne_none _
  · rw [if_neg (by rw [hl]; decide)]
    exact hr

/-- C28: in every state a checker reaches from its start through events handed to
`OnEvent` and through the retries `becomeFollower` has started, each taken as one step
under the lock, an initialized checker has a responsible peer: the leader flag is set and
there is no remote peer, or the leader flag is clear and there is a remote peer. So
`Report` and `Query`, which return early on an uninitialized checker, never call the
absent peer. -/
theorem initialized_has_responsible (env : PeerEnv π) (self : Peer) (peers : π)
    (steps : List CheckerStep) :
    (((startChecker self peers).run env steps).isInitialize = true →
      HasResponsible ((startChecker self peers).run env steps)) ∧
    (∀ (ctx : CheckerCtx) (request : ReportRequest),
      (((startChecker self peers).run env steps).Report env ctx request).1
        ≠ some CheckerError.nilPeer) ∧
    (∀ (ctx : CheckerCtx) (request : QueryRequest),
      (((startChecker self peers).run env steps).Query env ctx request).1
        ≠ Except.error CheckerError.nilPeer) := by
  have hinv := run_invariant env steps _ (startChecker_invariant self peers)
  generalize (startChecker self peers).run env steps = c at hinv
  refine ⟨fun hi => (hasResponsible_of_invariant c hinv hi).1, ?_, ?_⟩
  · intro ctx request
    unfold LeaderHealthChecker.Report
    by_cases hsend : isSendFromPeer ctx = true
    · rw [if_pos hsend]
      exact fun h => by cases h
    · rw [if_neg hsend]
      rcases Bool.eq_false_or_eq_true c.isInitialize with hi | hi
      · obtain ⟨p, hp⟩ := Option.ne_none_iff_exists'.1 (hasResponsible_of_invariant c hinv hi).2
        simp only [hi, hp]
        cases (env.Put p _ c.peers).1 with
        | none => exact fun h => by cases h
        | some err => exact fun h => by cases h
      · simp only [hi]
        exact fun h => by cases h
  · intro ctx request
    unfold LeaderHealthChecker.Query
    by_cases hsend : isSendFromPeer ctx = true
    · rw [if_pos hsend]
      exact fun h => by cases h
    · rw [if_neg hsend]
      rcases Bool.eq_false_or_eq_true c.isInitialize with hi | hi
      · obtain ⟨p, hp⟩ := Option.ne_none_iff_exists'.1 (hasResponsible_of_invariant c hinv hi).2
        simp only [hi, hp]
        cases (env.Get p request.InstanceId c.peers).1 with
        | error err => exact fun h => by cases h
        | ok record => exact fun h => by cases h
      · simp only [hi]
        exact fun h => by cases h

/-- C28 on the in-memory peers: the leader `10.0.0.2` answers neither the dial nor the
retry, then the checker is elected itself; it ends initialized, as leader without remote
peer. -/
theorem initialized_has_responsible_witness :
    (loneChecker.run memPeers loneRun).isInitialize = true ∧
    HasResponsible (loneChecker.run memPeers loneRun) :=
  ⟨by decide,
    (initialized_has_responsible memPeers { Host := "10.0.0.1" } { down := ["10.0.0.2"] }
      loneRun).1 (by decide)⟩

/-! ## C26: the filters `preGetInstances` accepts -/

/-- `bool2Str` rewrites the value under its key and nothing else. -/
theorem bool2Str_lookup (query : Metadata) (key k : String) :
    (bool2Str query key).lookup k
      = if k = key then (query.lookup key).map boolText else query.lookup k := by
  unfold bool2Str
  cases hq : query.lookup key with
  | none =>
    simp only [Option.map_none']
    split_ifs with hk
    · rw [hk, hq]
    · rfl
  | some val =>
    simp only [Option.map_some']
    unfold boolText
    by_cases h1 : val = "true"
    · rw [if_pos h1, if_pos h1]
      split_ifs with hk
      · rw [hk]; exact AList.lookup_insert _
      · exact AList.lookup_insert_ne hk
    · rw [if_neg h1, if_neg h1]
      by_cases h2 : val = "false"
      · rw [if_pos h2, if_pos h2]
        split_ifs with hk
        · rw [hk]; exact AList.lookup_insert _
        · exact AList.lookup_insert_ne hk
      · rw [if_neg h2, if_neg h2]
        split_ifs with hk
        · rw [hk, hq]
        · rfl

/-- The rewritten text is empty only for an empty value. -/
theorem boolText_eq_empty (val : String) : boolText val = "" ↔ val = "" := by
  unfold boolText
  by_cases h1 : val = "true"
  · rw [if_pos h1, h1]; decide
  · rw [if_neg h1]
    by_cases h2 : val = "false"
    · rw [if_pos h2, h2]; decide
    · rw [if_neg h2]

theorem storeValue_eq_empty (key val : String) : storeValue key val = "" ↔ val = "" := by
  unfold storeValue
  split_ifs
  · exact boolText_eq_empty val
  · rfl

/-- The entries the last loop finds: those of the query, without an overruled
`health_status`, the boolean fields rewritten. -/
theorem preparedQuery_lookup (query : Metadata) (key : String) :
    (preparedQuery query).lookup key
      = if Overruled query key then none else (query.lookup key).map (storeValue key) := by
  unfold preparedQuery
  simp only [bool2Str_lookup]
  have hdrop : ∀ k, (if "health_status" ∈ query ∧ "healthy" ∈ query
        then query.erase "health_status" else query).lookup k
      = if Overruled query k then none else query.lookup k := by
    intro k
    unfold Overruled
    by_cases hh : "healthy" ∈ query
    · by_cases hs : "health_status" ∈ query
      · rw [if_pos ⟨hs, hh⟩]
        by_cases hk : k = "health_status"
        · rw [if_pos ⟨hk, hh⟩, hk]
          exact AList.lookup_erase _ _
        · rw [if_neg (fun h => hk h.1)]
          exact AList.lookup_erase_ne hk
      · rw [if_neg (fun h => hs h.1)]
        by_cases hk : k = "health_status"
        · rw [if_pos ⟨hk, hh⟩, hk]
          exact AList.lookup_eq_none.2 hs
        · rw [if_neg (fun h => hk h.1)]
    · rw [if_neg (fun h => hh h.2), if_neg (fun h => hh h.2)]
  simp only [hdrop]
  unfold storeValue
  by_cases h1 : key = "isolate"
  · subst h1
    have : ¬ Overruled query "isolate" := fun h => absurd h.1 (by decide)
    simp [this]
  · by_cases h2 : key = "healthy"
    · subst h2
      have : ¬ Overruled query "healthy" := fun h => absurd h.1 (by decide)
      simp [this]
    · by_cases h3 : key = "health_status"
      · subst h3
        by_cases ho : Overruled query "health_status"
        · simp [ho]
        · simp [ho]
      · have : ¬ Overruled query key := fun h => h3 h.1
        simp [h1, h2, h3, this]

/-- The key under which the loop stores an entry. -/
theorem insFilter2toreAttr_lookup (key : String) :
    (match InsFilter2toreAttr.lookup key with
      | some attr => attr
      | none => key) = storeAttr key := by
  unfold storeAttr InsFilter2toreAttr
  by_cases h1 : key = "service"
  · rw [if_pos h1, h1, AList.lookup_insert]
  · rw [if_neg h1, AList.lookup_insert_ne h1]
    by_cases h2 : key = "healthy"
    · rw [if_pos h2, h2]
      rfl
    · rw [if_neg h2]
      have : (AList.singleton "healthy" "health_status" : Metadata).lookup key = none := by
        rw [AList.lookup_eq_none, AList.mem_keys, AList.keys_singleton, List.mem_singleton]
        exact h2
      rw [this]

/-- The body of the last loop: an entry with a listed key and a value that is not empty
is stored under its store name unless it is `keys` or `values`; any other entry ends the
loop with `InvalidParameter`. -/
theorem filterEntry_eq (filters : Metadata) (key value : String) :
    filterEntry filters key value =
      if key ∈ InstanceFilterAttributes ∧ value ≠ "" then
        Except.ok (if storeAttr key ∉ NotInsFilterAttr then filters.insert (storeAttr key) value
          else filters)
      else Except.error Code.InvalidParameter := by
  unfold filterEntry
  simp only [insFilter2toreAttr_lookup]
  by_cases h1 : key ∈ InstanceFilterAttributes
  · by_cases h2 : value = ""
    · have hc : ¬ (key ∈ InstanceFilterAttributes ∧ value ≠ "") := fun h => h.2 h2
      rw [if_neg (not_not.2 h1), if_pos h2, if_neg hc]
    · have hc : key ∈ InstanceFilterAttributes ∧ value ≠ "" := ⟨h1, h2⟩
      rw [if_neg (not_not.2 h1), if_neg h2, if_pos hc]
      by_cases h3 : storeAttr key ∈ NotInsFilterAttr
      · rw [if_neg (not_not.2 h3), if_neg (not_not.2 h3)]
      · rw [if_pos h3, if_pos h3]
  · have hc : ¬ (key ∈ InstanceFilterAttributes ∧ value ≠ "") := fun h => h1 h.1
    rw [if_pos h1, if_neg hc]

/-- The last loop ends with `InvalidParameter` when an entry it visits fails a test. -/
theorem filterEntries_error (query : Metadata) (order : List String) :
    (∃ key ∈ order, ¬ PassesEntry query key) →
      ∀ filters, filterEntries query order filters = Except.error Code.InvalidParameter := by
  induction order with
  | nil => rintro ⟨key, hk, _⟩; exact absurd hk (List.not_mem_nil _)
  | cons key rest ih =>
    rintro ⟨bad, hbad, hfail⟩ filters
    unfold filterEntries
    cases hq : query.lookup key with
    | none =>
      simp only
      refine ih ⟨bad, ?_, hfail⟩ filters
      rcases List.mem_cons.1 hbad with h | h
      · exfalso
        apply hfail
        intro val hv
        rw [h, hq] at hv
        cases hv
      · exact h
    | some value =>
      simp only
      rw [filterEntry_eq]
      by_cases hc : key ∈ InstanceFilterAttributes ∧ value ≠ ""
      · rw [if_pos hc]
        simp only
        refine ih ⟨bad, ?_, hfail⟩ _
        rcases List.mem_cons.1 hbad with h | h
        · exfalso
          apply hfail
          intro val hv
          rw [h, hq] at hv
          cases hv
          rw [h]
          exact hc
        · exact h
      · rw [if_neg hc]

/-- The last loop, when every entry it visits passes the tests and no two of them go
under the same store name: it ends with filters that hold the visited entries under
their store names, `keys` and `values` left out, on top of the filters it starts with. -/
theorem filterEntries_ok (query : Metadata) (order : List String) :
    (∀ key ∈ order, PassesEntry query key) →
    order.Pairwise (fun a b => query.lookup a ≠ none → query.lookup b ≠ none →
      storeAttr a ≠ storeAttr b) →
    ∀ filters : Metadata, ∃ out : Metadata,
      filterEntries query order filters = Except.ok out ∧
      ∀ k v, out.lookup k = some v ↔
        (∃ key ∈ order, query.lookup key = some v ∧ storeAttr key = k ∧
          k ∉ NotInsFilterAttr) ∨
        ((∀ key ∈ order, query.lookup key ≠ none → storeAttr key ≠ k ∨ k ∈ NotInsFilterAttr) ∧
          filters.lookup k = some v) := by
  induction order with
  | nil =>
    intro _ _ filters
    refine ⟨filters, rfl, fun k v => ?_⟩
    constructor
    · intro h
      exact Or.inr ⟨fun key hk => absurd hk (List.not_mem_nil _), h⟩
    · rintro (⟨key, hk, _⟩ | ⟨_, h⟩)
      · exact absurd hk (List.not_mem_nil _)
      · exact h
  | cons key rest ih =>
    intro hpass hpair filters
    obtain ⟨hhead, hrest⟩ := List.pairwise_cons.1 hpair
    have hpass1 : ∀ key ∈ rest, PassesEntry query key :=
      fun k hk => hpass k (List.mem_cons_of_mem _ hk)
    unfold filterEntries
    cases hq : query.lookup key with
    | none =>
      simp only
      obtain ⟨out, h1, h2⟩ := ih hpass1 hrest filters
      refine ⟨out, h1, fun k v => ?_⟩
      rw [h2 k v]
      constructor
      · rintro (⟨key1, hk1, h⟩ | ⟨hall, h⟩)
        · exact Or.inl ⟨key1, List.mem_cons_of_mem _ hk1, h⟩
        · refine Or.inr ⟨fun key1 hk1 hne => ?_, h⟩
          rcases List.mem_cons.1 hk1 with e | e
          · rw [e] at hne
            exact absurd hq hne
          · exact hall key1 e hne
      · rintro (⟨key1, hk1, h⟩ | ⟨hall, h⟩)
        · rcases List.mem_cons.1 hk1 with e | e
          · rw [e, hq] at h
            cases h.1
          · exact Or.inl ⟨key1, e, h⟩
        · exact Or.inr ⟨fun key1 hk1 => hall key1 (List.mem_cons_of_mem _ hk1), h⟩
    | some value =>
      simp only
      have hc : key ∈ InstanceFilterAttributes ∧ value ≠ "" :=
        hpass key (List.mem_cons_self _ _) value hq
      rw [filterEntry_eq, if_pos hc]
      simp only
      obtain ⟨out, h1, h2⟩ := ih hpass1 hrest
        (if storeAttr key ∉ NotInsFilterAttr then filters.insert (storeAttr key) value
          else filters)
      refine ⟨out, h1, fun k v => ?_⟩
      rw [h2 k v]
      have hfree : ∀ key1 ∈ rest, query.lookup key1 ≠ none → storeAttr key1 ≠ storeAttr key :=
        fun key1 hk1 hne => Ne.symm (hhead key1 hk1 (by rw [hq]; exact Option.some_ne_none _) hne)
      by_cases hstore : storeAttr key = k ∧ k ∉ NotInsFilterAttr
      · obtain ⟨hk, hnot⟩ := hstore
        have hl : (if storeAttr key ∉ NotInsFilterAttr then filters.insert (storeAttr key) value
            else filters).lookup k = some value := by
          rw [if_pos (by rw [hk]; exact hnot), hk]
          exact AList.lookup_insert _
        rw [hl]
        constructor
        · rintro (⟨key1, hk1, h⟩ | ⟨_, h⟩)
          · exact Or.inl ⟨key1, List.mem_cons_of_mem _ hk1, h⟩
          · exact Or.inl ⟨key, List.mem_cons_self _ _, by rw [hq, h], hk, hnot⟩
        · rintro (⟨key1, hk1, h⟩ | ⟨hall, _⟩)
          · rcases List.mem_cons.1 hk1 with e | e
            · rw [e, hq] at h
              exact Or.inr ⟨fun key2 hk2 hne => Or.inl (hk ▸ hfree key2 hk2 hne), h.1⟩
            · exact Or.inl ⟨key1, e, h⟩
          · rcases hall key (List.mem_cons_self _ _) (by rw [hq]; exact Option.some_ne_none _)
              with h | h
            · exact absurd hk h
            · exact absurd h hnot
      · have hl : (if storeAttr key ∉ NotInsFilterAttr then filters.insert (storeAttr key) value
            else filters).lookup k = filters.lookup k := by
          by_cases hn : storeAttr key ∉ NotInsFilterAttr
          · rw [if_pos hn]
            exact AList.lookup_insert_ne (fun e => hstore ⟨e.symm, e ▸ hn⟩)
          · rw [if_neg hn]
        rw [hl]
        have hkey : storeAttr key ≠ k ∨ k ∈ NotInsFilterAttr := by
          by_cases e : storeAttr key = k
          · right
            by_contra hn
            exact hstore ⟨e, hn⟩
          · exact Or.inl e
        constructor
        · rintro (⟨key1, hk1, h⟩ | ⟨hall, h⟩)
          · exact Or.inl ⟨key1, List.mem_cons_of_mem _ hk1, h⟩
          · refine Or.inr ⟨fun key1 hk1 hne => ?_, h⟩
            rcases List.mem_cons.1 hk1 with e | e
            · rw [e]
              exact hkey
            · exact hall key1 e hne
        · rintro (⟨key1, hk1, h⟩ | ⟨hall, h⟩)
          · rcases List.mem_cons.1 hk1 with e | e
            · rw [e] at h
              exact absurd ⟨h.2.1, h.2.2⟩ hstore
            · exact Or.inl ⟨key1, e, h⟩
          · exact Or.inr ⟨fun key1 hk1 => hall key1 (List.mem_cons_of_mem _ hk1), h⟩

/-- Two listed keys go under the same store name only when they are the same key, or
`healthy` and `health_status`. -/
theorem storeAttr_inj (a b : String) (ha : a ∈ InstanceFilterAttributes)
    (hb : b ∈ InstanceFilterAttributes) (h : storeAttr a = storeAttr b) :
    a = b ∨ (a = "healthy" ∧ b = "health_status") ∨ (a = "health_status" ∧ b = "healthy") := by
  unfold storeAttr at h
  by_cases a1 : a = "service"
  · rw [if_pos a1] at h
    by_cases b1 : b = "service"
    · exact Or.inl (a1.trans b1.symm)
    · rw [if_neg b1] at h
      by_cases b2 : b = "healthy"
      · rw [if_pos b2] at h
        exact absurd h (by decide)
      · rw [if_neg b2] at h
        rw [← h] at hb
        exact absurd hb (by decide)
  · rw [if_neg a1] at h
    by_cases a2 : a = "healthy"
    · rw [if_pos a2] at h
      by_cases b1 : b = "service"
      · rw [if_pos b1] at h
        exact absurd h (by decide)
      · rw [if_neg b1] at h
        by_cases b2 : b = "healthy"
        · exact Or.inl (a2.trans b2.symm)
        · rw [if_neg b2] at h
          exact Or.inr (Or.inl ⟨a2, h.symm⟩)
    · rw [if_neg a2] at h
      by_cases b1 : b = "service"
      · rw [if_pos b1] at h
        rw [h] at ha
        exact absurd ha (by decide)
      · rw [if_neg b1] at h
        by_cases b2 : b = "healthy"
        · rw [if_pos b2] at h
          exact Or.inr (Or.inr ⟨h, b2⟩)
        · rw [if_neg b2] at h
          exact Or.inl h

/-- A key goes under the store name `keys` or `values` only when it is that key. -/
theorem storeAttr_notIns (key : String) :
    storeAttr key ∈ NotInsFilterAttr ↔ key ∈ NotInsFilterAttr := by
  unfold storeAttr
  by_cases h1 : key = "service"
  · rw [if_pos h1, h1]
    decide
  · rw [if_neg h1]
    by_cases h2 : key = "healthy"
    · rw [if_pos h2, h2]
      decide
    · rw [if_neg h2]

/-- The entries the last loop finds, read off the query. -/
theorem preparedQuery_lookup_some (query : Metadata) (key v : String) :
    (preparedQuery query).lookup key = some v ↔
      ¬ Overruled query key ∧ ∃ w, query.lookup key = some w ∧ v = storeValue key w := by
  rw [preparedQuery_lookup]
  by_cases ho : Overruled query key
  · rw [if_pos ho]
    constructor
    · intro h; cases h
    · intro h; exact absurd ho h.1
  · rw [if_neg ho]
    cases query.lookup key with
    | none =>
      constructor
      · intro h; cases h
      · rintro ⟨_, w, h, _⟩; cases h
    | some w0 =>
      constructor
      · intro h
        refine ⟨ho, w0, rfl, ?_⟩
        cases h
        rfl
      · rintro ⟨_, w, h, hv⟩
        cases h
        rw [hv]
        rfl

/-- Every entry the last loop finds passes its tests exactly when every key of the query
is listed and no value is empty but that of an overruled `health_status`. -/
theorem passesEntry_iff (query : Metadata) :
    (∀ key, PassesEntry (preparedQuery query) key) ↔
      KnownKeys query ∧ NoEmptyValueKept query := by
  constructor
  · intro h
    constructor
    · intro key val hq
      by_cases ho : Overruled query key
      · rw [ho.1]
        decide
      · exact (h key _ ((preparedQuery_lookup_some query key _).2 ⟨ho, val, hq, rfl⟩)).1
    · intro key val hq ho hempty
      have := (h key _ ((preparedQuery_lookup_some query key _).2 ⟨ho, val, hq, rfl⟩)).2
      exact this ((storeValue_eq_empty key val).2 hempty)
  · rintro ⟨hknown, hval⟩ key v hq
    obtain ⟨ho, w, hw, hv⟩ := (preparedQuery_lookup_some query key v).1 hq
    refine ⟨hknown key w hw, ?_⟩
    rw [hv]
    exact fun h => hval key w hw ho ((storeValue_eq_empty key w).1 h)

/-- The order of a `range` hands out exactly the keys the map holds, none twice. -/
theorem rangesQuery_spec (query : Metadata) (order : List String) (h : RangesQuery query order) :
    order.Nodup ∧ ∀ key, key ∈ order ↔ query.lookup key ≠ none := by
  unfold RangesQuery at h
  refine ⟨h.nodup_iff.2 query.keys_nodup, fun key => ?_⟩
  rw [h.mem_iff, ← AList.mem_keys, ← AList.lookup_isSome, Option.isSome_iff_ne_none]

/-- No two entries the last loop finds go under the same store name, when all of them
pass its tests. -/
theorem preparedQuery_pairwise (query : Metadata) (order : List String)
    (hnd : order.Nodup) (hpass : ∀ key, PassesEntry (preparedQuery query) key) :
    order.Pairwise (fun a b => (preparedQuery query).lookup a ≠ none →
      (preparedQuery query).lookup b ≠ none → storeAttr a ≠ storeAttr b) := by
  refine List.Pairwise.imp ?_ hnd
  intro a b hab ha hb he
  obtain ⟨va, hva⟩ := Option.ne_none_iff_exists'.1 ha
  obtain ⟨vb, hvb⟩ := Option.ne_none_iff_exists'.1 hb
  have hoa := ((preparedQuery_lookup_some query a va).1 hva)
  have hob := ((preparedQuery_lookup_some query b vb).1 hvb)
  rcases storeAttr_inj a b (hpass a va hva).1 (hpass b vb hvb).1 he with h | ⟨h1, h2⟩ | ⟨h1, h2⟩
  · exact hab h
  · obtain ⟨w, hw, _⟩ := hoa.2
    apply hob.1
    refine ⟨h2, ?_⟩
    rw [← AList.lookup_isSome, ← h1, hw]
    rfl
  · obtain ⟨w, hw, _⟩ := hob.2
    apply hoa.1
    refine ⟨h1, ?_⟩
    rw [← AList.lookup_isSome, ← h2, hw]
    rfl

/-- `preGetInstances` on a query of the wrong shape answers with an error response and
no filters. -/
theorem preGetInstances_misshaped (order : List String) (query : Metadata)
    (h : ¬ WellShaped query) :
    (preGetInstances order query).1 = none ∧ (preGetInstances order query).2.2 ≠ none := by
  unfold preGetInstances
  by_cases h1 : query.entries.length = 0
  · rw [if_pos h1]
    exact ⟨rfl, Option.some_ne_none _⟩
  · rw [if_neg h1]
    simp only
    by_cases h2 : (!(decide ("service" ∈ query) || decide ("namespace" ∈ query) ||
        decide ("host" ∈ query))) = true
    · rw [if_pos h2]
      exact ⟨rfl, Option.some_ne_none _⟩
    · rw [if_neg h2]
      by_cases h3 : decide ("keys" ∈ query) ≠ decide ("values" ∈ query)
      · rw [if_pos h3]
        exact ⟨rfl, Option.some_ne_none _⟩
      · exfalso
        apply h
        refine ⟨fun he => h1 (by rw [he]; rfl), ?_, ?_⟩
        · by_contra hno
          apply h2
          have a1 : "service" ∉ query := fun x => hno (Or.inl x)
          have a2 : "namespace" ∉ query := fun x => hno (Or.inr (Or.inl x))
          have a3 : "host" ∉ query := fun x => hno (Or.inr (Or.inr x))
          simp [a1, a2, a3]
        · simpa using h3

/-- `preGetInstances` on a query of the right shape answers as its last loop ends. -/
theorem preGetInstances_shaped (order : List String) (query : Metadata) (h : WellShaped query) :
    ((preGetInstances order query).1 = none ∧ (preGetInstances order query).2.2 ≠ none ∧
      ∃ code, filterEntries (preparedQuery query) order ∅ = Except.error code) ∨
    ((preGetInstances order query).2.2 = none ∧
      ∃ filters, filterEntries (preparedQuery query) order ∅ = Except.ok filters ∧
        (preGetInstances order query).1 = some filters) := by
  obtain ⟨h1, h2, h3⟩ := h
  unfold preGetInstances
  rw [if_neg (fun he => h1 (List.length_eq_zero.1 he))]
  simp only
  have c2 : ¬ ((!(decide ("service" ∈ query) || decide ("namespace" ∈ query) ||
      decide ("host" ∈ query))) = true) := by
    rcases h2 with a | a | a <;> simp [a]
  have c3 : ¬ (decide ("keys" ∈ query) ≠ decide ("values" ∈ query)) := by
    simpa using h3
  rw [if_neg c2, if_neg c3]
  cases filterEntries (preparedQuery query) order ∅ with
  | error code => exact Or.inl ⟨rfl, Option.some_ne_none _, code, rfl⟩
  | ok filters => exact Or.inr ⟨rfl, filters, rfl, rfl⟩

/-- C26, amended: `preGetInstances` returns filters and no error response exactly when
the query is not empty, gives one of `service`, `namespace` and `host`, gives `keys` and
`values` both or neither, has listed keys only, and has no empty value other than that
of a `health_status` given next to `healthy`, which is dropped unread. The filters then
hold exactly the entries of the query other than `keys`, `values` and a dropped
`health_status`, with `service` under `name`, `healthy` under `health_status`, and the
values `true` and `false` of `health_status`, `healthy` and `isolate` as `1` and `0`. -/
theorem preGetInstances_accepts (order : List String) (query : Metadata)
    (horder : RangesQuery (preparedQuery query) order) :
    (((preGetInstances order query).1 ≠ none ∧ (preGetInstances order query).2.2 = none) ↔
      WellShaped query ∧ KnownKeys query ∧ NoEmptyValueKept query) ∧
    (WellShaped query ∧ KnownKeys query ∧ NoEmptyValueKept query →
      ∃ filters, (preGetInstances order query).1 = some filters ∧
        ∀ k v, filters.lookup k = some v ↔
          ∃ key w, query.lookup key = some w ∧ key ∉ NotInsFilterAttr ∧
            ¬ Overruled query key ∧ k = storeAttr key ∧ v = storeValue key w) := by
  obtain ⟨hnd, hmem⟩ := rangesQuery_spec _ order horder
  have hgood : WellShaped query ∧ KnownKeys query ∧ NoEmptyValueKept query →
      ∃ filters, (preGetInstances order query).2.2 = none ∧
        (preGetInstances order query).1 = some filters ∧
        ∀ k v, filters.lookup k = some v ↔
          ∃ key w, query.lookup key = some w ∧ key ∉ NotInsFilterAttr ∧
            ¬ Overruled query key ∧ k = storeAttr key ∧ v = storeValue key w := by
    rintro ⟨hshape, hknown, hval⟩
    have hpass := (passesEntry_iff query).2 ⟨hknown, hval⟩
    obtain ⟨out, hout, hchar⟩ := filterEntries_ok (preparedQuery query) order
      (fun key _ => hpass key) (preparedQuery_pairwise query order hnd hpass) ∅
    rcases preGetInstances_shaped order query hshape with ⟨_, _, code, hc⟩ | ⟨hnone, filters, hf, h1⟩
    · rw [hout] at hc
      cases hc
    · rw [hout] at hf
      cases hf
      refine ⟨out, hnone, h1, fun k v => ?_⟩
      rw [hchar k v]
      constructor
      · rintro (⟨key, _, hq, hk, hnot⟩ | ⟨_, h⟩)
        · obtain ⟨ho, w, hw, hv⟩ := (preparedQuery_lookup_some query key v).1 hq
          refine ⟨key, w, hw, ?_, ho, hk.symm, hv⟩
          rw [← storeAttr_notIns, hk]
          exact hnot
        · cases h
      · rintro ⟨key, w, hw, hnot, ho, hk, hv⟩
        have hq : (preparedQuery query).lookup key = some v :=
          (preparedQuery_lookup_some query key v).2 ⟨ho, w, hw, hv⟩
        refine Or.inl ⟨key, (hmem key).2 (by rw [hq]; exact Option.some_ne_none _), hq,
          hk.symm, ?_⟩
        rw [hk, storeAttr_notIns]
        exact hnot
  refine ⟨⟨?_, ?_⟩, ?_⟩
  · rintro ⟨hsome, hnone⟩
    by_cases hshape : WellShaped query
    · refine ⟨hshape, ?_⟩
      rw [← passesEntry_iff]
      by_contra hbad
      have hex : ∃ key ∈ order, ¬ PassesEntry (preparedQuery query) key := by
        by_contra hno
        apply hbad
        intro key
        by_cases hk : key ∈ order
        · by_contra hp
          exact hno ⟨key, hk, hp⟩
        · intro val hv
          exact absurd ((hmem key).2 (by rw [hv]; exact Option.some_ne_none _)) hk
      have herr := filterEntries_error (preparedQuery query) order hex ∅
      rcases preGetInstances_shaped order query hshape with ⟨h1, _, _⟩ | ⟨_, filters, hf, _⟩
      · exact hsome h1
      · rw [herr] at hf
        cases hf
    · exact absurd (preGetInstances_misshaped order query hshape).1 hsome
  · intro h
    obtain ⟨filters, h1, h2, _⟩ := hgood h
    exact ⟨by rw [h2]; exact Option.some_ne_none _, h1⟩
  · intro h
    obtain ⟨filters, _, h2, h3⟩ := hgood h
    exact ⟨filters, h2, h3⟩

/-- C26 at the query `service=A`, `healthy=true`, `health_status=` (empty): the loop
ranges over `service` and `healthy`, and the filters are `name=A`, `health_status=1`. -/
theorem preGetInstances_accepts_witness :
    RangesQuery (preparedQuery queryHealthyA) ["healthy", "service"] ∧
    (preGetInstances ["healthy", "service"] queryHealthyA).2.2 = none ∧
    ((preGetInstances ["healthy", "service"] queryHealthyA).1.map
      (fun filters => (filters.lookup "name", filters.lookup "health_status", filters.lookup "service")))
      = some (some "A", some "1", none) ∧
    (WellShaped queryHealthyA ∧ KnownKeys queryHealthyA ∧ NoEmptyValueKept queryHealthyA) :=
  have horder : RangesQuery (preparedQuery queryHealthyA) ["healthy", "service"] := by decide
  have h := (preGetInstances_accepts ["healthy", "service"] queryHealthyA horder).1.1
    ⟨by decide, by decide⟩
  ⟨horder, by decide, by decide, h⟩

/-- C26 as stated fails: the query `service=A`, `healthy=true`, `health_status=` has an
empty value, yet `preGetInstances` returns filters and no error response, because the
empty entry is deleted before the values are tested. -/
theorem preGetInstances_accepts_counterexample :
    RangesQuery (preparedQuery queryHealthyA) ["healthy", "service"] ∧
    ¬ (((preGetInstances ["healthy", "service"] queryHealthyA).1 ≠ none ∧
        (preGetInstances ["healthy", "service"] queryHealthyA).2.2 = none) →
      NoEmptyValue queryHealthyA) := by
  refine ⟨by decide, fun h => ?_⟩
  exact h ⟨by decide, by decide⟩ "health_status" "" (by decide) rfl

/-! ## C22: the order of the levels in `ListRouterRule` and `GetRouterConfigV2` -/

/-- The loop of `ListRouterRule` appends the levels in the order of the `range`. -/
theorem listRouterRule_foldl (entries : LevelRules ρ) (order : List routingLevel) :
    ∀ ret : List ρ,
      order.foldl (fun ret level => ret ++ entries.rulesAt level) ret
        = ret ++ order.flatMap (fun level => entries.rulesAt level) := by
  induction order with
  | nil => intro ret; simp
  | cons level rest ih =>
    intro ret
    rw [List.foldl_cons, ih, List.flatMap_cons, List.append_assoc]

/-- `ListRouterRule` hands out the rules of the levels, level after level in the order of
the `range`. -/
theorem listRouterRule_eq (env : RouterEnv β ω ρ τ υ) (order : List routingLevel)
    (rc : routingConfigCache β ω ρ) (service ns : String) :
    ListRouterRule env order rc service ns
      = order.flatMap (fun level =>
          (env.listEnableRules rc.bucket service ns true).rulesAt level) := by
  unfold ListRouterRule
  simp only
  rw [listRouterRule_foldl, List.nil_append]

/-- An order of a `range` over the levels is a rearrangement of the levels the map
holds. -/
theorem rangesLevels_perm (entries : LevelRules ρ) (order : List routingLevel)
    (h : RangesLevels entries order) :
    order.Perm ([routingLevel.level1RoutingV2, routingLevel.level2RoutingV2,
      routingLevel.level3RoutingV2].filter (fun level => (entries level).isSome)) := by
  obtain ⟨hnd, hmem⟩ := h
  refine (List.perm_ext_iff_of_nodup hnd ((by decide : List.Nodup [routingLevel.level1RoutingV2,
    routingLevel.level2RoutingV2, routingLevel.level3RoutingV2]).filter _)).2 ?_
  intro level
  rw [hmem, List.mem_filter]
  constructor
  · intro h1
    refine ⟨by cases level <;> simp, ?_⟩
    cases hl : entries level with
    | none => exact absurd hl h1
    | some l => rfl
  · rintro ⟨_, h1⟩ h2
    rw [h2] at h1
    cases h1

/-- Whatever the order of the `range`, `ListRouterRule` hands out exactly the rules of
the three levels: a rearrangement of level 1, level 2 and level 3 laid end to end. -/
theorem listRouterRule_perm (env : RouterEnv β ω ρ τ υ) (order : List routingLevel)
    (rc : routingConfigCache β ω ρ) (service ns : String)
    (h : RangesLevels (env.listEnableRules rc.bucket service ns true) order) :
    (ListRouterRule env order rc service ns).Perm
      ((env.listEnableRules rc.bucket service ns true).rulesAt routingLevel.level1RoutingV2 ++
        (env.listEnableRules rc.bucket service ns true).rulesAt routingLevel.level2RoutingV2 ++
        (env.listEnableRules rc.bucket service ns true).rulesAt routingLevel.level3RoutingV2) := by
  rw [listRouterRule_eq]
  generalize env.listEnableRules rc.bucket service ns true = entries at h ⊢
  refine ((rangesLevels_perm entries order h).flatMap_right _).trans ?_
  have key : ∀ level, (if (entries level).isSome = true then [level] else []).flatMap
      (fun level => entries.rulesAt level) = entries.rulesAt level := by
    intro level
    cases hl : entries level with
    | none => simp [LevelRules.rulesAt, hl]
    | some l => simp [LevelRules.rulesAt, hl]
  have h1 := key routingLevel.level1RoutingV2
  have h2 := key routingLevel.level2RoutingV2
  have h3 := key routingLevel.level3RoutingV2
  have hsplit : [routingLevel.level1RoutingV2, routingLevel.level2RoutingV2,
      routingLevel.level3RoutingV2].filter (fun level => (entries level).isSome)
      = (if (entries routingLevel.level1RoutingV2).isSome = true
          then [routingLevel.level1RoutingV2] else []) ++
        ((if (entries routingLevel.level2RoutingV2).isSome = true
          then [routingLevel.level2RoutingV2] else []) ++
        (if (entries routingLevel.level3RoutingV2).isSome = true
          then [routingLevel.level3RoutingV2] else [])) := by
    simp only [List.filter]
    cases (entries routingLevel.level1RoutingV2).isSome <;>
    cases (entries routingLevel.level2RoutingV2).isSome <;>
    cases (entries routingLevel.level3RoutingV2).isSome <;> rfl
  rw [hsplit, List.flatMap_append, List.flatMap_append, h1, h2, h3, List.append_assoc]

/-- C22 fails on the code: the bucket holds the level-1 rule `a` and the level-2 rule
`b`, and the `range` over the map of `listEnableRules` hands out level 2 first, as a Go
map may. `ListRouterRule` and the rules of `GetRouterConfigV2` then have `b` before `a`,
where the claim has every level-1 rule before every level-2 rule. -/
theorem listRouterRule_level_order_lost :
    RangesLevels (memRouter.listEnableRules leveledCache.bucket "svc" "default" true)
      [routingLevel.level2RoutingV2, routingLevel.level1RoutingV2,
        routingLevel.level3RoutingV2] ∧
    (memRouter.listEnableRules leveledCache.bucket "svc" "default" true).rulesAt
      routingLevel.level1RoutingV2 = [ruleA] ∧
    (memRouter.listEnableRules leveledCache.bucket "svc" "default" true).rulesAt
      routingLevel.level2RoutingV2 = [ruleB] ∧
    ListRouterRule memRouter
      [routingLevel.level2RoutingV2, routingLevel.level1RoutingV2,
        routingLevel.level3RoutingV2] leveledCache "svc" "default" = [ruleB, ruleA] ∧
    (GetRouterConfigV2 memRouter
      [routingLevel.level2RoutingV2, routingLevel.level1RoutingV2,
        routingLevel.level3RoutingV2] leveledCache "" "svc" "default").map
      (fun resp => resp.map (fun routing => routing.Rules)) = Except.ok (some ["b", "a"]) := by
  refine ⟨⟨by decide, ?_⟩, by decide, by decide, by decide, rfl⟩
  intro level
  cases level <;> decide

/-! ## C23: `convertV2toV1` flattens in level order -/

/-- Two sorted copies of rearrangements of the same slice are equal when the comparison
tells any two different elements apart. -/
theorem sortedCopy_unique (less : ρ → ρ → Bool) :
    ∀ out1 out2 : List ρ, out1.Perm out2 → TotalOn less out1 →
      out1.Pairwise (fun a b => less b a = false) →
      out2.Pairwise (fun a b => less b a = false) → out1 = out2 := by
  intro out1
  induction out1 with
  | nil => intro out2 hp _ _ _; exact (List.nil_perm.1 hp).symm
  | cons a t ih =>
    intro out2 hp htot h1 h2
    cases out2 with
    | nil => exact absurd (List.perm_nil.1 hp) (List.cons_ne_nil a t)
    | cons b u =>
      have hab : a = b := by
        by_contra hne
        have ha : a ∈ b :: u := hp.subset (List.mem_cons_self a t)
        have hb : b ∈ a :: t := hp.symm.subset (List.mem_cons_self b u)
        have ha1 : a ∈ u := by
          rcases List.mem_cons.1 ha with h | h
          · exact absurd h hne
          · exact h
        have hb1 : b ∈ t := by
          rcases List.mem_cons.1 hb with h | h
          · exact absurd h.symm hne
          · exact h
        have l1 : less b a = false := (List.pairwise_cons.1 h1).1 b hb1
        have l2 : less a b = false := (List.pairwise_cons.1 h2).1 a ha1
        exact hne (htot a (List.mem_cons_self a t) b hb l2 l1)
      subst hab
      have hp1 : t.Perm u := hp.cons_inv
      have htot1 : TotalOn less t := fun x hx y hy =>
        htot x (List.mem_cons_of_mem _ hx) y (List.mem_cons_of_mem _ hy)
      rw [ih u hp1 htot1 (List.pairwise_cons.1 h1).2 (List.pairwise_cons.1 h2).2]

/-- Sorting forgets the order in which a level was stored. -/
theorem sortSlice_of_perm (less : ρ → ρ → Bool) (sorted1 sorted2 stored1 stored2 : List ρ)
    (hp : stored1.Perm stored2) (htot : TotalOn less stored1)
    (h1 : SortedCopy less sorted1 stored1) (h2 : SortedCopy less sorted2 stored2) :
    sorted1 = sorted2 := by
  refine sortedCopy_unique less sorted1 sorted2 ((h1.1.trans hp).trans h2.1.symm) ?_ h1.2 h2.2
  intro a ha b hb
  exact htot a (h1.1.subset ha) b (h1.1.subset hb)

/-- C23, amended: the inbound routes, the outbound routes and the revisions that
`convertV2toV1` returns are each what `BuildV1RoutesFromV2` yields for level 1, then
level 2, then level 3, laid end to end, each level sorted by `CompareRoutingV2` first. When
`sort.Slice` leaves each level sorted and `CompareRoutingV2` tells any two different
rules of a level apart, two maps that hold the same rules under each level, stored in
whatever order, give the same result. -/
theorem convertV2toV1_level_order (env : RouterEnv β ω ρ τ υ) (entries stored : LevelRules ρ)
    (service ns : String)
    (hperm : ∀ level, (entries.rulesAt level).Perm (stored.rulesAt level))
    (htotal : ∀ level, TotalOn env.CompareRoutingV2 (entries.rulesAt level))
    (hsort1 : ∀ level, SortedCopy env.CompareRoutingV2
      (env.sortSlice env.CompareRoutingV2 (entries.rulesAt level)) (entries.rulesAt level))
    (hsort2 : ∀ level, SortedCopy env.CompareRoutingV2
      (env.sortSlice env.CompareRoutingV2 (stored.rulesAt level)) (stored.rulesAt level)) :
    (convertV2toV1 env entries service ns).1 =
      (env.BuildV1RoutesFromV2 service ns (env.sortSlice env.CompareRoutingV2
          (entries.rulesAt routingLevel.level1RoutingV2))).1 ++
        (env.BuildV1RoutesFromV2 service ns (env.sortSlice env.CompareRoutingV2
          (entries.rulesAt routingLevel.level2RoutingV2))).1 ++
        (env.BuildV1RoutesFromV2 service ns (env.sortSlice env.CompareRoutingV2
          (entries.rulesAt routingLevel.level3RoutingV2))).1 ∧
    (convertV2toV1 env entries service ns).2.1 =
      (env.BuildV1RoutesFromV2 service ns (env.sortSlice env.CompareRoutingV2
          (entries.rulesAt routingLevel.level1RoutingV2))).2.1 ++
        (env.BuildV1RoutesFromV2 service ns (env.sortSlice env.CompareRoutingV2
          (entries.rulesAt routingLevel.level2RoutingV2))).2.1 ++
        (env.BuildV1RoutesFromV2 service ns (env.sortSlice env.CompareRoutingV2
          (entries.rulesAt routingLevel.level3RoutingV2))).2.1 ∧
    (convertV2toV1 env entries service ns).2.2 =
      (env.BuildV1RoutesFromV2 service ns (env.sortSlice env.CompareRoutingV2
          (entries.rulesAt routingLevel.level1RoutingV2))).2.2 ++
        (env.BuildV1RoutesFromV2 service ns (env.sortSlice env.CompareRoutingV2
          (entries.rulesAt routingLevel.level2RoutingV2))).2.2 ++
        (env.BuildV1RoutesFromV2 service ns (env.sortSlice env.CompareRoutingV2
          (entries.rulesAt routingLevel.level3RoutingV2))).2.2 ∧
    convertV2toV1 env entries service ns = convertV2toV1 env stored service ns := by
  refine ⟨rfl, rfl, rfl, ?_⟩
  have key : ∀ level, env.sortSlice env.CompareRoutingV2 (entries.rulesAt level)
      = env.sortSlice env.CompareRoutingV2 (stored.rulesAt level) := fun level =>
    sortSlice_of_perm env.CompareRoutingV2 _ _ _ _ (hperm level) (htotal level) (hsort1 level)
      (hsort2 level)
  unfold convertV2toV1
  simp only [key]

/-- `GetRouterConfig` answers with the routes of `convertV2toV1` over the rules that
`listEnableRules` hands out, their extend info cleared. -/
theorem getRouterConfig_routes (env : RouterEnv β ω ρ τ υ) (rc : routingConfigCache β ω ρ)
    (id service ns : String) (h : ¬ (id = "" ∧ service = "" ∧ ns = "")) :
    GetRouterConfig env rc id service ns = Except.ok (some
      { Namespace := ns
        Service := service
        Inbounds := (convertV2toV1 env (env.listEnableRules rc.bucket service ns false)
          service ns).1.map env.clearExtendInfo
        Outbounds := (convertV2toV1 env (env.listEnableRules rc.bucket service ns false)
          service ns).2.1.map env.clearExtendInfo
        Revision := composeRevision env (convertV2toV1 env
          (env.listEnableRules rc.bucket service ns false) service ns).2.2 }) := by
  unfold GetRouterConfig
  rw [if_neg h]
  rfl

/-- C23 on the in-memory router: level 1 holds the rules `a` and `c`, stored in either
order, level 2 the rule `b`. Both maps give the inbound routes `c`, `a`, `b`. -/
theorem convertV2toV1_level_order_witness :
    (∀ level, (levelsAC.rulesAt level).Perm (levelsCA.rulesAt level)) ∧
    (∀ level, TotalOn memRouter.CompareRoutingV2 (levelsAC.rulesAt level)) ∧
    (convertV2toV1 memRouter levelsAC "svc" "default").1 = ["c", "a", "b"] ∧
    (convertV2toV1 memRouter levelsCA "svc" "default").1 = ["c", "a", "b"] :=
  have hperm : ∀ level, (levelsAC.rulesAt level).Perm (levelsCA.rulesAt level) := by
    intro level
    cases level <;> decide
  have htotal : ∀ level, TotalOn memRouter.CompareRoutingV2 (levelsAC.rulesAt level) := by
    intro level
    cases level <;> unfold TotalOn <;> decide
  have hsort1 : ∀ level, SortedCopy memRouter.CompareRoutingV2
      (memRouter.sortSlice memRouter.CompareRoutingV2 (levelsAC.rulesAt level))
      (levelsAC.rulesAt level) := by
    intro level
    cases level <;> unfold SortedCopy <;> decide
  have hsort2 : ∀ level, SortedCopy memRouter.CompareRoutingV2
      (memRouter.sortSlice memRouter.CompareRoutingV2 (levelsCA.rulesAt level))
      (levelsCA.rulesAt level) := by
    intro level
    cases level <;> unfold SortedCopy <;> decide
  have h := convertV2toV1_level_order memRouter levelsAC levelsCA "svc" "default" hperm htotal
    hsort1 hsort2
  have h1 : (convertV2toV1 memRouter levelsAC "svc" "default").1 = ["c", "a", "b"] := by
    decide
  ⟨hperm, htotal, h1, (congrArg Prod.fst h.2.2.2).symm.trans h1⟩

/-! ## The two loops of `setRoutingConfigV1` -/

theorem replayOps_append (env : RouterEnv β ω ρ τ υ) (ops1 ops2 : List (RouterOp ρ))
    (bucket : β) :
    replayOps env (ops1 ++ ops2) bucket = replayOps env ops2 (replayOps env ops1 bucket) := by
  unfold replayOps
  rw [List.foldl_append]

/-- One row of the first loop: it records at most a `deleteV1`, of a tombstone with an
id, and touches the pending rule of no other id. -/
theorem setRoutingConfigV1Row_spec (env : RouterEnv β ω ρ τ υ)
    (acc : routingConfigCache β ω ρ × Int) (entry : RoutingConfig) :
    (setRoutingConfigV1Row env acc entry).1.ext = acc.1.ext ∧
    (setRoutingConfigV1Row env acc entry).1.ops = acc.1.ops ++
      (if entry.ID ≠ "" ∧ entry.Valid = false then [RouterOp.deleteV1 entry.ID] else []) ∧
    (setRoutingConfigV1Row env acc entry).1.bucket =
      replayOps env
        (if entry.ID ≠ "" ∧ entry.Valid = false then [RouterOp.deleteV1 entry.ID] else [])
        acc.1.bucket ∧
    (∀ X, (entry.ID = X → entry.Valid = false) →
      (setRoutingConfigV1Row env acc entry).1.pendingV1RuleIds.lookup X
        = acc.1.pendingV1RuleIds.lookup X) ∧
    (entry.ID ≠ "" → entry.Valid = true →
      (setRoutingConfigV1Row env acc entry).1.pendingV1RuleIds.lookup entry.ID = some entry) := by
  by_cases hid : entry.ID = ""
  · have e1 : setRoutingConfigV1Row env acc entry = acc := by
      unfold setRoutingConfigV1Row
      rw [if_pos hid]
    rw [e1, if_neg (fun h => h.1 hid), List.append_nil]
    exact ⟨rfl, rfl, rfl, fun _ _ => rfl, fun h => absurd hid h⟩
  · rcases Bool.eq_false_or_eq_true entry.Valid with hv | hv
    · have e1 : setRoutingConfigV1Row env acc entry =
          ({ acc.1 with pendingV1RuleIds := acc.1.pendingV1RuleIds.insert entry.ID entry },
            if entry.ModifyTime > acc.2 then entry.ModifyTime else acc.2) := by
        unfold setRoutingConfigV1Row
        rw [if_neg hid]
        simp [hv]
      have hc : ¬ (entry.ID ≠ "" ∧ entry.Valid = false) := by
        rw [hv]
        exact fun h => absurd h.2 (by decide)
      rw [e1, if_neg hc, List.append_nil]
      refine ⟨rfl, rfl, rfl, ?_, ?_⟩
      · intro X hX
        by_cases hx : entry.ID = X
        · have := hX hx
          rw [hv] at this
          exact absurd this (by decide)
        · exact AList.lookup_insert_ne (fun h => hx h.symm)
      · intro _ _
        exact AList.lookup_insert _
    · have e1 : setRoutingConfigV1Row env acc entry =
          ({ acc.1 with
              bucket := env.deleteV1 entry.ID acc.1.bucket
              ops := acc.1.ops ++ [RouterOp.deleteV1 entry.ID] },
            if entry.ModifyTime > acc.2 then entry.ModifyTime else acc.2) := by
        unfold setRoutingConfigV1Row
        rw [if_neg hid]
        simp [hv]
      have hc : entry.ID ≠ "" ∧ entry.Valid = false := ⟨hid, hv⟩
      rw [e1, if_pos hc]
      refine ⟨rfl, rfl, rfl, fun _ _ => rfl, fun _ h => ?_⟩
      rw [hv] at h
      exact absurd h (by decide)

/-- The first loop: it records `deleteV1` calls only, one for every tombstone with an
id, and leaves alone the pending rule of an id that comes with tombstones only. -/
theorem setRoutingConfigV1Rows_spec (env : RouterEnv β ω ρ τ υ) (cs : List RoutingConfig) :
    ∀ acc : routingConfigCache β ω ρ × Int,
      (cs.foldl (setRoutingConfigV1Row env) acc).1.ext = acc.1.ext ∧
      ∃ dels : List (RouterOp ρ),
        (cs.foldl (setRoutingConfigV1Row env) acc).1.ops = acc.1.ops ++ dels ∧
        (cs.foldl (setRoutingConfigV1Row env) acc).1.bucket
          = replayOps env dels acc.1.bucket ∧
        (∀ op ∈ dels, op.IsDeleteV1 = true) ∧
        (∀ e ∈ cs, e.ID ≠ "" → e.Valid = false → RouterOp.deleteV1 e.ID ∈ dels) ∧
        (∀ X, (∀ e ∈ cs, e.ID = X → e.Valid = false) →
          (cs.foldl (setRoutingConfigV1Row env) acc).1.pendingV1RuleIds.lookup X
            = acc.1.pendingV1RuleIds.lookup X) := by
  induction cs with
  | nil =>
    intro acc
    exact ⟨rfl, [], (List.append_nil _).symm, rfl, fun op h => absurd h (List.not_mem_nil _),
      fun e h => absurd h (List.not_mem_nil _), fun _ _ => rfl⟩
  | cons entry rest ih =>
    intro acc
    obtain ⟨h1, h2, h3, h4, _⟩ := setRoutingConfigV1Row_spec env acc entry
    obtain ⟨g1, dels, g2, g3, g4, g5, g6⟩ := ih (setRoutingConfigV1Row env acc entry)
    rw [List.foldl_cons]
    refine ⟨g1.trans h1,
      (if entry.ID ≠ "" ∧ entry.Valid = false then [RouterOp.deleteV1 entry.ID] else []) ++ dels,
      ?_, ?_, ?_, ?_, ?_⟩
    · rw [g2, h2, List.append_assoc]
    · rw [g3, h3, replayOps_append]
    · intro op hop
      rcases List.mem_append.1 hop with hop | hop
      · split_ifs at hop with hc
        · rw [List.mem_singleton.1 hop]
          rfl
        · exact absurd hop (List.not_mem_nil _)
      · exact g4 op hop
    · intro e he hid hv
      rcases List.mem_cons.1 he with he | he
      · rw [he]
        refine List.mem_append_left _ ?_
        rw [if_pos ⟨by rw [← he]; exact hid, by rw [← he]; exact hv⟩]
        exact List.mem_singleton_self _
      · exact List.mem_append_right _ (g5 e he hid hv)
    · intro X hX
      rw [g6 X (fun e he => hX e (List.mem_cons_of_mem _ he)),
        h4 X (hX entry (List.mem_cons_self _ _))]

/-- The second loop passes over an id that is not pending. -/
theorem retryPendingV1_none (env : RouterEnv β ω ρ τ υ) (rc : routingConfigCache β ω ρ)
    (id : String) (h : rc.pendingV1RuleIds.lookup id = none) :
    retryPendingV1 env rc id = rc := by
  unfold retryPendingV1
  rw [h]

/-- A pending rule whose conversion does not succeed with a V2 result is tried and stays
as it is. -/
theorem retryPendingV1_failed (env : RouterEnv β ω ρ τ υ) (rc : routingConfigCache β ω ρ)
    (id : String) (entry : RoutingConfig) (h : rc.pendingV1RuleIds.lookup id = some entry)
    (hf : ∀ rules, ¬ ConvertsTo env rc.ext entry rules) :
    retryPendingV1 env rc id
      = { rc with ops := rc.ops ++ [RouterOp.convertV1toV2 entry] } := by
  unfold retryPendingV1
  rw [h]
  simp only
  unfold ConvertsTo at hf
  rcases hres : convertV1toV2 env rc.ext entry with ⟨ok, v2rule, err⟩
  rw [hres] at hf
  cases err with
  | some e => simp
  | none =>
    cases ok with
    | false => simp
    | true =>
      cases v2rule with
      | none => simp
      | some rules => exact absurd rfl (hf rules)

/-- A pending rule whose conversion succeeds with a V2 result leaves the pending rules,
and the result is saved to the bucket. -/
theorem retryPendingV1_converted (env : RouterEnv β ω ρ τ υ) (rc : routingConfigCache β ω ρ)
    (id : String) (entry : RoutingConfig) (rules : List ρ)
    (h : rc.pendingV1RuleIds.lookup id = some entry) (hs : ConvertsTo env rc.ext entry rules) :
    retryPendingV1 env rc id
      = { rc with
          pendingV1RuleIds := rc.pendingV1RuleIds.erase id
          bucket := env.saveV1 entry rules rc.bucket
          ops := rc.ops ++ [RouterOp.convertV1toV2 entry] ++ [RouterOp.saveV1 entry rules] } := by
  unfold retryPendingV1
  rw [h]
  unfold ConvertsTo at hs
  simp [hs]

/-- The second loop, for an order that hands out no id twice. It leaves the world
alone and records conversions and `saveV1` calls only; an id it does not visit keeps its
pending rule; for an id it visits, the conversion of the pending rule is attempted, and
the rule leaves the pending rules with its result saved when the conversion succeeds with
a V2 result, and stays otherwise. -/
theorem retryPendingV1s_spec (env : RouterEnv β ω ρ τ υ) (order : List String) :
    ∀ rc : routingConfigCache β ω ρ, order.Nodup →
      (order.foldl (retryPendingV1 env) rc).ext = rc.ext ∧
      ∃ saves : List (RouterOp ρ),
        (order.foldl (retryPendingV1 env) rc).ops = rc.ops ++ saves ∧
        (order.foldl (retryPendingV1 env) rc).bucket = replayOps env saves rc.bucket ∧
        (∀ op ∈ saves, op.IsDeleteV1 = false) ∧
        (∀ X, X ∉ order →
          (order.foldl (retryPendingV1 env) rc).pendingV1RuleIds.lookup X
            = rc.pendingV1RuleIds.lookup X) ∧
        (∀ X ∈ order, ∀ entry, rc.pendingV1RuleIds.lookup X = some entry →
          RouterOp.convertV1toV2 entry ∈ saves ∧
          (∀ rules, ConvertsTo env rc.ext entry rules →
            RouterOp.saveV1 entry rules ∈ saves ∧
            (order.foldl (retryPendingV1 env) rc).pendingV1RuleIds.lookup X = none) ∧
          ((∀ rules, ¬ ConvertsTo env rc.ext entry rules) →
            (order.foldl (retryPendingV1 env) rc).pendingV1RuleIds.lookup X = some entry)) := by
  induction order with
  | nil =>
    intro rc _
    exact ⟨rfl, [], (List.append_nil _).symm, rfl, fun op h => absurd h (List.not_mem_nil _),
      fun _ _ => rfl, fun X h => absurd h (List.not_mem_nil _)⟩
  | cons id rest ih =>
    intro rc hnd
    obtain ⟨hid, hrest⟩ := List.nodup_cons.1 hnd
    rw [List.foldl_cons]
    -- what the visit of `id` does
    have hstep : (retryPendingV1 env rc id).ext = rc.ext ∧
        ∃ first : List (RouterOp ρ),
          (retryPendingV1 env rc id).ops = rc.ops ++ first ∧
          (retryPendingV1 env rc id).bucket = replayOps env first rc.bucket ∧
          (∀ op ∈ first, op.IsDeleteV1 = false) ∧
          (∀ X, X ≠ id → (retryPendingV1 env rc id).pendingV1RuleIds.lookup X
            = rc.pendingV1RuleIds.lookup X) ∧
          (∀ entry, rc.pendingV1RuleIds.lookup id = some entry →
            RouterOp.convertV1toV2 entry ∈ first ∧
            (∀ rules, ConvertsTo env rc.ext entry rules →
              RouterOp.saveV1 entry rules ∈ first ∧
              (retryPendingV1 env rc id).pendingV1RuleIds.lookup id = none) ∧
            ((∀ rules, ¬ ConvertsTo env rc.ext entry rules) →
              (retryPendingV1 env rc id).pendingV1RuleIds.lookup id = some entry)) := by
      cases hl : rc.pendingV1RuleIds.lookup id with
      | none =>
        rw [retryPendingV1_none env rc id hl]
        exact ⟨rfl, [], (List.append_nil _).symm, rfl,
          fun op h => absurd h (List.not_mem_nil _), fun _ _ => rfl,
          fun entry h => by cases h⟩
      | some entry =>
        by_cases hconv : ∃ rules, ConvertsTo env rc.ext entry rules
        · obtain ⟨rules, hs⟩ := hconv
          rw [retryPendingV1_converted env rc id entry rules hl hs]
          refine ⟨rfl, [RouterOp.convertV1toV2 entry, RouterOp.saveV1 entry rules], ?_, rfl, ?_,
            ?_, ?_⟩
          · simp
          · intro op hop
            rcases List.mem_cons.1 hop with h | h
            · rw [h]; rfl
            · rw [List.mem_singleton.1 h]; rfl
          · intro X hX
            exact AList.lookup_erase_ne hX
          · intro entry1 he
            cases he
            refine ⟨List.mem_cons_self _ _, ?_, ?_⟩
            · intro rules1 hs1
              have : rules1 = rules := by
                unfold ConvertsTo at hs hs1
                rw [hs] at hs1
                cases hs1
                rfl
              rw [this]
              exact ⟨List.mem_cons_of_mem _ (List.mem_singleton_self _), AList.lookup_erase _ _⟩
            · intro hf
              exact absurd hs (hf rules)
        · have hf : ∀ rules, ¬ ConvertsTo env rc.ext entry rules :=
            fun rules h => hconv ⟨rules, h⟩
          rw [retryPendingV1_failed env rc id entry hl hf]
          refine ⟨rfl, [RouterOp.convertV1toV2 entry], rfl, rfl, ?_, fun _ _ => rfl, ?_⟩
          · intro op hop
            rw [List.mem_singleton.1 hop]
            rfl
          · intro entry1 he
            cases he
            exact ⟨List.mem_singleton_self _, fun rules hs => absurd hs (hf rules),
              fun _ => hl⟩
    obtain ⟨s1, first, s2, s3, s4, s5, s6⟩ := hstep
    obtain ⟨i1, saves, i2, i3, i4, i5, i6⟩ := ih (retryPendingV1 env rc id) hrest
    refine ⟨i1.trans s1, first ++ saves, ?_, ?_, ?_, ?_, ?_⟩
    · rw [i2, s2, List.append_assoc]
    · rw [i3, s3, replayOps_append]
    · intro op hop
      rcases List.mem_append.1 hop with h | h
      · exact s4 op h
      · exact i4 op h
    · intro X hX
      rw [i5 X (fun h => hX (List.mem_cons_of_mem _ h)),
        s5 X (fun h => hX (h ▸ List.mem_cons_self _ _))]
    · intro X hX entry he
      rcases List.mem_cons.1 hX with hx | hx
      · subst hx
        obtain ⟨t1, t2, t3⟩ := s6 entry he
        refine ⟨List.mem_append_left _ t1, ?_, ?_⟩
        · intro rules hs
          exact ⟨List.mem_append_left _ (t2 rules hs).1, (i5 X hid).trans (t2 rules hs).2⟩
        · intro hf
          exact (i5 X hid).trans (t3 hf)
      · have hne : X ≠ id := fun h => hid (h ▸ hx)
        have he1 : (retryPendingV1 env rc id).pendingV1RuleIds.lookup X = some entry :=
          (s5 X hne).trans he
        obtain ⟨t1, t2, t3⟩ := i6 X hx entry he1
        rw [s1] at t2 t3
        refine ⟨List.mem_append_right _ t1, ?_, t3⟩
        intro rules hs
        exact ⟨List.mem_append_right _ (t2 rules hs).1, (t2 rules hs).2⟩

/-- An order of a `range` over the pending rules hands out no id twice, and exactly the
ids that are pending. -/
theorem rangesPending_spec (pending : AList (fun _ : String => RoutingConfig))
    (order : List String) (h : RangesPending pending order) :
    order.Nodup ∧ ∀ id entry, pending.lookup id = some entry → id ∈ order := by
  unfold RangesPending at h
  refine ⟨h.nodup_iff.2 pending.keys_nodup, fun id entry he => ?_⟩
  rw [h.mem_iff, ← AList.mem_keys, ← AList.lookup_isSome, he]
  rfl

/-- `setRoutingConfigV1` on a delta that is not empty: the two loops, one after the
other. -/
theorem setRoutingConfigV1_cons (env : RouterEnv β ω ρ τ υ) (order : List String)
    (rc : routingConfigCache β ω ρ) (cs : List RoutingConfig) (h : cs ≠ []) :
    (setRoutingConfigV1 env order rc cs).1
      = order.foldl (retryPendingV1 env) (afterRows env rc cs) := by
  unfold setRoutingConfigV1 afterRows
  rw [if_neg (fun hl => h (List.length_eq_zero.1 hl))]

/-- `setRoutingConfigV1` on an empty delta returns at once: the cache stays as it is and
no time is written. -/
theorem setRoutingConfigV1_nil (env : RouterEnv β ω ρ τ υ) (order : List String)
    (rc : routingConfigCache β ω ρ) : setRoutingConfigV1 env order rc [] = (rc, none) :=
  rfl

/-- On a delta that is not empty, the conversion of every rule that is pending after the
first loop is attempted; the rule stays pending when the conversion does not succeed with
a V2 result, and otherwise leaves the pending rules with the result saved to the
bucket. -/
theorem setRoutingConfigV1_retries (env : RouterEnv β ω ρ τ υ) (order : List String)
    (rc : routingConfigCache β ω ρ) (cs : List RoutingConfig) (hcs : cs ≠ [])
    (horder : RangesPending (afterRows env rc cs).pendingV1RuleIds order)
    (X : String) (entry : RoutingConfig)
    (hp : (afterRows env rc cs).pendingV1RuleIds.lookup X = some entry) :
    RouterOp.convertV1toV2 entry ∈ (setRoutingConfigV1 env order rc cs).1.ops ∧
    (∀ rules, ConvertsTo env rc.ext entry rules →
      RouterOp.saveV1 entry rules ∈ (setRoutingConfigV1 env order rc cs).1.ops ∧
      (setRoutingConfigV1 env order rc cs).1.pendingV1RuleIds.lookup X = none) ∧
    ((∀ rules, ¬ ConvertsTo env rc.ext entry rules) →
      (setRoutingConfigV1 env order rc cs).1.pendingV1RuleIds.lookup X = some entry) := by
  obtain ⟨hnd, hmem⟩ := rangesPending_spec _ order horder
  obtain ⟨hext, saves, h1, _, _, _, h5⟩ :=
    retryPendingV1s_spec env order (afterRows env rc cs) hnd
  have hext0 : (afterRows env rc cs).ext = rc.ext :=
    (setRoutingConfigV1Rows_spec env cs (rc, rc.lastMtime)).1
  obtain ⟨t1, t2, t3⟩ := h5 X (hmem X entry hp) entry hp
  rw [hext0] at t2 t3
  rw [setRoutingConfigV1_cons env order rc cs hcs, h1]
  exact ⟨List.mem_append_right _ t1,
    fun rules hs => ⟨List.mem_append_right _ (t2 rules hs).1, (t2 rules hs).2⟩, t3⟩

/-! ## C30: a tombstone for a pending rule -/

/-- C30: `setRoutingConfigV1` gets a delta in which the id `X` comes with tombstones
only, at least one, while a rule of `X` is pending whose conversion now succeeds with a
V2 result. The first loop calls `deleteV1 X` and leaves the rule pending; the second
loop, which records no `deleteV1`, saves the converted rules. So the calls on the bucket
are the deletions, `deleteV1 X` among them, followed by the saves, `saveV1` of the rule
among them, and `X` is no longer pending when the call returns. -/
theorem tombstone_then_save (env : RouterEnv β ω ρ τ υ) (order : List String)
    (rc : routingConfigCache β ω ρ) (cs : List RoutingConfig) (X : String)
    (tomb entry : RoutingConfig) (rules : List ρ)
    (hX : X ≠ "") (htomb : tomb ∈ cs) (hid : tomb.ID = X)
    (honly : ∀ e ∈ cs, e.ID = X → e.Valid = false)
    (hpending : rc.pendingV1RuleIds.lookup X = some entry)
    (horder : RangesPending (afterRows env rc cs).pendingV1RuleIds order)
    (hconv : ConvertsTo env rc.ext entry rules) :
    (afterRows env rc cs).pendingV1RuleIds.lookup X = some entry ∧
    ∃ dels saves : List (RouterOp ρ),
      (setRoutingConfigV1 env order rc cs).1.ops = rc.ops ++ dels ++ saves ∧
      (∀ op ∈ dels, op.IsDeleteV1 = true) ∧ RouterOp.deleteV1 X ∈ dels ∧
      (∀ op ∈ saves, op.IsDeleteV1 = false) ∧ RouterOp.saveV1 entry rules ∈ saves ∧
      (setRoutingConfigV1 env order rc cs).1.bucket
        = replayOps env saves (replayOps env dels rc.bucket) ∧
      (setRoutingConfigV1 env order rc cs).1.pendingV1RuleIds.lookup X = none := by
  have hcs : cs ≠ [] := List.ne_nil_of_mem htomb
  obtain ⟨f1, dels, f2, f3, f4, f5, f6⟩ := setRoutingConfigV1Rows_spec env cs (rc, rc.lastMtime)
  have hstill : (afterRows env rc cs).pendingV1RuleIds.lookup X = some entry :=
    (f6 X honly).trans hpending
  obtain ⟨hnd, hmem⟩ := rangesPending_spec _ order horder
  obtain ⟨_, saves, h1, h2, h3, _, h5⟩ :=
    retryPendingV1s_spec env order (afterRows env rc cs) hnd
  obtain ⟨_, t2, _⟩ := h5 X (hmem X entry hstill) entry hstill
  have hconv1 : ConvertsTo env (afterRows env rc cs).ext entry rules := by
    show ConvertsTo env (cs.foldl (setRoutingConfigV1Row env) (rc, rc.lastMtime)).1.ext entry rules
    rw [f1]
    exact hconv
  refine ⟨hstill, dels, saves, ?_, f4, ?_, h3, (t2 rules hconv1).1, ?_, ?_⟩
  · rw [setRoutingConfigV1_cons env order rc cs hcs, h1]
    show (cs.foldl (setRoutingConfigV1Row env) (rc, rc.lastMtime)).1.ops ++ saves = _
    rw [f2]
  · have := f5 tomb htomb (by rw [hid]; exact hX) (honly tomb htomb hid)
    rw [hid] at this
    exact this
  · rw [setRoutingConfigV1_cons env order rc cs hcs, h2]
    show replayOps env saves (cs.foldl (setRoutingConfigV1Row env) (rc, rc.lastMtime)).1.bucket
      = _
    rw [f3]
  · rw [setRoutingConfigV1_cons env order rc cs hcs]
    exact (t2 rules hconv1).2

/-- C30 on the in-memory router: the row of `default/A` is pending and its service is
known by now; the delta is the tombstone of that row. The call deletes and then saves,
and the bucket ends up holding the rule converted from the tombstoned row. -/
theorem tombstone_then_save_witness :
    ("default/A" : String) ≠ "" ∧ tombstoneA ∈ [tombstoneA] ∧ tombstoneA.ID = "default/A" ∧
    (∀ e ∈ [tombstoneA], e.ID = "default/A" → e.Valid = false) ∧
    pendingCache.pendingV1RuleIds.lookup "default/A" = some rowA ∧
    RangesPending (afterRows memRouter pendingCache [tombstoneA]).pendingV1RuleIds
      ["default/A"] ∧
    ConvertsTo memRouter pendingCache.ext rowA [ruleOfA] ∧
    (setRoutingConfigV1 memRouter ["default/A"] pendingCache [tombstoneA]).1.ops
      = [RouterOp.deleteV1 "default/A", RouterOp.convertV1toV2 rowA,
          RouterOp.saveV1 rowA [ruleOfA]] ∧
    (setRoutingConfigV1 memRouter ["default/A"] pendingCache [tombstoneA]).1.bucket
      = [("default/A", [ruleOfA])] ∧
    (setRoutingConfigV1 memRouter ["default/A"] pendingCache
      [tombstoneA]).1.pendingV1RuleIds.lookup "default/A" = none :=
  have hX : ("default/A" : String) ≠ "" := by decide
  have honly : ∀ e ∈ [tombstoneA], e.ID = "default/A" → e.Valid = false := by decide
  have horder : RangesPending (afterRows memRouter pendingCache [tombstoneA]).pendingV1RuleIds
      ["default/A"] := by decide
  have hconv : ConvertsTo memRouter pendingCache.ext rowA [ruleOfA] := by
    unfold ConvertsTo
    decide
  have h := tombstone_then_save memRouter ["default/A"] pendingCache [tombstoneA] "default/A"
    tombstoneA rowA [ruleOfA] hX (List.mem_singleton_self _) rfl honly (by decide) horder hconv
  ⟨hX, List.mem_singleton_self _, rfl, honly, by decide, horder, hconv, by decide, by decide,
    h.2.choose_spec.choose_spec.2.2.2.2.2.2⟩

/-! ## C21: pending V1 rules and the empty delta -/

/-- C21 fails on the code for an empty delta: the row of `default/A` is pending from a
refresh that did not find its service, and by now the conversion would succeed.
`setRoutingConfigV1` with an empty delta returns before its second loop: no conversion is
attempted, the rule stays pending, nothing reaches the bucket and no time is written. The
same cache with a delta of one unrelated row does retry: the rule is converted and
saved. -/
theorem pending_rule_not_retried :
    pendingCache.pendingV1RuleIds.lookup "default/A" = some rowA ∧
    ConvertsTo memRouter pendingCache.ext rowA [ruleOfA] ∧
    RangesPending pendingCache.pendingV1RuleIds ["default/A"] ∧
    (setRoutingConfigV1 memRouter ["default/A"] pendingCache []).1.ops = [] ∧
    (setRoutingConfigV1 memRouter ["default/A"] pendingCache []).1.bucket = [] ∧
    (setRoutingConfigV1 memRouter ["default/A"] pendingCache []).1.pendingV1RuleIds.lookup
      "default/A" = some rowA ∧
    (setRoutingConfigV1 memRouter ["default/A"] pendingCache []).2 = none ∧
    RangesPending (afterRows memRouter pendingCache [rowZ]).pendingV1RuleIds
      ["default/Z", "default/A"] ∧
    (setRoutingConfigV1 memRouter ["default/Z", "default/A"] pendingCache [rowZ]).1.ops
      = [RouterOp.convertV1toV2 rowZ, RouterOp.convertV1toV2 rowA,
          RouterOp.saveV1 rowA [ruleOfA]] ∧
    (setRoutingConfigV1 memRouter ["default/Z", "default/A"] pendingCache [rowZ]).1.bucket
      = [("default/A", [ruleOfA])] ∧
    (setRoutingConfigV1 memRouter ["default/Z", "default/A"] pendingCache
      [rowZ]).1.pendingV1RuleIds.lookup "default/Z" = some rowZ := by
  refine ⟨by decide, ?_, by decide, by decide, by decide, by decide, by decide, by decide,
    by decide, by decide, by decide⟩
  unfold ConvertsTo
  decide

/-! ## C12: the batched path and a stale cache -/

/-- C12 fails on the code on the batched path: the store holds `B` as an alias of `A`
while the service cache still has `B` as an ordinary service, so `loadService` lets the
request through. On the serial path `lockService` finds the alias and the request is
refused. With a batch controller open for creates, `createInstance` hands the request to
`AsyncCreateInstance` without a further test: the answer is `ExecuteSuccess`, the
instance is stored under the alias and the Online event is published. -/
theorem alias_receives_instance_batched :
    batchedStaleEnv.GetService worldAlias.ext "B" "default" = Except.ok (some aliasB) ∧
    aliasB.IsAlias = true ∧
    (CreateInstance staleCacheEnv {} worldAlias (some registerB)).1.Code
      = Code.NotAllowAliasCreateInstance ∧
    (CreateInstance staleCacheEnv {} worldAlias (some registerB)).2.ext.instances = [] ∧
    (CreateInstance batchedStaleEnv {} worldAlias (some registerB)).1.Code
      = Code.ExecuteSuccess ∧
    (CreateInstance batchedStaleEnv {} worldAlias (some registerB)).2.ext.instances.map
      (fun i => (i.ID, i.ServiceID)) = [("default:B:10.0.0.1:8080", aliasB.ID)] ∧
    (CreateInstance batchedStaleEnv {} worldAlias (some registerB)).2.events.map
      (fun e => (e.EType, e.Id)) = [(EventInstanceOnline, "default:B:10.0.0.1:8080")] := by
  refine ⟨rfl, by decide, by decide, by decide, by decide, by decide, by decide⟩

/-! ## C23: rules that `CompareRoutingV2` leaves unordered -/

/-- C23 as stated fails when `CompareRoutingV2` leaves two rules of a level unordered,
as a comparison by priority does for the rules `c` and `d` of priority 0. Level 1 holds
the two rules, stored in either order; each level comes out of the sort as a sorted copy
of what was stored, the two tied rules in the order they were stored in, which is how
`sort.Slice` leaves a slice of two elements whose second is not less than the first. The
inbound routes are `c`, `d` for one stored order and `d`, `c` for the other. -/
theorem convertV2toV1_level_order_counterexample :
    (∀ level, (levelsCD.rulesAt level).Perm (levelsDC.rulesAt level)) ∧
    (∀ level, SortedCopy memRouter.CompareRoutingV2
      (memRouter.sortSlice memRouter.CompareRoutingV2 (levelsCD.rulesAt level))
      (levelsCD.rulesAt level)) ∧
    (∀ level, SortedCopy memRouter.CompareRoutingV2
      (memRouter.sortSlice memRouter.CompareRoutingV2 (levelsDC.rulesAt level))
      (levelsDC.rulesAt level)) ∧
    memRouter.CompareRoutingV2 ruleC ruleD = false ∧
    memRouter.CompareRoutingV2 ruleD ruleC = false ∧
    (convertV2toV1 memRouter levelsCD "svc" "default").1 = ["c", "d"] ∧
    (convertV2toV1 memRouter levelsDC "svc" "default").1 = ["d", "c"] ∧
    ¬ (convertV2toV1 memRouter levelsCD "svc" "default"
        = convertV2toV1 memRouter levelsDC "svc" "default") := by
  have h1 : (convertV2toV1 memRouter levelsCD "svc" "default").1 = ["c", "d"] := by decide
  have h2 : (convertV2toV1 memRouter levelsDC "svc" "default").1 = ["d", "c"] := by decide
  refine ⟨?_, ?_, ?_, by decide, by decide, h1, h2, ?_⟩
  · intro level
    cases level <;> decide
  · intro level
    cases level <;> unfold SortedCopy <;> decide
  · intro level
    cases level <;> unfold SortedCopy <;> decide
  · intro h
    have := congrArg Prod.fst h
    rw [h1, h2] at this
    exact absurd this (by decide)

/-! ## C24: the watermark and `float64` -/

theorem log2_of_bounds (n L : Nat) (h1 : 2 ^ L ≤ n) (h2 : n < 2 ^ (L + 1)) : Nat.log2 n = L := by
  rw [Nat.log2_eq_log_two]
  have hn : n ≠ 0 := by
    intro h
    rw [h] at h1
    exact absurd h1 (Nat.not_le.2 (by positivity))
  exact (Nat.log_eq_iff (Or.inr ⟨by decide, hn⟩)).2 ⟨h1, h2⟩

theorem log2_bounds (n : Nat) (hn : n ≠ 0) : 2 ^ Nat.log2 n ≤ n ∧ n < 2 ^ (Nat.log2 n + 1) := by
  rw [Nat.log2_eq_log_two]
  exact ⟨Nat.pow_log_le_self 2 hn, Nat.lt_pow_succ_log_self (by decide) n⟩

/-- A magnitude of 53 bits times a power of two is held as it is. -/
theorem roundMagnitude_of_mantissa (q1 e : Nat) (hlo : 2 ^ 52 ≤ q1) (hhi : q1 ≤ 2 ^ 53)
    (he : 1 ≤ e) : roundMagnitude (q1 * 2 ^ e) = q1 * 2 ^ e := by
  have hpos : 0 < 2 ^ e := by positivity
  rcases Nat.lt_or_eq_of_le hhi with hlt | heq
  · have hlog : Nat.log2 (q1 * 2 ^ e) = 52 + e := by
      apply log2_of_bounds
      · rw [pow_add]
        exact Nat.mul_le_mul_right _ hlo
      · rw [show 52 + e + 1 = 53 + e by omega, pow_add]
        exact Nat.mul_lt_mul_of_pos_right hlt hpos
    unfold roundMagnitude
    simp only [hlog, Nat.add_sub_cancel_left, Nat.mul_div_cancel _ hpos, Nat.mul_mod_left]
    have hhalf : 0 < 2 ^ (e - 1) := by positivity
    rw [if_neg]
    rintro (h | ⟨h, _⟩)
    · exact absurd h (Nat.not_lt_zero _)
    · omega
  · subst heq
    have hlog : Nat.log2 (2 ^ 53 * 2 ^ e) = 53 + e := by
      apply log2_of_bounds
      · rw [pow_add]
      · rw [← pow_add]
        exact Nat.pow_lt_pow_right (by decide) (by omega)
    unfold roundMagnitude
    have hsub : 53 + e - 52 = e + 1 := by omega
    have hmul : 2 ^ 53 * 2 ^ e = 2 ^ 52 * 2 ^ (e + 1) := by
      rw [pow_succ]
      ring
    have hpos1 : 0 < 2 ^ (e + 1) := by positivity
    simp only [hlog, hsub]
    rw [hmul, Nat.mul_div_cancel _ hpos1, Nat.mul_mod_left]
    have hhalf : 0 < 2 ^ (e + 1 - 1) := by positivity
    rw [if_neg]
    rintro (h | ⟨h, _⟩)
    · exact absurd h (Nat.not_lt_zero _)
    · omega

/-- The rounding of a magnitude from `2^53` on: a mantissa of 53 bits times a power of
two. -/
theorem roundMagnitude_shape (m : Nat) (h : 2 ^ 53 ≤ m) :
    ∃ q1 e, 2 ^ 52 ≤ q1 ∧ q1 ≤ 2 ^ 53 ∧ 1 ≤ e ∧ roundMagnitude m = q1 * 2 ^ e := by
  have hm : m ≠ 0 := by
    intro h0
    rw [h0] at h
    exact absurd h (by decide)
  obtain ⟨h1, h2⟩ := log2_bounds m hm
  have hL : 53 ≤ Nat.log2 m := by
    by_contra hc
    have : Nat.log2 m + 1 ≤ 53 := by omega
    have := Nat.pow_le_pow_right (show 0 < 2 by decide) this
    omega
  obtain ⟨e, he⟩ : ∃ e, Nat.log2 m = 52 + e := ⟨Nat.log2 m - 52, by omega⟩
  have he1 : 1 ≤ e := by omega
  have hpos : 0 < 2 ^ e := by positivity
  have hq_lo : 2 ^ 52 ≤ m / 2 ^ e := by
    rw [Nat.le_div_iff_mul_le hpos, ← pow_add, ← he]
    exact h1
  have hq_hi : m / 2 ^ e < 2 ^ 53 := by
    rw [Nat.div_lt_iff_lt_mul hpos, ← pow_add, show 53 + e = Nat.log2 m + 1 by omega]
    exact h2
  unfold roundMagnitude
  simp only [he, Nat.add_sub_cancel_left]
  split_ifs
  · exact ⟨m / 2 ^ e + 1, e, by omega, by omega, he1, rfl⟩
  · exact ⟨m / 2 ^ e, e, hq_lo, by omega, he1, rfl⟩

theorem roundMagnitude_spec (m : Nat) (h : 2 ^ 53 ≤ m) :
    2 ^ 53 ≤ roundMagnitude m ∧ roundMagnitude (roundMagnitude m) = roundMagnitude m := by
  obtain ⟨q1, e, hlo, hhi, he, hr⟩ := roundMagnitude_shape m h
  rw [hr]
  refine ⟨?_, roundMagnitude_of_mantissa q1 e hlo hhi he⟩
  calc 2 ^ 53 = 2 ^ 52 * 2 ^ 1 := by norm_num
    _ ≤ q1 * 2 ^ e := Nat.mul_le_mul hlo (Nat.pow_le_pow_right (by decide) he)

/-- The conversion `float64(x)`, by the size of `x`. -/
theorem float64OfInt_eq (x : Int) :
    float64OfInt x
      = if x.natAbs < 2 ^ 53 then x else Int.sign x * ((roundMagnitude x.natAbs : Nat) : Int) :=
  rfl

/-- Converting twice is converting once: a double converts to itself. -/
theorem float64OfInt_idem (x : Int) : float64OfInt (float64OfInt x) = float64OfInt x := by
  by_cases hx : x.natAbs < 2 ^ 53
  · have h1 : float64OfInt x = x := by rw [float64OfInt_eq, if_pos hx]
    rw [h1, h1]
  · have h1 : float64OfInt x = Int.sign x * ((roundMagnitude x.natAbs : Nat) : Int) := by
      rw [float64OfInt_eq, if_neg hx]
    obtain ⟨hM, hidem⟩ := roundMagnitude_spec x.natAbs (Nat.le_of_not_lt hx)
    have hx0 : x ≠ 0 := by
      intro h
      rw [h] at hx
      exact hx (by decide)
    have hMpos : 0 < roundMagnitude x.natAbs := lt_of_lt_of_le (by positivity) hM
    have habs : (Int.sign x * ((roundMagnitude x.natAbs : Nat) : Int)).natAbs
        = roundMagnitude x.natAbs := by
      rw [Int.natAbs_mul, Int.natAbs_sign_of_nonzero hx0, one_mul, Int.natAbs_ofNat]
    have hsign : Int.sign (Int.sign x * ((roundMagnitude x.natAbs : Nat) : Int)) = Int.sign x := by
      rw [Int.sign_mul, Int.sign_sign, Int.sign_natCast_of_ne_zero (Nat.pos_iff_ne_zero.1 hMpos),
        mul_one]
    rw [h1, float64OfInt_eq, habs, if_neg (Nat.not_lt.2 hM), hsign, hidem]

/-- Seconds below `2^53` in magnitude are held by `float64`. -/
theorem heldByFloat64_of_exact (t : Int) (h : ExactSeconds t) : HeldByFloat64 t := by
  unfold HeldByFloat64
  unfold ExactSeconds at h
  rw [float64OfInt_eq, if_pos h]

/-- From a time that `float64` holds, `maxMtime` does not go down, and its result is
again a time that `float64` holds. -/
theorem maxMtime_held (a b : Int) (ha : HeldByFloat64 a) :
    a ≤ maxMtime a b ∧ HeldByFloat64 (maxMtime a b) := by
  unfold HeldByFloat64 at ha
  unfold maxMtime
  rw [ha]
  refine ⟨le_max_left _ _, ?_⟩
  unfold HeldByFloat64
  rcases max_choice a (float64OfInt b) with h | h
  · rw [h, ha]
  · rw [h, float64OfInt_idem]

theorem foldl_maxMtime_held (batch : List StrategyDetail) :
    ∀ prev : Int, HeldByFloat64 prev →
      prev ≤ batch.foldl (fun m r => maxMtime m r.ModifyTime) prev ∧
      HeldByFloat64 (batch.foldl (fun m r => maxMtime m r.ModifyTime) prev) := by
  induction batch with
  | nil => intro prev h; exact ⟨le_refl _, h⟩
  | cons rule rest ih =>
    intro prev h
    obtain ⟨h1, h2⟩ := maxMtime_held prev rule.ModifyTime h
    obtain ⟨h3, h4⟩ := ih _ h2
    rw [List.foldl_cons]
    exact ⟨le_trans h1 h3, h4⟩

/-- The watermark does not decrease: from a last-modify time that `float64` holds, as
every time below `2^53` seconds is, `setStrategys` returns a watermark that is at least
that time, whatever the rows, and that `float64` holds again. So the property carries
from one refresh to the next. -/
theorem setStrategys_watermark_mono (sc : strategyCache) (batch : List StrategyDetail)
    (hprev : HeldByFloat64 sc.lastMtime) :
    sc.lastMtime ≤ (setStrategys sc batch).lastMtime ∧
    HeldByFloat64 (setStrategys sc batch).lastMtime := by
  rw [setStrategys_lastMtime]
  exact foldl_maxMtime_held batch sc.lastMtime hprev

/-- C24 fails on the code: the cache is fresh, with last-modify time 0, and the batch is
one row modified at second `2^53 + 1`. The watermark `setStrategys` returns is `2^53`:
both operands of `math.Max` pass through `float64`, which does not hold `2^53 + 1`. The
claim has the maximum, `2^53 + 1`; the watermark stays below the modify time of a row of
the batch. -/
theorem setStrategys_watermark_rounded :
    (strategyCache.Initialize (fun _ => [])).lastMtime = 0 ∧
    farRule.ModifyTime = 2 ^ 53 + 1 ∧
    maxModifyTime (strategyCache.Initialize (fun _ => [])).lastMtime [farRule] = 2 ^ 53 + 1 ∧
    (setStrategys (strategyCache.Initialize (fun _ => [])) [farRule]).lastMtime = 2 ^ 53 ∧
    (setStrategys (strategyCache.Initialize (fun _ => [])) [farRule]).lastMtime
      < farRule.ModifyTime := by
  have h0 : float64OfInt 0 = 0 := rfl
  have hprev : (strategyCache.Initialize (fun _ => [])).lastMtime = 0 := rfl
  have hrow : farRule.ModifyTime = 2 ^ 53 + 1 := rfl
  have h : (setStrategys (strategyCache.Initialize (fun _ => [])) [farRule]).lastMtime
      = 2 ^ 53 := by
    rw [setStrategys_lastMtime, List.foldl_cons, List.foldl_nil, hprev, hrow]
    unfold maxMtime
    rw [float64OfInt_far, h0]
    norm_num
  have hmax : maxModifyTime (strategyCache.Initialize (fun _ => [])).lastMtime [farRule]
      = 2 ^ 53 + 1 := by
    unfold maxModifyTime
    rw [List.foldl_cons, List.foldl_nil, hprev, hrow]
    norm_num
  refine ⟨hprev, hrow, hmax, h, ?_⟩
  rw [h, hrow]
  norm_num

end Polaris
